import Mathlib

/-!
# Oracle telemetry streaming plugin: query translation and frame assembly

A shallow embedding of `pkg/plugin/plugin.go` and theorems about it.

Conventions of the embedding.

* Go `int64` values are `Int`s; every arithmetic step that can leave the
  64-bit range is wrapped with `wrapInt64`; `/` and `%` are Go's truncated
  division and remainder (`Int.tdiv`, `Int.tmod`).
* A Go run-time panic is the `Except.error` side of `Except Fault _`.
* A returned Go `error` is an `Option Error` (`none` is `nil`).
* Go library functions whose definition is outside the repository and cannot
  be written exactly here (`time.Parse`, `strconv.ParseFloat`,
  `time.ParseDuration`, `json.Unmarshal`, `sort.Slice`, the iteration order
  of a map) are the fields of `GoLib`; every general theorem holds for every
  `GoLib`.  `refLib` is one concrete instance used to evaluate the code.
* A Go string is a `String`, read as its list of characters; offsets and
  lengths count characters, which on ASCII text are the bytes of the Go
  program.
-/

namespace OracleTelemetry

/-! ## Go runtime -/

/-- Run-time panics of the Go program that the embedding tracks. -/
inductive Fault where
  | indexOutOfRange
  | typeAssertion
  | divideByZero
  | sliceBounds
deriving DecidableEq, Repr

instance instDecidableEqExcept {ε α : Type} [DecidableEq ε] [DecidableEq α] :
    DecidableEq (Except ε α) := fun a b =>
  match a, b with
  | .ok x, .ok y => if h : x = y then isTrue (by rw [h]) else isFalse (fun e => h (by cases e; rfl))
  | .error x, .error y =>
    if h : x = y then isTrue (by rw [h]) else isFalse (fun e => h (by cases e; rfl))
  | .ok _, .error _ => isFalse (fun e => by cases e)
  | .error _, .ok _ => isFalse (fun e => by cases e)

def minInt64 : Int := -9223372036854775808

def maxInt64 : Int := 9223372036854775807

/-- Two's-complement wrap of a mathematical integer into `int64`. -/
def wrapInt64 (x : Int) : Int := (x + 9223372036854775808) % 18446744073709551616 - 9223372036854775808

/-- Go `a - b` on `int64`. -/
def sub64 (a b : Int) : Int := wrapInt64 (a - b)

/-- Go `a + b` on `int64`. -/
def add64 (a b : Int) : Int := wrapInt64 (a + b)

/-- Go `a / b` on `int64`: truncated quotient, panic on a zero divisor. -/
def div64 (a b : Int) : Except Fault Int :=
  if b = 0 then .error .divideByZero else .ok (wrapInt64 (Int.tdiv a b))

/-- Go `a % b` on `int64`: remainder with the sign of `a`, panic on a zero divisor. -/
def mod64 (a b : Int) : Except Fault Int :=
  if b = 0 then .error .divideByZero else .ok (Int.tmod a b)

/-! ## Go strings (`strings` package), on lists of characters -/

/-- Whether `sep` occurs in `s` (`strings.Contains`). -/
def containsL (sep : List Char) : List Char → Bool
  | [] => sep.isEmpty
  | c :: cs => sep.isPrefixOf (c :: cs) || containsL sep cs

/-- Worker of `splitL`: `cur` holds the current piece reversed, `skip` counts
the characters of a separator occurrence that are still to be dropped. -/
def splitAux (sep : List Char) : List Char → List Char → Nat → List (List Char)
  | [], cur, _ => [cur.reverse]
  | _ :: cs, cur, (k + 1) => splitAux sep cs cur k
  | c :: cs, cur, 0 =>
    if sep.isPrefixOf (c :: cs) then cur.reverse :: splitAux sep cs [] (sep.length - 1)
    else splitAux sep cs (c :: cur) 0

/-- The pieces of `s` between the non-overlapping occurrences of the non-empty
separator `sep`, leftmost first (`strings.Split`). -/
def splitL (sep s : List Char) : List (List Char) := splitAux sep s [] 0

def Split (s sep : String) : List String := (splitL sep.toList s.toList).map String.mk

def Contains (s sub : String) : Bool := containsL sub.toList s.toList

def HasSuffix (s suffix : String) : Bool := suffix.toList.reverse.isPrefixOf s.toList.reverse

/-- Membership in Go's `unicode.IsSpace`. -/
def isSpace (c : Char) : Bool :=
  let n := c.toNat
  n = 9 || n = 10 || n = 11 || n = 12 || n = 13 || n = 32 || n = 133 || n = 160 ||
  n = 5760 || (8192 ≤ n && n ≤ 8202) || n = 8232 || n = 8233 || n = 8239 || n = 8287 ||
  n = 12288

def TrimSpace (s : String) : String :=
  String.mk ((s.toList.dropWhile isSpace).reverse.dropWhile isSpace).reverse

/-! ## `strconv.ParseInt(s, 10, 64)` -/

/-- The two failure kinds of `strconv` (`ErrSyntax`, `ErrRange`). -/
inductive NumErrKind where
  | invalidSyntax
  | outOfRange
deriving DecidableEq, Repr

def isDigit (c : Char) : Bool := 48 ≤ c.toNat && c.toNat ≤ 57

/-- Value of a string of decimal digits, most significant first. -/
def digitsValue (cs : List Char) : Nat := cs.foldl (fun acc c => 10 * acc + (c.toNat - 48)) 0

/-- Result of `strconv.ParseInt(s, 10, 64)`: the returned integer and the
error kind, if any.  A syntax error returns 0, a range error the nearest
bound. -/
def ParseInt (s : String) : Int × Option NumErrKind :=
  let cs := s.toList
  let neg := cs.head? = some '-'
  let body := if cs.head? = some '+' ∨ cs.head? = some '-' then cs.tail else cs
  if body.isEmpty || !body.all isDigit then (0, some .invalidSyntax)
  else
    let n : Int := digitsValue body
    if !neg && 9223372036854775808 ≤ n then (maxInt64, some .outOfRange)
    else if neg && 9223372036854775808 < n then (minInt64, some .outOfRange)
    else (if neg then -n else n, none)

/-- Decimal text of an integer (`strconv.FormatInt(n, 10)`, the verb `%d`). -/
def FormatInt (n : Int) : String := toString n

/-! ## Instants -/

/-- An instant, as nanoseconds since the Unix epoch.  The finite range of
`time.Time` is not modelled. -/
structure Time where
  unixNano : Int
deriving DecidableEq, Repr

/-- Go `time.Unix(sec, nsec)`. -/
def Time.ofUnix (sec nsec : Int) : Time := ⟨sec * 1000000000 + nsec⟩

/-- Go `t.Unix()`: whole seconds since the epoch. -/
def Time.Unix (t : Time) : Int := t.unixNano / 1000000000

/-- Go `t.Before(u)`. -/
def Time.Before (t u : Time) : Bool := decide (t.unixNano < u.unixNano)

/-! ## Errors -/

/-- The error values the translated functions return. -/
inductive Error where
  /-- From `rows.Columns()` / `rows.ColumnTypes()`. -/
  | rows (msg : String)
  /-- From `rows.Scan`. -/
  | scan (msg : String)
  /-- A `*strconv.NumError` of `fn` on the token `num`. -/
  | num (fn : String) (num : String) (kind : NumErrKind)
  /-- `errors.New("err: splits of time greater than 2")`. -/
  | timeSplits
  /-- From `time.ParseDuration` on the given text. -/
  | duration (text : String)
  /-- `fmt.Errorf("invalid numeric value '%s' in column %s: %w", raw, col, err)`. -/
  | invalidNumeric (raw : String) (col : String) (cause : Error)
  /-- `errors.New(getConstants("sqlerror_query_str", ""))`. -/
  | schema (msg : String)
  /-- From `json.Unmarshal`. -/
  | json (text : String)
deriving DecidableEq, Repr

/-! ## Constants and formatting -/

def getConstants (constName : String) (deploymentType : String) : String :=
  if deploymentType = "ADB" ∧ constName = "query_range_str" then
    "select DBMS_CLOUD_TELEMETRY_QUERY.promql_range('%s',%d,%d,%d) from dual"
  else if deploymentType = "ADB" ∧ constName = "query_fetchlabels_str" then
    "select DBMS_CLOUD_TELEMETRY_QUERY.promql_label('__name__',%d,%d) from dual"
  else if deploymentType = "ADB" ∧ constName = "adhock_key_query_str" then
    "select DBMS_CLOUD_TELEMETRY_QUERY.promql_label(' ',0,0) from dual"
  else if deploymentType = "ADB" ∧ constName = "adhock_value_query_str" then
    "select DBMS_CLOUD_TELEMETRY_QUERY.promql_label('%s',0,0) from dual"
  else if deploymentType = "ADB" ∧ constName = "variable_query_str" then
    "select DBMS_CLOUD_TELEMETRY_QUERY.promql_series('%s',%s,%s) from dual"
  else if deploymentType ≠ "ADB" ∧ constName = "query_range_str" then
    "select DBMS_TELEMETRY_QUERY.promql_range('%s',%d,%d,%d) from dual"
  else if deploymentType ≠ "ADB" ∧ constName = "query_fetchlabels_str" then
    "select DBMS_TELEMETRY_QUERY.promql_label('__name__',%d,%d) from dual"
  else if deploymentType ≠ "ADB" ∧ constName = "adhock_key_query_str" then
    "select DBMS_TELEMETRY_QUERY.promql_label(' ',0,0) from dual"
  else if deploymentType ≠ "ADB" ∧ constName = "adhock_value_query_str" then
    "select DBMS_TELEMETRY_QUERY.promql_label('%s',0,0) from dual"
  else if deploymentType ≠ "ADB" ∧ constName = "variable_query_str" then
    "select DBMS_TELEMETRY_QUERY.promql_series('%s',%s,%s) from dual"
  else if constName = "sysdate_query_str" then
    "select sysdate from dual"
  else if constName = "sqlerror_query_str" then
    "Invalid SQL query.\n                    To plot time series data, the query must return:\n                    • exactly one time column\n                    • one or more numeric columns\n                    • at least one character column (used as series labels)"
  else ""

/-- An operand of `fmt.Sprintf`. -/
inductive FmtArg where
  | str (s : String)
  | int (n : Int)
deriving DecidableEq, Repr

/-- The part of `fmt.Sprintf` the program uses: the verbs `%s` on a string
operand and `%d` on an integer operand, everything else copied. -/
def sprintfL : List Char → List FmtArg → List Char
  | [], _ => []
  | '%' :: 's' :: rest, FmtArg.str s :: args => s.toList ++ sprintfL rest args
  | '%' :: 'd' :: rest, FmtArg.int n :: args => (FormatInt n).toList ++ sprintfL rest args
  | c :: rest, args => c :: sprintfL rest args

def Sprintf (format : String) (args : List FmtArg) : String := String.mk (sprintfL format.toList args)

/-! ## PromQL range conversion -/

/-- Translation of `getPromQLToSQL`; `fromT` and `toT` are the arguments
`from` and `to`.  The divisor 720 is a non-zero constant, so only the
division by `step` can panic. -/
def getPromQLToSQL (fromT toT : Time) (promql : String) (stepStr : String)
    (deploymentType : String) : Except Fault (String × Option Error) := do
  let step := (ParseInt stepStr).1
  let dataPoints ← div64 (sub64 toT.Unix fromT.Unix) step
  let newStep :=
    if dataPoints > 720 then
      if Int.tmod (sub64 toT.Unix fromT.Unix) 720 = 0 then
        Int.tdiv (sub64 toT.Unix fromT.Unix) 720
      else add64 (Int.tdiv (sub64 toT.Unix fromT.Unix) 720) 1
    else step
  let fromTs := fromT.Unix
  let toTs := toT.Unix
  let r ← mod64 fromTs step
  let fromTs := if r ≠ 0 then sub64 fromTs r else fromTs
  let queryText := Sprintf (getConstants "query_range_str" deploymentType)
    [.str promql, .int fromTs, .int toTs, .int newStep]
  pure (queryText, none)

/-! ## Data frames (`data.Frame`, `data.Field` of the plugin SDK) -/

/-- Element type of a field's vector. -/
inductive FieldType where
  | time
  | float64
  | string
deriving DecidableEq, Repr

/-- A dynamically typed cell, as passed to `AppendRow`; `F` is the type of
`float64` values. -/
inductive Val (F : Type) where
  | time (t : Time)
  | float (v : F)
  | string (s : String)
deriving DecidableEq, Repr

/-- A field: name, labels (`none` is a nil map), the `DisplayNameFromDS` of
its config (`none` when no config is set), element type and values. -/
structure Field (F : Type) where
  Name : String
  Labels : Option (List (String × String))
  DisplayNameFromDS : Option String
  ftype : FieldType
  values : List (Val F)
deriving DecidableEq, Repr

structure Frame (F : Type) where
  Name : String
  Fields : List (Field F)
deriving DecidableEq, Repr

/-- Go `data.NewField(name, labels, []T{})`. -/
def NewField {F : Type} (name : String) (labels : Option (List (String × String)))
    (ftype : FieldType) : Field F :=
  ⟨name, labels, none, ftype, []⟩

/-- Go `field.SetConfig(&data.FieldConfig{DisplayNameFromDS: dName})`. -/
def Field.SetConfig {F : Type} (f : Field F) (dName : String) : Field F :=
  ⟨f.Name, f.Labels, some dName, f.ftype, f.values⟩

def Field.append {F : Type} (f : Field F) (v : Val F) : Field F :=
  ⟨f.Name, f.Labels, f.DisplayNameFromDS, f.ftype, f.values ++ [v]⟩

/-- Appends the i-th value to the i-th field. -/
def appendVals {F : Type} : List (Field F) → List (Val F) → List (Field F)
  | f :: fs, v :: vs => f.append v :: appendVals fs vs
  | fs, _ => fs

/-- Go `frame.AppendRow(vals...)`. -/
def Frame.AppendRow {F : Type} (fr : Frame F) (vals : List (Val F)) : Frame F :=
  ⟨fr.Name, appendVals fr.Fields vals⟩

/-! ## Query results (`database/sql`) and the JSON payload -/

/-- A scanned `sql.NullString`: SQL NULL (`Valid = false`, `String = ""`) or a text. -/
inductive NullString where
  | null
  | text (s : String)
deriving DecidableEq, Repr

def NullString.Valid : NullString → Bool
  | .null => false
  | .text _ => true

def NullString.String : NullString → String
  | .null => ""
  | .text s => s

/-- Column metadata: `cols[i]` (equal to `types[i].Name()`) and
`types[i].DatabaseTypeName()`. -/
structure ColumnType where
  Name : String
  DatabaseTypeName : String
deriving DecidableEq, Repr

/-- A result cursor: the messages of the errors of `rows.Columns()` and
`rows.ColumnTypes()` if any, the columns, and for each row either the message
of the error of `rows.Scan` or the scanned values, one per column. -/
structure Rows where
  columnsErr : Option String
  columnTypesErr : Option String
  columns : List ColumnType
  rows : List (Except String (List NullString))

/-- The message of the error that `rows.Scan` returns when the value of the
column with index `i` is NULL and its destination is a `*string`:
`sql: Scan error on column index %d, name %q: %w` around the cause
`converting NULL to string is unsupported`.  The name is taken to be plain
printable text without double quote or backslash, which `%q` copies between
double quotes. -/
def scanNullText (i : Nat) (name : String) : String :=
  "sql: Scan error on column index " ++ toString i ++ ", name \"" ++ name ++
    "\": converting NULL to string is unsupported"

/-- The name of the column with index `i`, as `rows.Scan` reads it for its
error message. -/
def columnName (columns : List ColumnType) (i : Nat) : String :=
  match columns[i]? with
  | some c => c.Name
  | none => ""

/-- A decoded JSON value held in an `interface{}`. -/
inductive JsonVal (F : Type) where
  | number (f : F)
  | string (s : String)
  | other
deriving DecidableEq, Repr

/-- An element of `jsn.Data.Result`. -/
structure ResultItem (F : Type) where
  Metric : List (String × String)
  Values : List (List (JsonVal F))
deriving DecidableEq, Repr

structure RespStruct (F : Type) where
  Status : String
  ResultType : String
  Result : List (ResultItem F)
deriving DecidableEq, Repr

/-! ## Library functions taken as parameters -/

/-- The Go library behaviour the program relies on; `F` is the type of
`float64` values. -/
structure GoLib (F : Type) where
  /-- The call `time.Parse(time.RFC3339, s)`; `none` is a parse error. -/
  parseRFC3339 : String → Option Time
  /-- The empty text is no timestamp. -/
  parseRFC3339_empty : parseRFC3339 "" = none
  /-- The call `strconv.ParseFloat(s, 64)`. -/
  ParseFloat : String → Except NumErrKind F
  /-- The `float64` value 0. -/
  zero : F
  ParseFloat_zero : ParseFloat "0" = .ok zero
  /-- The call `time.ParseDuration(s)`, in nanoseconds; `none` is an error. -/
  ParseDuration : String → Option Int
  /-- A text without a leading sign parses to no negative duration. -/
  ParseDuration_nonneg : ∀ (s : String) (d : Int), ParseDuration ("0." ++ s ++ "s") = some d → 0 ≤ d
  /-- A fraction of at most nine digits before the unit `s` is read exactly. -/
  ParseDuration_fraction : ∀ f : List Char, f.all isDigit = true → f.length ≤ 9 →
    ParseDuration ("0." ++ String.mk f ++ "s") = some ((digitsValue f : Int) * 10 ^ (9 - f.length))
  /-- The conversion `int64(f)`. -/
  toInt64 : F → Int
  /-- The call `json.Unmarshal` into a nil `map[string]string`: `none` is an
  error, `some none` leaves the map nil (JSON `null`). -/
  unmarshalTags : String → Option (Option (List (String × String)))
  /-- The call `json.Unmarshal` into a `RespStruct`; `none` is an error. -/
  unmarshalResp : String → Option (RespStruct F)
  /-- Order in which `range` visits the entries of a map, given here in
  insertion order: unspecified, some permutation. -/
  rangeOrder : {α : Type} → List α → List α
  rangeOrder_perm : ∀ {α : Type} (m : List α), (rangeOrder m).Perm m
  /-- The call `sort.Slice(x, less)`: not stable; it permutes, and it sorts
  when `less` compares a key. -/
  sortSlice : {α : Type} → (α → α → Bool) → List α → List α
  sortSlice_perm : ∀ {α : Type} (less : α → α → Bool) (l : List α), (sortSlice less l).Perm l
  sortSlice_sorted : ∀ {α : Type} (key : α → Int) (less : α → α → Bool),
    (∀ a b, less a b = decide (key a < key b)) →
    ∀ l : List α, (sortSlice less l).Pairwise (fun a b => key a ≤ key b)

/-- Lookup `m[k]` in a map of strings: the empty string for an absent key or a nil map. -/
def mapGet (m : Option (List (String × String))) (k : String) : String :=
  match m with
  | none => ""
  | some l => ((l.find? (fun e => e.1 = k)).map Prod.snd).getD ""

/-! ## Column classifier -/

def isNumberColumn (dataType : String) : Bool :=
  dataType = "NUMBER" || dataType = "DOUBLE" || dataType = "FLOAT" || dataType = "LONG"

def isTimeColumn (dataType : String) (colName : String) : Bool :=
  dataType = "DATE" || dataType = "TIMESTAMP WITH LOCAL TIME ZONE" ||
  dataType = "TIMESTAMP" || dataType = "TIMESTAMP WITH TIME ZONE" ||
  colName = "METRIC_TIME" || colName = "METRIC_TIME_EPOCH" || colName = "TIME"

def isCharColumn (dataType : String) : Bool :=
  dataType = "VARCHAR2" || dataType = "CHAR" || dataType = "NVARCHAR2" || dataType = "NCHAR"

/-! ## Timestamp parser -/

/-- Translation of `parseTime`: seconds, nanoseconds and the error.
`strings.Split` returns at least one piece, so `timeSplit[0]` is `headD`. -/
def parseTime {F : Type} (L : GoLib F) (timeStr : String) : Int × Int × Option Error :=
  let timeSplit := Split timeStr "."
  if timeSplit.length > 2 then (-1, -1, some .timeSplits)
  else if timeSplit.length < 2 then
    match ParseInt (timeSplit.headD "") with
    | (_, some k) => (-1, -1, some (.num "ParseInt" (timeSplit.headD "") k))
    | (secs, none) => (secs, 0, none)
  else
    match ParseInt (timeSplit.headD "") with
    | (_, some k) => (-1, -1, some (.num "ParseInt" (timeSplit.headD "") k))
    | (secs, none) =>
      match L.ParseDuration ("0." ++ timeSplit.getD 1 "" ++ "s") with
      | none => (-1, -1, some (.duration ("0." ++ timeSplit.getD 1 "" ++ "s")))
      | some nSecs => (secs, nSecs, none)

/-! ## Legend templater (the inline code of Modes B and D) -/

/-- Last piece of `strings.Split(s, "}}")`. -/
def lastPiece (s : String) : String := (Split s "\x7d\x7d").getLastD ""

/-- First piece of `strings.Split(s, "}}")`. -/
def firstPiece (s : String) : String := (Split s "\x7d\x7d").headD ""

/-- The loop `for i, ind := range tmp`: `prev` is `tmp[i-1]`, absent when
`i = 0`, where the index expression panics. -/
def legendLoop (tags : Option (List (String × String))) :
    Option String → List String → String → Except Fault String
  | _, [], finalLegend => .ok finalLegend
  | prev, ind :: rest, finalLegend =>
    if Contains ind "\x7d\x7d" then
      match prev with
      | none => .error .indexOutOfRange
      | some p =>
        legendLoop tags (some ind) rest (finalLegend ++ lastPiece p ++ mapGet tags (firstPiece ind))
    else legendLoop tags (some ind) rest finalLegend

/-- The legend computation `finalLegend` of Modes B and D. -/
def expandLegend (legendTextVal : String) (tags : Option (List (String × String))) :
    Except Fault String :=
  let legendVal := TrimSpace legendTextVal
  if Contains legendVal "\x7b\x7b" && Contains legendVal "\x7d\x7d" then
    match legendLoop tags none (Split legendVal "\x7b\x7b") "" with
    | .error e => .error e
    | .ok finalLegend =>
      if !HasSuffix legendVal "\x7d\x7d" then .ok (finalLegend ++ lastPiece legendVal)
      else .ok finalLegend
  else .ok legendVal

/-! ## Row-to-frame assembler -/

/-- What a call of `getDataFrameFromRows` leaves behind: the three results,
the value of `*rowsProcessed` after the call, and the number of rows fetched
from the cursor (`rows.Next()` followed by `rows.Scan`). -/
structure Ret (F : Type) where
  frames : List (Frame F)
  execTime : String
  err : Option Error
  rowsProcessed : Int
  rowsRead : Nat
deriving DecidableEq, Repr

/-- The instant a time token denotes for the row loops of Modes A and C:
RFC 3339 first, then `parseTime` (a NULL is read as "0"); the failure side
carries the `errTime` that the code returns, which is nil when `parseTime`
succeeds with seconds -1. -/
def timeCell {F : Type} (L : GoLib F) (rfcText : String) (convraw : String) :
    Except (Option Error) Time :=
  match L.parseRFC3339 rfcText with
  | some ts => .ok ts
  | none =>
    match parseTime L convraw with
    | (parsedSecs, parsedNSecs, errTime) =>
      if errTime = none ∧ parsedSecs ≠ -1 ∧ parsedNSecs ≠ -1 then
        .ok (Time.ofUnix parsedSecs parsedNSecs)
      else .error errTime

/-! ### Mode A: tabular passthrough -/

/-- The fields created for the columns in Mode A. -/
def fieldsA {F : Type} (legendTextVal : String) (columns : List ColumnType) : List (Field F) :=
  columns.map fun coltype =>
    if isTimeColumn coltype.DatabaseTypeName coltype.Name then
      NewField coltype.Name none .time
    else
      let dName := if legendTextVal ≠ "" then legendTextVal else coltype.Name
      if isNumberColumn coltype.DatabaseTypeName then
        (NewField coltype.Name none .float64).SetConfig dName
      else (NewField coltype.Name none .string).SetConfig dName

/-- Conversion of one cell in Mode A; the failure side is the error returned. -/
def cellA {F : Type} (L : GoLib F) (coltype : ColumnType) (raw : NullString) :
    Except (Option Error) (Val F) :=
  if isTimeColumn coltype.DatabaseTypeName coltype.Name then
    match timeCell L raw.String (if !raw.Valid then "0" else raw.String) with
    | .ok ts => .ok (.time ts)
    | .error e => .error e
  else if isNumberColumn coltype.DatabaseTypeName then
    match L.ParseFloat (if !raw.Valid then "0" else raw.String) with
    | .ok v => .ok (.float v)
    | .error k => .error (some (.num "ParseFloat" (if !raw.Valid then "0" else raw.String) k))
  else .ok (.string raw.String)

/-- The loop `for i, raw := range rawResult` of Mode A. -/
def rowA {F : Type} (L : GoLib F) : List ColumnType → List NullString →
    Except (Option Error) (List (Val F))
  | coltype :: cs, raw :: raws =>
    match cellA L coltype raw with
    | .error e => .error e
    | .ok v =>
      match rowA L cs raws with
      | .error e => .error e
      | .ok vs => .ok (v :: vs)
  | _, _ => .ok []

/-- The loop `for rows.Next()` of Mode A and the return after it. -/
def loopA {F : Type} (L : GoLib F) (columns : List ColumnType) (rowsProcessed : Int) :
    List (Except String (List NullString)) → Frame F → Int → Nat → Ret F
  | [], frame, rowsTotal, n => ⟨[frame], "", none, rowsTotal, n⟩
  | .error e :: _, _, _, n => ⟨[], "", some (.scan e), rowsProcessed, n + 1⟩
  | .ok row :: rest, frame, rowsTotal, n =>
    match rowA L columns row with
    | .error e => ⟨[], "", e, rowsProcessed, n + 1⟩
    | .ok vals => loopA L columns rowsProcessed rest (frame.AppendRow vals) (rowsTotal + 1) (n + 1)

def modeA {F : Type} (L : GoLib F) (rows : Rows) (legendTextVal queryTextConverted : String)
    (rowsProcessed : Int) : Ret F :=
  match rows.columnsErr with
  | some e => ⟨[], "", some (.rows e), rowsProcessed, 0⟩
  | none =>
    match rows.columnTypesErr with
    | some e => ⟨[], "", some (.rows e), rowsProcessed, 0⟩
    | none =>
      loopA L rows.columns rowsProcessed rows.rows
        ⟨queryTextConverted, fieldsA legendTextVal rows.columns⟩ 0 0

/-! ### Series maps and sorting shared by Modes B and C -/

structure TimeValuePair (F : Type) where
  TimeStr : String
  Value : F
deriving DecidableEq, Repr

structure MetricTagKey where
  MetricStr : String
  TagsStr : String
deriving DecidableEq, Repr

/-- Go `m[k] = append(m[k], v)` on a map kept as the list of its entries in
insertion order. -/
def mapAppend {κ ν : Type} [DecidableEq κ] : List (κ × List ν) → κ → ν → List (κ × List ν)
  | [], k, v => [(k, [v])]
  | (k1, vs) :: rest, k, v =>
    if k1 = k then (k1, vs ++ [v]) :: rest else (k1, vs) :: mapAppend rest k v

/-- The instant the `sort.Slice` closure computes for a token: RFC 3339
first, else `time.Unix` of whatever `parseTime` returns, its error ignored. -/
def sortInstant {F : Type} (L : GoLib F) (timeStr : String) : Time :=
  match L.parseRFC3339 timeStr with
  | some t => t
  | none =>
    match parseTime L timeStr with
    | (sec, nsec, _) => Time.ofUnix sec nsec

/-- The `less` closure passed to `sort.Slice`. -/
def lessPairs {F : Type} (L : GoLib F) (a b : TimeValuePair F) : Bool :=
  (sortInstant L a.TimeStr).Before (sortInstant L b.TimeStr)

/-- The two-field frame of a series before its points are appended. -/
def seriesFrame {F : Type} (name : String) (valueField : Field F) : Frame F :=
  ⟨name, [NewField "METRIC_TIME" none .time, valueField]⟩

/-! ### Mode B: canonical time series -/

/-- The four strings read from one row in Mode B. -/
structure SlicesB where
  timeSlice : String
  valSlice : String
  metricNameSlice : String
  metricTagsSlice : String
deriving DecidableEq, Repr

/-- The loop `for i, raw := range rawResult` of Mode B. -/
def rowB : List ColumnType → List NullString → SlicesB → SlicesB
  | c :: cs, raw :: raws, s =>
    rowB cs raws
      (if c.Name = "METRIC_TIME_EPOCH" then
        ⟨if !raw.Valid then "0" else raw.String, s.valSlice, s.metricNameSlice, s.metricTagsSlice⟩
      else if c.Name = "METRIC_VALUE" then
        ⟨s.timeSlice, if !raw.Valid then "0" else raw.String, s.metricNameSlice, s.metricTagsSlice⟩
      else if c.Name = "METRIC_NAME" then
        ⟨s.timeSlice, s.valSlice, if !raw.Valid then "" else raw.String, s.metricTagsSlice⟩
      else if c.Name = "METRIC_TAGS" then
        ⟨s.timeSlice, s.valSlice, s.metricNameSlice, if !raw.Valid then "" else raw.String⟩
      else s)
  | _, _, s => s

/-- The loop `for rows.Next()` of Mode B: an early return, or the series
map, `rowsTotal` and the number of rows read. -/
def loopB {F : Type} (L : GoLib F) (columns : List ColumnType) (rowsProcessed : Int) :
    List (Except String (List NullString)) → List (MetricTagKey × List (TimeValuePair F)) →
    Int → Nat → Except (Ret F) (List (MetricTagKey × List (TimeValuePair F)) × Int × Nat)
  | [], m, rowsTotal, n => .ok (m, rowsTotal, n)
  | .error e :: _, _, _, n => .error ⟨[], "", some (.scan e), rowsProcessed, n + 1⟩
  | .ok row :: rest, m, rowsTotal, n =>
    match L.ParseFloat (rowB columns row ⟨"", "", "", ""⟩).valSlice with
    | .error k =>
      .error ⟨[], "", some (.num "ParseFloat" (rowB columns row ⟨"", "", "", ""⟩).valSlice k),
        rowsProcessed, n + 1⟩
    | .ok valNum =>
      loopB L columns rowsProcessed rest
        (mapAppend m
          ⟨(rowB columns row ⟨"", "", "", ""⟩).metricNameSlice,
            (rowB columns row ⟨"", "", "", ""⟩).metricTagsSlice⟩
          ⟨(rowB columns row ⟨"", "", "", ""⟩).timeSlice, valNum⟩)
        (rowsTotal + 1) (n + 1)

/-- The variables `tagsMap` and `errjson != nil` after the decoding of the tags. -/
def decodeTags {F : Type} (L : GoLib F) (metricTagsJSON : String) :
    Option (List (String × String)) × Bool :=
  if metricTagsJSON ≠ "" then
    match L.unmarshalTags metricTagsJSON with
    | none => (none, true)
    | some tagsMap => (tagsMap, false)
  else (none, false)

/-- The value field of a Mode B frame. -/
def valueFieldB {F : Type} (L : GoLib F) (legendTextVal : String) (key : MetricTagKey) :
    Except Fault (Field F) :=
  match decodeTags L key.TagsStr with
  | (tagsMap, errjson) =>
    if legendTextVal = "" then
      if errjson then
        .ok ((NewField (key.MetricStr ++ key.TagsStr) tagsMap .float64).SetConfig (key.MetricStr ++ key.TagsStr))
      else
        .ok ((NewField (key.MetricStr ++ key.TagsStr) none .float64).SetConfig
          (key.MetricStr ++ key.TagsStr))
    else
      match expandLegend legendTextVal tagsMap with
      | .error e => .error e
      | .ok finalLegend =>
        if errjson then
          .ok ((NewField finalLegend tagsMap .float64).SetConfig finalLegend)
        else .ok ((NewField finalLegend none .float64).SetConfig finalLegend)

/-- The point a pair contributes in Mode B; `none` is the `continue` taken
when both parsers fail or `parseTime` returns seconds -1. -/
def pointB {F : Type} (L : GoLib F) (pair : TimeValuePair F) : Option (Time × F) :=
  match L.parseRFC3339 pair.TimeStr with
  | some ts => some (ts, pair.Value)
  | none =>
    match parseTime L pair.TimeStr with
    | (sec, nsec, err2) =>
      if err2 ≠ none ∨ sec = -1 then none else some (Time.ofUnix sec nsec, pair.Value)

/-- The loop `for _, pair := range pairs` of Mode B. -/
def appendPairsB {F : Type} (L : GoLib F) (pairs : List (TimeValuePair F)) (curFrame : Frame F) :
    Frame F :=
  pairs.foldl (fun fr pair =>
    match pointB L pair with
    | none => fr
    | some p => fr.AppendRow [.time p.1, .float p.2]) curFrame

/-- One iteration of `for key, pairs := range timeseriesMap` in Mode B. -/
def frameB {F : Type} (L : GoLib F) (legendTextVal queryTextConverted : String)
    (entry : MetricTagKey × List (TimeValuePair F)) : Except Fault (Frame F) :=
  match valueFieldB L legendTextVal entry.1 with
  | .error e => .error e
  | .ok valueField =>
    .ok (appendPairsB L (L.sortSlice (lessPairs L) entry.2)
      (seriesFrame queryTextConverted valueField))

/-- The loop `for key, pairs := range timeseriesMap` of Mode B, over the
entries in the order of the iteration. -/
def framesB {F : Type} (L : GoLib F) (legendTextVal queryTextConverted : String) :
    List (MetricTagKey × List (TimeValuePair F)) → Except Fault (List (Frame F))
  | [] => .ok []
  | entry :: rest =>
    match frameB L legendTextVal queryTextConverted entry with
    | .error e => .error e
    | .ok curFrame =>
      match framesB L legendTextVal queryTextConverted rest with
      | .error e => .error e
      | .ok frames => .ok (curFrame :: frames)

def modeB {F : Type} (L : GoLib F) (rows : Rows) (legendTextVal queryTextConverted : String)
    (rowsProcessed : Int) : Except Fault (Ret F) :=
  match loopB L rows.columns rowsProcessed rows.rows [] 0 0 with
  | .error r => .ok r
  | .ok (timeseriesMap, rowsTotal, n) =>
    match framesB L legendTextVal queryTextConverted (L.rangeOrder timeseriesMap) with
    | .error e => .error e
    | .ok framesFinal => .ok ⟨framesFinal, "", none, rowsTotal, n⟩

/-! ### Mode C: derived grouping -/

/-- The four counters of the classification loop. -/
structure ColCounts where
  numberCols : Nat
  timeCols : Nat
  charCols : Nat
  otherCols : Nat
deriving DecidableEq, Repr

/-- The loop `for i, coltype := range types` that counts the columns. -/
def countCols : List ColumnType → ColCounts → ColCounts
  | [], k => k
  | c :: cs, k =>
    countCols cs
      (if isTimeColumn c.DatabaseTypeName c.Name then
        ⟨k.numberCols, k.timeCols + 1, k.charCols, k.otherCols⟩
      else if isNumberColumn c.DatabaseTypeName then
        ⟨k.numberCols + 1, k.timeCols, k.charCols, k.otherCols⟩
      else if isCharColumn c.DatabaseTypeName then
        ⟨k.numberCols, k.timeCols, k.charCols + 1, k.otherCols⟩
      else ⟨k.numberCols, k.timeCols, k.charCols, k.otherCols + 1⟩)

/-- The loop over the cells of a row in the first grouping case: the key
built so far and the pair, or the numeric error returned. -/
def rowC1 {F : Type} (L : GoLib F) : List ColumnType → List NullString →
    String × TimeValuePair F → Except Error (String × TimeValuePair F)
  | c :: cs, raw :: raws, (key, tvp) =>
    if isTimeColumn c.DatabaseTypeName c.Name then
      rowC1 L cs raws (key, ⟨if raw.Valid then raw.String else "0", tvp.Value⟩)
    else if isNumberColumn c.DatabaseTypeName then
      if raw.Valid then
        match L.ParseFloat raw.String with
        | .error k =>
          .error (.invalidNumeric raw.String c.Name (.num "ParseFloat" raw.String k))
        | .ok v => rowC1 L cs raws (key, ⟨tvp.TimeStr, v⟩)
      else rowC1 L cs raws (key, ⟨tvp.TimeStr, L.zero⟩)
    else if isCharColumn c.DatabaseTypeName then
      rowC1 L cs raws (if raw.Valid then key ++ raw.String else key, tvp)
    else rowC1 L cs raws (key, tvp)
  | _, _, s => .ok s

/-- The loop `for rows.Next()` of the first grouping case. -/
def loopC1 {F : Type} (L : GoLib F) (columns : List ColumnType) (rowsProcessed : Int) :
    List (Except String (List NullString)) → List (String × List (TimeValuePair F)) → Nat →
    Except (Ret F) (List (String × List (TimeValuePair F)) × Nat)
  | [], m, n => .ok (m, n)
  | .error e :: _, _, n => .error ⟨[], "", some (.scan e), rowsProcessed, n + 1⟩
  | .ok row :: rest, m, n =>
    match rowC1 L columns row ("", ⟨"", L.zero⟩) with
    | .error e => .error ⟨[], "", some e, rowsProcessed, n + 1⟩
    | .ok (key, tvp) => loopC1 L columns rowsProcessed rest (mapAppend m key tvp) (n + 1)

/-- First loop over the cells of a row in the second grouping case: the
variables `key` and `strtime`. -/
def rowC2Key : List ColumnType → List NullString → String × String → String × String
  | c :: cs, raw :: raws, (key, strtime) =>
    if isTimeColumn c.DatabaseTypeName c.Name then
      rowC2Key cs raws (key, if raw.Valid then raw.String else "0")
    else if isCharColumn c.DatabaseTypeName then
      rowC2Key cs raws (if raw.Valid then key ++ raw.String else key, strtime)
    else rowC2Key cs raws (key, strtime)
  | _, _, s => s

/-- Second loop over the cells of a row in the second grouping case: one
pair per Number column, under the key followed by the column name. -/
def rowC2Vals {F : Type} (L : GoLib F) (key strtime : String) :
    List ColumnType → List NullString → List (String × List (TimeValuePair F)) →
    Except Error (List (String × List (TimeValuePair F)))
  | c :: cs, raw :: raws, m =>
    if isNumberColumn c.DatabaseTypeName && !isTimeColumn c.DatabaseTypeName c.Name then
      if raw.Valid then
        match L.ParseFloat raw.String with
        | .error k =>
          .error (.invalidNumeric raw.String c.Name (.num "ParseFloat" raw.String k))
        | .ok v => rowC2Vals L key strtime cs raws (mapAppend m (key ++ c.Name) ⟨strtime, v⟩)
      else rowC2Vals L key strtime cs raws (mapAppend m (key ++ c.Name) ⟨strtime, L.zero⟩)
    else rowC2Vals L key strtime cs raws m
  | _, _, m => .ok m

/-- The loop `for rows.Next()` of the second grouping case. -/
def loopC2 {F : Type} (L : GoLib F) (columns : List ColumnType) (rowsProcessed : Int) :
    List (Except String (List NullString)) → List (String × List (TimeValuePair F)) → Nat →
    Except (Ret F) (List (String × List (TimeValuePair F)) × Nat)
  | [], m, n => .ok (m, n)
  | .error e :: _, _, n => .error ⟨[], "", some (.scan e), rowsProcessed, n + 1⟩
  | .ok row :: rest, m, n =>
    match rowC2Vals L (rowC2Key columns row ("", "")).1 (rowC2Key columns row ("", "")).2
        columns row m with
    | .error e => .error ⟨[], "", some e, rowsProcessed, n + 1⟩
    | .ok m1 => loopC2 L columns rowsProcessed rest m1 (n + 1)

/-- The loop `for _, tv := range pairs` of Mode C: the points, or the
`errTime` returned at the first token that is not accepted. -/
def pointsC {F : Type} (L : GoLib F) : List (TimeValuePair F) →
    Except (Option Error) (List (Time × F))
  | [] => .ok []
  | tv :: rest =>
    match timeCell L tv.TimeStr tv.TimeStr with
    | .error e => .error e
    | .ok ts =>
      match pointsC L rest with
      | .error e => .error e
      | .ok pts => .ok ((ts, tv.Value) :: pts)

/-- Go `frame.AppendRow(ts, value)` for each point in turn. -/
def appendPoints {F : Type} (pts : List (Time × F)) (curFrame : Frame F) : Frame F :=
  pts.foldl (fun fr p => fr.AppendRow [.time p.1, .float p.2]) curFrame

/-- The value field of a Mode C frame. -/
def valueFieldC {F : Type} (legendTextVal : String) (key : String) : Field F :=
  if legendTextVal = "" then (NewField key none .float64).SetConfig key
  else (NewField legendTextVal none .float64).SetConfig legendTextVal

/-- The loop `for key, pairs := range timeseriesMap` of Mode C and the return
after it, over the entries in the order of the iteration. -/
def emitC {F : Type} (L : GoLib F) (legendTextVal : String) (rowsProcessed : Int) (n : Nat) :
    List (String × List (TimeValuePair F)) → List (Frame F) → Int → Ret F
  | [], framesFinal, rowsTotal => ⟨framesFinal, "", none, rowsTotal, n⟩
  | (key, pairs) :: rest, framesFinal, rowsTotal =>
    match pointsC L (L.sortSlice (lessPairs L) pairs) with
    | .error e => ⟨[], "", e, rowsProcessed, n⟩
    | .ok pts =>
      emitC L legendTextVal rowsProcessed n rest
        (framesFinal ++ [appendPoints pts (seriesFrame "response" (valueFieldC legendTextVal key))])
        (rowsTotal + pts.length)

def modeC {F : Type} (L : GoLib F) (rows : Rows) (legendTextVal : String)
    (rowsProcessed : Int) : Ret F :=
  match rows.columnTypesErr with
  | some e => ⟨[], "", some (.rows e), rowsProcessed, 0⟩
  | none =>
    match countCols rows.columns ⟨0, 0, 0, 0⟩ with
    | ⟨numberCols, timeCols, charCols, _⟩ =>
      if timeCols = 1 ∧ numberCols = 1 ∧ charCols ≥ 1 then
        match loopC1 L rows.columns rowsProcessed rows.rows [] 0 with
        | .error r => r
        | .ok (timeseriesMap, n) =>
          emitC L legendTextVal rowsProcessed n (L.rangeOrder timeseriesMap) [] 0
      else if timeCols = 1 ∧ numberCols ≥ 1 ∧ charCols ≥ 1 then
        match loopC2 L rows.columns rowsProcessed rows.rows [] 0 with
        | .error r => r
        | .ok (timeseriesMap, n) =>
          emitC L legendTextVal rowsProcessed n (L.rangeOrder timeseriesMap) [] 0
      else ⟨[], "", some (.schema (getConstants "sqlerror_query_str" "")), rowsProcessed, 0⟩

/-! ### Mode D: JSON range vector -/

/-- The fetch of the single row: `rows.Next()` and `rows.Scan` into one
`*string`, which fails when there is no row, when the row does not have
exactly one column, or when the value is NULL. -/
def scanD (columns : List ColumnType) :
    List (Except String (List NullString)) → Except Error String
  | [] => .error (.scan "sql: Rows are closed")
  | .error e :: _ => .error (.scan e)
  | .ok [.text s] :: _ => .ok s
  | .ok [.null] :: _ => .error (.scan (scanNullText 0 (columnName columns 0)))
  | .ok row :: _ =>
    .error (.scan ("sql: expected " ++ toString row.length ++
      " destination arguments in Scan, not 1"))

/-- The two reads `colName[0].(float64)` and `colName[1].(string)`, in the
order the statements perform them. -/
def pairD {F : Type} (colName : List (JsonVal F)) : Except Fault (F × String) :=
  match colName with
  | [] => .error .indexOutOfRange
  | .number floatTime :: rest =>
    match rest with
    | [] => .error .indexOutOfRange
    | .string curVal :: _ => .ok (floatTime, curVal)
    | _ :: _ => .error .typeAssertion
  | _ :: _ => .error .typeAssertion

/-- The loop `for _, colName := range item.Values`: the frame and the row
count after it, or the error of `strconv.ParseFloat`. -/
def valuesD {F : Type} (L : GoLib F) : List (List (JsonVal F)) → Frame F → Int →
    Except Fault (Except Error (Frame F × Int))
  | [], frame, rowsTotal => .ok (.ok (frame, rowsTotal))
  | colName :: rest, frame, rowsTotal =>
    match pairD colName with
    | .error e => .error e
    | .ok (floatTime, curVal) =>
      match L.ParseFloat curVal with
      | .error k => .ok (.error (.num "ParseFloat" curVal k))
      | .ok curValFinal =>
        valuesD L rest
          (frame.AppendRow [.time (Time.ofUnix (L.toInt64 floatTime) 0), .float curValFinal])
          (rowsTotal + 1)

/-- The value field of a Mode D frame. -/
def valueFieldD {F : Type} (legendTextVal : String) (tags : List (String × String)) :
    Except Fault (Field F) :=
  if legendTextVal = "" then .ok (NewField (mapGet (some tags) "__name__") (some tags) .float64)
  else
    match expandLegend legendTextVal (some tags) with
    | .error e => .error e
    | .ok finalLegend => .ok ((NewField finalLegend (some tags) .float64).SetConfig finalLegend)

/-- The loop `for _, item := range jsn.Data.Result` and the return after it. -/
def itemsD {F : Type} (L : GoLib F) (legendTextVal : String) (rowsProcessed : Int) (n : Nat) :
    List (ResultItem F) → List (Frame F) → Int → Except Fault (Ret F)
  | [], frames, rowsTotal => .ok ⟨frames, "0", none, rowsTotal, n⟩
  | item :: rest, frames, rowsTotal =>
    match valueFieldD legendTextVal item.Metric with
    | .error e => .error e
    | .ok valueField =>
      match valuesD L item.Values (seriesFrame "response" valueField) rowsTotal with
      | .error e => .error e
      | .ok (.error err) => .ok ⟨frames, "0", some err, rowsProcessed, n⟩
      | .ok (.ok (frame, rowsTotal1)) =>
        itemsD L legendTextVal rowsProcessed n rest (frames ++ [frame]) rowsTotal1

def modeD {F : Type} (L : GoLib F) (rows : Rows) (legendTextVal : String)
    (rowsProcessed : Int) : Except Fault (Ret F) :=
  match scanD rows.columns rows.rows with
  | .error e => .ok ⟨[], "", some e, rowsProcessed, min rows.rows.length 1⟩
  | .ok vals =>
    match L.unmarshalResp vals with
    | none => .ok ⟨[], "", some (.json vals), rowsProcessed, 1⟩
    | some jsn => itemsD L legendTextVal rowsProcessed 1 jsn.Result [] 0

/-! ### The dispatcher -/

set_option linter.unusedVariables false in
/-- Translation of `getDataFrameFromRows`.  `rowsProcessed` is the value
of `*rowsProcessed` before the call; `timeAfterQuery` (wall-clock time) and
the logging calls are left out. -/
def getDataFrameFromRows {F : Type} (L : GoLib F) (rows : Rows) (promqlflg : Bool)
    (convertSqlResults : Bool) (qryInputVal : String) (legendTextVal : String)
    (queryTextConverted : String) (rowsProcessed : Int) : Except Fault (Ret F) :=
  if !promqlflg && !convertSqlResults then
    .ok (modeA L rows legendTextVal queryTextConverted rowsProcessed)
  else if !promqlflg && convertSqlResults then
    match rows.columnsErr with
    | some e => .ok ⟨[], "", some (.rows e), rowsProcessed, 0⟩
    | none =>
      if rows.columns.any (fun c => c.Name = "METRIC_TAGS") &&
          rows.columns.any (fun c => c.Name = "METRIC_VALUE") &&
          rows.columns.any (fun c => c.Name = "METRIC_TIME_EPOCH") &&
          rows.columns.any (fun c => c.Name = "METRIC_NAME") then
        modeB L rows legendTextVal queryTextConverted rowsProcessed
      else .ok (modeC L rows legendTextVal rowsProcessed)
  else modeD L rows legendTextVal rowsProcessed

/-! ## A reference instance of the library

The instance `refLib` takes `float64` values to be integers.  It is exact on
the inputs named in each doc comment and rejects the others, so it is used
only to evaluate the code on such inputs. -/

/-- A JSON document whose numbers are integers. -/
inductive Json where
  | null
  | bool (b : Bool)
  | num (n : Int)
  | str (s : String)
  | arr (l : List Json)
  | obj (l : List (String × Json))

def skipWs : List Char → List Char
  | c :: cs => if c = ' ' ∨ c = '\n' ∨ c = '\t' ∨ c = '\r' then skipWs cs else c :: cs
  | [] => []

/-- Reads the characters of a string literal up to the closing quote (no escapes). -/
def readString : List Char → List Char → Option (String × List Char)
  | [], _ => none
  | c :: cs, acc =>
    if c = '"' then some (String.mk acc.reverse, cs)
    else if c = '\\' then none
    else readString cs (c :: acc)

def readDigits : List Char → List Char → List Char × List Char
  | c :: cs, acc => if isDigit c then readDigits cs (c :: acc) else (acc.reverse, c :: cs)
  | [], acc => (acc.reverse, [])

mutual
def parseValue : Nat → List Char → Option (Json × List Char)
  | 0, _ => none
  | fuel + 1, cs =>
    match skipWs cs with
    | '"' :: rest => (readString rest []).map (fun r => (Json.str r.1, r.2))
    | '[' :: rest =>
      match skipWs rest with
      | ']' :: rest1 => some (Json.arr [], rest1)
      | _ => (parseElems fuel rest).map (fun r => (Json.arr r.1, r.2))
    | '\x7b' :: rest =>
      match skipWs rest with
      | '\x7d' :: rest1 => some (Json.obj [], rest1)
      | _ => (parseMembers fuel rest).map (fun r => (Json.obj r.1, r.2))
    | 'n' :: 'u' :: 'l' :: 'l' :: rest => some (Json.null, rest)
    | 't' :: 'r' :: 'u' :: 'e' :: rest => some (Json.bool true, rest)
    | 'f' :: 'a' :: 'l' :: 's' :: 'e' :: rest => some (Json.bool false, rest)
    | '-' :: rest =>
      match readDigits rest [] with
      | ([], _) => none
      | (ds, rest1) => some (Json.num (-(digitsValue ds : Int)), rest1)
    | c :: rest =>
      if isDigit c then
        match readDigits (c :: rest) [] with
        | (ds, rest1) => some (Json.num (digitsValue ds), rest1)
      else none
    | [] => none
def parseElems : Nat → List Char → Option (List Json × List Char)
  | 0, _ => none
  | fuel + 1, cs =>
    match parseValue fuel cs with
    | none => none
    | some (v, rest) =>
      match skipWs rest with
      | ',' :: rest1 => (parseElems fuel rest1).map (fun r => (v :: r.1, r.2))
      | ']' :: rest1 => some ([v], rest1)
      | _ => none
def parseMembers : Nat → List Char → Option (List (String × Json) × List Char)
  | 0, _ => none
  | fuel + 1, cs =>
    match skipWs cs with
    | '"' :: rest =>
      match readString rest [] with
      | none => none
      | some (k, rest1) =>
        match skipWs rest1 with
        | ':' :: rest2 =>
          match parseValue fuel rest2 with
          | none => none
          | some (v, rest3) =>
            match skipWs rest3 with
            | ',' :: rest4 => (parseMembers fuel rest4).map (fun r => ((k, v) :: r.1, r.2))
            | '\x7d' :: rest4 => some ([(k, v)], rest4)
            | _ => none
        | _ => none
    | _ => none
end

def parseJson (s : String) : Option Json :=
  match parseValue (s.length + 1) s.toList with
  | some (v, rest) => if skipWs rest = [] then some v else none
  | none => none


/-- A member of a decoded object; an absent member is the JSON null. -/
def jsonField (members : List (String × Json)) (k : String) : Json :=
  ((members.reverse.find? (fun e => e.1 = k)).map Prod.snd).getD Json.null

def jsonString : Json → Option String
  | .null => some ""
  | .str s => some s
  | _ => none

/-- Decoding into a `map[string]string`. -/
def jsonTags : Json → Option (Option (List (String × String)))
  | .null => some none
  | .obj ms =>
    (ms.mapM (fun (e : String × Json) =>
      match e.2 with
      | .str s => some (e.1, s)
      | .null => some (e.1, "")
      | _ => none)).map (fun (l : List (String × String)) => some l.reverse)
  | _ => none

def jsonVal : Json → JsonVal Int
  | .num n => .number n
  | .str s => .string s
  | _ => .other

/-- Decoding into a `[][]interface{}`. -/
def jsonValues : Json → Option (List (List (JsonVal Int)))
  | .null => some []
  | .arr rs =>
    rs.mapM (fun (r : Json) =>
      match r with
      | .null => some []
      | .arr vs => some (vs.map jsonVal)
      | _ => none)
  | _ => none

def jsonItem : Json → Option (ResultItem Int)
  | .null => some ⟨[], []⟩
  | .obj ms =>
    match jsonTags (jsonField ms "metric"), jsonValues (jsonField ms "values") with
    | some metric, some values => some ⟨metric.getD [], values⟩
    | _, _ => none
  | _ => none

def jsonResp : Json → Option (RespStruct Int)
  | .null => some ⟨"", "", []⟩
  | .obj ms =>
    match jsonString (jsonField ms "status"), jsonField ms "data" with
    | some status, .null => some ⟨status, "", []⟩
    | some status, .obj ds =>
      match jsonString (jsonField ds "resultType"), jsonField ds "result" with
      | some resultType, .null => some ⟨status, resultType, []⟩
      | some resultType, .arr items => (items.mapM jsonItem).map (fun r => ⟨status, resultType, r⟩)
      | _, _ => none
    | _, _ => none
  | _ => none

/-- Days from 1970-01-01 to the given civil date. -/
def daysFromCivil (y m d : Int) : Int :=
  let y1 := if m ≤ 2 then y - 1 else y
  let era := y1 / 400
  let yoe := y1 - era * 400
  let mp := if m > 2 then m - 3 else m + 9
  let doy := (153 * mp + 2) / 5 + d - 1
  let doe := yoe * 365 + yoe / 4 - yoe / 100 + doy
  era * 146097 + doe - 719468

def daysInMonth (y m : Nat) : Nat :=
  if m = 2 then (if (y % 4 = 0 ∧ y % 100 ≠ 0) ∨ y % 400 = 0 then 29 else 28)
  else if m = 4 ∨ m = 6 ∨ m = 9 ∨ m = 11 then 30 else 31

/-- RFC 3339 parser of the reference instance: exact on the twenty-character
UTC form `YYYY-MM-DDTHH:MM:SSZ` and on texts that are not RFC 3339 at all;
it rejects the forms with a fraction or a numeric offset. -/
def refParseRFC3339 (s : String) : Option Time :=
  match s.toList with
  | [y1, y2, y3, y4, '-', m1, m2, '-', d1, d2, 'T', h1, h2, ':', n1, n2, ':', s1, s2, 'Z'] =>
    let y := digitsValue [y1, y2, y3, y4]
    let m := digitsValue [m1, m2]
    let d := digitsValue [d1, d2]
    let h := digitsValue [h1, h2]
    let n := digitsValue [n1, n2]
    let sec := digitsValue [s1, s2]
    if [y1, y2, y3, y4, m1, m2, d1, d2, h1, h2, n1, n2, s1, s2].all isDigit ∧
        1 ≤ m ∧ m ≤ 12 ∧ 1 ≤ d ∧ d ≤ daysInMonth y m ∧ h ≤ 23 ∧ n ≤ 59 ∧ sec ≤ 59 then
      some (Time.ofUnix (daysFromCivil y m d * 86400 + h * 3600 + n * 60 + sec) 0)
    else none
  | _ => none

/-- Float parser of the reference instance: exact on optionally signed
decimal integers (below 2^53 in magnitude); it rejects the other tokens. -/
def refParseFloat (s : String) : Except NumErrKind Int :=
  match ParseInt s with
  | (n, none) => .ok n
  | (_, some k) => .error k

/-- Go `leadingInt` of package `time`: the value of the leading digits and the
rest of the text; `none` is the overflow error. -/
def leadingInt : List Char → Nat → Option (Nat × List Char)
  | [], x => some (x, [])
  | c :: cs, x =>
    if isDigit c then
      if x > 9223372036854775808 / 10 then none
      else if x * 10 + (c.toNat - 48) > 9223372036854775808 then none
      else leadingInt cs (x * 10 + (c.toNat - 48))
    else some (x, c :: cs)

/-- Go `leadingFraction` of package `time`: the value `x` of the leading
digits, the number of digits counted in `x` (the scale is ten to that power)
and the rest of the text.  Digits after an overflow are skipped. -/
def leadingFraction : List Char → Nat → Nat → Bool → Nat × Nat × List Char
  | [], x, k, _ => (x, k, [])
  | c :: cs, x, k, overflow =>
    if isDigit c then
      if overflow then leadingFraction cs x k true
      else if x > (9223372036854775808 - 1) / 10 then leadingFraction cs x k true
      else if x * 10 + (c.toNat - 48) > 9223372036854775808 then leadingFraction cs x k true
      else leadingFraction cs (x * 10 + (c.toNat - 48)) (k + 1) false
    else (x, k, c :: cs)

/-- Go `unitMap` of package `time`: nanoseconds per unit. -/
def unitMap (u : List Char) : Option Nat :=
  if u = ['n', 's'] then some 1
  else if u = ['u', 's'] then some 1000
  else if u = [Char.ofNat 181, 's'] then some 1000
  else if u = [Char.ofNat 956, 's'] then some 1000
  else if u = ['m', 's'] then some 1000000
  else if u = ['s'] then some 1000000000
  else if u = ['m'] then some 60000000000
  else if u = ['h'] then some 3600000000000
  else none

/-- The optional fraction `(\.[0-9]*)?` of a group in Go `time.ParseDuration`:
its digits as a number, how many of them, the rest of the text, and whether
a digit was read. -/
def fractionPart (s1 : List Char) : Nat × Nat × List Char × Bool :=
  match s1 with
  | '.' :: s1t =>
    let r := leadingFraction s1t 0 0 false
    (r.1, r.2.1, r.2.2, decide (r.2.2.length ≠ s1t.length))
  | _ => (0, 0, s1, false)

/-- One pass of the loop of Go `time.ParseDuration` over a group number-unit:
the nanoseconds `d` so far with the group added, and the rest of the text.
The source evaluates the fraction as
`uint64(float64(f) * (float64(unit) / scale))`; here it is the exact
quotient, the same number whenever the scale divides the unit (as for up
to nine digits before `s`, six before `ms`, three before `us`). -/
def durationGroup (s : List Char) (d : Nat) : Option (Nat × List Char) :=
  if !(s.head? = some '.' || (s.head?.map isDigit).getD false) then none
  else
    match leadingInt s 0 with
    | none => none
    | some (v, s1) =>
      let pre := decide (s1.length ≠ s.length)
      let fr := fractionPart s1
      if !pre && !fr.2.2.2 then none
      else
        let u := fr.2.2.1.takeWhile (fun c => !(c = '.' || isDigit c))
        let s3 := fr.2.2.1.dropWhile (fun c => !(c = '.' || isDigit c))
        if u.isEmpty then none
        else
          match unitMap u with
          | none => none
          | some unit =>
            if v > 9223372036854775808 / unit then none
            else
              let v2 := if fr.1 > 0 then v * unit + fr.1 * unit / 10 ^ fr.2.1 else v * unit
              if fr.1 > 0 ∧ v2 > 9223372036854775808 then none
              else if d + v2 > 9223372036854775808 then none
              else some (d + v2, s3)

/-- The loop `for s != ""` of Go `time.ParseDuration`; every pass shortens
the text, so as many passes as it has characters are enough. -/
def durationLoop : Nat → List Char → Nat → Option Nat
  | _, [], d => some d
  | 0, _ :: _, _ => none
  | fuel + 1, c :: cs, d =>
    match durationGroup (c :: cs) d with
    | none => none
    | some (d1, s3) => durationLoop fuel s3 d1

/-- Duration parser of the reference instance: Go `time.ParseDuration`, in
nanoseconds; `none` is an error. -/
def refParseDuration (s : String) : Option Int :=
  let cs := s.toList
  let neg := decide (cs.head? = some '-')
  let body := if cs.head? = some '-' ∨ cs.head? = some '+' then cs.tail else cs
  if body = ['0'] then some 0
  else if body = [] then none
  else
    match durationLoop body.length body 0 with
    | none => none
    | some d =>
      if neg then some (-(d : Int))
      else if d > 9223372036854775808 - 1 then none
      else some (d : Int)

/-- Insertion of `a` after the elements that are not greater. -/
def insertSorted {α : Type} (less : α → α → Bool) (a : α) : List α → List α
  | [] => [a]
  | b :: l => if less a b then a :: b :: l else b :: insertSorted less a l

/-- Insertion sort, which is what `sort.Slice` runs on a slice of at most
twelve elements. -/
def insertionSortBy {α : Type} (less : α → α → Bool) : List α → List α :=
  List.foldl (fun sorted a => insertSorted less a sorted) []

/-- The reference instance: integers for `float64`, maps visited in insertion
order, insertion sort. -/
def refLib : GoLib Int where
  parseRFC3339 := refParseRFC3339
  parseRFC3339_empty := by decide
  ParseFloat := refParseFloat
  zero := 0
  ParseFloat_zero := by decide
  ParseDuration := refParseDuration
  ParseDuration_nonneg := by
    intro s d h
    have hdata : ("0." ++ s ++ "s").toList = '0' :: '.' :: (s.toList ++ ['s']) := by
      simp [String.toList, String.data_append]
    have hsign : ¬ (some '0' = some '-' ∨ some '0' = some '+') := by decide
    have hneg : decide (some '0' = some '-') = false := by decide
    unfold refParseDuration at h
    simp only [hdata, List.head?_cons, hsign, if_false, hneg] at h
    split at h
    · cases h
      exact le_refl _
    · split at h
      · cases h
      · split at h
        · cases h
        · split at h
          · rename_i hc
            cases hc
          · split at h
            · cases h
            · cases h
              exact Int.natCast_nonneg _
  ParseDuration_fraction := by
    intro f hf hlen
    have hmono : ∀ (f : List Char) (x : Nat),
        x ≤ f.foldl (fun acc c => 10 * acc + (c.toNat - 48)) x := by
      intro f
      induction f with
      | nil => intro x; simp
      | cons c f ih =>
        intro x
        simp only [List.foldl_cons]
        exact le_trans (by omega) (ih _)
    have hlt : ∀ (f : List Char), f.all isDigit = true → ∀ x : Nat,
        f.foldl (fun acc c => 10 * acc + (c.toNat - 48)) x < (x + 1) * 10 ^ f.length := by
      intro f
      induction f with
      | nil => intro _ x; simp
      | cons c f ih =>
        intro hf x
        simp only [List.all_cons, Bool.and_eq_true] at hf
        simp only [List.foldl_cons, List.length_cons]
        have hc : c.toNat - 48 ≤ 9 := by
          have := hf.1
          simp only [isDigit, Bool.and_eq_true, decide_eq_true_eq] at this
          omega
        refine lt_of_lt_of_le (ih hf.2 _) ?_
        rw [pow_succ]
        have : 10 * x + (c.toNat - 48) + 1 ≤ (x + 1) * 10 := by omega
        calc (10 * x + (c.toNat - 48) + 1) * 10 ^ f.length
            ≤ ((x + 1) * 10) * 10 ^ f.length := Nat.mul_le_mul_right _ this
          _ = (x + 1) * (10 ^ f.length * 10) := by ring
    have hlead : ∀ (f : List Char), f.all isDigit = true → ∀ (x k : Nat),
        f.foldl (fun acc c => 10 * acc + (c.toNat - 48)) x < 1000000000 →
        leadingFraction (f ++ ['s']) x k false =
          (f.foldl (fun acc c => 10 * acc + (c.toNat - 48)) x, k + f.length, ['s']) := by
      intro f
      induction f with
      | nil =>
        intro _ x k _
        have hs : isDigit 's' = false := by decide
        simp [leadingFraction, hs]
      | cons c f ih =>
        intro hf x k hx
        simp only [List.all_cons, Bool.and_eq_true] at hf
        simp only [List.foldl_cons] at hx
        have hm := hmono f (10 * x + (c.toNat - 48))
        have h1 : ¬ x > (9223372036854775808 - 1) / 10 := by
          norm_num
          omega
        have h2 : ¬ x * 10 + (c.toNat - 48) > 9223372036854775808 := by omega
        have e : x * 10 + (c.toNat - 48) = 10 * x + (c.toNat - 48) := by ring
        simp only [List.cons_append, leadingFraction, hf.1, if_true, Bool.false_eq_true, if_false,
          h1, h2, List.foldl_cons, List.length_cons]
        have h := ih hf.2 (10 * x + (c.toNat - 48)) (k + 1) hx
        simp only [List.append_eq, e] at h ⊢
        rw [h]
        simp only [Prod.mk.injEq, true_and, and_true]
        omega
    have hv : digitsValue f < 10 ^ f.length := by
      have := hlt f hf 0
      simpa [digitsValue] using this
    have hpow : 10 ^ f.length ≤ 1000000000 := by
      calc 10 ^ f.length ≤ 10 ^ 9 := Nat.pow_le_pow_right (by norm_num) hlen
        _ = 1000000000 := by norm_num
    have hfrac := hlead f hf 0 0 (lt_of_lt_of_le (by simpa [digitsValue] using hv) hpow)
    have hdata : ("0." ++ String.mk f ++ "s").toList = '0' :: '.' :: (f ++ ['s']) := by
      simp [String.toList, String.data_append]
    have hd0 : isDigit '0' = true := by decide
    have hdot : isDigit '.' = false := by decide
    have hs : isDigit 's' = false := by decide
    have hdv : List.foldl (fun acc c => 10 * acc + (c.toNat - 48)) 0 f = digitsValue f := rfl
    have hq : digitsValue f * 1000000000 / 10 ^ f.length = digitsValue f * 10 ^ (9 - f.length) := by
      have h9 : (1000000000 : Nat) = 10 ^ (9 - f.length) * 10 ^ f.length := by
        rw [← pow_add, Nat.sub_add_cancel hlen]
        norm_num
      rw [h9, ← mul_assoc, Nat.mul_div_cancel _ (by positivity)]
    have hb : digitsValue f * 10 ^ (9 - f.length) < 1000000000 := by
      have h9 : (1000000000 : Nat) = 10 ^ f.length * 10 ^ (9 - f.length) := by
        rw [← pow_add, Nat.add_sub_cancel' hlen]
        norm_num
      rw [h9]
      exact Nat.mul_lt_mul_of_pos_right hv (by positivity)
    have hint : leadingInt ('0' :: '.' :: (f ++ ['s'])) 0 = some (0, '.' :: (f ++ ['s'])) := by
      simp [leadingInt, hd0, hdot]
    have hfp : fractionPart ('.' :: (f ++ ['s'])) =
        (digitsValue f, f.length, ['s'], decide (1 ≠ (f ++ ['s']).length)) := by
      simp only [fractionPart, hfrac, hdv]
      simp
    have hgroup : durationGroup ('0' :: '.' :: (f ++ ['s'])) 0 =
        some (digitsValue f * 10 ^ (9 - f.length), []) := by
      simp only [durationGroup, hint, hfp]
      simp [unitMap, hs, hq]
      refine ⟨hd0, fun _ => ?_, ?_⟩ <;> split <;> omega
    have hne : ('0' :: '.' :: (f ++ ['s'])) ≠ ['0'] := by simp
    have hloop : durationLoop ('0' :: '.' :: (f ++ ['s'])).length ('0' :: '.' :: (f ++ ['s'])) 0 =
        some (digitsValue f * 10 ^ (9 - f.length)) := by
      rw [List.length_cons, durationLoop, hgroup]
      simp only [durationLoop]
    have hsign : ¬ (some '0' = some '-' ∨ some '0' = some '+') := by decide
    have hneg : decide (some '0' = some '-') = false := by decide
    have hnot : ¬ (digitsValue f * 10 ^ (9 - f.length) > 9223372036854775808 - 1) := by omega
    unfold refParseDuration
    simp only [hdata, List.head?_cons, hsign, if_false, hne, hloop, hneg, hnot]
    simp
  toInt64 := id
  unmarshalTags := fun s => (parseJson s).bind jsonTags
  unmarshalResp := fun s => (parseJson s).bind jsonResp
  rangeOrder := fun m => m
  rangeOrder_perm := fun m => List.Perm.refl m
  sortSlice := insertionSortBy
  sortSlice_perm := by
    intro α less l
    have hins : ∀ (a : α) (l : List α), (insertSorted less a l).Perm (a :: l) := by
      intro a l
      induction l with
      | nil => exact List.Perm.refl _
      | cons b l ih =>
        unfold insertSorted
        split
        · exact List.Perm.refl _
        · exact ((List.Perm.cons b ih).trans (List.Perm.swap a b l))
    have hfold : ∀ (l acc : List α),
        (List.foldl (fun sorted a => insertSorted less a sorted) acc l).Perm (acc ++ l) := by
      intro l
      induction l with
      | nil => intro acc; simp
      | cons a l ih =>
        intro acc
        refine (ih (insertSorted less a acc)).trans ?_
        refine ((hins a acc).append_right l).trans ?_
        simpa using (List.perm_middle.symm : (a :: (acc ++ l)).Perm (acc ++ a :: l))
    simpa [insertionSortBy] using hfold l []
  sortSlice_sorted := by
    intro α key less hless l
    have hmem : ∀ (a : α) (l : List α) (x : α), x ∈ insertSorted less a l → x = a ∨ x ∈ l := by
      intro a l
      induction l with
      | nil => intro x hx; simpa [insertSorted] using hx
      | cons b l ih =>
        intro x hx
        unfold insertSorted at hx
        split at hx
        · simpa using hx
        · rcases List.mem_cons.1 hx with h | h
          · exact Or.inr (List.mem_cons.2 (Or.inl h))
          · rcases ih x h with h1 | h1
            · exact Or.inl h1
            · exact Or.inr (List.mem_cons.2 (Or.inr h1))
    have hins : ∀ (a : α) (l : List α), l.Pairwise (fun a b => key a ≤ key b) →
        (insertSorted less a l).Pairwise (fun a b => key a ≤ key b) := by
      intro a l
      induction l with
      | nil => intro _; simp [insertSorted]
      | cons b l ih =>
        intro hl
        rw [List.pairwise_cons] at hl
        unfold insertSorted
        split
        · rename_i hab
          rw [hless, decide_eq_true_eq] at hab
          refine List.pairwise_cons.2 ⟨?_, List.pairwise_cons.2 hl⟩
          intro x hx
          rcases List.mem_cons.1 hx with h | h
          · rw [h]; exact Int.le_of_lt hab
          · exact Int.le_trans (Int.le_of_lt hab) (hl.1 x h)
        · rename_i hab
          rw [hless, decide_eq_true_eq] at hab
          refine List.pairwise_cons.2 ⟨?_, ih hl.2⟩
          intro x hx
          rcases hmem a l x hx with h | h
          · rw [h]; exact Int.not_lt.1 hab
          · exact hl.1 x h
    have hfold : ∀ (l acc : List α), acc.Pairwise (fun a b => key a ≤ key b) →
        (List.foldl (fun sorted a => insertSorted less a sorted) acc l).Pairwise
          (fun a b => key a ≤ key b) := by
      intro l
      induction l with
      | nil => intro acc h; simpa using h
      | cons a l ih => intro acc h; exact ih _ (hins a acc h)
    exact hfold l [] List.Pairwise.nil


/-! ## Notions used to state the properties

These definitions follow the wording of the specification; the theorems
compare them with the translated code above. -/

/-- Text of a cell, with the given text for SQL NULL. -/
def cellText (raw : NullString) (dflt : String) : String :=
  match raw with
  | .null => dflt
  | .text s => s

/-- The instant a time token denotes under the two timestamp grammars: RFC 3339
calendar text, else epoch seconds[.fraction] as `parseTime` reads them;
`none` when neither accepts the token. -/
def instantOf {F : Type} (L : GoLib F) (tok : String) : Option Time :=
  match L.parseRFC3339 tok with
  | some t => some t
  | none =>
    match parseTime L tok with
    | (sec, nsec, none) => some (Time.ofUnix sec nsec)
    | (_, _, some _) => none

/-- A token that is no RFC 3339 timestamp and for which `parseTime` returns
seconds -1, the value it also returns on failure. -/
def secondsSentinel {F : Type} (L : GoLib F) (tok : String) : Bool :=
  (L.parseRFC3339 tok).isNone && decide ((parseTime L tok).1 = -1)

/-- The value of a numeric cell: 0 for NULL, else the parsed text. -/
def valueOfCell {F : Type} (L : GoLib F) (raw : NullString) : Option F :=
  match raw with
  | .null => some L.zero
  | .text s => (L.ParseFloat s).toOption

/-- A series frame: the field METRIC_TIME with the times of the points and
the value field with their values, in the same order. -/
def seriesOf {F : Type} (name : String) (valueField : Field F) (pts : List (Time × F)) :
    Frame F :=
  ⟨name, [⟨"METRIC_TIME", none, none, .time, pts.map (fun p => .time p.1)⟩,
    ⟨valueField.Name, valueField.Labels, valueField.DisplayNameFromDS, .float64,
      pts.map (fun p => .float p.2)⟩]⟩

/-! ### Mode A -/

/-- The element type of the field of a column in Mode A. -/
def specKindA (c : ColumnType) : FieldType :=
  if isTimeColumn c.DatabaseTypeName c.Name then .time
  else if isNumberColumn c.DatabaseTypeName then .float64
  else .string

/-- The value a cell contributes in Mode A: a NULL Time is epoch 0, a NULL
Number is 0, a NULL text is the empty string. -/
def specCellA {F : Type} (L : GoLib F) (c : ColumnType) (raw : NullString) : Option (Val F) :=
  if isTimeColumn c.DatabaseTypeName c.Name then
    match raw with
    | .null => some (.time (Time.ofUnix 0 0))
    | .text s => (instantOf L s).map .time
  else if isNumberColumn c.DatabaseTypeName then (valueOfCell L raw).map .float
  else some (.string (cellText raw ""))

/-- The fields Mode A is to return: one per column, named after it, holding
the values of the cells of that column in row order. -/
def specFieldsA {F : Type} (L : GoLib F) (legendTextVal : String) :
    List ColumnType → List (List NullString) → List (Field F)
  | [], _ => []
  | c :: cs, data =>
    ⟨c.Name, none,
      if isTimeColumn c.DatabaseTypeName c.Name then none
      else some (if legendTextVal ≠ "" then legendTextVal else c.Name),
      specKindA c, data.filterMap (fun row => row.head?.bind (specCellA L c))⟩ ::
    specFieldsA L legendTextVal cs (data.map List.tail)

/-- A cell that Mode A converts: its value is defined, and a time token (a
NULL is read as "0") is not one that `parseTime` maps to seconds -1. -/
def cellOkA {F : Type} (L : GoLib F) (c : ColumnType) (raw : NullString) : Bool :=
  (specCellA L c raw).isSome &&
    !(isTimeColumn c.DatabaseTypeName c.Name && secondsSentinel L (cellText raw "0"))

/-! ### Mode B -/

/-- The cell of a row under the last column of the given name. -/
def cellOf : List ColumnType → List NullString → String → Option NullString
  | c :: cs, raw :: raws, name =>
    match cellOf cs raws name with
    | some r => some r
    | none => if c.Name = name then some raw else none
  | _, _, _ => none

/-- The pair (METRIC_NAME, METRIC_TAGS) of a row, NULL read as the empty string. -/
def rowKeyB (columns : List ColumnType) (row : List NullString) : MetricTagKey :=
  ⟨cellText ((cellOf columns row "METRIC_NAME").getD .null) "",
    cellText ((cellOf columns row "METRIC_TAGS").getD .null) ""⟩

/-- The time token of a row in Mode B, NULL read as "0". -/
def rowTimeTokB (columns : List ColumnType) (row : List NullString) : String :=
  cellText ((cellOf columns row "METRIC_TIME_EPOCH").getD .null) "0"

/-- The value of a row in Mode B, NULL read as 0. -/
def rowValueB {F : Type} (L : GoLib F) (columns : List ColumnType) (row : List NullString) :
    Option F :=
  valueOfCell L ((cellOf columns row "METRIC_VALUE").getD .null)

/-- The (time, value) point of a row in Mode B. -/
def rowPointB {F : Type} (L : GoLib F) (columns : List ColumnType) (row : List NullString) :
    Option (Time × F) :=
  match instantOf L (rowTimeTokB columns row), rowValueB L columns row with
  | some t, some v => some (t, v)
  | _, _ => none

/-- The four canonical column names are all present. -/
def hasCanonicalColumns (columns : List ColumnType) : Bool :=
  columns.any (fun c => c.Name = "METRIC_TAGS") &&
  columns.any (fun c => c.Name = "METRIC_VALUE") &&
  columns.any (fun c => c.Name = "METRIC_TIME_EPOCH") &&
  columns.any (fun c => c.Name = "METRIC_NAME")

/-! ### Modes B and C: provenance of a point -/

/-- The row supplies the point: one of its time cells denotes the instant
and one of its value cells (METRIC_VALUE, or a Number column) holds the value. -/
def supplies {F : Type} (L : GoLib F) (columns : List ColumnType) (row : List NullString)
    (p : Time × F) : Prop :=
  ∃ ct rawt cv rawv, (ct, rawt) ∈ columns.zip row ∧ (cv, rawv) ∈ columns.zip row ∧
    isTimeColumn ct.DatabaseTypeName ct.Name = true ∧
    (cv.Name = "METRIC_VALUE" ∨ isNumberColumn cv.DatabaseTypeName = true) ∧
    instantOf L (cellText rawt "0") = some p.1 ∧ valueOfCell L rawv = some p.2

/-! ### Mode C -/

/-- The semantic kind of a column. -/
inductive SemanticKind where
  | Time
  | Number
  | Char
  | Other
deriving DecidableEq, Repr

/-- Time if `isTimeColumn`, else Number if `isNumberColumn`, else Char if
`isCharColumn`, else Other. -/
def classify (c : ColumnType) : SemanticKind :=
  if isTimeColumn c.DatabaseTypeName c.Name then .Time
  else if isNumberColumn c.DatabaseTypeName then .Number
  else if isCharColumn c.DatabaseTypeName then .Char
  else .Other

/-- Number of columns of a kind. -/
def kindCount (k : SemanticKind) (columns : List ColumnType) : Nat :=
  columns.countP (fun c => classify c = k)

/-- The values of the Char columns of a row, column by column. -/
def charTuple (columns : List ColumnType) (row : List NullString) : List NullString :=
  ((columns.zip row).filter (fun p => classify p.1 = .Char)).map Prod.snd

/-- The concatenation of the non-NULL values of the Char columns of a row. -/
def charConcat (columns : List ColumnType) (row : List NullString) : String :=
  (charTuple columns row).foldl (fun key raw => key ++ cellText raw "") ""

/-- The token of the last Time column of a row, NULL read as "0". -/
def rowTimeTokC (columns : List ColumnType) (row : List NullString) : String :=
  (((columns.zip row).filter (fun p => classify p.1 = .Time)).map
    (fun p => cellText p.2 "0")).getLastD ""

/-- The series entries of a row in the multi-metric case: for each Number
column, the series key (the concatenated Char values followed by the column
name) and the point. -/
def rowEntriesC {F : Type} (L : GoLib F) (columns : List ColumnType) (row : List NullString) :
    List (String × Option (Time × F)) :=
  ((columns.zip row).filter (fun p => classify p.1 = .Number)).map (fun p =>
    (charConcat columns row ++ p.1.Name,
      match instantOf L (rowTimeTokC columns row), valueOfCell L p.2 with
      | some t, some v => some (t, v)
      | _, _ => none))

/-! ### Grouping -/

/-- A series map holds the entries `es` grouped by key: the keys are distinct
and are those of `es`, and each key maps to the values of the entries of `es`
under it, in the order of `es`. -/
def Grouped {κ ν : Type} [DecidableEq κ] (m : List (κ × List ν)) (es : List (κ × ν)) : Prop :=
  (m.map Prod.fst).Nodup ∧ (∀ k, k ∈ m.map Prod.fst ↔ k ∈ es.map Prod.fst) ∧
  ∀ k vs, (k, vs) ∈ m → vs = (es.filter (fun e => e.1 = k)).map Prod.snd

/-- A row of Mode B whose tokens parse: its point is defined, and its time
token is not one that `parseTime` maps to seconds -1. -/
def rowOkB {F : Type} (L : GoLib F) (columns : List ColumnType) (row : List NullString) : Bool :=
  (rowPointB L columns row).isSome && !secondsSentinel L (rowTimeTokB columns row)

/-- The series entry of a row in Mode B: its key and its (token, value) pair. -/
def entryB {F : Type} (L : GoLib F) (columns : List ColumnType) (row : List NullString) :
    MetricTagKey × TimeValuePair F :=
  (rowKeyB columns row, ⟨rowTimeTokB columns row, (rowValueB L columns row).getD L.zero⟩)

/-! ### Sample inputs -/

/-- The columns of a canonical time-series result. -/
def sampleColumnsB : List ColumnType :=
  [⟨"METRIC_TIME_EPOCH", "NUMBER"⟩, ⟨"METRIC_VALUE", "NUMBER"⟩, ⟨"METRIC_NAME", "VARCHAR2"⟩,
    ⟨"METRIC_TAGS", "VARCHAR2"⟩]

/-- Three rows of two series; the rows of the first series mix the two
timestamp grammars and are not in time order. -/
def sampleDataB : List (List NullString) :=
  [[.text "2024-01-02T00:00:00Z", .text "15", .text "cpu_usage",
      .text "\x7b\"node\":\"node-a\"\x7d"],
    [.text "1700000010", .text "5", .text "cpu_usage", .text "\x7b\"node\":\"node-a\"\x7d"],
    [.null, .null, .text "mem", .null]]

/-- The row holds the pair: one of its time cells holds the token (a NULL is
read as "0") and one of its value cells (METRIC_VALUE, or a Number column)
holds the value. -/
def pairFrom {F : Type} (L : GoLib F) (columns : List ColumnType) (row : List NullString)
    (pair : TimeValuePair F) : Prop :=
  ∃ ct rawt cv rawv, (ct, rawt) ∈ columns.zip row ∧ (cv, rawv) ∈ columns.zip row ∧
    isTimeColumn ct.DatabaseTypeName ct.Name = true ∧
    (cv.Name = "METRIC_VALUE" ∨ isNumberColumn cv.DatabaseTypeName = true) ∧
    pair.TimeStr = cellText rawt "0" ∧ valueOfCell L rawv = some pair.Value

/-- A derived-label result whose two rows, of one series, mix the two
timestamp grammars. -/
def sampleRowsC : Rows :=
  ⟨none, none, [⟨"METRIC_TIME", "TIMESTAMP"⟩, ⟨"NODE", "VARCHAR2"⟩, ⟨"VALUE", "NUMBER"⟩],
    [.ok [.text "2024-01-01T00:00:00Z", .text "node-a", .text "1"],
      .ok [.text "1700000100", .text "node-a", .text "2"]]⟩

/-- The (key, pair) entries the multi-metric case builds for a row: for each
Number column, the key and the time token with the value of the cell. -/
def rowPairsC {F : Type} (L : GoLib F) (columns : List ColumnType) (row : List NullString) :
    List (String × TimeValuePair F) :=
  ((columns.zip row).filter (fun p => classify p.1 = .Number)).map (fun p =>
    (charConcat columns row ++ p.1.Name,
      ⟨rowTimeTokC columns row, (valueOfCell L p.2).getD L.zero⟩))

/-- A row of the multi-metric case whose tokens parse: the point of each of
its entries is defined, and its time token is not one that `parseTime` maps to
seconds -1. -/
def rowOkC {F : Type} (L : GoLib F) (columns : List ColumnType) (row : List NullString) : Bool :=
  (rowEntriesC L columns row).all (fun e => e.2.isSome) &&
    !secondsSentinel L (rowTimeTokC columns row)

/-- The columns of a wide result: one Time, two Char and two Number columns. -/
def sampleColumnsWide : List ColumnType :=
  [⟨"T", "TIMESTAMP"⟩, ⟨"A", "VARCHAR2"⟩, ⟨"B", "VARCHAR2"⟩, ⟨"X", "NUMBER"⟩, ⟨"Y", "NUMBER"⟩]

/-- Two rows whose Char values differ column by column and have the same
concatenation. -/
def sampleDataWide : List (List NullString) :=
  [[.text "10", .text "ab", .text "c", .text "1", .text "2"],
    [.text "20", .text "a", .text "bc", .text "3", .text "4"]]

/-- A range-vector document with one result item of one point. -/
def samplePayloadOne : String :=
  "\x7b\"status\":\"success\",\"data\":\x7b\"resultType\":\"matrix\",\"result\":[\x7b\"metric\":\x7b\"__name__\":\"up\"\x7d,\"values\":[[1700000000,\"1\"]]\x7d]\x7d\x7d"

/-- A range-vector document with two result items; the value of the point
of the second item is not numeric. -/
def samplePayloadBad : String :=
  "\x7b\"status\":\"success\",\"data\":\x7b\"resultType\":\"matrix\",\"result\":[\x7b\"metric\":\x7b\"__name__\":\"up\"\x7d,\"values\":[[1700000000,\"1\"]]\x7d,\x7b\"metric\":\x7b\"__name__\":\"down\"\x7d,\"values\":[[1700000060,\"x\"]]\x7d]\x7d\x7d"

/-- The cursor of a PromQL query: one row, one column, holding the document. -/
def rowsOfPayload (payload : String) : Rows :=
  ⟨none, none, [⟨"PROM_RESULT", "CLOB"⟩], [.ok [.text payload]]⟩

/-! ### Error messages -/

/-- Go `strconv.Quote(s)` for a text of printable ASCII characters other than
the double quote and the backslash, which it copies between double quotes. -/
def Quote (s : String) : String := "\"" ++ s ++ "\""

/-- The message `Error()` of a `*strconv.NumError`:
`"strconv." + Func + ": parsing " + Quote(Num) + ": " + Err.Error()`. -/
def numErrorText (fn num : String) (kind : NumErrKind) : String :=
  "strconv." ++ fn ++ ": parsing " ++ Quote num ++ ": " ++
    (match kind with
     | .invalidSyntax => "invalid syntax"
     | .outOfRange => "value out of range")

/-- The message of `fmt.Errorf("invalid numeric value '%s' in column %s: %w", raw, col, err)`
for a cause with the message `cause`. -/
def invalidNumericText (raw col cause : String) : String :=
  "invalid numeric value '" ++ raw ++ "' in column " ++ col ++ ": " ++ cause

/-- Columns of a result with three Number columns. -/
def sampleColumnsThree : List ColumnType :=
  [⟨"T", "TIMESTAMP"⟩, ⟨"HOST", "VARCHAR2"⟩, ⟨"X", "NUMBER"⟩, ⟨"Y", "NUMBER"⟩, ⟨"Z", "NUMBER"⟩]

/-! ## SQL macro translation (the SQL branch of `query`)

Offsets and lengths count characters; on ASCII text they are the byte offsets
of the Go program. -/

/-- Offset of the first occurrence of `sep` in the text, if any. -/
def indexL (sep : List Char) : List Char → Option Nat
  | [] => if sep.isEmpty then some 0 else none
  | c :: cs => if sep.isPrefixOf (c :: cs) then some 0 else (indexL sep cs).map (fun i => i + 1)

/-- Go `strings.Index(s, sep)`: `-1` when `sep` does not occur. -/
def Index (s sep : String) : Int :=
  match indexL sep.toList s.toList with
  | some i => i
  | none => -1

/-- Go slice expression `s[lo:hi]`, a panic unless `0 ≤ lo ≤ hi ≤ len(s)`. -/
def slice (s : String) (lo hi : Int) : Except Fault String :=
  if 0 ≤ lo ∧ lo ≤ hi ∧ hi ≤ s.length then
    .ok (String.mk ((s.toList.take hi.toNat).drop lo.toNat))
  else .error .sliceBounds

/-- Worker of `Replace`; `skip` counts the characters of a replaced occurrence
that are still to be dropped. -/
def replaceAux (old new : List Char) : List Char → Nat → List Char
  | [], _ => []
  | _ :: cs, (k + 1) => replaceAux old new cs k
  | c :: cs, 0 =>
    if old.isPrefixOf (c :: cs) then new ++ replaceAux old new cs (old.length - 1)
    else c :: replaceAux old new cs 0

/-- Go `strings.Replace(s, old, new, -1)` for a non-empty `old`, as in every
call of the program: all non-overlapping occurrences, leftmost first. -/
def Replace (s old new : String) : String :=
  String.mk (replaceAux old.toList new.toList s.toList 0)

/-- Go `a * b` on `int64`. -/
def mul64 (a b : Int) : Int := wrapInt64 (a * b)

/-- The rewriting of `$__timeFilter(col)` (lines 1638-1655). -/
def expandTimeFilter (queryText : String) : Except Fault String :=
  if Contains queryText "$__timeFilter" then do
    let indx1 := Index queryText "$__timeFilter"
    let rest ← slice queryText indx1 queryText.length
    let indx2 := Index rest ")"
    let val ← slice queryText (indx1 + 14) (indx1 + indx2)
    let queryPart1 ← slice queryText 0 indx1
    let queryPart2 ← slice queryText (indx1 + indx2 + 1) queryText.length
    pure (queryPart1 ++ " " ++ val ++
      ">= to_date('19700101', 'YYYYMMDD') +" ++
      " ( 1 / 24 / 60 / 60 ) * :start_time and " ++ val ++
      "<= to_date('19700101', 'YYYYMMDD') +" ++
      " ( 1 / 24 / 60 / 60 ) * :end_time " ++ queryPart2)
  else pure queryText

/-- The rewriting of `$__unixEpochFilter(col)` (lines 1661-1672). -/
def expandUnixEpochFilter (queryText : String) : Except Fault String :=
  if Contains queryText "$__unixEpochFilter" then do
    let indx1 := Index queryText "$__unixEpochFilter"
    let rest ← slice queryText indx1 queryText.length
    let indx2 := Index rest ")"
    let val ← slice queryText (indx1 + 19) (indx1 + indx2)
    let queryPart1 ← slice queryText 0 indx1
    let queryPart2 ← slice queryText (indx1 + indx2 + 1) queryText.length
    pure (queryPart1 ++ " " ++ val ++ ">= :start_time*1000 and " ++
      val ++ "<= :end_time*1000 " ++ queryPart2)
  else pure queryText

/-- The conversion of the second parameter of `$__timeGroup` to a text of
seconds (lines 1700-1713); the errors of `ParseInt` are dropped as in the
source. -/
def intervalSeconds (step : Int) (split2 : String) : Except Fault String :=
  if split2 = "$__interval" then pure (FormatInt step)
  else if HasSuffix split2 "s" then slice split2 0 (split2.length - 1)
  else if HasSuffix split2 "m" then do
    let digits ← slice split2 0 (split2.length - 1)
    let minval := (ParseInt digits).1
    let secsval := mul64 minval 60
    pure (FormatInt secsval)
  else if HasSuffix split2 "h" then do
    let digits ← slice split2 0 (split2.length - 1)
    let hrval := (ParseInt digits).1
    let minval := mul64 hrval 60
    let secsval := mul64 minval 60
    pure (FormatInt secsval)
  else pure split2

/-- The text `groupStr` that replaces a `$__timeGroup` macro (lines 1726-1738). -/
def groupStr (split1 split2 : String) : String :=
  "TO_DATE('19700101', 'YYYYMMDD') +" ++
  " ( 1 / 24 / 60 / 60 / 1000) * FLOOR((" ++
  split1 ++
  " - TO_TIMESTAMP('1970-01-01 00:00:00'," ++
  "'yyyy-mm-dd hh24:mi:ss') + " ++
  "TO_DATE ('1970-01-01 00:00:00', " ++
  "'YYYY-mm-dd HH24:MI:SS') " ++
  "- TO_DATE ('1970-01-01 00:00:00'," ++
  " 'YYYY-mm-dd HH24:MI:SS'))*24*60*60*1000/" ++
  split2 ++
  "/1000)*" ++
  split2 ++
  "*1000"

/-- One pass of the loop over `$__timeGroup` (lines 1682-1740), entered when
the text contains the marker. -/
def expandTimeGroup (step : Int) (queryText : String) : Except Fault String := do
  let indx1 := Index queryText "$__timeGroup"
  let rest ← slice queryText indx1 queryText.length
  let indx2 := Index rest ")"
  let val ← slice queryText (indx1 + 13) (indx1 + indx2)
  let queryPart1 ← slice queryText 0 indx1
  let queryPart2 ← slice queryText (indx1 + indx2 + 1) queryText.length
  let splits := Split val ","
  let split1 := TrimSpace (splits.headD "")
  match splits with
  | _ :: s1 :: _ =>
    let split2 ← intervalSeconds step (TrimSpace s1)
    pure (queryPart1 ++ " " ++ groupStr split1 split2 ++ queryPart2)
  | _ => .error .indexOutOfRange

/-- The loop `for strings.Contains(queryText, "$__timeGroup")` run for at most
`fuel` passes; `none` when the passes are used up and the marker is still
there. -/
def timeGroupLoop (step : Int) : Nat → String → Except Fault (Option String)
  | 0, queryText =>
    if Contains queryText "$__timeGroup" then pure none else pure (some queryText)
  | fuel + 1, queryText =>
    if Contains queryText "$__timeGroup" then do
      let next ← expandTimeGroup step queryText
      timeGroupLoop step fuel next
    else pure (some queryText)

/-- The rewriting of `$__time(col)` (lines 1746-1756). -/
def expandTime (queryText : String) : Except Fault String :=
  if Contains queryText "$__time" then do
    let indx1 := Index queryText "$__time"
    let rest ← slice queryText indx1 queryText.length
    let indx2 := Index rest ")"
    let val ← slice queryText (indx1 + 8) (indx1 + indx2)
    let queryPart1 ← slice queryText 0 indx1
    let queryPart2 ← slice queryText (indx1 + indx2 + 1) queryText.length
    pure (queryPart1 ++ " " ++ val ++ " as time " ++ queryPart2)
  else pure queryText

/-- The substitution of `:start_time` and `:end_time` (lines 1759-1781);
`fromT` and `toT` are `query.TimeRange.From` and `query.TimeRange.To`. -/
def substituteRange (queryText : String) (fromT toT : Time) : String :=
  if Contains queryText ":start_time" && Contains queryText ":end_time" then
    let stVal := FormatInt fromT.Unix
    let etVal := FormatInt toT.Unix
    let queryText2 := Replace queryText ":start_time" stVal
    Replace queryText2 ":end_time" etVal
  else if Contains queryText ":start_time" then
    Replace queryText ":start_time" (FormatInt fromT.Unix)
  else if Contains queryText ":end_time" then
    Replace queryText ":end_time" (FormatInt toT.Unix)
  else queryText

/-- The text `queryTextConverted` that the SQL branch of `query` computes from
the expression `queryText` and the step text `stepSize` (lines 1634-1783);
`none` when `fuel` passes do not remove every `$__timeGroup`. -/
def querySqlText (fuel : Nat) (queryText stepSize : String) (fromT toT : Time) :
    Except Fault (Option String) := do
  let step := (ParseInt stepSize).1
  let q1 ← expandTimeFilter queryText
  let q2 ← expandUnixEpochFilter q1
  match ← timeGroupLoop step fuel q2 with
  | none => pure none
  | some q3 =>
    let q4 ← expandTime q3
    pure (some (substituteRange q4 fromT toT))

/-! ### Legend templates -/

/-- The template `L0 {{k1}} L1 ... {{kn}} Ln`, given `L0` and the pairs `(ki, Li)`. -/
def templateText : String → List (String × String) → String
  | l0, [] => l0
  | l0, (k, l) :: more => l0 ++ "\x7b\x7b" ++ k ++ "\x7d\x7d" ++ templateText l more

/-- The expansion `L0 T[k1] L1 ... T[kn] Ln` of that template on the tags `T`. -/
def templateValue (tags : Option (List (String × String))) :
    String → List (String × String) → String
  | l0, [] => l0
  | l0, (k, l) :: more => l0 ++ mapGet tags k ++ templateValue tags l more

/-- Whether a text has neither an opening nor a closing brace. -/
def braceFree (s : String) : Bool :=
  s.toList.all (fun c => c ≠ Char.ofNat 123 && c ≠ Char.ofNat 125)

/-- The expansion of a template without its last literal:
`L0 T[k1] L1 ... L(n-1) T[kn]`, empty when there is no key. -/
def legendPrefix (tags : Option (List (String × String))) :
    String → List (String × String) → String
  | _, [] => ""
  | l0, (k, l) :: more => l0 ++ mapGet tags k ++ legendPrefix tags l more

/-- The last literal `Ln` of a template. -/
def lastLiteral : String → List (String × String) → String
  | l0, [] => l0
  | _, (_, l) :: more => lastLiteral l more

/-! ### Placeholders -/

/-- Worker of `substitutePlaceholders`, one pass from the left; `skip` counts
the characters of a replaced occurrence that are still to be dropped. -/
def replaceBothAux (old1 new1 old2 new2 : List Char) : List Char → Nat → List Char
  | [], _ => []
  | _ :: cs, (k + 1) => replaceBothAux old1 new1 old2 new2 cs k
  | c :: cs, 0 =>
    if old1.isPrefixOf (c :: cs) then
      new1 ++ replaceBothAux old1 new1 old2 new2 cs (old1.length - 1)
    else if old2.isPrefixOf (c :: cs) then
      new2 ++ replaceBothAux old1 new1 old2 new2 cs (old2.length - 1)
    else c :: replaceBothAux old1 new1 old2 new2 cs 0

/-- The text `q` with every occurrence of `:start_time` replaced by the decimal
text of `f` and every occurrence of `:end_time` by the decimal text of `t`. -/
def substitutePlaceholders (q : String) (f t : Int) : String :=
  String.mk (replaceBothAux ":start_time".toList (FormatInt f).toList
    ":end_time".toList (FormatInt t).toList q.toList 0)

/-! ### Macros -/

/-- Whether a text has none of the four macro markers. -/
def macroFree (s : String) : Bool :=
  !Contains s "$__timeFilter" && !Contains s "$__unixEpochFilter" &&
    !Contains s "$__timeGroup" && !Contains s "$__time"

/-- Whether a text has neither `:start_time` nor `:end_time`. -/
def placeholderFree (s : String) : Bool :=
  !Contains s ":start_time" && !Contains s ":end_time"

/-- The forms of the second parameter of `$__timeGroup` that the translation
converts: `$__interval`, and a count of seconds, minutes or hours. -/
inductive Interval where
  | auto
  | seconds (n : Nat)
  | minutes (n : Nat)
  | hours (n : Nat)
deriving DecidableEq, Repr

/-- The text of an interval: `$__interval`, or the decimal count followed by
`s`, `m` or `h`. -/
def Interval.text : Interval → String
  | .auto => "$__interval"
  | .seconds n => toString n ++ "s"
  | .minutes n => toString n ++ "m"
  | .hours n => toString n ++ "h"

/-- The seconds an interval stands for, given the step of the caller. -/
def Interval.secs (step : Int) : Interval → Int
  | .auto => step
  | .seconds n => n
  | .minutes n => 60 * n
  | .hours n => 3600 * n

/-! ## Single-column extractor -/

/-- What a call of `getSingleColumnDF` leaves behind: the two results and the
value of `*rowsProcessed` after the call. -/
structure RetSingle (F : Type) where
  frames : List (Frame F)
  err : Option Error
  rowsProcessed : Int
deriving DecidableEq, Repr

/-- Go `rows.Scan(dest...)` with every destination a `*string`, on the values
of a row from the column with index `i` on: the values, or the message of the
error that `database/sql` returns at the first NULL, which it does not
convert to a `string`. -/
def scanStrings (columns : List ColumnType) : Nat → List NullString → Except String (List String)
  | _, [] => .ok []
  | i, .null :: _ => .error (scanNullText i (columnName columns i))
  | i, .text s :: rest =>
    match scanStrings columns (i + 1) rest with
    | .error e => .error e
    | .ok ss => .ok (s :: ss)

/-- Go `frame.AppendRow(vals...)` when the values may outnumber the fields:
the SDK stores the i-th value in `Fields[i]`. -/
def Frame.AppendRowChecked {F : Type} (fr : Frame F) (vals : List (Val F)) :
    Except Fault (Frame F) :=
  if vals.length ≤ fr.Fields.length then .ok (fr.AppendRow vals) else .error .indexOutOfRange

/-- The loop `for rows.Next()` of `getSingleColumnDF` and the return after it. -/
def loopSingle {F : Type} (columns : List ColumnType) (rowsProcessed : Int) :
    List (Except String (List NullString)) → Frame F → Int → Except Fault (RetSingle F)
  | [], frame, rowsTotal => .ok ⟨[frame], none, rowsTotal⟩
  | .error e :: _, _, _ => .ok ⟨[], some (.scan e), rowsProcessed⟩
  | .ok row :: rest, frame, rowsTotal =>
    match scanStrings columns 0 row with
    | .error e => .ok ⟨[], some (.scan e), rowsProcessed⟩
    | .ok rawResult =>
      match frame.AppendRowChecked (rawResult.map Val.string) with
      | .error e => .error e
      | .ok frame1 => loopSingle columns rowsProcessed rest frame1 (rowsTotal + 1)

/-- Translation of `getSingleColumnDF` (lines 482-527).  `rowsProcessed` is
the value of `*rowsProcessed` before the call; `timeAfterQuery` and the
logging calls are left out. -/
def getSingleColumnDF {F : Type} (rows : Rows) (rowsProcessed : Int) :
    Except Fault (RetSingle F) :=
  match rows.columnsErr with
  | some e => .ok ⟨[], some (.rows e), rowsProcessed⟩
  | none =>
    match rows.columns with
    | [] => .error .indexOutOfRange
    | c :: _ =>
      loopSingle rows.columns rowsProcessed rows.rows
        ⟨"response", [NewField c.Name none .string]⟩ 0

/-! ## Variable queries -/

/-- The text of the query that `query` builds for `refId = "metricFindQuery"`
from the value `metricName` of `expr` (lines 1506-1511). -/
def metricFindQueryText (metricName deploymentType : String) : Except Fault String := do
  let mn ← slice metricName 0 (Index metricName "&start")
  let start ← slice metricName (Index metricName "start" + 6) (Index metricName "start" + 16)
  let endText ← slice metricName (Index metricName "end" + 4) (Index metricName "end" + 14)
  pure (Sprintf (getConstants "variable_query_str" deploymentType)
    [.str mn, .str start, .str endText])

/-! ## A second instance of the library -/

/-- The reference library with `range` visiting the entries of a map last
inserted first: Go leaves the order open, so this is one more run of the same
program. -/
def refLibReversed : GoLib Int :=
  { refLib with
    rangeOrder := fun m => m.reverse
    rangeOrder_perm := fun m => List.reverse_perm m }
/-! ### Tag maps -/

/-- A value field that carries no tag map: nil labels, the display name
equal to the name, no value yet. -/
def untaggedField {F : Type} (name : String) : Field F := ⟨name, none, some name, .float64, []⟩

/-- The library with another outcome of the decoding of the tags. -/
def withTags {F : Type} (L : GoLib F)
    (u : String → Option (Option (List (String × String)))) : GoLib F :=
  { L with unmarshalTags := u }

/-- A Mode B cursor of three rows whose METRIC_TAGS are empty, no JSON and a
JSON object. -/
def sampleRowsTags : Rows :=
  ⟨none, none, sampleColumnsB,
    [.ok [.text "1700000010", .text "5", .text "cpu", .text ""],
      .ok [.text "1700000020", .text "6", .text "cpu", .text "node-a"],
      .ok [.text "1700000030", .text "7", .text "cpu", .text "\x7b\"node\":\"node-a\"\x7d"]]⟩
/-- What the call on `sampleRowsTags` returns with the legend that reads the tag node. -/
def sampleRetTags : Ret Int :=
  ⟨[seriesOf "query" (untaggedField "lv ") [(Time.ofUnix 1700000010 0, 5)],
      seriesOf "query" (untaggedField "lv ") [(Time.ofUnix 1700000020 0, 6)],
      seriesOf "query" (untaggedField "lv node-a") [(Time.ofUnix 1700000030 0, 7)]],
    "", none, 3, 3⟩

/-- A tabular cursor of three rows, the last with a value that is no number. -/
def sampleRowsBadValue : Rows :=
  ⟨none, none, [⟨"METRIC_TIME", "TIMESTAMP"⟩, ⟨"VALUE", "NUMBER"⟩],
    [.ok [.text "1700000000", .text "1"], .ok [.text "1700000060", .text "2"],
      .ok [.text "1700000120", .text "x"]]⟩

/-- A derived-label cursor of two rows of two series. -/
def sampleRowsTwoSeries : Rows :=
  ⟨none, none, [⟨"METRIC_TIME", "TIMESTAMP"⟩, ⟨"NODE", "VARCHAR2"⟩, ⟨"VALUE", "NUMBER"⟩],
    [.ok [.text "1700000000", .text "node-a", .text "1"],
      .ok [.text "1700000000", .text "node-b", .text "2"]]⟩

/-- A range-vector document with one result item whose `values` holds the
one entry `entry`. -/
def payloadWithEntry (entry : String) : String :=
  "\x7b\"status\":\"success\",\"data\":\x7b\"resultType\":\"matrix\",\"result\":[\x7b\"metric\":\x7b\"__name__\":\"up\"\x7d,\"values\":[" ++ entry ++ "]\x7d]\x7d\x7d"

/-! ### Occurrences of a marker and the pieces of `groupStr` -/

/-- Number of the positions of the text at which the pattern starts. -/
def occL (pat : List Char) : List Char → Nat
  | [] => 0
  | c :: cs => (if pat.isPrefixOf (c :: cs) then 1 else 0) + occL pat cs

/-- The marker of the macro `$__timeGroup`, as characters. -/
def groupMarker : List Char := "$__timeGroup".toList

/-- The literal of `groupStr` before the first parameter. -/
def groupA : List Char :=
  "TO_DATE('19700101', 'YYYYMMDD') + ( 1 / 24 / 60 / 60 / 1000) * FLOOR((".toList

/-- The literal of `groupStr` after the first parameter and its blank, up to
the last but one closing parenthesis. -/
def groupB : List Char :=
  ("- TO_TIMESTAMP('1970-01-01 00:00:00','yyyy-mm-dd hh24:mi:ss') + " ++
    "TO_DATE ('1970-01-01 00:00:00', 'YYYY-mm-dd HH24:MI:SS') " ++
    "- TO_DATE ('1970-01-01 00:00:00', 'YYYY-mm-dd HH24:MI:SS')").toList

/-- The literal of `groupStr` between that parenthesis and the divisor. -/
def groupC : List Char := "*24*60*60*1000/".toList

/-- The characters of `groupStr split1 split2` followed by `rest`. -/
def groupL (split1 split2 rest : List Char) : List Char :=
  groupA ++ (split1 ++ ' ' :: (groupB ++ ')' :: (groupC ++ (split2 ++ '/' :: ("1000".toList ++
    ')' :: '*' :: (split2 ++ '*' :: ("1000".toList ++ rest)))))))

/-- The loop over `$__timeGroup` comes to an end on the text: some number of
passes leaves a text without the marker, or ends in a fault on the bounds of
a slice or on an index. -/
def LoopHalts (step : Int) (q : String) : Prop :=
  ∃ fuel : Nat,
    (∃ r, timeGroupLoop step fuel q = .ok (some r) ∧ Contains r "$__timeGroup" = false) ∨
    (∃ e, timeGroupLoop step fuel q = .error e ∧ (e = .sliceBounds ∨ e = .indexOutOfRange))

/-! # Theorems -/

/-! ## Timestamps -/

theorem parseTime_zero {F : Type} (L : GoLib F) : parseTime L "0" = (0, 0, none) := by
  rfl

/-- On success the nanoseconds of `parseTime` are not negative. -/
theorem parseTime_nsec_nonneg {F : Type} (L : GoLib F) (s : String) (sec nsec : Int)
    (h : parseTime L s = (sec, nsec, none)) : 0 ≤ nsec := by
  unfold parseTime at h
  simp only at h
  split at h
  · cases h
  · split at h
    · split at h
      · cases h
      · cases h; exact Int.le_refl 0
    · split at h
      · cases h
      · split at h
        · cases h
        · rename_i d hd
          cases h
          exact L.ParseDuration_nonneg _ _ hd

/-- An accepted token: the row loops of Modes A and C convert it to its instant. -/
theorem timeCell_of_instantOf {F : Type} (L : GoLib F) (tok : String) (t : Time)
    (h : instantOf L tok = some t) (hs : secondsSentinel L tok = false) :
    timeCell L tok tok = .ok t := by
  unfold instantOf at h
  unfold timeCell
  unfold secondsSentinel at hs
  cases hr : L.parseRFC3339 tok with
  | some t1 => rw [hr] at h; simp only at h ⊢; cases h; rfl
  | none =>
    rw [hr] at h hs
    simp only at h ⊢
    rcases hp : parseTime L tok with ⟨sec, nsec, err⟩
    rw [hp] at h hs
    cases err with
    | some e => simp at h
    | none =>
      simp only [Option.some.injEq] at h
      have hn := parseTime_nsec_nonneg L tok sec nsec hp
      have hsec : sec ≠ -1 := by simpa using hs
      have hnsec : nsec ≠ -1 := by omega
      simp [hsec, hnsec, h]

/-- What the row loops of Modes A and C accept is the instant of the token,
and the instant by which the sort closure orders it. -/
theorem instantOf_of_timeCell {F : Type} (L : GoLib F) (tok : String) (t : Time)
    (h : timeCell L tok tok = .ok t) : instantOf L tok = some t ∧ sortInstant L tok = t := by
  unfold timeCell at h
  unfold instantOf sortInstant
  cases hr : L.parseRFC3339 tok with
  | some t1 => rw [hr] at h; simp only at h ⊢; cases h; exact ⟨rfl, rfl⟩
  | none =>
    rw [hr] at h
    simp only at h ⊢
    rcases hp : parseTime L tok with ⟨sec, nsec, err⟩
    rw [hp] at h
    simp only at h ⊢
    split at h
    · rename_i hc
      cases h
      rw [hc.1]
      exact ⟨rfl, rfl⟩
    · cases h

/-- The point Mode B emits for a pair carries the instant of its token, the
instant by which the sort closure orders it, and its value. -/
theorem pointB_some {F : Type} (L : GoLib F) (pair : TimeValuePair F) (p : Time × F)
    (h : pointB L pair = some p) :
    instantOf L pair.TimeStr = some p.1 ∧ sortInstant L pair.TimeStr = p.1 ∧
      p.2 = pair.Value := by
  unfold pointB at h
  unfold instantOf sortInstant
  cases hr : L.parseRFC3339 pair.TimeStr with
  | some t1 => rw [hr] at h; simp only at h ⊢; cases h; exact ⟨rfl, rfl, rfl⟩
  | none =>
    rw [hr] at h
    simp only at h ⊢
    rcases hp : parseTime L pair.TimeStr with ⟨sec, nsec, err⟩
    rw [hp] at h
    simp only at h ⊢
    split at h
    · cases h
    · rename_i hc
      cases h
      have he : err = none := by
        by_contra hne
        exact hc (Or.inl hne)
      subst he
      exact ⟨rfl, rfl, rfl⟩

/-- Mode B emits the point of every pair whose token is accepted. -/
theorem pointB_of_instantOf {F : Type} (L : GoLib F) (tok : String) (v : F) (t : Time)
    (h : instantOf L tok = some t) (hs : secondsSentinel L tok = false) :
    pointB L ⟨tok, v⟩ = some (t, v) := by
  unfold instantOf at h
  unfold pointB
  unfold secondsSentinel at hs
  cases hr : L.parseRFC3339 tok with
  | some t1 => rw [hr] at h; simp only at h ⊢; cases h; rfl
  | none =>
    rw [hr] at h hs
    simp only at h ⊢
    rcases hp : parseTime L tok with ⟨sec, nsec, err⟩
    rw [hp] at h hs
    cases err with
    | some e => simp at h
    | none =>
      simp only [Option.some.injEq] at h
      have hsec : sec ≠ -1 := by simpa using hs
      simp [hsec, h]

/-! ## Mode A -/

theorem cellOkA_isSome {F : Type} (L : GoLib F) (c : ColumnType) (raw : NullString)
    (hok : cellOkA L c raw = true) : (specCellA L c raw).isSome = true := by
  unfold cellOkA at hok
  simp only [Bool.and_eq_true] at hok
  exact hok.1

/-- The conversion of the code agrees with the specified value of a cell. -/
theorem cellA_of_spec {F : Type} (L : GoLib F) (c : ColumnType) (raw : NullString) (v : Val F)
    (hok : cellOkA L c raw = true) (hv : specCellA L c raw = some v) : cellA L c raw = .ok v := by
  unfold cellOkA at hok
  simp only [Bool.and_eq_true, Bool.not_eq_true', Bool.and_eq_false_iff] at hok
  unfold specCellA at hv
  unfold cellA
  by_cases ht : isTimeColumn c.DatabaseTypeName c.Name = true
  · rw [if_pos ht] at hv ⊢
    cases raw with
    | null =>
      simp only [Option.some.injEq] at hv
      subst hv
      simp [NullString.Valid, NullString.String, timeCell, L.parseRFC3339_empty, parseTime_zero]
    | text s =>
      simp only [Option.map_eq_some'] at hv
      obtain ⟨t, h1, h2⟩ := hv
      subst h2
      simp [NullString.Valid, NullString.String,
        timeCell_of_instantOf L s t h1
          (by rcases hok.2 with h | h
              · rw [ht] at h; cases h
              · simpa [cellText] using h)]
  · rw [if_neg ht] at hv ⊢
    by_cases hn : isNumberColumn c.DatabaseTypeName = true
    · rw [if_pos hn] at hv ⊢
      simp only [Option.map_eq_some'] at hv
      obtain ⟨f, h1, h2⟩ := hv
      subst h2
      cases raw with
      | null =>
        simp only [valueOfCell, Option.some.injEq] at h1
        subst h1
        simp [NullString.Valid, L.ParseFloat_zero]
      | text s =>
        simp only [valueOfCell] at h1
        cases hp : L.ParseFloat s with
        | error k => rw [hp] at h1; simp [Except.toOption] at h1
        | ok f1 =>
          rw [hp] at h1
          simp only [Except.toOption, Option.some.injEq] at h1
          subst h1
          simp [NullString.Valid, NullString.String, hp]
    · rw [if_neg hn] at hv ⊢
      simp only [Option.some.injEq] at hv
      subst hv
      cases raw <;> rfl

/-- The specified values of the cells of a row. -/
theorem rowA_of_spec {F : Type} (L : GoLib F) (columns : List ColumnType) :
    ∀ row : List NullString, (∀ p ∈ columns.zip row, cellOkA L p.1 p.2 = true) →
      rowA L columns row = .ok ((columns.zip row).filterMap (fun p => specCellA L p.1 p.2)) := by
  induction columns with
  | nil => intro row _; cases row <;> rfl
  | cons c cs ih =>
    intro row h
    cases row with
    | nil => rfl
    | cons raw raws =>
      have hc : cellOkA L c raw = true := h (c, raw) (by simp)
      obtain ⟨v, hv⟩ := Option.isSome_iff_exists.1 (cellOkA_isSome L c raw hc)
      have hrest := ih raws (fun p hp => h p (by simp [hp]))
      simp only [rowA, cellA_of_spec L c raw v hc hv, hrest, List.zip_cons_cons,
        List.filterMap_cons, hv]

theorem appendVals_nil {F : Type} (fs : List (Field F)) : appendVals fs [] = fs := by
  cases fs <;> rfl

/-- Appending rows fills the first field with the first values of the rows. -/
theorem foldl_appendVals_cons {F : Type} :
    ∀ (valss : List (List (Val F))) (f : Field F) (fs : List (Field F)),
      valss.foldl appendVals (f :: fs) =
        ⟨f.Name, f.Labels, f.DisplayNameFromDS, f.ftype, f.values ++ valss.filterMap List.head?⟩ ::
          (valss.map List.tail).foldl appendVals fs := by
  intro valss
  induction valss with
  | nil => intro f fs; simp
  | cons vals rest ih =>
    intro f fs
    cases vals with
    | nil =>
      simp only [List.foldl_cons, appendVals_nil, List.map_cons, List.tail_nil]
      rw [ih]
      simp
    | cons v vs =>
      simp only [List.foldl_cons, appendVals, List.map_cons, List.tail_cons]
      rw [ih]
      simp [Field.append]

theorem foldl_appendVals_nil {F : Type} (valss : List (List (Val F))) :
    valss.foldl appendVals ([] : List (Field F)) = [] := by
  induction valss with
  | nil => rfl
  | cons vals rest ih => simpa [appendVals] using ih

/-- Appending the specified rows to the fresh fields gives the specified fields. -/
theorem foldl_appendVals_fieldsA {F : Type} (L : GoLib F) (legendTextVal : String) :
    ∀ (columns : List ColumnType) (data : List (List NullString)),
      (∀ row ∈ data, ∀ p ∈ columns.zip row, cellOkA L p.1 p.2 = true) →
      (data.map (fun row => (columns.zip row).filterMap (fun p => specCellA L p.1 p.2))).foldl
          appendVals (fieldsA legendTextVal columns) =
        specFieldsA L legendTextVal columns data := by
  intro columns
  induction columns with
  | nil => intro data _; simp [fieldsA, specFieldsA, foldl_appendVals_nil]
  | cons c cs ih =>
    intro data h
    have hhead : (data.map (fun row =>
        ((c :: cs).zip row).filterMap (fun p => specCellA L p.1 p.2))).filterMap List.head? =
        data.filterMap (fun row => row.head?.bind (specCellA L c)) := by
      rw [List.filterMap_map]
      apply List.filterMap_congr
      intro row hrow
      cases row with
      | nil => rfl
      | cons raw raws =>
        obtain ⟨v, hv⟩ := Option.isSome_iff_exists.1
          (cellOkA_isSome L c raw (h _ hrow (c, raw) (by simp)))
        simp [List.filterMap_cons, hv]
    have htail : (data.map (fun row =>
        ((c :: cs).zip row).filterMap (fun p => specCellA L p.1 p.2))).map List.tail =
        (data.map List.tail).map
          (fun row => (cs.zip row).filterMap (fun p => specCellA L p.1 p.2)) := by
      rw [List.map_map, List.map_map]
      apply List.map_congr_left
      intro row hrow
      cases row with
      | nil => cases cs <;> rfl
      | cons raw raws =>
        obtain ⟨v, hv⟩ := Option.isSome_iff_exists.1
          (cellOkA_isSome L c raw (h _ hrow (c, raw) (by simp)))
        simp [List.filterMap_cons, hv]
    have hrest : ∀ row ∈ data.map List.tail, ∀ p ∈ cs.zip row, cellOkA L p.1 p.2 := by
      intro row hrow p hp
      obtain ⟨row0, h0, rfl⟩ := List.mem_map.1 hrow
      cases row0 with
      | nil => simp at hp
      | cons raw raws => exact h _ h0 p (by simp at hp ⊢; exact Or.inr hp)
    have hfields : fieldsA (F := F) legendTextVal (c :: cs) =
        (if isTimeColumn c.DatabaseTypeName c.Name then NewField c.Name none .time
          else if isNumberColumn c.DatabaseTypeName then
            (NewField c.Name none .float64).SetConfig
              (if legendTextVal ≠ "" then legendTextVal else c.Name)
          else (NewField c.Name none .string).SetConfig
              (if legendTextVal ≠ "" then legendTextVal else c.Name)) ::
          fieldsA legendTextVal cs := by
      simp [fieldsA]
    rw [hfields, foldl_appendVals_cons, hhead, htail, ih _ hrest]
    simp only [specFieldsA, specKindA]
    congr 1
    by_cases ht : isTimeColumn c.DatabaseTypeName c.Name = true
    · simp [ht, NewField]
    · by_cases hn : isNumberColumn c.DatabaseTypeName = true
      · simp [ht, hn, NewField, Field.SetConfig]
      · simp [ht, hn, NewField, Field.SetConfig]

/-- The row loop of Mode A on rows that all convert. -/
theorem loopA_of_spec {F : Type} (L : GoLib F) (columns : List ColumnType) (rp : Int) :
    ∀ (data : List (List NullString)) (fr : Frame F) (t : Int) (n : Nat),
      (∀ row ∈ data, ∀ p ∈ columns.zip row, cellOkA L p.1 p.2 = true) →
      loopA L columns rp (data.map Except.ok) fr t n =
        ⟨[⟨fr.Name, (data.map (fun row =>
            (columns.zip row).filterMap (fun p => specCellA L p.1 p.2))).foldl
              appendVals fr.Fields⟩], "", none, t + data.length, n + data.length⟩ := by
  intro data
  induction data with
  | nil => intro fr t n _; simp [loopA]
  | cons row rest ih =>
    intro fr t n h
    have hrow := rowA_of_spec L columns row (h row (by simp))
    simp only [List.map_cons, loopA, hrow]
    rw [ih _ _ _ (fun r hr => h r (by simp [hr]))]
    simp only [Frame.AppendRow, List.foldl_cons, List.length_cons, Nat.cast_add, Nat.cast_one]
    congr 1 <;> omega

theorem specFieldsA_length {F : Type} (L : GoLib F) (legendTextVal : String) :
    ∀ (columns : List ColumnType) (data : List (List NullString)),
      (specFieldsA L legendTextVal columns data).length = columns.length := by
  intro columns
  induction columns with
  | nil => intro data; rfl
  | cons c cs ih => intro data; simp [specFieldsA, ih]

theorem specFieldsA_kinds {F : Type} (L : GoLib F) (legendTextVal : String) :
    ∀ (columns : List ColumnType) (data : List (List NullString)),
      List.Forall₂ (fun c f => f.Name = c.Name ∧ f.ftype = specKindA c) columns
        (specFieldsA L legendTextVal columns data) := by
  intro columns
  induction columns with
  | nil => intro data; exact List.Forall₂.nil
  | cons c cs ih => intro data; exact List.Forall₂.cons ⟨rfl, rfl⟩ (ih _)

/-- Every specified field holds one value per row. -/
theorem specFieldsA_values_length {F : Type} (L : GoLib F) (legendTextVal : String) :
    ∀ (columns : List ColumnType) (data : List (List NullString)),
      (∀ row ∈ data, row.length = columns.length ∧ ∀ p ∈ columns.zip row, cellOkA L p.1 p.2 = true) →
      ∀ f ∈ specFieldsA L legendTextVal columns data, f.values.length = data.length := by
  intro columns
  induction columns with
  | nil => intro data _ f hf; simp [specFieldsA] at hf
  | cons c cs ih =>
    intro data h f hf
    simp only [specFieldsA, List.mem_cons] at hf
    rcases hf with hf | hf
    · subst hf
      simp only
      have : ∀ (rows : List (List NullString)),
          (∀ row ∈ rows, row.length = (c :: cs).length ∧
            ∀ p ∈ (c :: cs).zip row, cellOkA L p.1 p.2 = true) →
          (rows.filterMap (fun row => row.head?.bind (specCellA L c))).length = rows.length := by
        intro rows
        induction rows with
        | nil => intro _; rfl
        | cons row rest ihr =>
          intro hr
          have h1 := hr row (by simp)
          cases row with
          | nil => simp at h1
          | cons raw raws =>
            obtain ⟨v, hv⟩ := Option.isSome_iff_exists.1
              (cellOkA_isSome L c raw (h1.2 (c, raw) (by simp)))
            simp [List.filterMap_cons, hv, ihr (fun r hr1 => hr r (by simp [hr1]))]
      exact this data h
    · have hlen := ih (data.map List.tail) (by
        intro row hrow
        obtain ⟨row0, h0, rfl⟩ := List.mem_map.1 hrow
        have h1 := h row0 h0
        cases row0 with
        | nil => simp at h1
        | cons raw raws =>
          refine ⟨by simpa using h1.1, ?_⟩
          intro p hp
          exact h1.2 p (by simp at hp ⊢; exact Or.inr hp)) f hf
      simpa using hlen

/-- C3 (amended).  Mode A (promql unset, convertToTimeSeries unset): for every
cursor with N columns and R rows, one cell per column, whose tokens all parse
and whose time tokens are none that `parseTime` maps to seconds -1, the call
returns one frame with N fields; field i is named after column i and is a
time field if `isTimeColumn`, else a float field if `isNumberColumn`, else a
string field; every field holds exactly R values, those of its column in
cursor row order (a NULL Number is 0, a NULL Time epoch 0, a NULL text the
empty string); no error is returned and `rowsProcessed` is R. -/
theorem modeA_frame {F : Type} (L : GoLib F) (columns : List ColumnType)
    (data : List (List NullString)) (qryInputVal legendTextVal queryTextConverted : String)
    (rp : Int)
    (h : ∀ row ∈ data, row.length = columns.length ∧
      ∀ p ∈ columns.zip row, cellOkA L p.1 p.2 = true) :
    getDataFrameFromRows L ⟨none, none, columns, data.map Except.ok⟩ false false qryInputVal
        legendTextVal queryTextConverted rp =
      .ok ⟨[⟨queryTextConverted, specFieldsA L legendTextVal columns data⟩], "", none,
        data.length, data.length⟩ ∧
    (specFieldsA L legendTextVal columns data).length = columns.length ∧
    List.Forall₂ (fun c f => f.Name = c.Name ∧ f.ftype = specKindA c) columns
      (specFieldsA L legendTextVal columns data) ∧
    ∀ f ∈ specFieldsA L legendTextVal columns data, f.values.length = data.length := by
  refine ⟨?_, specFieldsA_length L legendTextVal columns data,
    specFieldsA_kinds L legendTextVal columns data,
    specFieldsA_values_length L legendTextVal columns data h⟩
  have hcells : ∀ row ∈ data, ∀ p ∈ columns.zip row, cellOkA L p.1 p.2 = true :=
    fun row hrow => (h row hrow).2
  simp only [getDataFrameFromRows, modeA, Bool.not_false, Bool.and_self, if_true]
  rw [loopA_of_spec L columns rp data _ 0 0 hcells,
    foldl_appendVals_fieldsA L legendTextVal columns data hcells]
  simp

theorem modeA_frame_witness :
    getDataFrameFromRows refLib
        ⟨none, none, [⟨"TAGS", "VARCHAR2"⟩, ⟨"VALUE", "NUMBER"⟩, ⟨"TIME", "NUMBER"⟩],
          [[.text "a", .text "1", .text "1766486300"], [.null, .null, .null],
            [.text "b", .text "3", .text "2024-01-01T00:00:00Z"]].map Except.ok⟩
        false false "SELECT" "" "query" 0 =
      .ok ⟨[⟨"query",
        [⟨"TAGS", none, some "TAGS", .string, [.string "a", .string "", .string "b"]⟩,
          ⟨"VALUE", none, some "VALUE", .float64, [.float 1, .float 0, .float 3]⟩,
          ⟨"TIME", none, none, .time,
            [.time ⟨1766486300000000000⟩, .time ⟨0⟩, .time ⟨1704067200000000000⟩]⟩]⟩],
        "", none, 3, 3⟩ := by
  have h := (modeA_frame refLib [⟨"TAGS", "VARCHAR2"⟩, ⟨"VALUE", "NUMBER"⟩, ⟨"TIME", "NUMBER"⟩]
    [[.text "a", .text "1", .text "1766486300"], [.null, .null, .null],
      [.text "b", .text "3", .text "2024-01-01T00:00:00Z"]] "SELECT" "" "query" 0
    (by decide)).1
  rw [h]
  decide

/-- C3, counterexample.  A Mode A cursor whose only token, the time -1 (one
second before the epoch), parses: `parseTime` returns (-1, 0) without error.
The call returns no frame at all, and no error. -/
theorem modeA_frame_counterexample :
    parseTime refLib "-1" = (-1, 0, none) ∧
    (specCellA refLib ⟨"TIME", "NUMBER"⟩ (.text "-1")) = some (.time (Time.ofUnix (-1) 0)) ∧
    getDataFrameFromRows refLib ⟨none, none, [⟨"TIME", "NUMBER"⟩], [.ok [.text "-1"]]⟩
        false false "SELECT" "" "query" 0 =
      .ok ⟨[], "", none, 0, 1⟩ := by
  decide

/-! ## PromQL range conversion -/

theorem wrapInt64_of_fits (x : Int) (h1 : minInt64 ≤ x) (h2 : x ≤ maxInt64) : wrapInt64 x = x := by
  unfold wrapInt64 minInt64 maxInt64 at *
  omega

theorem wrapInt64_range (x : Int) : minInt64 ≤ wrapInt64 x ∧ wrapInt64 x ≤ maxInt64 := by
  unfold wrapInt64 minInt64 maxInt64
  omega

/-- Truncated division by a positive divisor, in terms of floor division. -/
theorem tdiv_pos_cases (a b : Int) (hb : 0 < b) :
    (0 ≤ a ∧ a.tdiv b = a / b) ∨ (a < 0 ∧ a.tdiv b = -((-a) / b)) := by
  rcases Int.lt_or_le a 0 with h | h
  · right
    refine ⟨h, ?_⟩
    have h1 : a = -(-a) := by omega
    rw [h1, Int.neg_tdiv, Int.tdiv_eq_ediv (by omega) (by omega)]
    simp
  · left
    exact ⟨h, Int.tdiv_eq_ediv h (by omega)⟩

theorem tdiv_pos_fits (a b : Int) (hb : 0 < b) (h1 : minInt64 ≤ a) (h2 : a ≤ maxInt64) :
    minInt64 ≤ a.tdiv b ∧ a.tdiv b ≤ maxInt64 := by
  rcases tdiv_pos_cases a b hb with ⟨h, e⟩ | ⟨h, e⟩
  · rw [e]
    have := Int.ediv_le_self b h
    have := Int.ediv_nonneg h (Int.le_of_lt hb)
    unfold minInt64 maxInt64 at *
    omega
  · rw [e]
    have := Int.ediv_le_self b (show 0 ≤ -a by omega)
    have := Int.ediv_nonneg (show 0 ≤ -a by omega) (Int.le_of_lt hb)
    unfold minInt64 maxInt64 at *
    omega

/-- C9.  Step normalisation in `getPromQLToSQL`: for all instants and every
step > 0 (the integer read from the step text), with `diff` the `int64`
difference `to.Unix() - from.Unix()` (the difference itself when it fits, as
it does for every `from < to` less than 2^63 seconds apart) and the truncated
division of Go, the call returns the range query of the deployment filled with
a step that equals the input step when `diff / step ≤ 720` and equals
`ceil(diff / 720)` (`diff / 720` when `diff % 720 = 0`, else `diff / 720 + 1`)
when `diff / step > 720`; in both cases `diff / emittedStep ≤ 720`. -/
theorem getPromQLToSQL_step_normalisation (fromT toT : Time) (promql stepStr deploymentType : String)
    (hstep : 0 < (ParseInt stepStr).1) :
    ∃ fromTs newStep : Int,
      getPromQLToSQL fromT toT promql stepStr deploymentType =
        .ok (Sprintf (getConstants "query_range_str" deploymentType)
          [.str promql, .int fromTs, .int toT.Unix, .int newStep], none) ∧
      (Int.tdiv (sub64 toT.Unix fromT.Unix) (ParseInt stepStr).1 ≤ 720 →
        newStep = (ParseInt stepStr).1) ∧
      (720 < Int.tdiv (sub64 toT.Unix fromT.Unix) (ParseInt stepStr).1 →
        newStep = (if Int.tmod (sub64 toT.Unix fromT.Unix) 720 = 0
          then Int.tdiv (sub64 toT.Unix fromT.Unix) 720
          else Int.tdiv (sub64 toT.Unix fromT.Unix) 720 + 1) ∧
        newStep = ⌈((sub64 toT.Unix fromT.Unix : Int) : ℚ) / 720⌉) ∧
      Int.tdiv (sub64 toT.Unix fromT.Unix) newStep ≤ 720 ∧
      (minInt64 ≤ toT.Unix - fromT.Unix → toT.Unix - fromT.Unix ≤ maxInt64 →
        sub64 toT.Unix fromT.Unix = toT.Unix - fromT.Unix) := by
  generalize hd : sub64 toT.Unix fromT.Unix = d
  generalize hs : (ParseInt stepStr).1 = s at hstep
  have hdr : minInt64 ≤ d ∧ d ≤ maxInt64 := by
    rw [← hd]; exact wrapInt64_range _
  have hs0 : s ≠ 0 := by omega
  have hdp : wrapInt64 (d.tdiv s) = d.tdiv s :=
    wrapInt64_of_fits _ (tdiv_pos_fits d s hstep hdr.1 hdr.2).1 (tdiv_pos_fits d s hstep hdr.1 hdr.2).2
  have hfit : minInt64 ≤ toT.Unix - fromT.Unix → toT.Unix - fromT.Unix ≤ maxInt64 →
      d = toT.Unix - fromT.Unix := by
    intro h1 h2
    rw [← hd]
    exact wrapInt64_of_fits _ h1 h2
  by_cases hbig : 720 < d.tdiv s
  · -- the step is recomputed
    have hd0 : 0 ≤ d ∧ d.tdiv s = d / s := by
      rcases tdiv_pos_cases d s hstep with h | ⟨h, e⟩
      · exact h
      · exfalso
        have := Int.ediv_nonneg (show 0 ≤ -d by omega) (Int.le_of_lt hstep)
        omega
    have h721 : 721 * s ≤ d := by
      have h : 721 ≤ d / s := by omega
      exact (Int.le_ediv_iff_mul_le hstep).1 h
    have hq : d.tdiv 720 = d / 720 := Int.tdiv_eq_ediv hd0.1 (by omega)
    have hr : d.tmod 720 = d % 720 := Int.tmod_eq_emod hd0.1 (by omega)
    have hadd : add64 (d / 720) 1 = d / 720 + 1 := by
      unfold add64
      apply wrapInt64_of_fits <;> unfold minInt64 maxInt64 at * <;> omega
    refine ⟨if fromT.Unix.tmod s ≠ 0 then sub64 fromT.Unix (fromT.Unix.tmod s) else fromT.Unix,
      if d % 720 = 0 then d / 720 else d / 720 + 1, ?_, ?_, ?_, ?_, hfit⟩
    · simp only [getPromQLToSQL, hs, hd, div64, mod64, hs0, if_false, hdp, hq, hr, hadd,
        bind, Except.bind, pure, Except.pure]
      simp [hbig]
    · intro h; omega
    · intro _
      refine ⟨by rw [hq, hr], ?_⟩
      symm
      rw [Int.ceil_eq_iff]
      constructor
      · rw [lt_div_iff₀ (by norm_num)]
        split_ifs with h0
        · have : (d / 720 - 1) * 720 < d := by omega
          exact_mod_cast this
        · have : (d / 720 + 1 - 1) * 720 < d := by omega
          exact_mod_cast this
      · rw [div_le_iff₀ (by norm_num)]
        split_ifs with h0
        · have : d ≤ (d / 720) * 720 := by omega
          exact_mod_cast this
        · have : d ≤ (d / 720 + 1) * 720 := by omega
          exact_mod_cast this
    · have hn : 0 < (if d % 720 = 0 then d / 720 else d / 720 + 1) := by
        split_ifs <;> omega
      have hle : d ≤ 720 * (if d % 720 = 0 then d / 720 else d / 720 + 1) := by
        split_ifs <;> omega
      rw [Int.tdiv_eq_ediv hd0.1 (Int.le_of_lt hn)]
      have : d / (if d % 720 = 0 then d / 720 else d / 720 + 1) < 721 := by
        rw [Int.ediv_lt_iff_lt_mul hn]
        nlinarith
      omega
  · refine ⟨if fromT.Unix.tmod s ≠ 0 then sub64 fromT.Unix (fromT.Unix.tmod s) else fromT.Unix,
      s, ?_, ?_, ?_, ?_, hfit⟩
    · simp only [getPromQLToSQL, hs, hd, div64, mod64, hs0, if_false, hdp,
        bind, Except.bind, pure, Except.pure]
      simp [hbig]
    · intro _; rfl
    · intro h; exact absurd h hbig
    · omega

theorem getPromQLToSQL_step_normalisation_witness :
    0 < (ParseInt "1").1 ∧
    ∃ fromTs newStep : Int,
      getPromQLToSQL (Time.ofUnix 0 0) (Time.ofUnix 7201 0) "up" "1" "default" =
        .ok (Sprintf (getConstants "query_range_str" "default")
          [.str "up", .int fromTs, .int (Time.ofUnix 7201 0).Unix, .int newStep], none) ∧
        newStep = 11 := by
  refine ⟨by decide, ?_⟩
  obtain ⟨fromTs, newStep, h1, _, h3, _, _⟩ :=
    getPromQLToSQL_step_normalisation (Time.ofUnix 0 0) (Time.ofUnix 7201 0) "up" "1" "default"
      (by decide)
  refine ⟨fromTs, newStep, h1, ?_⟩
  have h := (h3 (by decide)).1
  rw [h]
  decide

/-! ## Mode C: the schema check -/

/-- The counting loop computes the number of columns of each kind. -/
theorem countCols_eq (columns : List ColumnType) :
    ∀ k : ColCounts, countCols columns k =
      ⟨k.numberCols + kindCount .Number columns, k.timeCols + kindCount .Time columns,
        k.charCols + kindCount .Char columns, k.otherCols + kindCount .Other columns⟩ := by
  induction columns with
  | nil => intro k; simp [countCols, kindCount]
  | cons c cs ih =>
    intro k
    simp only [countCols, ih, kindCount, List.countP_cons, classify]
    by_cases h1 : isTimeColumn c.DatabaseTypeName c.Name = true
    · simp [h1]; omega
    · by_cases h2 : isNumberColumn c.DatabaseTypeName = true
      · simp [h1, h2]; omega
      · by_cases h3 : isCharColumn c.DatabaseTypeName = true
        · simp [h1, h2, h3]; omega
        · simp [h1, h2, h3]; omega

/-- The error of `parseTime` is never the schema error. -/
theorem parseTime_err_ne_schema {F : Type} (L : GoLib F) (s msg : String) :
    (parseTime L s).2.2 ≠ some (.schema msg) := by
  unfold parseTime
  simp only
  split
  · simp
  · split
    · split <;> simp
    · split
      · simp
      · split <;> simp

theorem timeCell_err_ne_schema {F : Type} (L : GoLib F) (a b msg : String) (e : Option Error)
    (h : timeCell L a b = .error e) : e ≠ some (.schema msg) := by
  unfold timeCell at h
  split at h
  · cases h
  · rcases hp : parseTime L b with ⟨sec, nsec, err⟩
    rw [hp] at h
    simp only at h
    split at h
    · cases h
    · cases h
      have := parseTime_err_ne_schema L b msg
      rw [hp] at this
      exact this

theorem pointsC_err_ne_schema {F : Type} (L : GoLib F) (msg : String) :
    ∀ (pairs : List (TimeValuePair F)) (e : Option Error),
      pointsC L pairs = .error e → e ≠ some (.schema msg) := by
  intro pairs
  induction pairs with
  | nil => intro e h; cases h
  | cons tv rest ih =>
    intro e h
    unfold pointsC at h
    split at h
    · rename_i e1 h1
      cases h
      exact timeCell_err_ne_schema L _ _ msg _ h1
    · split at h
      · rename_i e1 h1
        cases h
        exact ih _ h1
      · cases h

/-- The emission loop of Mode C never returns the schema error, and on an
error it returns no frame and leaves `rowsProcessed` as it was. -/
theorem emitC_err {F : Type} (L : GoLib F) (legendTextVal : String) (rp : Int) (n : Nat)
    (msg : String) :
    ∀ (entries : List (String × List (TimeValuePair F))) (frames : List (Frame F)) (t : Int),
      (emitC L legendTextVal rp n entries frames t).err ≠ some (.schema msg) ∧
      ((emitC L legendTextVal rp n entries frames t).err ≠ none →
        (emitC L legendTextVal rp n entries frames t).frames = [] ∧
        (emitC L legendTextVal rp n entries frames t).rowsProcessed = rp) := by
  intro entries
  induction entries with
  | nil => intro frames t; simp [emitC]
  | cons entry rest ih =>
    intro frames t
    rcases entry with ⟨key, pairs⟩
    unfold emitC
    split
    · rename_i e he
      exact ⟨pointsC_err_ne_schema L msg _ _ he, fun _ => ⟨rfl, rfl⟩⟩
    · exact ih _ _

theorem rowC1_err_ne_schema {F : Type} (L : GoLib F) (msg : String) :
    ∀ (columns : List ColumnType) (row : List NullString) (s : String × TimeValuePair F)
      (e : Error), rowC1 L columns row s = .error e → e ≠ .schema msg := by
  intro columns
  induction columns with
  | nil => intro row s e h; cases row <;> cases h
  | cons c cs ih =>
    intro row s e h
    cases row with
    | nil => cases h
    | cons raw raws =>
      rcases s with ⟨key, tvp⟩
      unfold rowC1 at h
      split at h
      · exact ih _ _ _ h
      · split at h
        · split at h
          · split at h
            · cases h; simp
            · exact ih _ _ _ h
          · exact ih _ _ _ h
        · split at h
          · exact ih _ _ _ h
          · exact ih _ _ _ h

theorem rowC2Vals_err_ne_schema {F : Type} (L : GoLib F) (key strtime msg : String) :
    ∀ (columns : List ColumnType) (row : List NullString)
      (m : List (String × List (TimeValuePair F))) (e : Error),
      rowC2Vals L key strtime columns row m = .error e → e ≠ .schema msg := by
  intro columns
  induction columns with
  | nil => intro row m e h; cases row <;> cases h
  | cons c cs ih =>
    intro row m e h
    cases row with
    | nil => cases h
    | cons raw raws =>
      unfold rowC2Vals at h
      split at h
      · split at h
        · split at h
          · cases h; simp
          · exact ih _ _ _ h
        · exact ih _ _ _ h
      · exact ih _ _ _ h

/-- An early return of the first row loop of Mode C: no frame, `rowsProcessed`
as it was, an error that is not the schema error. -/
theorem loopC1_err {F : Type} (L : GoLib F) (columns : List ColumnType) (rp : Int)
    (msg : String) :
    ∀ (rows : List (Except String (List NullString)))
      (m : List (String × List (TimeValuePair F))) (n : Nat) (r : Ret F),
      loopC1 L columns rp rows m n = .error r →
        r.frames = [] ∧ r.rowsProcessed = rp ∧ r.err ≠ none ∧ r.err ≠ some (.schema msg) := by
  intro rows
  induction rows with
  | nil => intro m n r h; cases h
  | cons row rest ih =>
    intro m n r h
    cases row with
    | error e => simp only [loopC1, Except.error.injEq] at h; subst h; simp
    | ok row =>
      unfold loopC1 at h
      split at h
      · rename_i e he
        cases h
        refine ⟨rfl, rfl, by simp, ?_⟩
        simp only [ne_eq, Option.some.injEq]
        exact rowC1_err_ne_schema L msg _ _ _ _ he
      · exact ih _ _ _ h

theorem loopC2_err {F : Type} (L : GoLib F) (columns : List ColumnType) (rp : Int)
    (msg : String) :
    ∀ (rows : List (Except String (List NullString)))
      (m : List (String × List (TimeValuePair F))) (n : Nat) (r : Ret F),
      loopC2 L columns rp rows m n = .error r →
        r.frames = [] ∧ r.rowsProcessed = rp ∧ r.err ≠ none ∧ r.err ≠ some (.schema msg) := by
  intro rows
  induction rows with
  | nil => intro m n r h; cases h
  | cons row rest ih =>
    intro m n r h
    cases row with
    | error e => simp only [loopC2, Except.error.injEq] at h; subst h; simp
    | ok row =>
      unfold loopC2 at h
      split at h
      · rename_i e he
        cases h
        refine ⟨rfl, rfl, by simp, ?_⟩
        simp only [ne_eq, Option.some.injEq]
        exact rowC2Vals_err_ne_schema L _ _ msg _ _ _ _ he
      · exact ih _ _ _ h

/-- Mode C on a cursor whose column types are available: the schema error is
returned exactly when the counts of the kinds do not allow a grouping. -/
theorem modeC_schema {F : Type} (L : GoLib F) (rows : Rows) (legendTextVal : String) (rp : Int)
    (ht : rows.columnTypesErr = none) :
    (¬ (kindCount .Time rows.columns = 1 ∧ 1 ≤ kindCount .Number rows.columns ∧
        1 ≤ kindCount .Char rows.columns) →
      modeC L rows legendTextVal rp =
        ⟨[], "", some (.schema (getConstants "sqlerror_query_str" "")), rp, 0⟩) ∧
    ((kindCount .Time rows.columns = 1 ∧ 1 ≤ kindCount .Number rows.columns ∧
        1 ≤ kindCount .Char rows.columns) →
      ∀ msg, (modeC L rows legendTextVal rp).err ≠ some (.schema msg)) := by
  unfold modeC
  rw [ht, countCols_eq]
  simp only [Nat.zero_add, ge_iff_le]
  constructor
  · intro hn
    have h1 : ¬ (kindCount .Time rows.columns = 1 ∧ kindCount .Number rows.columns = 1 ∧
        1 ≤ kindCount .Char rows.columns) := by omega
    rw [if_neg h1, if_neg hn]
  · intro hc msg
    by_cases h1 : kindCount .Time rows.columns = 1 ∧ kindCount .Number rows.columns = 1 ∧
        1 ≤ kindCount .Char rows.columns
    · rw [if_pos h1]
      split
      · rename_i r hr
        exact (loopC1_err L _ rp msg _ _ _ _ hr).2.2.2
      · exact (emitC_err L legendTextVal rp _ msg _ _ _).1
    · rw [if_neg h1, if_pos hc]
      split
      · rename_i r hr
        exact (loopC2_err L _ rp msg _ _ _ _ hr).2.2.2
      · exact (emitC_err L legendTextVal rp _ msg _ _ _).1

/-- C5.  Mode C schema check: when convertToTimeSeries is set, promql is
unset, the column names and types of the cursor are available and the four
canonical columns are not all present, with every column classified as Time
if `isTimeColumn`, else Number if `isNumberColumn`, else Char if
`isCharColumn`, else Other, the call returns the schema error
"Invalid SQL query ..." if and only if it is not the case that
(Time count = 1 and Number count ≥ 1 and Char count ≥ 1); the number of Other
columns does not enter; and when it returns that error it returns no frame,
has read no row and leaves `rowsProcessed` as it was. -/
theorem modeC_schema_check {F : Type} (L : GoLib F) (rows : Rows)
    (qryInputVal legendTextVal queryTextConverted : String) (rp : Int)
    (hc : rows.columnsErr = none) (ht : rows.columnTypesErr = none)
    (h4 : hasCanonicalColumns rows.columns = false) :
    ∃ ret, getDataFrameFromRows L rows false true qryInputVal legendTextVal
        queryTextConverted rp = .ok ret ∧
      (ret.err = some (.schema (getConstants "sqlerror_query_str" "")) ↔
        ¬ (kindCount .Time rows.columns = 1 ∧ 1 ≤ kindCount .Number rows.columns ∧
          1 ≤ kindCount .Char rows.columns)) ∧
      (ret.err = some (.schema (getConstants "sqlerror_query_str" "")) →
        ret.frames = [] ∧ ret.rowsRead = 0 ∧ ret.rowsProcessed = rp) := by
  refine ⟨modeC L rows legendTextVal rp, ?_, ?_, ?_⟩
  · unfold hasCanonicalColumns at h4
    simp only [getDataFrameFromRows, hc, h4, Bool.not_false, Bool.not_true, Bool.and_false,
      Bool.and_true, Bool.true_and, if_true, if_false, Bool.false_eq_true]
  · constructor
    · intro he hcond
      exact (modeC_schema L rows legendTextVal rp ht).2 hcond _ he
    · intro hn
      rw [(modeC_schema L rows legendTextVal rp ht).1 hn]
  · intro he
    by_cases hcond : kindCount .Time rows.columns = 1 ∧ 1 ≤ kindCount .Number rows.columns ∧
        1 ≤ kindCount .Char rows.columns
    · exact absurd he ((modeC_schema L rows legendTextVal rp ht).2 hcond _)
    · rw [(modeC_schema L rows legendTextVal rp ht).1 hcond]
      exact ⟨rfl, rfl, rfl⟩

theorem modeC_schema_check_witness :
    ∃ ret, getDataFrameFromRows refLib
        ⟨none, none, [⟨"METRIC_TIME", "TIMESTAMP"⟩, ⟨"VALUE", "NUMBER"⟩],
          [.ok [.text "2024-01-01T00:00:00Z", .text "1"]]⟩
        false true "SELECT" "" "query" 0 = .ok ret ∧
      ret.err = some (.schema (getConstants "sqlerror_query_str" "")) ∧
      ret.frames = [] ∧ ret.rowsRead = 0 ∧ ret.rowsProcessed = 0 := by
  obtain ⟨ret, h1, h2, h3⟩ := modeC_schema_check refLib
    ⟨none, none, [⟨"METRIC_TIME", "TIMESTAMP"⟩, ⟨"VALUE", "NUMBER"⟩],
      [.ok [.text "2024-01-01T00:00:00Z", .text "1"]]⟩ "SELECT" "" "query" 0 rfl rfl (by decide)
  have he := h2.2 (by decide)
  exact ⟨ret, h1, he, h3 he⟩

/-! ## Series maps -/

theorem mapAppend_keys {κ ν : Type} [DecidableEq κ] (m : List (κ × List ν)) (k : κ) (v : ν) :
    (mapAppend m k v).map Prod.fst =
      if k ∈ m.map Prod.fst then m.map Prod.fst else m.map Prod.fst ++ [k] := by
  induction m with
  | nil => simp [mapAppend]
  | cons e rest ih =>
    rcases e with ⟨k1, vs⟩
    unfold mapAppend
    by_cases h : k1 = k
    · subst h; simp
    · rw [if_neg h]
      simp only [List.map_cons, ih, List.mem_cons]
      have h' : ¬ k = k1 := fun e => h e.symm
      by_cases hm : k ∈ rest.map Prod.fst
      · simp [hm]
      · simp [hm, h']

theorem mapAppend_nodup {κ ν : Type} [DecidableEq κ] (m : List (κ × List ν)) (k : κ) (v : ν)
    (h : (m.map Prod.fst).Nodup) : ((mapAppend m k v).map Prod.fst).Nodup := by
  rw [mapAppend_keys]
  split
  · exact h
  · rename_i hk
    rw [List.nodup_append]
    refine ⟨h, List.nodup_singleton k, ?_⟩
    intro a ha hb
    simp only [List.mem_singleton] at hb
    subst hb
    exact hk ha

/-- The entries of a map after `m[k] = append(m[k], v)`. -/
theorem mem_mapAppend {κ ν : Type} [DecidableEq κ] (m : List (κ × List ν)) (k : κ) (v : ν)
    (hnd : (m.map Prod.fst).Nodup) (k1 : κ) (vs1 : List ν) (h : (k1, vs1) ∈ mapAppend m k v) :
    (k1 ≠ k ∧ (k1, vs1) ∈ m) ∨
    (k1 = k ∧ ((∃ vs, (k, vs) ∈ m ∧ vs1 = vs ++ [v]) ∨ (k ∉ m.map Prod.fst ∧ vs1 = [v]))) := by
  induction m with
  | nil =>
    simp only [mapAppend, List.mem_singleton, Prod.mk.injEq] at h
    exact Or.inr ⟨h.1, Or.inr ⟨by simp, h.2⟩⟩
  | cons e rest ih =>
    rcases e with ⟨k0, vs0⟩
    simp only [List.map_cons, List.nodup_cons] at hnd
    unfold mapAppend at h
    by_cases h0 : k0 = k
    · subst h0
      rw [if_pos rfl] at h
      rcases List.mem_cons.1 h with ha | hb
      · simp only [Prod.mk.injEq] at ha
        exact Or.inr ⟨ha.1, Or.inl ⟨vs0, by simp, ha.2⟩⟩
      · left
        refine ⟨?_, List.mem_cons_of_mem _ hb⟩
        intro e
        exact hnd.1 (List.mem_map.2 ⟨(k1, vs1), hb, e⟩)
    · rw [if_neg h0] at h
      rcases List.mem_cons.1 h with ha | hb
      · simp only [Prod.mk.injEq] at ha
        left
        exact ⟨by rw [ha.1]; exact h0, by rw [ha.1, ha.2]; exact List.mem_cons_self _ _⟩
      · rcases ih hnd.2 hb with ⟨h1, h2⟩ | ⟨h1, h2⟩
        · exact Or.inl ⟨h1, List.mem_cons_of_mem _ h2⟩
        · right
          refine ⟨h1, ?_⟩
          rcases h2 with ⟨vs, hvs, e⟩ | ⟨hk, e⟩
          · exact Or.inl ⟨vs, List.mem_cons_of_mem _ hvs, e⟩
          · right
            refine ⟨?_, e⟩
            simp only [List.map_cons, List.mem_cons, not_or]
            exact ⟨fun e => h0 e.symm, hk⟩

theorem Grouped.append {κ ν : Type} [DecidableEq κ] (m : List (κ × List ν)) (es : List (κ × ν))
    (h : Grouped m es) (k : κ) (v : ν) : Grouped (mapAppend m k v) (es ++ [(k, v)]) := by
  obtain ⟨hnd, hkeys, hvals⟩ := h
  refine ⟨mapAppend_nodup m k v hnd, ?_, ?_⟩
  · intro k1
    rw [mapAppend_keys]
    by_cases hk : k ∈ m.map Prod.fst
    · rw [if_pos hk]
      simp only [List.map_append, List.map_cons, List.map_nil, List.mem_append,
        List.mem_singleton]
      constructor
      · intro h1; exact Or.inl ((hkeys k1).1 h1)
      · rintro (h1 | h1)
        · exact (hkeys k1).2 h1
        · rw [h1]; exact hk
    · rw [if_neg hk]
      simp only [List.map_append, List.map_cons, List.map_nil, List.mem_append,
        List.mem_singleton]
      rw [hkeys k1]
  · intro k1 vs1 hmem
    rcases mem_mapAppend m k v hnd k1 vs1 hmem with ⟨h1, h2⟩ | ⟨h1, h2⟩
    · rw [hvals k1 vs1 h2]
      have : ¬ k = k1 := fun e => h1 e.symm
      simp [List.filter_append, List.filter_cons, this]
    · subst h1
      rcases h2 with ⟨vs, hvs, e⟩ | ⟨hk, e⟩
      · rw [e, hvals k1 vs hvs]
        simp [List.filter_append, List.filter_cons]
      · rw [e]
        have hnone : es.filter (fun e => decide (e.1 = k1)) = [] := by
          rw [List.filter_eq_nil_iff]
          intro e he
          simp only [decide_eq_true_eq]
          intro hek
          exact hk ((hkeys k1).2 (List.mem_map.2 ⟨e, he, hek⟩))
        simp [List.filter_append, List.filter_cons, hnone]

theorem Grouped.foldl {κ ν : Type} [DecidableEq κ] :
    ∀ (entries : List (κ × ν)) (m : List (κ × List ν)) (es : List (κ × ν)), Grouped m es →
      Grouped (entries.foldl (fun m e => mapAppend m e.1 e.2) m) (es ++ entries) := by
  intro entries
  induction entries with
  | nil => intro m es h; simpa using h
  | cons e rest ih =>
    intro m es h
    have := ih _ _ (h.append m es e.1 e.2)
    simpa using this

theorem Grouped.nil {κ ν : Type} [DecidableEq κ] : Grouped ([] : List (κ × List ν)) [] := by
  refine ⟨List.nodup_nil, ?_, ?_⟩
  · intro k; simp
  · intro k vs h; cases h

/-- Grouping is insensitive to the order in which the map is visited. -/
theorem Grouped.perm {κ ν : Type} [DecidableEq κ] (m m1 : List (κ × List ν))
    (es : List (κ × ν)) (h : Grouped m es) (hp : m1.Perm m) : Grouped m1 es := by
  obtain ⟨hnd, hkeys, hvals⟩ := h
  refine ⟨(hp.map Prod.fst).nodup_iff.2 hnd, ?_, ?_⟩
  · intro k
    rw [← hkeys k]
    exact (hp.map Prod.fst).mem_iff
  · intro k vs hmem
    exact hvals k vs (hp.mem_iff.1 hmem)

/-! ## Series frames -/

theorem appendPoints_pair {F : Type} (name : String) :
    ∀ (pts : List (Time × F)) (tf vf : Field F),
      appendPoints pts ⟨name, [tf, vf]⟩ =
        ⟨name, [⟨tf.Name, tf.Labels, tf.DisplayNameFromDS, tf.ftype,
            tf.values ++ pts.map (fun p => .time p.1)⟩,
          ⟨vf.Name, vf.Labels, vf.DisplayNameFromDS, vf.ftype,
            vf.values ++ pts.map (fun p => .float p.2)⟩]⟩ := by
  intro pts
  induction pts with
  | nil => intro tf vf; simp [appendPoints]
  | cons p rest ih =>
    intro tf vf
    have h := ih (tf.append (.time p.1)) (vf.append (.float p.2))
    simp only [appendPoints, List.foldl_cons, Frame.AppendRow, appendVals] at h ⊢
    rw [h]
    simp [Field.append]

/-- Appending points to the fresh frame of a series gives the series of the points. -/
theorem appendPoints_seriesFrame {F : Type} (name : String) (vf : Field F)
    (pts : List (Time × F)) (hv : vf.values = []) (ht : vf.ftype = .float64) :
    appendPoints pts (seriesFrame name vf) = seriesOf name vf pts := by
  unfold seriesFrame
  rw [appendPoints_pair]
  simp [seriesOf, NewField, hv, ht]

/-- The loop of Mode B over the pairs appends the points of the pairs that
are not skipped. -/
theorem appendPairsB_eq {F : Type} (L : GoLib F) :
    ∀ (pairs : List (TimeValuePair F)) (fr : Frame F),
      appendPairsB L pairs fr = appendPoints (pairs.filterMap (pointB L)) fr := by
  intro pairs
  induction pairs with
  | nil => intro fr; rfl
  | cons pair rest ih =>
    intro fr
    have h := ih
    simp only [appendPairsB, appendPoints] at h ⊢
    simp only [List.foldl_cons, List.filterMap_cons]
    cases hp : pointB L pair with
    | none => simp only; exact h fr
    | some p => simp only [List.foldl_cons]; exact h _

theorem valueFieldB_shape {F : Type} (L : GoLib F) (legendTextVal : String) (key : MetricTagKey)
    (vf : Field F) (h : valueFieldB L legendTextVal key = .ok vf) :
    vf.values = [] ∧ vf.ftype = .float64 := by
  unfold valueFieldB at h
  split at h
  split at h
  · split at h <;> (cases h; exact ⟨rfl, rfl⟩)
  · split at h
    · cases h
    · split at h <;> (cases h; exact ⟨rfl, rfl⟩)

/-- With a legend whose expansion does not fault, the value field of Mode B is built. -/
theorem valueFieldB_ok {F : Type} (L : GoLib F) (legendTextVal : String) (key : MetricTagKey)
    (hleg : ∀ tags, ∃ s, expandLegend legendTextVal tags = .ok s) :
    ∃ vf : Field F, valueFieldB L legendTextVal key = .ok vf := by
  unfold valueFieldB
  split
  rename_i tagsMap errjson _
  split
  · split <;> exact ⟨_, rfl⟩
  · obtain ⟨s, hs⟩ := hleg tagsMap
    rw [hs]
    simp only
    split <;> exact ⟨_, rfl⟩

/-- The frames of Mode B, one per entry of the map in the order visited. -/
theorem framesB_ok {F : Type} (L : GoLib F) (legendTextVal queryTextConverted : String)
    (hleg : ∀ tags, ∃ s, expandLegend legendTextVal tags = .ok s) :
    ∀ entries : List (MetricTagKey × List (TimeValuePair F)),
      ∃ frames, framesB L legendTextVal queryTextConverted entries = .ok frames ∧
        List.Forall₂ (fun e fr => ∃ vf : Field F,
          fr = seriesOf queryTextConverted vf
            ((L.sortSlice (lessPairs L) e.2).filterMap (pointB L))) entries frames := by
  intro entries
  induction entries with
  | nil => exact ⟨[], rfl, List.Forall₂.nil⟩
  | cons e rest ih =>
    obtain ⟨frames, hf, hall⟩ := ih
    obtain ⟨vf, hvf⟩ := valueFieldB_ok L legendTextVal e.1 hleg
    obtain ⟨hv, ht⟩ := valueFieldB_shape L legendTextVal e.1 vf hvf
    refine ⟨_ :: frames, ?_, List.Forall₂.cons ⟨vf, rfl⟩ hall⟩
    simp only [framesB, frameB, hvf, hf, appendPairsB_eq, appendPoints_seriesFrame _ _ _ hv ht]

/-- Whatever the legend, the frames Mode B returns are series of the points
of the pairs, in sorted order. -/
theorem framesB_shape {F : Type} (L : GoLib F) (legendTextVal queryTextConverted : String) :
    ∀ (entries : List (MetricTagKey × List (TimeValuePair F))) (frames : List (Frame F)),
      framesB L legendTextVal queryTextConverted entries = .ok frames →
        List.Forall₂ (fun e fr => ∃ vf : Field F,
          fr = seriesOf queryTextConverted vf
            ((L.sortSlice (lessPairs L) e.2).filterMap (pointB L))) entries frames := by
  intro entries
  induction entries with
  | nil => intro frames h; cases h; exact List.Forall₂.nil
  | cons e rest ih =>
    intro frames h
    unfold framesB at h
    split at h
    · cases h
    · rename_i curFrame hcur
      split at h
      · cases h
      · rename_i frames1 hrest
        cases h
        refine List.Forall₂.cons ?_ (ih _ hrest)
        unfold frameB at hcur
        split at hcur
        · cases hcur
        · rename_i vf hvf
          cases hcur
          obtain ⟨hv, ht⟩ := valueFieldB_shape L legendTextVal e.1 vf hvf
          exact ⟨vf, by rw [appendPairsB_eq, appendPoints_seriesFrame _ _ _ hv ht]⟩

/-! ## Mode B: the row loop -/

theorem cellOf_mem : ∀ (columns : List ColumnType) (row : List NullString) (name : String)
    (raw : NullString), cellOf columns row name = some raw →
      ∃ c, (c, raw) ∈ columns.zip row ∧ c.Name = name := by
  intro columns
  induction columns with
  | nil => intro row name raw h; cases row <;> cases h
  | cons c cs ih =>
    intro row name raw h
    cases row with
    | nil => cases h
    | cons r rs =>
      unfold cellOf at h
      split at h
      · rename_i r1 h1
        cases h
        obtain ⟨c1, hm, hn⟩ := ih rs name _ h1
        exact ⟨c1, by simp [hm], hn⟩
      · split at h
        · rename_i hc
          cases h
          exact ⟨c, by simp, hc⟩
        · cases h

theorem cellOf_isSome : ∀ (columns : List ColumnType) (row : List NullString) (name : String),
    row.length = columns.length → columns.any (fun c => c.Name = name) = true →
      ∃ raw, cellOf columns row name = some raw := by
  intro columns
  induction columns with
  | nil => intro row name _ h; simp at h
  | cons c cs ih =>
    intro row name hlen h
    cases row with
    | nil => simp at hlen
    | cons r rs =>
      unfold cellOf
      cases hrest : cellOf cs rs name with
      | some r1 => exact ⟨r1, rfl⟩
      | none =>
        simp only [List.any_cons, Bool.or_eq_true, decide_eq_true_eq] at h
        rcases h with h | h
        · exact ⟨r, by simp [h]⟩
        · obtain ⟨raw, hraw⟩ := ih rs name (by simpa using hlen) h
          rw [hraw] at hrest
          cases hrest

theorem valid_text (raw : NullString) (dflt : String) :
    (if !raw.Valid then dflt else raw.String) = cellText raw dflt := by
  cases raw <;> rfl

/-- The strings the cell loop of Mode B reads from a row: for each canonical
name the cell of the last column of that name, else the initial string. -/
theorem rowB_eq : ∀ (columns : List ColumnType) (row : List NullString) (s : SlicesB),
    rowB columns row s =
      ⟨((cellOf columns row "METRIC_TIME_EPOCH").map (cellText · "0")).getD s.timeSlice,
        ((cellOf columns row "METRIC_VALUE").map (cellText · "0")).getD s.valSlice,
        ((cellOf columns row "METRIC_NAME").map (cellText · "")).getD s.metricNameSlice,
        ((cellOf columns row "METRIC_TAGS").map (cellText · "")).getD s.metricTagsSlice⟩ := by
  intro columns
  induction columns with
  | nil => intro row s; cases row <;> rfl
  | cons c cs ih =>
    intro row s
    cases row with
    | nil => rfl
    | cons r rs =>
      unfold rowB
      rw [ih]
      simp only [valid_text, cellOf]
      by_cases h1 : c.Name = "METRIC_TIME_EPOCH"
      · have h2 : c.Name ≠ "METRIC_VALUE" := by rw [h1]; decide
        have h3 : c.Name ≠ "METRIC_NAME" := by rw [h1]; decide
        have h4 : c.Name ≠ "METRIC_TAGS" := by rw [h1]; decide
        simp only [h1, h2, h3, h4, if_true, if_false]
        congr 1
        cases cellOf cs rs "METRIC_TIME_EPOCH" <;> rfl
        all_goals (first | (cases cellOf cs rs "METRIC_VALUE" <;> rfl) |
          (cases cellOf cs rs "METRIC_NAME" <;> rfl) | (cases cellOf cs rs "METRIC_TAGS" <;> rfl))
      · by_cases h2 : c.Name = "METRIC_VALUE"
        · have h3 : c.Name ≠ "METRIC_NAME" := by rw [h2]; decide
          have h4 : c.Name ≠ "METRIC_TAGS" := by rw [h2]; decide
          simp only [h1, h2, h3, h4, if_true, if_false]
          congr 1
          cases cellOf cs rs "METRIC_TIME_EPOCH" <;> rfl
          all_goals (first | (cases cellOf cs rs "METRIC_VALUE" <;> rfl) |
            (cases cellOf cs rs "METRIC_NAME" <;> rfl) | (cases cellOf cs rs "METRIC_TAGS" <;> rfl))
        · by_cases h3 : c.Name = "METRIC_NAME"
          · have h4 : c.Name ≠ "METRIC_TAGS" := by rw [h3]; decide
            simp only [h1, h2, h3, h4, if_true, if_false]
            congr 1
            cases cellOf cs rs "METRIC_TIME_EPOCH" <;> rfl
            all_goals (first | (cases cellOf cs rs "METRIC_VALUE" <;> rfl) |
              (cases cellOf cs rs "METRIC_NAME" <;> rfl) |
              (cases cellOf cs rs "METRIC_TAGS" <;> rfl))
          · by_cases h4 : c.Name = "METRIC_TAGS"
            · simp only [h1, h2, h3, h4, if_true, if_false]
              congr 1
              cases cellOf cs rs "METRIC_TIME_EPOCH" <;> rfl
              all_goals (first | (cases cellOf cs rs "METRIC_VALUE" <;> rfl) |
                (cases cellOf cs rs "METRIC_NAME" <;> rfl) |
                (cases cellOf cs rs "METRIC_TAGS" <;> rfl))
            · simp only [h1, h2, h3, h4, if_false]
              congr 1
              cases cellOf cs rs "METRIC_TIME_EPOCH" <;> rfl
              all_goals (first | (cases cellOf cs rs "METRIC_VALUE" <;> rfl) |
                (cases cellOf cs rs "METRIC_NAME" <;> rfl) |
                (cases cellOf cs rs "METRIC_TAGS" <;> rfl))

theorem forall₂_mem_left {α β : Type} {R : α → β → Prop} :
    ∀ {l : List α} {u : List β}, List.Forall₂ R l u →
      List.Forall₂ (fun a b => a ∈ l ∧ R a b) l u := by
  intro l u h
  induction h with
  | nil => exact List.Forall₂.nil
  | cons hab _ ih =>
    refine List.Forall₂.cons ⟨List.mem_cons_self _ _, hab⟩ ?_
    exact ih.imp (fun a b hx => ⟨List.mem_cons_of_mem _ hx.1, hx.2⟩)

theorem length_filterMap_of_isSome {α β : Type} (f : α → Option β) :
    ∀ l : List α, (∀ a ∈ l, (f a).isSome = true) → (l.filterMap f).length = l.length := by
  intro l
  induction l with
  | nil => intro _; rfl
  | cons a rest ih =>
    intro h
    obtain ⟨b, hb⟩ := Option.isSome_iff_exists.1 (h a (by simp))
    simp [List.filterMap_cons, hb, ih (fun x hx => h x (by simp [hx]))]

/-- A numeric cell whose value is defined: the text the code parses (a NULL
is read as "0") parses to that value, and conversely. -/
theorem parseFloat_iff_valueOfCell {F : Type} (L : GoLib F) (raw : NullString) (v : F) :
    L.ParseFloat (cellText raw "0") = .ok v ↔ valueOfCell L raw = some v := by
  cases raw with
  | null =>
    simp only [cellText, valueOfCell, L.ParseFloat_zero, Except.ok.injEq, Option.some.injEq]
  | text s =>
    simp only [cellText, valueOfCell]
    cases L.ParseFloat s <;> simp [Except.toOption]

/-- The strings read from a well-formed row of a cursor with the canonical columns. -/
theorem rowB_canonical (columns : List ColumnType) (row : List NullString)
    (h4 : hasCanonicalColumns columns = true) (hlen : row.length = columns.length) :
    rowB columns row ⟨"", "", "", ""⟩ =
      ⟨rowTimeTokB columns row, cellText ((cellOf columns row "METRIC_VALUE").getD .null) "0",
        (rowKeyB columns row).MetricStr, (rowKeyB columns row).TagsStr⟩ := by
  unfold hasCanonicalColumns at h4
  simp only [Bool.and_eq_true] at h4
  obtain ⟨r1, h1⟩ := cellOf_isSome columns row "METRIC_TAGS" hlen h4.1.1.1
  obtain ⟨r2, h2⟩ := cellOf_isSome columns row "METRIC_VALUE" hlen h4.1.1.2
  obtain ⟨r3, h3⟩ := cellOf_isSome columns row "METRIC_TIME_EPOCH" hlen h4.1.2
  obtain ⟨r4, h4⟩ := cellOf_isSome columns row "METRIC_NAME" hlen h4.2
  rw [rowB_eq]
  simp [rowTimeTokB, rowKeyB, h1, h2, h3, h4]

/-- The row loop of Mode B on well-formed rows whose values parse. -/
theorem loopB_ok {F : Type} (L : GoLib F) (columns : List ColumnType) (rp : Int)
    (h4 : hasCanonicalColumns columns = true) :
    ∀ (data : List (List NullString)) (m : List (MetricTagKey × List (TimeValuePair F)))
      (t : Int) (n : Nat),
      (∀ row ∈ data, row.length = columns.length ∧ (rowValueB L columns row).isSome = true) →
      loopB L columns rp (data.map Except.ok) m t n =
        .ok ((data.map (entryB L columns)).foldl (fun m e => mapAppend m e.1 e.2) m,
          t + data.length, n + data.length) := by
  intro data
  induction data with
  | nil => intro m t n _; simp [loopB]
  | cons row rest ih =>
    intro m t n h
    obtain ⟨hlen, hv⟩ := h row (by simp)
    obtain ⟨v, hv⟩ := Option.isSome_iff_exists.1 hv
    have hp : L.ParseFloat (cellText ((cellOf columns row "METRIC_VALUE").getD .null) "0") =
        .ok v := (parseFloat_iff_valueOfCell L _ v).2 hv
    simp only [List.map_cons, loopB, rowB_canonical columns row h4 hlen, hp]
    rw [ih _ _ _ (fun r hr => h r (by simp [hr]))]
    have e1 : t + 1 + (rest.length : Int) = t + ((rest.length : Int) + 1) := by omega
    have e2 : n + 1 + rest.length = n + (rest.length + 1) := by omega
    simp only [List.foldl_cons, entryB, hv, Option.getD_some, List.length_cons, Nat.cast_add,
      Nat.cast_one, e1, e2]

/-- The point Mode B emits for the entry of a row whose tokens parse. -/
theorem pointB_entryB {F : Type} (L : GoLib F) (columns : List ColumnType)
    (row : List NullString) (h : rowOkB L columns row = true) :
    pointB L (entryB L columns row).2 = rowPointB L columns row := by
  unfold rowOkB at h
  simp only [Bool.and_eq_true, Bool.not_eq_true'] at h
  obtain ⟨p, hp⟩ := Option.isSome_iff_exists.1 h.1
  rw [hp]
  unfold rowPointB at hp
  split at hp
  · rename_i t v ht hv
    cases hp
    simp only [entryB, hv, Option.getD_some]
    exact pointB_of_instantOf L _ v t ht h.2
  · cases hp

theorem rowOkB_value {F : Type} (L : GoLib F) (columns : List ColumnType)
    (row : List NullString) (h : rowOkB L columns row = true) :
    (rowValueB L columns row).isSome = true := by
  unfold rowOkB at h
  simp only [Bool.and_eq_true] at h
  obtain ⟨p, hp⟩ := Option.isSome_iff_exists.1 h.1
  unfold rowPointB at hp
  split at hp
  · rename_i t v ht hv; rw [hv]; rfl
  · cases hp

theorem rowOkB_point {F : Type} (L : GoLib F) (columns : List ColumnType)
    (row : List NullString) (h : rowOkB L columns row = true) :
    (rowPointB L columns row).isSome = true := by
  unfold rowOkB at h
  simp only [Bool.and_eq_true] at h
  exact h.1

/-- C1 (amended).  Mode B grouping: for every cursor that has the four columns
METRIC_TIME_EPOCH, METRIC_VALUE, METRIC_NAME, METRIC_TAGS and one cell per
column in every row, with convertToTimeSeries set, promql unset, every value
and time token parsable, no time token that `parseTime` maps to seconds -1,
and a legend template whose expansion does not fault, the call returns
without error exactly one frame per distinct (METRIC_NAME, METRIC_TAGS) pair
occurring in the rows, and the (time, value) points of that frame are a
permutation of the points of exactly the rows carrying that pair (NULL name
or tags read as the empty string, NULL value as 0). -/
theorem modeB_grouping {F : Type} (L : GoLib F) (columns : List ColumnType)
    (columnTypesErr : Option String) (data : List (List NullString))
    (qryInputVal legendTextVal queryTextConverted : String) (rp : Int)
    (h4 : hasCanonicalColumns columns = true)
    (hrows : ∀ row ∈ data, row.length = columns.length ∧ rowOkB L columns row = true)
    (hleg : ∀ tags, ∃ s, expandLegend legendTextVal tags = .ok s) :
    ∃ (ret : Ret F) (keys : List MetricTagKey),
      getDataFrameFromRows L ⟨none, columnTypesErr, columns, data.map Except.ok⟩ false true
        qryInputVal legendTextVal queryTextConverted rp = .ok ret ∧
      ret.err = none ∧ keys.Nodup ∧
      (∀ k, k ∈ keys ↔ ∃ row ∈ data, rowKeyB columns row = k) ∧
      List.Forall₂ (fun k fr => ∃ (vf : Field F) (pts : List (Time × F)),
        fr = seriesOf queryTextConverted vf pts ∧
        pts.Perm ((data.filter (fun row => rowKeyB columns row = k)).filterMap
          (rowPointB L columns)) ∧
        pts.length = (data.filter (fun row => rowKeyB columns row = k)).length) keys ret.frames := by
  have hloop := loopB_ok L columns rp h4 data [] 0 0
    (fun row hrow => ⟨(hrows row hrow).1, rowOkB_value L columns row (hrows row hrow).2⟩)
  have hg : Grouped ((data.map (entryB L columns)).foldl (fun m e => mapAppend m e.1 e.2) [])
      (data.map (entryB L columns)) := by
    simpa using Grouped.foldl (data.map (entryB L columns)) [] [] Grouped.nil
  have hgp := Grouped.perm _ _ _ hg (L.rangeOrder_perm
    ((data.map (entryB L columns)).foldl (fun m e => mapAppend m e.1 e.2) []))
  obtain ⟨frames, hframes, hall⟩ := framesB_ok L legendTextVal queryTextConverted hleg
    (L.rangeOrder ((data.map (entryB L columns)).foldl (fun m e => mapAppend m e.1 e.2) []))
  refine ⟨⟨frames, "", none, data.length, data.length⟩,
    (L.rangeOrder ((data.map (entryB L columns)).foldl
      (fun m e => mapAppend m e.1 e.2) [])).map Prod.fst, ?_, rfl, hgp.1, ?_, ?_⟩
  · have h4' := h4
    unfold hasCanonicalColumns at h4'
    simp only [getDataFrameFromRows, Bool.not_false, Bool.not_true, Bool.and_false,
      Bool.and_true, Bool.true_and, if_true, if_false, Bool.false_eq_true, h4', modeB, hloop,
      hframes]
    simp
  · intro k
    rw [hgp.2.1 k]
    simp only [List.map_map, List.mem_map, Function.comp, entryB]
  · rw [List.forall₂_map_left_iff]
    refine (forall₂_mem_left hall).imp ?_
    rintro ⟨k, vs⟩ fr ⟨hmem, vf, hfr⟩
    have hvs := hgp.2.2 k vs hmem
    have heq : vs.filterMap (pointB L) =
        (data.filter (fun row => rowKeyB columns row = k)).filterMap (rowPointB L columns) := by
      rw [hvs, List.filter_map, List.map_map, List.filterMap_map]
      apply List.filterMap_congr
      intro row hrow
      have hrow' : row ∈ data := (List.mem_filter.1 hrow).1
      exact pointB_entryB L columns row (hrows row hrow').2
    refine ⟨vf, _, hfr, ?_, ?_⟩
    · rw [← heq]
      exact (L.sortSlice_perm (lessPairs L) vs).filterMap (pointB L)
    · rw [((L.sortSlice_perm (lessPairs L) vs).filterMap (pointB L)).length_eq, heq]
      apply length_filterMap_of_isSome
      intro row hrow
      exact rowOkB_point L columns row (hrows row (List.mem_filter.1 hrow).1).2

theorem modeB_grouping_witness :
    ∃ (ret : Ret Int) (keys : List MetricTagKey),
      getDataFrameFromRows refLib ⟨none, none, sampleColumnsB, sampleDataB.map Except.ok⟩
        false true "SELECT" "lv\x7b\x7bnode\x7d\x7d" "query" 0 = .ok ret ∧
      ret.err = none ∧ keys.Nodup ∧
      (∀ k, k ∈ keys ↔ ∃ row ∈ sampleDataB, rowKeyB sampleColumnsB row = k) ∧
      List.Forall₂ (fun k fr => ∃ (vf : Field Int) (pts : List (Time × Int)),
        fr = seriesOf "query" vf pts ∧
        pts.Perm ((sampleDataB.filter (fun row => rowKeyB sampleColumnsB row = k)).filterMap
          (rowPointB refLib sampleColumnsB)) ∧
        pts.length = (sampleDataB.filter (fun row => rowKeyB sampleColumnsB row = k)).length)
        keys ret.frames :=
  modeB_grouping refLib sampleColumnsB none sampleDataB "SELECT" "lv\x7b\x7bnode\x7d\x7d" "query"
    0 (by decide) (by decide) (fun _ => ⟨_, rfl⟩)

set_option maxRecDepth 100000 in
/-- C1, counterexample.  In a Mode B cursor whose only row carries the
parsable time token -1 (`parseTime` returns (-1, 0) without error, the point
is one second before the epoch), the frame of the pair of that row holds no
point at all; and with the legend template `}}{{a}}` the call on a cursor of
plain tokens faults on the index -1 instead of returning a frame. -/
theorem modeB_grouping_counterexample :
    rowPointB refLib sampleColumnsB [.text "-1", .text "7", .text "cpu", .null] =
      some (Time.ofUnix (-1) 0, 7) ∧
    getDataFrameFromRows refLib
        ⟨none, none, sampleColumnsB, [.ok [.text "-1", .text "7", .text "cpu", .null]]⟩
        false true "SELECT" "" "query" 0 =
      .ok ⟨[seriesOf "query" ⟨"cpu", none, some "cpu", .float64, []⟩ []], "", none, 1, 1⟩ ∧
    getDataFrameFromRows refLib
        ⟨none, none, sampleColumnsB, [.ok [.text "10", .text "7", .text "cpu", .null]]⟩
        false true "SELECT" "\x7d\x7d\x7b\x7ba\x7d\x7d" "query" 0 =
      .error .indexOutOfRange := by
  decide

/-! ## Modes B and C: time order and provenance of the points -/

theorem forall₂_exists_left {α β : Type} {R : α → β → Prop} :
    ∀ {l : List α} {u : List β}, List.Forall₂ R l u → ∀ b ∈ u, ∃ a ∈ l, R a b := by
  intro l u h
  induction h with
  | nil => intro b hb; cases hb
  | cons hab _ ih =>
    intro b hb
    rcases List.mem_cons.1 hb with h1 | h1
    · subst h1; exact ⟨_, List.mem_cons_self _ _, hab⟩
    · obtain ⟨a, ha, hr⟩ := ih b h1
      exact ⟨a, List.mem_cons_of_mem _ ha, hr⟩

theorem pairwise_of_forall₂ {α β : Type} {R : α → β → Prop} {S : α → α → Prop}
    {T : β → β → Prop} (hT : ∀ a b a1 b1, R a b → R a1 b1 → S a a1 → T b b1) :
    ∀ {l : List α} {u : List β}, List.Forall₂ R l u → l.Pairwise S → u.Pairwise T := by
  intro l u h
  induction h with
  | nil => intro _; exact List.Pairwise.nil
  | cons hab hrest ih =>
    intro hp
    rw [List.pairwise_cons] at hp
    refine List.pairwise_cons.2 ⟨?_, ih hp.2⟩
    intro b1 hb1
    obtain ⟨a1, ha1, hr1⟩ := forall₂_exists_left hrest b1 hb1
    exact hT _ _ _ _ hab hr1 (hp.1 a1 ha1)

theorem supplies_of_pairFrom {F : Type} (L : GoLib F) (columns : List ColumnType)
    (row : List NullString) (pair : TimeValuePair F) (p : Time × F)
    (h : pairFrom L columns row pair) (ht : instantOf L pair.TimeStr = some p.1)
    (hv : p.2 = pair.Value) : supplies L columns row p := by
  obtain ⟨ct, rawt, cv, rawv, h1, h2, h3, h4, h5, h6⟩ := h
  exact ⟨ct, rawt, cv, rawv, h1, h2, h3, h4, by rw [← h5]; exact ht, by rw [hv]; exact h6⟩

/-- The sort closure compares the instants it computes for the tokens. -/
theorem lessPairs_key {F : Type} (L : GoLib F) (a b : TimeValuePair F) :
    lessPairs L a b =
      decide ((sortInstant L a.TimeStr).unixNano < (sortInstant L b.TimeStr).unixNano) := rfl

theorem sortSlice_pairs_sorted {F : Type} (L : GoLib F) (pairs : List (TimeValuePair F)) :
    (L.sortSlice (lessPairs L) pairs).Pairwise
      (fun a b => (sortInstant L a.TimeStr).unixNano ≤ (sortInstant L b.TimeStr).unixNano) :=
  L.sortSlice_sorted (fun a => (sortInstant L a.TimeStr).unixNano) (lessPairs L)
    (lessPairs_key L) pairs

/-- The points Mode B emits for a series are in time order, and each is the
point of one of the pairs of the series. -/
theorem pointsB_sorted {F : Type} (L : GoLib F) (pairs : List (TimeValuePair F)) :
    ((L.sortSlice (lessPairs L) pairs).filterMap (pointB L)).Pairwise
        (fun a b => a.1.unixNano ≤ b.1.unixNano) ∧
    ∀ p ∈ (L.sortSlice (lessPairs L) pairs).filterMap (pointB L),
      ∃ pair ∈ pairs, instantOf L pair.TimeStr = some p.1 ∧ p.2 = pair.Value := by
  constructor
  · refine List.Pairwise.filterMap (pointB L) ?_ (sortSlice_pairs_sorted L pairs)
    intro a a1 hle b hb b1 hb1
    rw [Option.mem_def] at hb hb1
    rw [← (pointB_some L a b hb).2.1, ← (pointB_some L a1 b1 hb1).2.1]
    exact hle
  · intro p hp
    obtain ⟨pair, hpair, hpt⟩ := List.mem_filterMap.1 hp
    exact ⟨pair, (L.sortSlice_perm (lessPairs L) pairs).mem_iff.1 hpair,
      (pointB_some L pair p hpt).1, (pointB_some L pair p hpt).2.2⟩

/-- The points of a successful emission loop of Mode C, pair by pair. -/
theorem pointsC_ok {F : Type} (L : GoLib F) :
    ∀ (pairs : List (TimeValuePair F)) (pts : List (Time × F)), pointsC L pairs = .ok pts →
      List.Forall₂ (fun tv p => timeCell L tv.TimeStr tv.TimeStr = .ok p.1 ∧ p.2 = tv.Value)
        pairs pts := by
  intro pairs
  induction pairs with
  | nil => intro pts h; cases h; exact List.Forall₂.nil
  | cons tv rest ih =>
    intro pts h
    unfold pointsC at h
    split at h
    · cases h
    · rename_i ts hts
      split at h
      · cases h
      · rename_i pts1 hrest
        cases h
        exact List.Forall₂.cons ⟨hts, rfl⟩ (ih _ hrest)

/-- The points Mode C emits for a series are in time order, and each is the
point of one of the pairs of the series. -/
theorem pointsC_sorted {F : Type} (L : GoLib F) (pairs : List (TimeValuePair F))
    (pts : List (Time × F)) (h : pointsC L (L.sortSlice (lessPairs L) pairs) = .ok pts) :
    pts.Pairwise (fun a b => a.1.unixNano ≤ b.1.unixNano) ∧
    ∀ p ∈ pts, ∃ pair ∈ pairs, instantOf L pair.TimeStr = some p.1 ∧ p.2 = pair.Value := by
  have hall := pointsC_ok L _ _ h
  constructor
  · refine pairwise_of_forall₂ ?_ hall (sortSlice_pairs_sorted L pairs)
    intro a b a1 b1 hab hab1 hle
    rw [← (instantOf_of_timeCell L _ _ hab.1).2, ← (instantOf_of_timeCell L _ _ hab1.1).2]
    exact hle
  · intro p hp
    obtain ⟨pair, hpair, hr⟩ := forall₂_exists_left hall p hp
    exact ⟨pair, (L.sortSlice_perm (lessPairs L) pairs).mem_iff.1 hpair,
      (instantOf_of_timeCell L _ _ hr.1).1, hr.2⟩

/-- The frames the emission loop of Mode C returns: frames held before, or the
series of an entry of the map. -/
theorem emitC_frames {F : Type} (L : GoLib F) (legendTextVal : String) (rp : Int) (n : Nat) :
    ∀ (entries : List (String × List (TimeValuePair F))) (frames0 : List (Frame F)) (t : Int),
      ∀ fr ∈ (emitC L legendTextVal rp n entries frames0 t).frames,
        fr ∈ frames0 ∨ ∃ e ∈ entries, ∃ pts,
          pointsC L (L.sortSlice (lessPairs L) e.2) = .ok pts ∧
          fr = seriesOf "response" (valueFieldC legendTextVal e.1) pts := by
  intro entries
  induction entries with
  | nil => intro frames0 t fr h; exact Or.inl (by simpa [emitC] using h)
  | cons e rest ih =>
    intro frames0 t fr h
    rcases e with ⟨key, pairs⟩
    unfold emitC at h
    split at h
    · simp at h
    · rename_i pts hp
      rcases ih _ _ fr h with h1 | ⟨e, he, pts1, h1, h2⟩
      · rcases List.mem_append.1 h1 with h3 | h3
        · exact Or.inl h3
        · right
          refine ⟨(key, pairs), List.mem_cons_self _ _, pts, hp, ?_⟩
          simp only [List.mem_singleton] at h3
          rw [h3]
          have hv : (valueFieldC (F := F) legendTextVal key).values = [] ∧
              (valueFieldC (F := F) legendTextVal key).ftype = .float64 := by
            unfold valueFieldC; split <;> exact ⟨rfl, rfl⟩
          exact appendPoints_seriesFrame _ _ _ hv.1 hv.2
      · exact Or.inr ⟨e, List.mem_cons_of_mem _ he, pts1, h1, h2⟩

theorem mapAppend_forall {κ ν : Type} [DecidableEq κ] (P : ν → Prop) :
    ∀ (m : List (κ × List ν)) (k : κ) (v : ν), (∀ e ∈ m, ∀ x ∈ e.2, P x) → P v →
      ∀ e ∈ mapAppend m k v, ∀ x ∈ e.2, P x := by
  intro m
  induction m with
  | nil =>
    intro k v _ hv e he x hx
    simp only [mapAppend, List.mem_singleton] at he
    subst he
    simp only [List.mem_singleton] at hx
    subst hx
    exact hv
  | cons e0 rest ih =>
    intro k v hm hv e he x hx
    rcases e0 with ⟨k0, vs0⟩
    unfold mapAppend at he
    split at he
    · rcases List.mem_cons.1 he with h1 | h1
      · subst h1
        rcases List.mem_append.1 hx with h2 | h2
        · exact hm (k0, vs0) (List.mem_cons_self _ _) x h2
        · simp only [List.mem_singleton] at h2
          subst h2
          exact hv
      · exact hm e (List.mem_cons_of_mem _ h1) x hx
    · rcases List.mem_cons.1 he with h1 | h1
      · subst h1
        exact hm (k0, vs0) (List.mem_cons_self _ _) x hx
      · exact ih k v (fun e1 he1 => hm e1 (List.mem_cons_of_mem _ he1)) hv e h1 x hx

theorem exists_of_kindCount (k : SemanticKind) (columns : List ColumnType)
    (h : 1 ≤ kindCount k columns) : ∃ c ∈ columns, classify c = k := by
  unfold kindCount at h
  have hpos : 0 < columns.countP (fun c => decide (classify c = k)) := h
  obtain ⟨c, hc, hk⟩ := List.countP_pos_iff.1 hpos
  exact ⟨c, hc, by simpa using hk⟩

theorem exists_cell_of_mem : ∀ (columns : List ColumnType) (row : List NullString)
    (c : ColumnType), c ∈ columns → row.length = columns.length →
      ∃ raw, (c, raw) ∈ columns.zip row := by
  intro columns
  induction columns with
  | nil => intro row c hc; cases hc
  | cons c0 cs ih =>
    intro row c hc hlen
    cases row with
    | nil => simp at hlen
    | cons r rs =>
      rcases List.mem_cons.1 hc with h | h
      · subst h; exact ⟨r, by simp⟩
      · obtain ⟨raw, hraw⟩ := ih rs c h (by simpa using hlen)
        exact ⟨raw, by simp [hraw]⟩

theorem classify_time (c : ColumnType) :
    classify c = .Time ↔ isTimeColumn c.DatabaseTypeName c.Name = true := by
  unfold classify
  by_cases h1 : isTimeColumn c.DatabaseTypeName c.Name = true
  · simp [h1]
  · by_cases h2 : isNumberColumn c.DatabaseTypeName = true
    · simp [h1, h2]
    · by_cases h3 : isCharColumn c.DatabaseTypeName = true
      · simp [h1, h2, h3]
      · simp [h1, h2, h3]

theorem classify_number (c : ColumnType) :
    classify c = .Number ↔
      (isTimeColumn c.DatabaseTypeName c.Name = false ∧
        isNumberColumn c.DatabaseTypeName = true) := by
  unfold classify
  by_cases h1 : isTimeColumn c.DatabaseTypeName c.Name = true
  · simp [h1]
  · by_cases h2 : isNumberColumn c.DatabaseTypeName = true
    · simp [h1, h2]
    · by_cases h3 : isCharColumn c.DatabaseTypeName = true
      · simp [h1, h2, h3]
      · simp [h1, h2, h3]

/-- The pair Mode B builds from a well-formed row is held by the row. -/
theorem pairFrom_rowB {F : Type} (L : GoLib F) (columns : List ColumnType)
    (row : List NullString) (valNum : F) (h4 : hasCanonicalColumns columns = true)
    (hlen : row.length = columns.length)
    (hp : L.ParseFloat (rowB columns row ⟨"", "", "", ""⟩).valSlice = .ok valNum) :
    pairFrom L columns row ⟨(rowB columns row ⟨"", "", "", ""⟩).timeSlice, valNum⟩ := by
  rw [rowB_canonical columns row h4 hlen] at hp ⊢
  simp only at hp ⊢
  have h4' := h4
  unfold hasCanonicalColumns at h4'
  simp only [Bool.and_eq_true] at h4'
  obtain ⟨rv, hrv⟩ := cellOf_isSome columns row "METRIC_VALUE" hlen h4'.1.1.2
  obtain ⟨rt, hrt⟩ := cellOf_isSome columns row "METRIC_TIME_EPOCH" hlen h4'.1.2
  obtain ⟨cv, hcv, hnv⟩ := cellOf_mem columns row _ _ hrv
  obtain ⟨ct, hct, hnt⟩ := cellOf_mem columns row _ _ hrt
  rw [hrv] at hp
  simp only [Option.getD_some] at hp
  unfold pairFrom
  refine ⟨ct, rt, cv, rv, hct, hcv, ?_, Or.inl hnv, ?_, (parseFloat_iff_valueOfCell L rv valNum).1 hp⟩
  · simp [isTimeColumn, hnt]
  · simp [rowTimeTokB, hrt]

/-- The row loop of Mode B: what it returns early holds no frame, and every
pair of the map it builds is held by a row of the cursor. -/
theorem loopB_pairs {F : Type} (L : GoLib F) (columns : List ColumnType) (rp : Int)
    (P : TimeValuePair F → Prop) (h4 : hasCanonicalColumns columns = true) :
    ∀ (rows : List (Except String (List NullString)))
      (m : List (MetricTagKey × List (TimeValuePair F))) (t : Int) (n : Nat),
      (∀ row, Except.ok row ∈ rows → row.length = columns.length) →
      (∀ row, Except.ok row ∈ rows → ∀ pair, pairFrom L columns row pair → P pair) →
      (∀ e ∈ m, ∀ x ∈ e.2, P x) →
      (∀ r, loopB L columns rp rows m t n = .error r → r.frames = []) ∧
      (∀ res, loopB L columns rp rows m t n = .ok res → ∀ e ∈ res.1, ∀ x ∈ e.2, P x) := by
  intro rows
  induction rows with
  | nil =>
    intro m t n _ _ hm
    refine ⟨fun r h => (by simp [loopB] at h), fun res h => ?_⟩
    simp only [loopB, Except.ok.injEq] at h
    subst h
    exact hm
  | cons row rest ih =>
    intro m t n hwf hP hm
    cases row with
    | error e =>
      refine ⟨fun r h => ?_, fun res h => by cases h⟩
      simp only [loopB, Except.error.injEq] at h
      subst h
      rfl
    | ok row =>
      unfold loopB
      cases hp : L.ParseFloat (rowB columns row ⟨"", "", "", ""⟩).valSlice with
      | error k =>
        refine ⟨fun r h => ?_, fun res h => by cases h⟩
        simp only [Except.error.injEq] at h
        subst h
        rfl
      | ok valNum =>
        simp only
        refine ih _ _ _ (fun r hr => hwf r (List.mem_cons_of_mem _ hr))
          (fun r hr => hP r (List.mem_cons_of_mem _ hr)) ?_
        refine mapAppend_forall P m _ _ hm ?_
        exact hP row (List.mem_cons_self _ _) _
          (pairFrom_rowB L columns row valNum h4 (hwf row (List.mem_cons_self _ _)) hp)

theorem valid_text2 (raw : NullString) (dflt : String) :
    (if raw.Valid then raw.String else dflt) = cellText raw dflt := by
  cases raw <;> rfl

/-- The pair the first grouping case of Mode C builds from a row: its token
is that of a Time cell and its value that of a Number cell, when the row has
such cells. -/
theorem rowC1_pair {F : Type} (L : GoLib F) :
    ∀ (columns : List ColumnType) (row : List NullString) (key0 : String)
      (tvp0 : TimeValuePair F) (key : String) (tvp : TimeValuePair F),
      rowC1 L columns row (key0, tvp0) = .ok (key, tvp) →
      ((tvp.TimeStr = tvp0.TimeStr ∧ ∀ p ∈ columns.zip row, classify p.1 ≠ .Time) ∨
        ∃ ct rawt, (ct, rawt) ∈ columns.zip row ∧
          isTimeColumn ct.DatabaseTypeName ct.Name = true ∧ tvp.TimeStr = cellText rawt "0") ∧
      ((tvp.Value = tvp0.Value ∧ ∀ p ∈ columns.zip row, classify p.1 ≠ .Number) ∨
        ∃ cv rawv, (cv, rawv) ∈ columns.zip row ∧
          isNumberColumn cv.DatabaseTypeName = true ∧ valueOfCell L rawv = some tvp.Value) := by
  intro columns
  induction columns with
  | nil =>
    intro row key0 tvp0 key tvp h
    cases row <;>
    · simp only [rowC1, Except.ok.injEq, Prod.mk.injEq] at h
      obtain ⟨_, h2⟩ := h
      subst h2
      exact ⟨Or.inl ⟨rfl, by simp⟩, Or.inl ⟨rfl, by simp⟩⟩
  | cons c cs ih =>
    intro row key0 tvp0 key tvp h
    cases row with
    | nil =>
      simp only [rowC1, Except.ok.injEq, Prod.mk.injEq] at h
      obtain ⟨_, h2⟩ := h
      subst h2
      exact ⟨Or.inl ⟨rfl, by simp⟩, Or.inl ⟨rfl, by simp⟩⟩
    | cons raw raws =>
      unfold rowC1 at h
      by_cases ht : isTimeColumn c.DatabaseTypeName c.Name = true
      · rw [if_pos ht] at h
        obtain ⟨h1, h2⟩ := ih raws _ _ _ _ h
        have hcn : classify c ≠ .Number := by
          rw [Ne, classify_number]; simp [ht]
        constructor
        · right
          rcases h1 with ⟨h1, _⟩ | ⟨ct, rawt, hm, hti, htok⟩
          · exact ⟨c, raw, by simp, ht, by rw [h1]; exact valid_text2 raw "0"⟩
          · exact ⟨ct, rawt, by simp [hm], hti, htok⟩
        · rcases h2 with ⟨h2, hno⟩ | ⟨cv, rawv, hm, hn, hv⟩
          · left
            refine ⟨h2, ?_⟩
            intro p hp
            simp only [List.zip_cons_cons, List.mem_cons] at hp
            rcases hp with hp | hp
            · rw [hp]; exact hcn
            · exact hno p hp
          · exact Or.inr ⟨cv, rawv, by simp [hm], hn, hv⟩
      · rw [if_neg ht] at h
        have hct : classify c ≠ .Time := by
          rw [Ne, classify_time]; exact ht
        have htime : ∀ (tvp1 : TimeValuePair F), tvp1.TimeStr = tvp0.TimeStr →
            ((tvp.TimeStr = tvp1.TimeStr ∧ ∀ p ∈ cs.zip raws, classify p.1 ≠ .Time) ∨
              ∃ ct rawt, (ct, rawt) ∈ cs.zip raws ∧
                isTimeColumn ct.DatabaseTypeName ct.Name = true ∧
                tvp.TimeStr = cellText rawt "0") →
            ((tvp.TimeStr = tvp0.TimeStr ∧
                ∀ p ∈ (c :: cs).zip (raw :: raws), classify p.1 ≠ .Time) ∨
              ∃ ct rawt, (ct, rawt) ∈ (c :: cs).zip (raw :: raws) ∧
                isTimeColumn ct.DatabaseTypeName ct.Name = true ∧
                tvp.TimeStr = cellText rawt "0") := by
          intro tvp1 he h1
          rcases h1 with ⟨h1, hno⟩ | ⟨ct, rawt, hm, hti, htok⟩
          · left
            refine ⟨by rw [h1, he], ?_⟩
            intro p hp
            simp only [List.zip_cons_cons, List.mem_cons] at hp
            rcases hp with hp | hp
            · rw [hp]; exact hct
            · exact hno p hp
          · exact Or.inr ⟨ct, rawt, by simp [hm], hti, htok⟩
        by_cases hn : isNumberColumn c.DatabaseTypeName = true
        · rw [if_pos hn] at h
          have hval : ∀ (tvp1 : TimeValuePair F), valueOfCell L raw = some tvp1.Value →
              ((tvp.Value = tvp1.Value ∧ ∀ p ∈ cs.zip raws, classify p.1 ≠ .Number) ∨
                ∃ cv rawv, (cv, rawv) ∈ cs.zip raws ∧
                  isNumberColumn cv.DatabaseTypeName = true ∧
                  valueOfCell L rawv = some tvp.Value) →
              ((tvp.Value = tvp0.Value ∧
                  ∀ p ∈ (c :: cs).zip (raw :: raws), classify p.1 ≠ .Number) ∨
                ∃ cv rawv, (cv, rawv) ∈ (c :: cs).zip (raw :: raws) ∧
                  isNumberColumn cv.DatabaseTypeName = true ∧
                  valueOfCell L rawv = some tvp.Value) := by
            intro tvp1 he h2
            right
            rcases h2 with ⟨h2, _⟩ | ⟨cv, rawv, hm, hn1, hv⟩
            · exact ⟨c, raw, by simp, hn, by rw [h2]; exact he⟩
            · exact ⟨cv, rawv, by simp [hm], hn1, hv⟩
          cases raw with
          | null =>
            simp only [NullString.Valid, Bool.false_eq_true, if_false] at h
            obtain ⟨h1, h2⟩ := ih raws _ _ _ _ h
            exact ⟨htime _ rfl h1, hval ⟨tvp0.TimeStr, L.zero⟩ rfl h2⟩
          | text s =>
            simp only [NullString.Valid, if_true, NullString.String] at h
            cases hp : L.ParseFloat s with
            | error k => rw [hp] at h; cases h
            | ok v =>
              rw [hp] at h
              simp only at h
              obtain ⟨h1, h2⟩ := ih raws _ _ _ _ h
              exact ⟨htime _ rfl h1, hval ⟨tvp0.TimeStr, v⟩
                (by simp [valueOfCell, hp, Except.toOption]) h2⟩
        · rw [if_neg hn] at h
          have hcn : classify c ≠ .Number := by
            rw [Ne, classify_number]; simp [hn]
          have hval : ((tvp.Value = tvp0.Value ∧ ∀ p ∈ cs.zip raws, classify p.1 ≠ .Number) ∨
                ∃ cv rawv, (cv, rawv) ∈ cs.zip raws ∧
                  isNumberColumn cv.DatabaseTypeName = true ∧
                  valueOfCell L rawv = some tvp.Value) →
              ((tvp.Value = tvp0.Value ∧
                  ∀ p ∈ (c :: cs).zip (raw :: raws), classify p.1 ≠ .Number) ∨
                ∃ cv rawv, (cv, rawv) ∈ (c :: cs).zip (raw :: raws) ∧
                  isNumberColumn cv.DatabaseTypeName = true ∧
                  valueOfCell L rawv = some tvp.Value) := by
            intro h2
            rcases h2 with ⟨h2, hno⟩ | ⟨cv, rawv, hm, hn1, hv⟩
            · left
              refine ⟨h2, ?_⟩
              intro p hp
              simp only [List.zip_cons_cons, List.mem_cons] at hp
              rcases hp with hp | hp
              · rw [hp]; exact hcn
              · exact hno p hp
            · exact Or.inr ⟨cv, rawv, by simp [hm], hn1, hv⟩
          split at h
          · obtain ⟨h1, h2⟩ := ih raws _ _ _ _ h
            exact ⟨htime _ rfl h1, hval h2⟩
          · obtain ⟨h1, h2⟩ := ih raws _ _ _ _ h
            exact ⟨htime _ rfl h1, hval h2⟩

/-- The pair the first grouping case of Mode C builds from a well-formed row
of a cursor with a Time and a Number column is held by the row. -/
theorem pairFrom_rowC1 {F : Type} (L : GoLib F) (columns : List ColumnType)
    (row : List NullString) (key : String) (tvp : TimeValuePair F)
    (hT : 1 ≤ kindCount .Time columns) (hN : 1 ≤ kindCount .Number columns)
    (hlen : row.length = columns.length)
    (h : rowC1 L columns row ("", ⟨"", L.zero⟩) = .ok (key, tvp)) :
    pairFrom L columns row tvp := by
  obtain ⟨h1, h2⟩ := rowC1_pair L columns row _ _ _ _ h
  obtain ⟨ct0, hct0, hkt⟩ := exists_of_kindCount .Time columns hT
  obtain ⟨cn0, hcn0, hkn⟩ := exists_of_kindCount .Number columns hN
  obtain ⟨rt0, hrt0⟩ := exists_cell_of_mem columns row ct0 hct0 hlen
  obtain ⟨rn0, hrn0⟩ := exists_cell_of_mem columns row cn0 hcn0 hlen
  rcases h1 with ⟨_, hno⟩ | ⟨ct, rawt, hmt, hti, htok⟩
  · exact absurd hkt (hno _ hrt0)
  · rcases h2 with ⟨_, hno⟩ | ⟨cv, rawv, hmv, hnu, hval⟩
    · exact absurd hkn (hno _ hrn0)
    · exact ⟨ct, rawt, cv, rawv, hmt, hmv, hti, Or.inr hnu, htok, hval⟩

/-- The first row loop of Mode C: every pair of the map it builds is held by
a row of the cursor. -/
theorem loopC1_pairs {F : Type} (L : GoLib F) (columns : List ColumnType) (rp : Int)
    (P : TimeValuePair F → Prop) (hT : 1 ≤ kindCount .Time columns)
    (hN : 1 ≤ kindCount .Number columns) :
    ∀ (rows : List (Except String (List NullString)))
      (m : List (String × List (TimeValuePair F))) (n : Nat),
      (∀ row, Except.ok row ∈ rows → row.length = columns.length) →
      (∀ row, Except.ok row ∈ rows → ∀ pair, pairFrom L columns row pair → P pair) →
      (∀ e ∈ m, ∀ x ∈ e.2, P x) →
      ∀ res, loopC1 L columns rp rows m n = .ok res → ∀ e ∈ res.1, ∀ x ∈ e.2, P x := by
  intro rows
  induction rows with
  | nil =>
    intro m n _ _ hm res h
    simp only [loopC1, Except.ok.injEq] at h
    subst h
    exact hm
  | cons row rest ih =>
    intro m n hwf hP hm res h
    cases row with
    | error e => simp [loopC1] at h
    | ok row =>
      unfold loopC1 at h
      split at h
      · cases h
      · rename_i key tvp hrow
        refine ih _ _ (fun r hr => hwf r (List.mem_cons_of_mem _ hr))
          (fun r hr => hP r (List.mem_cons_of_mem _ hr)) ?_ res h
        refine mapAppend_forall P m _ _ hm ?_
        exact hP row (List.mem_cons_self _ _) _
          (pairFrom_rowC1 L columns row key tvp hT hN (hwf row (List.mem_cons_self _ _)) hrow)

/-- The time token the second grouping case of Mode C reads from a row is
that of a Time cell, when the row has one. -/
theorem rowC2Key_time : ∀ (columns : List ColumnType) (row : List NullString)
    (key0 t0 : String),
    ((rowC2Key columns row (key0, t0)).2 = t0 ∧ ∀ p ∈ columns.zip row, classify p.1 ≠ .Time) ∨
      ∃ ct rawt, (ct, rawt) ∈ columns.zip row ∧
        isTimeColumn ct.DatabaseTypeName ct.Name = true ∧
        (rowC2Key columns row (key0, t0)).2 = cellText rawt "0" := by
  intro columns
  induction columns with
  | nil => intro row key0 t0; cases row <;> exact Or.inl ⟨rfl, by simp⟩
  | cons c cs ih =>
    intro row key0 t0
    cases row with
    | nil => exact Or.inl ⟨rfl, by simp⟩
    | cons raw raws =>
      unfold rowC2Key
      by_cases ht : isTimeColumn c.DatabaseTypeName c.Name = true
      · rw [if_pos ht]
        right
        rcases ih raws key0 (if raw.Valid then raw.String else "0") with
          ⟨h1, _⟩ | ⟨ct, rawt, hm, hti, htok⟩
        · exact ⟨c, raw, by simp, ht, by rw [h1]; exact valid_text2 raw "0"⟩
        · exact ⟨ct, rawt, by simp [hm], hti, htok⟩
      · rw [if_neg ht]
        have hct : classify c ≠ .Time := by
          rw [Ne, classify_time]; exact ht
        have key : ∀ k1 : String,
            ((rowC2Key cs raws (k1, t0)).2 = t0 ∧ ∀ p ∈ cs.zip raws, classify p.1 ≠ .Time) ∨
              (∃ ct rawt, (ct, rawt) ∈ cs.zip raws ∧
                isTimeColumn ct.DatabaseTypeName ct.Name = true ∧
                (rowC2Key cs raws (k1, t0)).2 = cellText rawt "0") →
            ((rowC2Key cs raws (k1, t0)).2 = t0 ∧
                ∀ p ∈ (c :: cs).zip (raw :: raws), classify p.1 ≠ .Time) ∨
              ∃ ct rawt, (ct, rawt) ∈ (c :: cs).zip (raw :: raws) ∧
                isTimeColumn ct.DatabaseTypeName ct.Name = true ∧
                (rowC2Key cs raws (k1, t0)).2 = cellText rawt "0" := by
          intro k1 h
          rcases h with ⟨h1, hno⟩ | ⟨ct, rawt, hm, hti, htok⟩
          · left
            refine ⟨h1, ?_⟩
            intro p hp
            simp only [List.zip_cons_cons, List.mem_cons] at hp
            rcases hp with hp | hp
            · rw [hp]; exact hct
            · exact hno p hp
          · exact Or.inr ⟨ct, rawt, by simp [hm], hti, htok⟩
        split
        · exact key _ (ih raws _ t0)
        · exact key _ (ih raws _ t0)

/-- The pairs the second grouping case of Mode C adds for a row carry the
time token read from the row and the value of a Number cell of the row. -/
theorem rowC2Vals_pairs {F : Type} (L : GoLib F) (key strtime : String)
    (P : TimeValuePair F → Prop) :
    ∀ (columns : List ColumnType) (row : List NullString)
      (m m1 : List (String × List (TimeValuePair F))),
      rowC2Vals L key strtime columns row m = .ok m1 →
      (∀ e ∈ m, ∀ x ∈ e.2, P x) →
      (∀ cv rawv v, (cv, rawv) ∈ columns.zip row → isNumberColumn cv.DatabaseTypeName = true →
        valueOfCell L rawv = some v → P ⟨strtime, v⟩) →
      ∀ e ∈ m1, ∀ x ∈ e.2, P x := by
  intro columns
  induction columns with
  | nil =>
    intro row m m1 h hm _
    cases row <;>
    · simp only [rowC2Vals, Except.ok.injEq] at h
      subst h
      exact hm
  | cons c cs ih =>
    intro row m m1 h hm hP
    cases row with
    | nil =>
      simp only [rowC2Vals, Except.ok.injEq] at h
      subst h
      exact hm
    | cons raw raws =>
      have hP1 : ∀ cv rawv v, (cv, rawv) ∈ cs.zip raws →
          isNumberColumn cv.DatabaseTypeName = true → valueOfCell L rawv = some v →
          P ⟨strtime, v⟩ :=
        fun cv rawv v hmem => hP cv rawv v (by simp [hmem])
      unfold rowC2Vals at h
      split at h
      · rename_i hnum
        simp only [Bool.and_eq_true, Bool.not_eq_true'] at hnum
        cases raw with
        | null =>
          simp only [NullString.Valid, Bool.false_eq_true, if_false] at h
          exact ih raws _ _ h
            (mapAppend_forall P m _ _ hm (hP c .null L.zero (by simp) hnum.1 rfl)) hP1
        | text s =>
          simp only [NullString.Valid, if_true, NullString.String] at h
          cases hp : L.ParseFloat s with
          | error k => rw [hp] at h; cases h
          | ok v =>
            rw [hp] at h
            simp only at h
            exact ih raws _ _ h
              (mapAppend_forall P m _ _ hm (hP c (.text s) v (by simp) hnum.1
                (by simp [valueOfCell, hp, Except.toOption]))) hP1
      · exact ih raws _ _ h hm hP1

/-- The time token of a pair that is emitted is not the empty string. -/
theorem instantOf_empty {F : Type} (L : GoLib F) : instantOf L "" = none := by
  unfold instantOf
  rw [L.parseRFC3339_empty]
  rfl

/-- The second row loop of Mode C: every pair of the map it builds either
is held by a row of the cursor or has the empty time token. -/
theorem loopC2_pairs {F : Type} (L : GoLib F) (columns : List ColumnType) (rp : Int)
    (P : TimeValuePair F → Prop) :
    ∀ (rows : List (Except String (List NullString)))
      (m : List (String × List (TimeValuePair F))) (n : Nat),
      (∀ row, Except.ok row ∈ rows → ∀ pair, pairFrom L columns row pair → P pair) →
      (∀ v, P ⟨"", v⟩) →
      (∀ e ∈ m, ∀ x ∈ e.2, P x) →
      ∀ res, loopC2 L columns rp rows m n = .ok res → ∀ e ∈ res.1, ∀ x ∈ e.2, P x := by
  intro rows
  induction rows with
  | nil =>
    intro m n _ _ hm res h
    simp only [loopC2, Except.ok.injEq] at h
    subst h
    exact hm
  | cons row rest ih =>
    intro m n hP hE hm res h
    cases row with
    | error e => simp [loopC2] at h
    | ok row =>
      unfold loopC2 at h
      split at h
      · cases h
      · rename_i m1 hrow
        refine ih _ _ (fun r hr => hP r (List.mem_cons_of_mem _ hr)) hE ?_ res h
        refine rowC2Vals_pairs L _ _ P columns row m m1 hrow hm ?_
        intro cv rawv v hmem hnum hval
        rcases rowC2Key_time columns row "" "" with ⟨h1, _⟩ | ⟨ct, rawt, hmt, hti, htok⟩
        · rw [h1]; exact hE v
        · exact hP row (List.mem_cons_self _ _) _
            ⟨ct, rawt, cv, rawv, hmt, hmem, hti, Or.inr hnum, htok, hval⟩

/-- The series Mode B returns: in time order, every point supplied by a row. -/
theorem modeB_sorted {F : Type} (L : GoLib F) (rows : Rows)
    (legendTextVal queryTextConverted : String) (rp : Int) (ret : Ret F)
    (h4 : hasCanonicalColumns rows.columns = true)
    (hwf : ∀ row, Except.ok row ∈ rows.rows → row.length = rows.columns.length)
    (h : modeB L rows legendTextVal queryTextConverted rp = .ok ret) :
    ∀ fr ∈ ret.frames, ∃ (name : String) (vf : Field F) (pts : List (Time × F)),
      fr = seriesOf name vf pts ∧
      pts.Pairwise (fun a b => a.1.unixNano ≤ b.1.unixNano) ∧
      ∀ p ∈ pts, ∃ row, Except.ok row ∈ rows.rows ∧ supplies L rows.columns row p := by
  unfold modeB at h
  have hl := loopB_pairs L rows.columns rp
    (fun pair => ∀ p : Time × F, instantOf L pair.TimeStr = some p.1 → p.2 = pair.Value →
      ∃ row, Except.ok row ∈ rows.rows ∧ supplies L rows.columns row p) h4 rows.rows [] 0 0 hwf
    (fun row hrow pair hpf p hp1 hp2 =>
      ⟨row, hrow, supplies_of_pairFrom L rows.columns row pair p hpf hp1 hp2⟩)
    (fun e he => by cases he)
  split at h
  · rename_i r hr
    cases h
    intro fr hfr
    rw [hl.1 _ hr] at hfr
    cases hfr
  · rename_i m t n hm
    split at h
    · cases h
    · rename_i framesFinal hf
      cases h
      intro fr hfr
      have hall := framesB_shape L legendTextVal queryTextConverted _ _ hf
      obtain ⟨e, he, vf, hfe⟩ := forall₂_exists_left hall fr hfr
      have he' : e ∈ m := (L.rangeOrder_perm m).mem_iff.1 he
      refine ⟨queryTextConverted, vf, _, hfe, (pointsB_sorted L e.2).1, ?_⟩
      intro p hp
      obtain ⟨pair, hpair, hp1, hp2⟩ := (pointsB_sorted L e.2).2 p hp
      exact hl.2 _ hm e he' pair hpair p hp1 hp2

/-- The series Mode C returns: in time order, every point supplied by a row. -/
theorem modeC_sorted {F : Type} (L : GoLib F) (rows : Rows) (legendTextVal : String) (rp : Int)
    (hwf : ∀ row, Except.ok row ∈ rows.rows → row.length = rows.columns.length) :
    ∀ fr ∈ (modeC L rows legendTextVal rp).frames,
      ∃ (name : String) (vf : Field F) (pts : List (Time × F)),
        fr = seriesOf name vf pts ∧
        pts.Pairwise (fun a b => a.1.unixNano ≤ b.1.unixNano) ∧
        ∀ p ∈ pts, ∃ row, Except.ok row ∈ rows.rows ∧ supplies L rows.columns row p := by
  have hfin : ∀ (m : List (String × List (TimeValuePair F))) (n : Nat),
      (∀ e ∈ m, ∀ x ∈ e.2, ∀ p : Time × F, instantOf L x.TimeStr = some p.1 → p.2 = x.Value →
        ∃ row, Except.ok row ∈ rows.rows ∧ supplies L rows.columns row p) →
      ∀ fr ∈ (emitC L legendTextVal rp n (L.rangeOrder m) [] 0).frames,
        ∃ (name : String) (vf : Field F) (pts : List (Time × F)),
          fr = seriesOf name vf pts ∧
          pts.Pairwise (fun a b => a.1.unixNano ≤ b.1.unixNano) ∧
          ∀ p ∈ pts, ∃ row, Except.ok row ∈ rows.rows ∧ supplies L rows.columns row p := by
    intro m n hm fr hfr
    rcases emitC_frames L legendTextVal rp n _ _ _ fr hfr with h1 | ⟨e, he, pts, hpts, hfe⟩
    · cases h1
    · have he' : e ∈ m := (L.rangeOrder_perm m).mem_iff.1 he
      refine ⟨"response", valueFieldC legendTextVal e.1, pts, hfe,
        (pointsC_sorted L e.2 pts hpts).1, ?_⟩
      intro p hp
      obtain ⟨pair, hpair, hp1, hp2⟩ := (pointsC_sorted L e.2 pts hpts).2 p hp
      exact hm e he' pair hpair p hp1 hp2
  unfold modeC
  split
  · intro fr hfr; cases hfr
  · rw [countCols_eq]
    simp only [Nat.zero_add, ge_iff_le]
    split
    · rename_i hc
      split
      · rename_i r hr
        intro fr hfr
        rw [(loopC1_err L rows.columns rp "" _ _ _ _ hr).1] at hfr
        cases hfr
      · rename_i m n hm
        refine hfin m n ?_
        exact loopC1_pairs L rows.columns rp _ (by omega) (by omega) rows.rows [] 0 hwf
          (fun row hrow pair hpf p hp1 hp2 =>
            ⟨row, hrow, supplies_of_pairFrom L rows.columns row pair p hpf hp1 hp2⟩)
          (fun e he => by cases he) _ hm
    · split
      · split
        · rename_i r hr
          intro fr hfr
          rw [(loopC2_err L rows.columns rp "" _ _ _ _ hr).1] at hfr
          cases hfr
        · rename_i m n hm
          refine hfin m n ?_
          exact loopC2_pairs L rows.columns rp _ rows.rows [] 0
            (fun row hrow pair hpf p hp1 hp2 =>
              ⟨row, hrow, supplies_of_pairFrom L rows.columns row pair p hpf hp1 hp2⟩)
            (fun v p hp1 _ => by
              simp only [instantOf_empty] at hp1
              cases hp1)
            (fun e he => by cases he) _ hm
      · intro fr hfr; cases hfr

/-- C2.  Time ordering in Modes B and C (promql unset, convertToTimeSeries
set, one cell per column in every row): every frame the call returns is a
series whose METRIC_TIME values are in non-decreasing order of instant, also
when the rows of one series mix the two timestamp grammars (RFC 3339
calendar text and epoch seconds[.fraction]), and the value at each position
is the value of a row that supplied that time: the row has a time cell
denoting the instant and a value cell holding the value. -/
theorem frames_time_ordered {F : Type} (L : GoLib F) (rows : Rows)
    (qryInputVal legendTextVal queryTextConverted : String) (rp : Int) (ret : Ret F)
    (hwf : ∀ row, Except.ok row ∈ rows.rows → row.length = rows.columns.length)
    (h : getDataFrameFromRows L rows false true qryInputVal legendTextVal queryTextConverted rp =
      .ok ret) :
    ∀ fr ∈ ret.frames, ∃ (name : String) (vf : Field F) (pts : List (Time × F)),
      fr = seriesOf name vf pts ∧
      pts.Pairwise (fun a b => a.1.unixNano ≤ b.1.unixNano) ∧
      ∀ p ∈ pts, ∃ row, Except.ok row ∈ rows.rows ∧ supplies L rows.columns row p := by
  unfold getDataFrameFromRows at h
  simp only [Bool.not_false, Bool.not_true, Bool.and_false, Bool.and_true, Bool.true_and,
    if_true, if_false, Bool.false_eq_true] at h
  split at h
  · cases h
    intro fr hfr
    cases hfr
  · split at h
    · rename_i h4
      exact modeB_sorted L rows legendTextVal queryTextConverted rp ret h4 hwf h
    · cases h
      exact modeC_sorted L rows legendTextVal rp hwf

theorem frames_time_ordered_witness :
    getDataFrameFromRows refLib sampleRowsC false true "SELECT" "" "query" 0 =
      .ok ⟨[seriesOf "response" ⟨"node-a", none, some "node-a", .float64, []⟩
        [(⟨1700000100000000000⟩, 2), (⟨1704067200000000000⟩, 1)]], "", none, 2, 2⟩ ∧
    ∀ fr ∈ [seriesOf "response" (⟨"node-a", none, some "node-a", .float64, []⟩ : Field Int)
        [(⟨1700000100000000000⟩, 2), (⟨1704067200000000000⟩, 1)]],
      ∃ (name : String) (vf : Field Int) (pts : List (Time × Int)),
        fr = seriesOf name vf pts ∧
        pts.Pairwise (fun a b => a.1.unixNano ≤ b.1.unixNano) ∧
        ∀ p ∈ pts, ∃ row, Except.ok row ∈ sampleRowsC.rows ∧
          supplies refLib sampleRowsC.columns row p :=
  ⟨by decide,
    frames_time_ordered refLib sampleRowsC "SELECT" "" "query" 0
      ⟨[seriesOf "response" ⟨"node-a", none, some "node-a", .float64, []⟩
        [(⟨1700000100000000000⟩, 2), (⟨1704067200000000000⟩, 1)]], "", none, 2, 2⟩
      (by
        intro row hrow
        simp only [sampleRowsC, List.mem_cons, Except.ok.injEq, List.mem_singleton,
          List.not_mem_nil, or_false] at hrow
        rcases hrow with h | h <;> (subst h; rfl))
      (by decide)⟩

/-! ## Mode C: grouping in the multi-metric case -/

theorem isChar_not_isNumber (t : String) (h : isCharColumn t = true) :
    isNumberColumn t = false := by
  unfold isCharColumn at h
  simp only [Bool.or_eq_true, decide_eq_true_eq] at h
  rcases h with ((h | h) | h) | h <;> (subst h; decide)

theorem classify_char (c : ColumnType) :
    classify c = .Char ↔
      (isTimeColumn c.DatabaseTypeName c.Name = false ∧
        isCharColumn c.DatabaseTypeName = true) := by
  unfold classify
  by_cases h1 : isTimeColumn c.DatabaseTypeName c.Name = true
  · simp [h1]
  · by_cases h3 : isCharColumn c.DatabaseTypeName = true
    · have h2 := isChar_not_isNumber _ h3
      simp [h1, h2, h3]
    · by_cases h2 : isNumberColumn c.DatabaseTypeName = true
      · simp [h1, h2, h3]
      · simp [h1, h2, h3]

theorem charTuple_cons (c : ColumnType) (cs : List ColumnType) (raw : NullString)
    (raws : List NullString) :
    charTuple (c :: cs) (raw :: raws) =
      if classify c = .Char then raw :: charTuple cs raws else charTuple cs raws := by
  unfold charTuple
  by_cases h : classify c = .Char <;> simp [List.filter_cons, h]

theorem timeCells_cons (c : ColumnType) (cs : List ColumnType) (raw : NullString)
    (raws : List NullString) :
    (((c :: cs).zip (raw :: raws)).filter (fun p => classify p.1 = .Time)).map
        (fun p => cellText p.2 "0") =
      if classify c = .Time then
        cellText raw "0" :: ((cs.zip raws).filter (fun p => classify p.1 = .Time)).map
          (fun p => cellText p.2 "0")
      else ((cs.zip raws).filter (fun p => classify p.1 = .Time)).map
          (fun p => cellText p.2 "0") := by
  by_cases h : classify c = .Time <;> simp [List.filter_cons, h]

/-- The key and the time token the second grouping case reads from a row. -/
theorem rowC2Key_eq : ∀ (columns : List ColumnType) (row : List NullString) (key0 t0 : String),
    rowC2Key columns row (key0, t0) =
      ((charTuple columns row).foldl (fun key raw => key ++ cellText raw "") key0,
        (((columns.zip row).filter (fun p => classify p.1 = .Time)).map
          (fun p => cellText p.2 "0")).getLastD t0) := by
  intro columns
  induction columns with
  | nil => intro row key0 t0; cases row <;> rfl
  | cons c cs ih =>
    intro row key0 t0
    cases row with
    | nil => rfl
    | cons raw raws =>
      unfold rowC2Key
      rw [charTuple_cons, timeCells_cons]
      by_cases ht : isTimeColumn c.DatabaseTypeName c.Name = true
      · have hk : classify c = .Time := (classify_time c).2 ht
        have hkc : classify c ≠ .Char := by rw [hk]; decide
        rw [if_pos ht, ih, if_neg hkc, if_pos hk, List.getLastD_cons, valid_text2]
      · have hk : classify c ≠ .Time := fun h => ht ((classify_time c).1 h)
        rw [if_neg ht, if_neg hk]
        by_cases hc : isCharColumn c.DatabaseTypeName = true
        · have hkc : classify c = .Char := (classify_char c).2 ⟨by simpa using ht, hc⟩
          rw [if_pos hc, ih, if_pos hkc, List.foldl_cons]
          cases raw with
          | null => simp [cellText, NullString.Valid]
          | text s => simp [cellText, NullString.Valid, NullString.String]
        · have hkc : classify c ≠ .Char := fun h => hc ((classify_char c).1 h).2
          rw [if_neg hc, ih, if_neg hkc]

theorem rowC2Key_sample (columns : List ColumnType) (row : List NullString) :
    rowC2Key columns row ("", "") = (charConcat columns row, rowTimeTokC columns row) := by
  rw [rowC2Key_eq]
  rfl

/-- The second cell loop of the multi-metric case on a row whose Number cells parse. -/
theorem rowC2Vals_ok {F : Type} (L : GoLib F) (key strtime : String) :
    ∀ (columns : List ColumnType) (row : List NullString)
      (m : List (String × List (TimeValuePair F))),
      (∀ p ∈ (columns.zip row).filter (fun p => classify p.1 = .Number),
        (valueOfCell L p.2).isSome = true) →
      rowC2Vals L key strtime columns row m =
        .ok ((((columns.zip row).filter (fun p => classify p.1 = .Number)).map (fun p =>
          (key ++ p.1.Name, (⟨strtime, (valueOfCell L p.2).getD L.zero⟩ : TimeValuePair F)))).foldl
            (fun m e => mapAppend m e.1 e.2) m) := by
  intro columns
  induction columns with
  | nil => intro row m _; cases row <;> rfl
  | cons c cs ih =>
    intro row m h
    cases row with
    | nil => rfl
    | cons raw raws =>
      unfold rowC2Vals
      by_cases hn : classify c = .Number
      · have hn' := (classify_number c).1 hn
        have hrest : ∀ p ∈ (cs.zip raws).filter (fun p => classify p.1 = .Number),
            (valueOfCell L p.2).isSome = true := by
          intro p hp
          apply h p
          simp only [List.zip_cons_cons, List.filter_cons, hn, decide_True, if_true]
          exact List.mem_cons_of_mem _ hp
        have hcell : (valueOfCell L raw).isSome = true := by
          apply h (c, raw)
          simp [List.filter_cons, hn]
        obtain ⟨v, hv⟩ := Option.isSome_iff_exists.1 hcell
        simp only [hn'.1, hn'.2, Bool.not_false, Bool.and_self, if_true]
        cases raw with
        | null =>
          simp only [NullString.Valid, Bool.false_eq_true, if_false]
          rw [ih raws _ hrest]
          simp [List.filter_cons, hn, valueOfCell]
        | text s =>
          simp only [NullString.Valid, if_true, NullString.String]
          simp only [valueOfCell] at hv
          cases hp : L.ParseFloat s with
          | error k => rw [hp] at hv; simp [Except.toOption] at hv
          | ok v1 =>
            simp only
            rw [ih raws _ hrest]
            simp [List.filter_cons, hn, valueOfCell, hp, Except.toOption]
      · have hrest : ∀ p ∈ (cs.zip raws).filter (fun p => classify p.1 = .Number),
            (valueOfCell L p.2).isSome = true := by
          intro p hp
          apply h p
          simp only [List.zip_cons_cons, List.filter_cons, hn, decide_False]
          exact hp
        have hcond : (isNumberColumn c.DatabaseTypeName &&
            !isTimeColumn c.DatabaseTypeName c.Name) = false := by
          by_contra hne
          simp only [Bool.not_eq_false, Bool.and_eq_true, Bool.not_eq_true'] at hne
          exact hn ((classify_number c).2 ⟨hne.2, hne.1⟩)
        rw [hcond]
        simp only [Bool.false_eq_true, if_false]
        rw [ih raws _ hrest]
        simp [List.filter_cons, hn]

theorem rowOkC_cells {F : Type} (L : GoLib F) (columns : List ColumnType)
    (row : List NullString) (h : rowOkC L columns row = true) :
    secondsSentinel L (rowTimeTokC columns row) = false ∧
    ∀ p ∈ (columns.zip row).filter (fun p => classify p.1 = .Number),
      ∃ t v, instantOf L (rowTimeTokC columns row) = some t ∧ valueOfCell L p.2 = some v := by
  unfold rowOkC at h
  simp only [Bool.and_eq_true, Bool.not_eq_true', List.all_eq_true] at h
  refine ⟨h.2, ?_⟩
  intro p hp
  have he := h.1 (charConcat columns row ++ p.1.Name,
      match instantOf L (rowTimeTokC columns row), valueOfCell L p.2 with
      | some t, some v => some (t, v)
      | _, _ => none) (by
    unfold rowEntriesC
    exact List.mem_map.2 ⟨p, hp, rfl⟩)
  simp only at he
  split at he
  · rename_i t v ht hv; exact ⟨t, v, ht, hv⟩
  · cases he

/-- The row loop of the multi-metric case on rows whose tokens parse. -/
theorem loopC2_ok {F : Type} (L : GoLib F) (columns : List ColumnType) (rp : Int) :
    ∀ (data : List (List NullString)) (m : List (String × List (TimeValuePair F))) (n : Nat),
      (∀ row ∈ data, rowOkC L columns row = true) →
      loopC2 L columns rp (data.map Except.ok) m n =
        .ok ((data.flatMap (rowPairsC L columns)).foldl (fun m e => mapAppend m e.1 e.2) m,
          n + data.length) := by
  intro data
  induction data with
  | nil => intro m n _; simp [loopC2]
  | cons row rest ih =>
    intro m n h
    have hrow := rowOkC_cells L columns row (h row (by simp))
    have hvals := rowC2Vals_ok L (charConcat columns row) (rowTimeTokC columns row) columns row m
      (fun p hp => by
        obtain ⟨t, v, _, hv⟩ := hrow.2 p hp
        rw [hv]; rfl)
    have e2 : n + 1 + rest.length = n + (rest.length + 1) := by omega
    simp only [List.map_cons, loopC2, rowC2Key_sample, hvals]
    rw [ih _ _ (fun r hr => h r (by simp [hr]))]
    simp only [List.flatMap_cons, List.foldl_append, rowPairsC, List.length_cons, e2]

/-- The emission loop of Mode C converts every pair whose token is accepted. -/
theorem pointsC_of_accepted {F : Type} (L : GoLib F) :
    ∀ (pairs : List (TimeValuePair F)),
      (∀ x ∈ pairs, (instantOf L x.TimeStr).isSome = true ∧
        secondsSentinel L x.TimeStr = false) →
      pointsC L pairs = .ok (pairs.filterMap (pointB L)) := by
  intro pairs
  induction pairs with
  | nil => intro _; rfl
  | cons tv rest ih =>
    intro h
    obtain ⟨h1, h2⟩ := h tv (by simp)
    obtain ⟨t, ht⟩ := Option.isSome_iff_exists.1 h1
    have hp : pointB L tv = some (t, tv.Value) := pointB_of_instantOf L tv.TimeStr tv.Value t ht h2
    simp only [pointsC, timeCell_of_instantOf L tv.TimeStr t ht h2,
      ih (fun x hx => h x (by simp [hx])), List.filterMap_cons, hp]

/-- The emission loop of Mode C when every token is accepted: one series per
entry of the map, in the order visited. -/
theorem emitC_ok {F : Type} (L : GoLib F) (legendTextVal : String) (rp : Int) (n : Nat) :
    ∀ (entries : List (String × List (TimeValuePair F))) (frames0 : List (Frame F)) (t : Int),
      (∀ e ∈ entries, ∀ x ∈ e.2, (instantOf L x.TimeStr).isSome = true ∧
        secondsSentinel L x.TimeStr = false) →
      ∃ t1, emitC L legendTextVal rp n entries frames0 t =
        ⟨frames0 ++ entries.map (fun e => seriesOf "response" (valueFieldC legendTextVal e.1)
          ((L.sortSlice (lessPairs L) e.2).filterMap (pointB L))), "", none, t1, n⟩ := by
  intro entries
  induction entries with
  | nil => intro frames0 t _; exact ⟨t, by simp [emitC]⟩
  | cons e rest ih =>
    intro frames0 t h
    rcases e with ⟨key, pairs⟩
    have hacc : ∀ x ∈ L.sortSlice (lessPairs L) pairs,
        (instantOf L x.TimeStr).isSome = true ∧ secondsSentinel L x.TimeStr = false :=
      fun x hx => h (key, pairs) (by simp) x ((L.sortSlice_perm (lessPairs L) pairs).mem_iff.1 hx)
    have hv : (valueFieldC (F := F) legendTextVal key).values = [] ∧
        (valueFieldC (F := F) legendTextVal key).ftype = .float64 := by
      unfold valueFieldC; split <;> exact ⟨rfl, rfl⟩
    obtain ⟨t1, ht1⟩ := ih (frames0 ++ [seriesOf "response" (valueFieldC legendTextVal key)
      ((L.sortSlice (lessPairs L) pairs).filterMap (pointB L))])
      (t + ((L.sortSlice (lessPairs L) pairs).filterMap (pointB L)).length)
      (fun e he => h e (by simp [he]))
    refine ⟨t1, ?_⟩
    simp only [emitC, pointsC_of_accepted L _ hacc, appendPoints_seriesFrame _ _ _ hv.1 hv.2, ht1]
    simp

/-- The specified entries of a row whose tokens parse are the points of the
pairs the code builds. -/
theorem rowEntriesC_eq {F : Type} (L : GoLib F) (columns : List ColumnType)
    (row : List NullString) (h : rowOkC L columns row = true) :
    rowEntriesC L columns row =
      (rowPairsC L columns row).map (fun e => (e.1, pointB L e.2)) := by
  obtain ⟨hs, hcells⟩ := rowOkC_cells L columns row h
  unfold rowEntriesC rowPairsC
  rw [List.map_map]
  apply List.map_congr_left
  intro p hp
  obtain ⟨t, v, ht, hv⟩ := hcells p hp
  simp only [Function.comp, ht, hv, Option.getD_some, pointB_of_instantOf L _ v t ht hs]

theorem rowPairsC_accepted {F : Type} (L : GoLib F) (columns : List ColumnType)
    (row : List NullString) (h : rowOkC L columns row = true) :
    ∀ e ∈ rowPairsC L columns row, (instantOf L e.2.TimeStr).isSome = true ∧
      secondsSentinel L e.2.TimeStr = false := by
  obtain ⟨hs, hcells⟩ := rowOkC_cells L columns row h
  intro e he
  unfold rowPairsC at he
  obtain ⟨p, hp, rfl⟩ := List.mem_map.1 he
  obtain ⟨t, v, ht, _⟩ := hcells p hp
  exact ⟨by simp [ht], hs⟩

theorem flatMap_rowEntriesC {F : Type} (L : GoLib F) (columns : List ColumnType) :
    ∀ data : List (List NullString), (∀ row ∈ data, rowOkC L columns row = true) →
      data.flatMap (rowEntriesC L columns) =
        (data.flatMap (rowPairsC L columns)).map (fun e => (e.1, pointB L e.2)) := by
  intro data
  induction data with
  | nil => intro _; rfl
  | cons row rest ih =>
    intro h
    simp only [List.flatMap_cons, List.map_append]
    rw [rowEntriesC_eq L columns row (h row (by simp)), ih (fun r hr => h r (by simp [hr]))]

/-- C6 (amended).  Mode C multi-metric grouping: for every cursor with exactly
one Time column, two or more Number columns and at least one Char column,
whose tokens all parse and whose time tokens are none that `parseTime` maps to
seconds -1, the frames returned are in one-to-one correspondence with the
distinct series keys that occur, a key being the text made of the
concatenated non-NULL Char-column values of a row followed by the name of a
Number column; the points of the frame of a key are a permutation of the
points of exactly the (row, Number column) pairs with that key, so two points
land in the same series if and only if their keys are the same text. -/
theorem modeC_multi_grouping {F : Type} (L : GoLib F) (columns : List ColumnType)
    (data : List (List NullString)) (qryInputVal legendTextVal queryTextConverted : String)
    (rp : Int) (h4 : hasCanonicalColumns columns = false)
    (hT : kindCount .Time columns = 1) (hN : 2 ≤ kindCount .Number columns)
    (hC : 1 ≤ kindCount .Char columns)
    (hrows : ∀ row ∈ data, rowOkC L columns row = true) :
    ∃ (ret : Ret F) (keys : List String),
      getDataFrameFromRows L ⟨none, none, columns, data.map Except.ok⟩ false true qryInputVal
        legendTextVal queryTextConverted rp = .ok ret ∧
      ret.err = none ∧ keys.Nodup ∧
      (∀ k, k ∈ keys ↔ ∃ row ∈ data, ∃ e ∈ rowEntriesC L columns row, e.1 = k) ∧
      List.Forall₂ (fun k fr => ∃ pts : List (Time × F),
        fr = seriesOf "response" (valueFieldC legendTextVal k) pts ∧
        pts.Perm (((data.flatMap (rowEntriesC L columns)).filter (fun e => e.1 = k)).filterMap
          Prod.snd)) keys ret.frames := by
  have hloop := loopC2_ok L columns rp data [] 0 hrows
  have hg : Grouped ((data.flatMap (rowPairsC L columns)).foldl
      (fun m e => mapAppend m e.1 e.2) []) (data.flatMap (rowPairsC L columns)) := by
    simpa using Grouped.foldl (data.flatMap (rowPairsC L columns)) [] [] Grouped.nil
  have hgp := Grouped.perm _ _ _ hg (L.rangeOrder_perm
    ((data.flatMap (rowPairsC L columns)).foldl (fun m e => mapAppend m e.1 e.2) []))
  have hacc : ∀ e ∈ L.rangeOrder ((data.flatMap (rowPairsC L columns)).foldl
      (fun m e => mapAppend m e.1 e.2) []), ∀ x ∈ e.2,
      (instantOf L x.TimeStr).isSome = true ∧ secondsSentinel L x.TimeStr = false := by
    rintro ⟨k, vs⟩ he x hx
    rw [hgp.2.2 k vs he] at hx
    obtain ⟨e1, he1, rfl⟩ := List.mem_map.1 hx
    obtain ⟨row, hrow, hmem⟩ := List.mem_flatMap.1 (List.mem_filter.1 he1).1
    exact rowPairsC_accepted L columns row (hrows row hrow) e1 hmem
  obtain ⟨t1, hemit⟩ := emitC_ok L legendTextVal rp (0 + data.length) _ [] 0 hacc
  have hentries := flatMap_rowEntriesC L columns data hrows
  refine ⟨⟨[] ++ (L.rangeOrder ((data.flatMap (rowPairsC L columns)).foldl
      (fun m e => mapAppend m e.1 e.2) [])).map (fun e =>
        seriesOf "response" (valueFieldC legendTextVal e.1)
          ((L.sortSlice (lessPairs L) e.2).filterMap (pointB L))), "", none, t1,
      0 + data.length⟩,
    (L.rangeOrder ((data.flatMap (rowPairsC L columns)).foldl
      (fun m e => mapAppend m e.1 e.2) [])).map Prod.fst, ?_, ?_, hgp.1, ?_, ?_⟩
  · unfold hasCanonicalColumns at h4
    have hn1 : ¬ (kindCount .Time columns = 1 ∧ kindCount .Number columns = 1 ∧
        1 ≤ kindCount .Char columns) := by omega
    have hn2 : kindCount .Time columns = 1 ∧ 1 ≤ kindCount .Number columns ∧
        1 ≤ kindCount .Char columns := ⟨hT, by omega, hC⟩
    simp only [getDataFrameFromRows, Bool.not_false, Bool.not_true, Bool.and_false,
      Bool.and_true, Bool.true_and, if_true, if_false, Bool.false_eq_true, h4, modeC,
      countCols_eq, Nat.zero_add, ge_iff_le]
    rw [if_neg hn1, if_pos hn2, hloop]
    simp only
    rw [hemit]
    simp
  · rfl
  · intro k
    rw [hgp.2.1 k]
    simp only [List.mem_map, List.mem_flatMap]
    constructor
    · rintro ⟨e, ⟨row, hrow, he⟩, rfl⟩
      exact ⟨row, hrow, (e.1, pointB L e.2), by
        rw [rowEntriesC_eq L columns row (hrows row hrow)]
        exact List.mem_map.2 ⟨e, he, rfl⟩, rfl⟩
    · rintro ⟨row, hrow, e, he, rfl⟩
      rw [rowEntriesC_eq L columns row (hrows row hrow)] at he
      obtain ⟨e1, he1, rfl⟩ := List.mem_map.1 he
      exact ⟨e1, ⟨row, hrow, he1⟩, rfl⟩
  · simp only [List.nil_append]
    rw [List.forall₂_map_left_iff, List.forall₂_map_right_iff]
    have hrefl : ∀ l : List (String × List (TimeValuePair F)),
        (∀ e ∈ l, e ∈ L.rangeOrder ((data.flatMap (rowPairsC L columns)).foldl
          (fun m e => mapAppend m e.1 e.2) [])) →
        List.Forall₂ (fun a c => ∃ pts : List (Time × F),
          seriesOf "response" (valueFieldC legendTextVal c.1)
              ((L.sortSlice (lessPairs L) c.2).filterMap (pointB L)) =
            seriesOf "response" (valueFieldC legendTextVal a.1) pts ∧
          pts.Perm (((data.flatMap (rowEntriesC L columns)).filter
            (fun e => e.1 = a.1)).filterMap Prod.snd)) l l := by
      intro l
      induction l with
      | nil => intro _; exact List.Forall₂.nil
      | cons e rest ih =>
        intro hmem
        refine List.Forall₂.cons ?_ (ih (fun x hx => hmem x (List.mem_cons_of_mem _ hx)))
        rcases e with ⟨k, vs⟩
        refine ⟨_, rfl, ?_⟩
        have hvs := hgp.2.2 k vs (hmem (k, vs) (List.mem_cons_self _ _))
        have heq : vs.filterMap (pointB L) =
            ((data.flatMap (rowEntriesC L columns)).filter (fun e => e.1 = k)).filterMap
              Prod.snd := by
          rw [hvs, hentries, List.filter_map, List.filterMap_map, List.filterMap_map]
          rfl
        rw [← heq]
        exact (L.sortSlice_perm (lessPairs L) vs).filterMap (pointB L)
    exact hrefl _ (fun e he => he)

theorem modeC_multi_grouping_witness :
    ∃ (ret : Ret Int) (keys : List String),
      getDataFrameFromRows refLib ⟨none, none, sampleColumnsWide, sampleDataWide.map Except.ok⟩
        false true "SELECT" "" "query" 0 = .ok ret ∧
      ret.err = none ∧ keys.Nodup ∧
      (∀ k, k ∈ keys ↔ ∃ row ∈ sampleDataWide, ∃ e ∈ rowEntriesC refLib sampleColumnsWide row,
        e.1 = k) ∧
      List.Forall₂ (fun k fr => ∃ pts : List (Time × Int),
        fr = seriesOf "response" (valueFieldC "" k) pts ∧
        pts.Perm (((sampleDataWide.flatMap (rowEntriesC refLib sampleColumnsWide)).filter
          (fun e => e.1 = k)).filterMap Prod.snd)) keys ret.frames :=
  modeC_multi_grouping refLib sampleColumnsWide sampleDataWide "SELECT" "" "query" 0
    (by decide) (by decide) (by decide) (by decide) (by decide)

set_option maxRecDepth 100000 in
/-- C6, counterexample.  Two rows whose Char-column values differ column by
column, ("ab", "c") and ("a", "bc"), with the Number columns X and Y: four
distinct pairs (tuple of Char values, Number column) occur, and the call
returns two frames, each holding a point of either row. -/
theorem modeC_multi_grouping_counterexample :
    charTuple sampleColumnsWide [.text "10", .text "ab", .text "c", .text "1", .text "2"] ≠
      charTuple sampleColumnsWide [.text "20", .text "a", .text "bc", .text "3", .text "4"] ∧
    getDataFrameFromRows refLib ⟨none, none, sampleColumnsWide, sampleDataWide.map Except.ok⟩
        false true "SELECT" "" "query" 0 =
      .ok ⟨[seriesOf "response" ⟨"abcX", none, some "abcX", .float64, []⟩
          [(Time.ofUnix 10 0, 1), (Time.ofUnix 20 0, 3)],
        seriesOf "response" ⟨"abcY", none, some "abcY", .float64, []⟩
          [(Time.ofUnix 10 0, 2), (Time.ofUnix 20 0, 4)]], "", none, 4, 2⟩ := by
  decide

/-! ## Evaluations of the code -/

set_option maxRecDepth 1000000 in
/-- C4, failing input.  Mode D on a document with one result item of one
[number, numeric-string] pair and the legend template `}}{{a}}`: the legend
expansion evaluates `tmp[i-1]` at `i = 0` and the call faults instead of
returning one frame.  With the empty legend the same document gives the one
frame of the claim. -/
theorem modeD_legend_fault :
    refLib.unmarshalResp samplePayloadOne =
      some ⟨"success", "matrix", [⟨[("__name__", "up")], [[.number 1700000000, .string "1"]]⟩]⟩ ∧
    getDataFrameFromRows refLib (rowsOfPayload samplePayloadOne) true false "up"
        "\x7d\x7d\x7b\x7ba\x7d\x7d" "query" 0 = .error .indexOutOfRange ∧
    getDataFrameFromRows refLib (rowsOfPayload samplePayloadOne) true false "up" "" "query" 0 =
      .ok ⟨[seriesOf "response" ⟨"up", some [("__name__", "up")], none, .float64, []⟩
        [(Time.ofUnix 1700000000 0, 1)]], "0", none, 1, 1⟩ := by
  decide

set_option maxRecDepth 1000000 in
/-- C7, failing input.  Mode D on a document with two result items, the
second holding the value "x": the call returns the error of
`strconv.ParseFloat` together with the frame of the first item. -/
theorem modeD_partial_frames_on_error :
    getDataFrameFromRows refLib (rowsOfPayload samplePayloadBad) true false "up" "" "query" 0 =
      .ok ⟨[seriesOf "response" ⟨"up", some [("__name__", "up")], none, .float64, []⟩
        [(Time.ofUnix 1700000000 0, 1)]], "0",
        some (.num "ParseFloat" "x" .invalidSyntax), 0, 1⟩ := by
  decide

set_option maxRecDepth 100000 in
/-- C8, failing input.  Mode B on a cursor of two rows, the second with the
time token "not-a-time" (no RFC 3339 timestamp, rejected by `parseTime`):
the call returns a nil error and one frame with the point of the first row
only, with `rowsProcessed` 2.  Mode A on a cursor whose only row has the time
token "-1", which `parseTime` maps to seconds -1: the call returns a nil
error and no frame. -/
theorem rows_dropped_without_error :
    instantOf refLib "not-a-time" = none ∧
    getDataFrameFromRows refLib
        ⟨none, none, sampleColumnsB,
          [.ok [.text "1700000010", .text "5", .text "cpu", .null],
            .ok [.text "not-a-time", .text "7", .text "cpu", .null]]⟩
        false true "SELECT" "" "query" 0 =
      .ok ⟨[seriesOf "query" ⟨"cpu", none, some "cpu", .float64, []⟩
        [(Time.ofUnix 1700000010 0, 5)]], "", none, 2, 2⟩ ∧
    (parseTime refLib "-1").1 = -1 ∧
    getDataFrameFromRows refLib
        ⟨none, none, [⟨"METRIC_TIME", "TIMESTAMP"⟩, ⟨"VALUE", "NUMBER"⟩],
          [.ok [.text "-1", .text "1"]]⟩
        false false "SELECT" "" "query" 0 =
      .ok ⟨[], "", none, 0, 1⟩ := by
  decide

/-- C10, failing input.  For from = 5, to = 7206 and step 1 the step is
recomputed to 11 and the `from` written is 5, no multiple of 11: the
alignment uses the requested step.  For from = -5, to = 5 and step 10 the
`from` written is 0, later than the input. -/
theorem getPromQLToSQL_from_not_aligned :
    getPromQLToSQL (Time.ofUnix 5 0) (Time.ofUnix 7206 0) "up" "1" "default" =
      .ok ("select DBMS_TELEMETRY_QUERY.promql_range('up',5,7206,11) from dual", none) ∧
    ¬ ((11 : Int) ∣ 5) ∧
    getPromQLToSQL (Time.ofUnix (-5) 0) (Time.ofUnix 5 0) "up" "10" "default" =
      .ok ("select DBMS_TELEMETRY_QUERY.promql_range('up',0,5,10) from dual", none) := by
  decide

/-! ## Timestamp parser -/

theorem isPrefixOf_singleton (a c : Char) (cs : List Char) :
    [a].isPrefixOf (c :: cs) = decide (a = c) := by
  by_cases h : a = c <;> simp [List.isPrefixOf, h]

theorem splitAux_dot_length (cs cur : List Char) :
    (splitAux ['.'] cs cur 0).length = cs.count '.' + 1 := by
  induction cs generalizing cur with
  | nil => simp [splitAux]
  | cons c cs ih =>
    rw [splitAux, isPrefixOf_singleton]
    by_cases h : '.' = c
    · subst h
      simp [ih]
    · have h2 : ¬ c = '.' := fun e => h e.symm
      simp [h, ih, List.count_cons, h2]

theorem splitAux_dot_free (cs cur : List Char) (h : '.' ∉ cs) :
    splitAux ['.'] cs cur 0 = [cur.reverse ++ cs] := by
  induction cs generalizing cur with
  | nil => simp [splitAux]
  | cons c cs ih =>
    rw [splitAux, isPrefixOf_singleton]
    have h1 : ¬ '.' = c := fun e => h (e ▸ List.mem_cons_self _ _)
    have h2 : '.' ∉ cs := fun e => h (List.mem_cons_of_mem _ e)
    simp [h1, ih _ h2]

theorem splitAux_dot_append (a b cur : List Char) (h : '.' ∉ a) :
    splitAux ['.'] (a ++ '.' :: b) cur 0 = (cur.reverse ++ a) :: splitAux ['.'] b [] 0 := by
  induction a generalizing cur with
  | nil =>
    rw [List.nil_append, splitAux, isPrefixOf_singleton]
    simp
  | cons c a ih =>
    rw [List.cons_append, splitAux, isPrefixOf_singleton]
    have h1 : ¬ '.' = c := fun e => h (e ▸ List.mem_cons_self _ _)
    have h2 : '.' ∉ a := fun e => h (List.mem_cons_of_mem _ e)
    simp [h1, ih _ h2]

theorem not_mem_of_all_isDigit (s : List Char) (c : Char) (hc : isDigit c = false)
    (hs : s.all isDigit = true) : c ∉ s := by
  intro hmem
  rw [List.all_eq_true] at hs
  rw [hs c hmem] at hc
  cases hc

theorem ParseInt_digits (s : List Char) (hs : s ≠ []) (hsd : s.all isDigit = true)
    (hfit : (digitsValue s : Int) ≤ maxInt64) :
    ParseInt (String.mk s) = ((digitsValue s : Int), none) := by
  cases s with
  | nil => exact absurd rfl hs
  | cons c cs =>
    have hc : isDigit c = true := by
      simp only [List.all_cons, Bool.and_eq_true] at hsd
      exact hsd.1
    have hminus : ¬ c = '-' := by
      intro e
      rw [e] at hc
      revert hc
      decide
    have hplus : ¬ c = '+' := by
      intro e
      rw [e] at hc
      revert hc
      decide
    have hlt : ¬ (9223372036854775808 : Int) ≤ (digitsValue (c :: cs) : Int) := by
      unfold maxInt64 at hfit
      omega
    simp only [ParseInt, String.toList, List.head?_cons, Option.some.injEq, hminus, hplus,
      or_self, if_false, List.isEmpty_cons, hsd, Bool.not_true, Bool.or_self, Bool.false_eq_true,
      decide_False, Bool.not_false, Bool.true_and, decide_eq_true_eq, hlt, Bool.false_and]

/-- C11 (parseTime on well-formed tokens): a non-empty string of decimal
digits whose value fits in int64 parses to that value with nanoseconds 0 and
no error, and followed by `.` and one to nine digits of value `m` it parses
to the value and `m * 10^(9 - len)` nanoseconds, with no error. -/
theorem parseTime_well_formed {F : Type} (L : GoLib F) (s : List Char) (hs : s ≠ [])
    (hsd : s.all isDigit = true) (hfit : (digitsValue s : Int) ≤ maxInt64) :
    parseTime L (String.mk s) = ((digitsValue s : Int), 0, none) ∧
    ∀ f : List Char, f.all isDigit = true → 1 ≤ f.length → f.length ≤ 9 →
      parseTime L (String.mk s ++ "." ++ String.mk f) =
        ((digitsValue s : Int), (digitsValue f : Int) * 10 ^ (9 - f.length), none) := by
  have hdot : isDigit '.' = false := by decide
  have hpi := ParseInt_digits s hs hsd hfit
  constructor
  · have hsplit : Split (String.mk s) "." = [String.mk s] := by
      have := splitAux_dot_free s [] (not_mem_of_all_isDigit s '.' hdot hsd)
      simp only [Split, splitL]
      rw [show ".".toList = ['.'] from rfl, show (String.mk s).toList = s from rfl, this]
      simp
    simp only [parseTime, hsplit, List.length_singleton, List.headD_cons, hpi]
    simp
  · intro f hf _ hlen
    have hsplit : Split (String.mk s ++ "." ++ String.mk f) "." = [String.mk s, String.mk f] := by
      have h1 := splitAux_dot_append s f [] (not_mem_of_all_isDigit s '.' hdot hsd)
      have h2 := splitAux_dot_free f [] (not_mem_of_all_isDigit f '.' hdot hf)
      have hdata : (String.mk s ++ "." ++ String.mk f).toList = s ++ '.' :: f := by
        simp [String.toList, String.data_append]
      simp only [Split, splitL, hdata]
      rw [show ".".toList = ['.'] from rfl, h1, h2]
      simp
    simp only [parseTime, hsplit, List.length_cons, List.length_nil, List.headD_cons, hpi,
      List.getD_cons_succ, List.getD_cons_zero, L.ParseDuration_fraction f hf hlen]
    simp

theorem parseTime_well_formed_witness :
    parseTime refLib "123" = (123, 0, none) ∧
    parseTime refLib "123.456" = (123, 456000000, none) ∧
    parseTime refLib "123.000000789" = (123, 789, none) :=
  have h := parseTime_well_formed refLib ['1', '2', '3'] (by decide) (by decide) (by decide)
  ⟨h.1, h.2 ['4', '5', '6'] (by decide) (by decide) (by decide),
    h.2 ['0', '0', '0', '0', '0', '0', '7', '8', '9'] (by decide) (by decide) (by decide)⟩

/-- C12 (parseTime failure sentinel): whenever `parseTime` returns an error
both integers are -1; it returns an error for every text with more than one
`.`, for the empty text and for the text `.`. -/
theorem parseTime_failure_sentinel {F : Type} (L : GoLib F) (timeStr : String) :
    ((parseTime L timeStr).2.2 ≠ none →
      (parseTime L timeStr).1 = -1 ∧ (parseTime L timeStr).2.1 = -1) ∧
    (1 < timeStr.toList.count '.' → (parseTime L timeStr).2.2 = some .timeSplits) ∧
    parseTime L "" = (-1, -1, some (.num "ParseInt" "" .invalidSyntax)) ∧
    parseTime L "." = (-1, -1, some (.num "ParseInt" "" .invalidSyntax)) := by
  refine ⟨?_, ?_, ?_, ?_⟩
  · have key : ∀ r : Int × Int × Option Error, parseTime L timeStr = r →
        r.2.2 ≠ none → r.1 = -1 ∧ r.2.1 = -1 := by
      intro r hr
      simp only [parseTime] at hr
      split at hr
      · subst hr; intro _; exact ⟨rfl, rfl⟩
      · split at hr
        · split at hr
          · subst hr; intro _; exact ⟨rfl, rfl⟩
          · subst hr; intro h; exact absurd rfl h
        · split at hr
          · subst hr; intro _; exact ⟨rfl, rfl⟩
          · split at hr
            · subst hr; intro _; exact ⟨rfl, rfl⟩
            · subst hr; intro h; exact absurd rfl h
    exact key _ rfl
  · intro h
    have hlen : (Split timeStr ".").length = timeStr.toList.count '.' + 1 := by
      simp only [Split, splitL, List.length_map]
      rw [show ".".toList = ['.'] from rfl]
      exact splitAux_dot_length _ _
    have : (Split timeStr ".").length > 2 := by omega
    simp [parseTime, this]
  · have h1 : Split "" "." = [""] := by decide
    have h2 : ParseInt "" = (0, some .invalidSyntax) := by decide
    simp [parseTime, h1, h2]
  · have h1 : Split "." "." = ["", ""] := by decide
    have h2 : ParseInt "" = (0, some .invalidSyntax) := by decide
    simp [parseTime, h1, h2]

/-! ## Evaluations of the parsers, the templater and the row counts -/

/-- C13, failing input.  The token "123.5m" has the letter `m` in its
fraction: `parseTime` hands "0.5ms" to `time.ParseDuration`, which reads half
a millisecond, and returns 123 seconds and 500000 nanoseconds with no error.
The token "5.1s1" becomes "0.1s1s", a tenth of a second and one second: the
nanoseconds returned are 1100000000, not below 10^9.  The token "123.xyz" of
the test is rejected. -/
theorem parseTime_accepts_unit_suffix :
    refParseDuration "0.5ms" = some 500000 ∧
    parseTime refLib "123.5m" = (123, 500000, none) ∧
    parseTime refLib "5.1s1" = (5, 1100000000, none) ∧
    parseTime refLib "123.xyz" = (-1, -1, some (.duration "0.xyzs")) := by
  decide

/-- C15, failing input.  On the template `}}{{a}}` the first piece of the
split at `{{` contains `}}`, and the loop reads `tmp[i-1]` with `i = 0`: the
templater faults, whatever the tags.  So it does on `a}}b{{c}}`.  A key that
is absent from the tags gives the empty text and no fault. -/
theorem expandLegend_fault :
    expandLegend "\x7d\x7d\x7b\x7ba\x7d\x7d" (some [("a", "x")]) = .error .indexOutOfRange ∧
    expandLegend "a\x7d\x7db\x7b\x7bc\x7d\x7d" none = .error .indexOutOfRange ∧
    expandLegend "lv\x7b\x7bnode\x7d\x7d" (some [("host", "h")]) = .ok "lv" := by
  decide

set_option maxRecDepth 100000 in
/-- C19, failing input.  A Number column VALUE (METRIC_VALUE in Mode B) holds
the text "bad-number".  Modes A and B return the error of `strconv.ParseFloat`
as it is; its message has the raw text and not the name of the column.  Mode
C wraps it in the message that names the column. -/
theorem numeric_error_without_column :
    getDataFrameFromRows refLib
        ⟨none, none, [⟨"HOST", "VARCHAR2"⟩, ⟨"VALUE", "NUMBER"⟩],
          [.ok [.text "node-a", .text "bad-number"]]⟩
        false false "SELECT" "" "query" 0 =
      .ok ⟨[], "", some (.num "ParseFloat" "bad-number" .invalidSyntax), 0, 1⟩ ∧
    getDataFrameFromRows refLib
        ⟨none, none, sampleColumnsB,
          [.ok [.text "1700000010", .text "bad-number", .text "cpu", .null]]⟩
        false true "SELECT" "" "query" 0 =
      .ok ⟨[], "", some (.num "ParseFloat" "bad-number" .invalidSyntax), 0, 1⟩ ∧
    numErrorText "ParseFloat" "bad-number" .invalidSyntax =
      "strconv.ParseFloat: parsing \"bad-number\": invalid syntax" ∧
    Contains (numErrorText "ParseFloat" "bad-number" .invalidSyntax) "VALUE" = false ∧
    getDataFrameFromRows refLib
        ⟨none, none, [⟨"METRIC_TIME", "TIMESTAMP"⟩, ⟨"HOST", "VARCHAR2"⟩, ⟨"VALUE", "NUMBER"⟩],
          [.ok [.text "2024-01-01T00:00:00Z", .text "node-a", .text "bad-number"]]⟩
        false true "SELECT" "" "query" 0 =
      .ok ⟨[], "", some (.invalidNumeric "bad-number" "VALUE"
        (.num "ParseFloat" "bad-number" .invalidSyntax)), 0, 1⟩ ∧
    Contains (invalidNumericText "bad-number" "VALUE"
      (numErrorText "ParseFloat" "bad-number" .invalidSyntax)) "VALUE" = true := by
  decide

set_option maxRecDepth 100000 in
/-- C20, failing input.  Mode C on a cursor of one row with three Number
columns returns no error and `rowsProcessed` 3: the count is taken per point
added to a frame, and a row gives one point for each Number column. -/
theorem rowsProcessed_counts_points :
    getDataFrameFromRows refLib
        ⟨none, none, sampleColumnsThree,
          [.ok [.text "10", .text "h", .text "1", .text "2", .text "3"]]⟩
        false true "SELECT" "" "query" 0 =
      .ok ⟨[seriesOf "response" ⟨"hX", none, some "hX", .float64, []⟩ [(Time.ofUnix 10 0, 1)],
        seriesOf "response" ⟨"hY", none, some "hY", .float64, []⟩ [(Time.ofUnix 10 0, 2)],
        seriesOf "response" ⟨"hZ", none, some "hZ", .float64, []⟩ [(Time.ofUnix 10 0, 3)]],
        "", none, 3, 1⟩ := by
  decide

/-! ## Legend templater -/

theorem isPrefixOf_cons_ne (a : Char) (t : List Char) (x : Char) (xs : List Char) (h : x ≠ a) :
    (a :: t).isPrefixOf (x :: xs) = false := by
  have h2 : ¬ a = x := fun e => h e.symm
  simp [List.isPrefixOf, h2]

theorem splitAux_free (a : Char) (t : List Char) (pre rest cur : List Char)
    (h : ∀ x ∈ pre, x ≠ a) :
    splitAux (a :: t) (pre ++ rest) cur 0 = splitAux (a :: t) rest (pre.reverse ++ cur) 0 := by
  induction pre generalizing cur with
  | nil => simp
  | cons x pre ih =>
    have hx : x ≠ a := h x (List.mem_cons_self _ _)
    rw [List.cons_append, splitAux, isPrefixOf_cons_ne a t x _ hx]
    simp only [Bool.false_eq_true, if_false]
    rw [ih _ (fun y hy => h y (List.mem_cons_of_mem _ hy))]
    simp

theorem splitAux_pair (a : Char) (rest cur : List Char) :
    splitAux [a, a] (a :: a :: rest) cur 0 = cur.reverse :: splitAux [a, a] rest [] 0 := by
  rw [splitAux]
  simp [List.isPrefixOf, splitAux]

theorem containsL_free (a : Char) (t : List Char) (s : List Char) (h : ∀ x ∈ s, x ≠ a) :
    containsL (a :: t) s = false := by
  induction s with
  | nil => simp [containsL]
  | cons x s ih =>
    rw [containsL, isPrefixOf_cons_ne a t x _ (h x (List.mem_cons_self _ _)),
      ih (fun y hy => h y (List.mem_cons_of_mem _ hy))]
    rfl

theorem containsL_pair (a : Char) (pre rest : List Char) :
    containsL [a, a] (pre ++ a :: a :: rest) = true := by
  induction pre with
  | nil => simp [containsL, List.isPrefixOf]
  | cons x pre ih =>
    rw [List.cons_append, containsL, ih]
    simp

theorem braceFree_iff (s : String) :
    braceFree s = true ↔ ∀ x ∈ s.toList, x ≠ Char.ofNat 123 ∧ x ≠ Char.ofNat 125 := by
  simp [braceFree, List.all_eq_true]

theorem templateText_cons_toList (l0 k l : String) (more : List (String × String)) :
    (templateText l0 ((k, l) :: more)).toList =
      l0.toList ++ Char.ofNat 123 :: Char.ofNat 123 ::
        (k.toList ++ Char.ofNat 125 :: Char.ofNat 125 :: (templateText l more).toList) := by
  simp only [templateText, String.toList, String.data_append, List.append_assoc,
    List.cons_append, List.nil_append]

theorem split_open_template (items : List (String × String)) :
    ∀ (l0 : String) (cur : List Char), braceFree l0 = true →
      (∀ kl ∈ items, braceFree kl.1 = true ∧ braceFree kl.2 = true) →
      splitAux [Char.ofNat 123, Char.ofNat 123] (templateText l0 items).toList cur 0 =
        (cur.reverse ++ l0.toList) ::
          items.map (fun kl => kl.1.toList ++ Char.ofNat 125 :: Char.ofNat 125 :: kl.2.toList) := by
  induction items with
  | nil =>
    intro l0 cur h0 _
    have := splitAux_free (Char.ofNat 123) [Char.ofNat 123] l0.toList [] cur
      (fun x hx => ((braceFree_iff l0).1 h0 x hx).1)
    simp only [List.append_nil] at this
    simp only [templateText, this, splitAux, List.map_nil]
    simp
  | cons kl more ih =>
    intro l0 cur h0 hitems
    obtain ⟨k, l⟩ := kl
    have hk := (hitems (k, l) (List.mem_cons_self _ _)).1
    have hl := (hitems (k, l) (List.mem_cons_self _ _)).2
    have hmore : ∀ kl ∈ more, braceFree kl.1 = true ∧ braceFree kl.2 = true :=
      fun kl h => hitems kl (List.mem_cons_of_mem _ h)
    have hkc : ∀ x ∈ k.toList ++ [Char.ofNat 125, Char.ofNat 125], x ≠ Char.ofNat 123 := by
      intro x hx
      rcases List.mem_append.1 hx with h | h
      · exact ((braceFree_iff k).1 hk x h).1
      · simp only [List.mem_cons, List.mem_singleton, List.not_mem_nil, or_false, or_self] at h
        rw [h]
        decide
    rw [templateText_cons_toList,
      splitAux_free (Char.ofNat 123) [Char.ofNat 123] l0.toList _ cur
        (fun x hx => ((braceFree_iff l0).1 h0 x hx).1),
      splitAux_pair]
    have e : k.toList ++ Char.ofNat 125 :: Char.ofNat 125 :: (templateText l more).toList =
        (k.toList ++ [Char.ofNat 125, Char.ofNat 125]) ++ (templateText l more).toList := by simp
    rw [e, splitAux_free (Char.ofNat 123) [Char.ofNat 123] _ _ [] hkc, ih l _ hl hmore]
    simp

theorem Split_open_template (l0 : String) (items : List (String × String))
    (h0 : braceFree l0 = true)
    (hitems : ∀ kl ∈ items, braceFree kl.1 = true ∧ braceFree kl.2 = true) :
    Split (templateText l0 items) "\x7b\x7b" =
      l0 :: items.map (fun kl => kl.1 ++ "\x7d\x7d" ++ kl.2) := by
  simp only [Split, splitL]
  rw [show ("\x7b\x7b" : String).toList = [Char.ofNat 123, Char.ofNat 123] from rfl,
    split_open_template items l0 [] h0 hitems]
  simp only [List.reverse_nil, List.nil_append, List.map_cons, List.map_map]
  congr 1
  apply List.map_congr_left
  intro kl _
  simp only [Function.comp]
  apply String.ext
  simp only [String.data_append, String.toList, List.append_assoc, List.cons_append,
    List.nil_append]

theorem Split_close_piece (k l : String) (hk : braceFree k = true) (hl : braceFree l = true) :
    Split (k ++ "\x7d\x7d" ++ l) "\x7d\x7d" = [k, l] := by
  simp only [Split, splitL]
  have hd : (k ++ "\x7d\x7d" ++ l).toList =
      k.toList ++ Char.ofNat 125 :: Char.ofNat 125 :: (l.toList ++ []) := by
    simp only [String.toList, String.data_append, List.append_assoc, List.cons_append,
      List.nil_append, List.append_nil]
  rw [show ("\x7d\x7d" : String).toList = [Char.ofNat 125, Char.ofNat 125] from rfl, hd,
    splitAux_free (Char.ofNat 125) [Char.ofNat 125] k.toList _ []
      (fun x hx => ((braceFree_iff k).1 hk x hx).2),
    splitAux_pair,
    splitAux_free (Char.ofNat 125) [Char.ofNat 125] l.toList [] []
      (fun x hx => ((braceFree_iff l).1 hl x hx).2)]
  simp [splitAux]

theorem Split_close_free (l : String) (hl : braceFree l = true) :
    Split l "\x7d\x7d" = [l] := by
  simp only [Split, splitL]
  have := splitAux_free (Char.ofNat 125) [Char.ofNat 125] l.toList [] []
      (fun x hx => ((braceFree_iff l).1 hl x hx).2)
  simp only [List.append_nil] at this
  rw [show ("\x7d\x7d" : String).toList = [Char.ofNat 125, Char.ofNat 125] from rfl, this]
  simp [splitAux]

theorem Contains_close_piece (k l : String) :
    Contains (k ++ "\x7d\x7d" ++ l) "\x7d\x7d" = true := by
  simp only [Contains]
  have hd : (k ++ "\x7d\x7d" ++ l).toList =
      k.toList ++ Char.ofNat 125 :: Char.ofNat 125 :: l.toList := by
    simp only [String.toList, String.data_append, List.append_assoc, List.cons_append,
      List.nil_append]
  rw [show ("\x7d\x7d" : String).toList = [Char.ofNat 125, Char.ofNat 125] from rfl, hd]
  exact containsL_pair _ _ _

theorem Contains_close_free (l : String) (hl : braceFree l = true) :
    Contains l "\x7d\x7d" = false := by
  simp only [Contains]
  rw [show ("\x7d\x7d" : String).toList = [Char.ofNat 125, Char.ofNat 125] from rfl]
  exact containsL_free _ _ _ (fun x hx => ((braceFree_iff l).1 hl x hx).2)

theorem Contains_open_free (l : String) (hl : braceFree l = true) :
    Contains l "\x7b\x7b" = false := by
  simp only [Contains]
  rw [show ("\x7b\x7b" : String).toList = [Char.ofNat 123, Char.ofNat 123] from rfl]
  exact containsL_free _ _ _ (fun x hx => ((braceFree_iff l).1 hl x hx).1)

theorem legendLoop_pieces (tags : Option (List (String × String)))
    (items : List (String × String)) :
    ∀ (p l0 acc : String), lastPiece p = l0 →
      (∀ kl ∈ items, braceFree kl.1 = true ∧ braceFree kl.2 = true) →
      legendLoop tags (some p) (items.map (fun kl => kl.1 ++ "\x7d\x7d" ++ kl.2)) acc =
        .ok (acc ++ legendPrefix tags l0 items) := by
  induction items with
  | nil =>
    intro p l0 acc _ _
    simp [legendLoop, legendPrefix]
  | cons kl more ih =>
    intro p l0 acc hp hitems
    obtain ⟨k, l⟩ := kl
    have hk := (hitems (k, l) (List.mem_cons_self _ _)).1
    have hl := (hitems (k, l) (List.mem_cons_self _ _)).2
    have hmore : ∀ kl ∈ more, braceFree kl.1 = true ∧ braceFree kl.2 = true :=
      fun kl h => hitems kl (List.mem_cons_of_mem _ h)
    have hfirst : firstPiece (k ++ "\x7d\x7d" ++ l) = k := by
      simp [firstPiece, Split_close_piece k l hk hl]
    have hlast : lastPiece (k ++ "\x7d\x7d" ++ l) = l := by
      simp [lastPiece, Split_close_piece k l hk hl]
    simp only [List.map_cons, legendLoop, Contains_close_piece, if_true, hp, hfirst]
    rw [ih _ l _ hlast hmore]
    simp [legendPrefix, String.append_assoc]

theorem templateValue_eq (tags : Option (List (String × String)))
    (items : List (String × String)) :
    ∀ l0 : String, templateValue tags l0 items =
      legendPrefix tags l0 items ++ lastLiteral l0 items := by
  induction items with
  | nil => intro l0; simp [templateValue, legendPrefix, lastLiteral]
  | cons kl more ih =>
    intro l0
    obtain ⟨k, l⟩ := kl
    simp [templateValue, legendPrefix, lastLiteral, ih l, String.append_assoc]

theorem braceFree_lastLiteral (items : List (String × String)) :
    ∀ l0 : String, braceFree l0 = true →
      (∀ kl ∈ items, braceFree kl.1 = true ∧ braceFree kl.2 = true) →
      braceFree (lastLiteral l0 items) = true := by
  induction items with
  | nil => intro l0 h0 _; exact h0
  | cons kl more ih =>
    intro l0 _ hitems
    obtain ⟨k, l⟩ := kl
    exact ih l (hitems (k, l) (List.mem_cons_self _ _)).2
      (fun kl h => hitems kl (List.mem_cons_of_mem _ h))

theorem split_close_template_last (items : List (String × String)) :
    ∀ (l0 : String) (cur d : List Char), braceFree l0 = true →
      (∀ kl ∈ items, braceFree kl.1 = true ∧ braceFree kl.2 = true) →
      (splitAux [Char.ofNat 125, Char.ofNat 125] (templateText l0 items).toList cur 0).getLastD d =
        match items with
        | [] => cur.reverse ++ l0.toList
        | _ :: _ => (lastLiteral l0 items).toList := by
  induction items with
  | nil =>
    intro l0 cur d h0 _
    have := splitAux_free (Char.ofNat 125) [Char.ofNat 125] l0.toList [] cur
      (fun x hx => ((braceFree_iff l0).1 h0 x hx).2)
    simp only [List.append_nil] at this
    simp only [templateText, this, splitAux]
    simp
  | cons kl more ih =>
    intro l0 cur d h0 hitems
    obtain ⟨k, l⟩ := kl
    have hk := (hitems (k, l) (List.mem_cons_self _ _)).1
    have hl := (hitems (k, l) (List.mem_cons_self _ _)).2
    have hmore : ∀ kl ∈ more, braceFree kl.1 = true ∧ braceFree kl.2 = true :=
      fun kl h => hitems kl (List.mem_cons_of_mem _ h)
    have hfree : ∀ x ∈ l0.toList ++ Char.ofNat 123 :: Char.ofNat 123 :: k.toList,
        x ≠ Char.ofNat 125 := by
      intro x hx
      rcases List.mem_append.1 hx with h | h
      · exact ((braceFree_iff l0).1 h0 x h).2
      · rcases List.mem_cons.1 h with h | h
        · rw [h]; decide
        · rcases List.mem_cons.1 h with h | h
          · rw [h]; decide
          · exact ((braceFree_iff k).1 hk x h).2
    have e : l0.toList ++ Char.ofNat 123 :: Char.ofNat 123 ::
          (k.toList ++ Char.ofNat 125 :: Char.ofNat 125 :: (templateText l more).toList) =
        (l0.toList ++ Char.ofNat 123 :: Char.ofNat 123 :: k.toList) ++
          Char.ofNat 125 :: Char.ofNat 125 :: (templateText l more).toList := by simp
    rw [templateText_cons_toList, e,
      splitAux_free (Char.ofNat 125) [Char.ofNat 125] _ _ cur hfree, splitAux_pair,
      List.getLastD_cons, ih l [] _ hl hmore]
    cases more with
    | nil => simp [lastLiteral]
    | cons kl2 more2 => simp [lastLiteral]

theorem getLastD_map_mk (l : List (List Char)) (d : List Char) :
    (l.map String.mk).getLastD (String.mk d) = String.mk (l.getLastD d) := by
  induction l generalizing d with
  | nil => rfl
  | cons a l ih => simp only [List.map_cons, List.getLastD_cons, ih]

theorem lastPiece_template (l0 : String) (items : List (String × String))
    (h0 : braceFree l0 = true)
    (hitems : ∀ kl ∈ items, braceFree kl.1 = true ∧ braceFree kl.2 = true) :
    lastPiece (templateText l0 items) = lastLiteral l0 items := by
  simp only [lastPiece, Split, splitL]
  rw [show ("" : String) = String.mk [] from rfl, getLastD_map_mk,
    show ("\x7d\x7d" : String).toList = [Char.ofNat 125, Char.ofNat 125] from rfl,
    split_close_template_last items l0 [] [] h0 hitems]
  cases items with
  | nil => simp [lastLiteral]
  | cons kl more => simp

theorem template_ends_with_last (items : List (String × String)) :
    ∀ l0 : String, ∃ pre : List Char,
      (templateText l0 items).toList = pre ++ (lastLiteral l0 items).toList := by
  induction items with
  | nil => intro l0; exact ⟨[], by simp [templateText, lastLiteral]⟩
  | cons kl more ih =>
    intro l0
    obtain ⟨k, l⟩ := kl
    obtain ⟨pre, hpre⟩ := ih l
    refine ⟨l0.toList ++ Char.ofNat 123 :: Char.ofNat 123 ::
      (k.toList ++ Char.ofNat 125 :: Char.ofNat 125 :: pre), ?_⟩
    rw [templateText_cons_toList, hpre]
    simp [lastLiteral]

theorem HasSuffix_template (l0 : String) (items : List (String × String))
    (h0 : braceFree l0 = true)
    (hitems : ∀ kl ∈ items, braceFree kl.1 = true ∧ braceFree kl.2 = true)
    (hne : lastLiteral l0 items ≠ "") :
    HasSuffix (templateText l0 items) "\x7d\x7d" = false := by
  obtain ⟨pre, hpre⟩ := template_ends_with_last items l0
  have hbf := braceFree_lastLiteral items l0 h0 hitems
  have hl : (lastLiteral l0 items).toList ≠ [] := by
    intro e
    apply hne
    apply String.ext
    exact e
  obtain ⟨x, rest, hx⟩ : ∃ x rest, (lastLiteral l0 items).toList.reverse = x :: rest := by
    cases h : (lastLiteral l0 items).toList.reverse with
    | nil => exact absurd (List.reverse_eq_nil_iff.1 h) hl
    | cons x rest => exact ⟨x, rest, rfl⟩
  have hxm : x ∈ (lastLiteral l0 items).toList := by
    have : x ∈ (lastLiteral l0 items).toList.reverse := by rw [hx]; exact List.mem_cons_self _ _
    exact List.mem_reverse.1 this
  simp only [HasSuffix, hpre, List.reverse_append, hx]
  rw [show ("\x7d\x7d" : String).toList.reverse = [Char.ofNat 125, Char.ofNat 125] from rfl]
  exact isPrefixOf_cons_ne _ _ _ _ ((braceFree_iff _).1 hbf x hxm).2

/-- C14 (legend expansion on well-formed templates): when the trimmed
template is `L0 {{k1}} L1 ... {{kn}} Ln` with literals and keys free of
braces, the templater returns `L0 T[k1] L1 ... T[kn] Ln`, the value of an
absent key being the empty text; with no key it returns the trimmed template. -/
theorem expandLegend_well_formed (legendTextVal : String)
    (tags : Option (List (String × String))) (l0 : String) (items : List (String × String))
    (h0 : braceFree l0 = true)
    (hitems : ∀ kl ∈ items, braceFree kl.1 = true ∧ braceFree kl.2 = true)
    (htrim : TrimSpace legendTextVal = templateText l0 items) :
    expandLegend legendTextVal tags = .ok (templateValue tags l0 items) ∧
    (items = [] → expandLegend legendTextVal tags = .ok (TrimSpace legendTextVal)) ∧
    ∀ k, (∀ v, (k, v) ∉ tags.getD []) → mapGet tags k = "" := by
  refine ⟨?_, ?_, ?_⟩
  · cases items with
    | nil =>
      simp only [expandLegend, htrim, templateText, Contains_open_free l0 h0, templateValue]
      simp
    | cons kl more =>
      obtain ⟨k, l⟩ := kl
      have hopen : Contains (templateText l0 ((k, l) :: more)) "\x7b\x7b" = true := by
        simp only [Contains, templateText_cons_toList]
        rw [show ("\x7b\x7b" : String).toList = [Char.ofNat 123, Char.ofNat 123] from rfl]
        exact containsL_pair _ _ _
      have hclose : Contains (templateText l0 ((k, l) :: more)) "\x7d\x7d" = true := by
        have e : l0.toList ++ Char.ofNat 123 :: Char.ofNat 123 ::
              (k.toList ++ Char.ofNat 125 :: Char.ofNat 125 :: (templateText l more).toList) =
            (l0.toList ++ Char.ofNat 123 :: Char.ofNat 123 :: k.toList) ++
              Char.ofNat 125 :: Char.ofNat 125 :: (templateText l more).toList := by simp
        simp only [Contains, templateText_cons_toList]
        rw [show ("\x7d\x7d" : String).toList = [Char.ofNat 125, Char.ofNat 125] from rfl, e]
        exact containsL_pair _ _ _
      have hl0 : lastPiece l0 = l0 := by simp [lastPiece, Split_close_free l0 h0]
      have hloop := legendLoop_pieces tags ((k, l) :: more) l0 l0 "" hl0 hitems
      have hlast := lastPiece_template l0 ((k, l) :: more) h0 hitems
      simp only [expandLegend, htrim, hopen, hclose, Bool.and_self, if_true,
        Split_open_template l0 _ h0 hitems]
      rw [legendLoop, Contains_close_free l0 h0]
      simp only [Bool.false_eq_true, if_false, hloop, hlast, templateValue_eq]
      by_cases hempty : lastLiteral l0 ((k, l) :: more) = ""
      · split <;> simp [hempty]
      · rw [HasSuffix_template l0 _ h0 hitems hempty]
        simp
  · intro hnil
    subst hnil
    simp only [expandLegend, htrim, templateText, Contains_open_free l0 h0]
    simp
  · intro k hk
    cases tags with
    | none => rfl
    | some m =>
      have : m.find? (fun e => e.1 = k) = none := by
        rw [List.find?_eq_none]
        intro e he hek
        simp only [decide_eq_true_eq] at hek
        exact hk e.2 (by simpa [← hek] using he)
      simp [mapGet, this]

theorem expandLegend_well_formed_witness :
    expandLegend "lv\x7b\x7bnode\x7d\x7d" (some [("node", "a")]) = .ok "lva" :=
  (expandLegend_well_formed "lv\x7b\x7bnode\x7d\x7d" (some [("node", "a")]) "lv" [("node", "")]
    (by decide) (by decide) (by decide)).1

/-! ## Texts: occurrences, offsets and replacement -/

theorem isPrefixOf_append_sep (b : Char) (z : List Char) :
    ∀ (t v : List Char), b ∉ t → t.isPrefixOf v = false → t.isPrefixOf (v ++ b :: z) = false := by
  intro t
  induction t with
  | nil => intro v _ h; simp at h
  | cons y t ih =>
    intro v hb h
    have hy : y ≠ b := fun e => hb (e ▸ List.mem_cons_self _ _)
    have ht : b ∉ t := fun e => hb (List.mem_cons_of_mem _ e)
    cases v with
    | nil => simp [List.isPrefixOf, hy]
    | cons w v =>
      simp only [List.cons_append, List.isPrefixOf, Bool.and_eq_false_iff] at h ⊢
      rcases h with h | h
      · exact Or.inl h
      · exact Or.inr (ih v ht h)

theorem isPrefixOf_append_right (z : List Char) :
    ∀ (t v : List Char), t.isPrefixOf v = true → t.isPrefixOf (v ++ z) = true := by
  intro t
  induction t with
  | nil => intro v _; simp
  | cons y t ih =>
    intro v h
    cases v with
    | nil => simp [List.isPrefixOf] at h
    | cons w v =>
      simp only [List.cons_append, List.isPrefixOf, Bool.and_eq_true] at h ⊢
      exact ⟨h.1, ih v h.2⟩

theorem isPrefixOf_self_append (t z : List Char) : t.isPrefixOf (t ++ z) = true := by
  induction t with
  | nil => simp
  | cons y t ih => simp [List.isPrefixOf, ih]

theorem containsL_cons (pat : List Char) (c : Char) (cs : List Char) :
    containsL pat (c :: cs) = (pat.isPrefixOf (c :: cs) || containsL pat cs) := rfl

theorem containsL_nil (pat : List Char) (h : pat ≠ []) : containsL pat [] = false := by
  cases pat with
  | nil => exact absurd rfl h
  | cons a t => rfl

theorem containsL_append_right (pat x y : List Char) (h : containsL pat y = true) :
    containsL pat (x ++ y) = true := by
  induction x with
  | nil => simpa using h
  | cons c x ih => rw [List.cons_append, containsL_cons, ih]; simp

theorem containsL_append_left (pat x y : List Char) (h : containsL pat x = true) :
    containsL pat (x ++ y) = true := by
  induction x with
  | nil =>
    cases pat with
    | nil => cases y <;> simp [containsL]
    | cons a t => simp [containsL] at h
  | cons c x ih =>
    rw [containsL_cons, Bool.or_eq_true] at h
    rw [List.cons_append, containsL_cons, Bool.or_eq_true]
    rcases h with h | h
    · exact Or.inl (isPrefixOf_append_right y _ _ h)
    · exact Or.inr (ih h)

/-- No occurrence spans a character that the pattern does not have. -/
theorem containsL_sep (pat : List Char) (hpat : pat ≠ []) (b : Char) (hb : b ∉ pat)
    (x y : List Char) :
    containsL pat (x ++ b :: y) = (containsL pat x || containsL pat y) := by
  induction x with
  | nil =>
    obtain ⟨a, t, rfl⟩ : ∃ a t, pat = a :: t := by
      cases pat with
      | nil => exact absurd rfl hpat
      | cons a t => exact ⟨a, t, rfl⟩
    have hne : b ≠ a := fun e => hb (e ▸ List.mem_cons_self _ _)
    rw [List.nil_append, containsL_cons, isPrefixOf_cons_ne a t b y hne]
    simp [containsL]
  | cons c x ih =>
    rw [List.cons_append, containsL_cons, containsL_cons, ih, Bool.or_assoc]
    congr 1
    cases h : pat.isPrefixOf (c :: x) with
    | true => exact isPrefixOf_append_right _ _ _ h
    | false => exact isPrefixOf_append_sep b y pat (c :: x) hb h

theorem not_isPrefixOf_of_not_containsL (pat : List Char) :
    ∀ (u v : List Char), containsL pat (u ++ v) = false → pat.isPrefixOf v = false := by
  intro u
  induction u with
  | nil =>
    intro v h
    cases v with
    | nil =>
      cases pat with
      | nil => simp [containsL] at h
      | cons a t => rfl
    | cons c v =>
      rw [List.nil_append, containsL_cons, Bool.or_eq_false_iff] at h
      exact h.1
  | cons c u ih =>
    intro v h
    rw [List.cons_append, containsL_cons, Bool.or_eq_false_iff] at h
    exact ih v h.2

/-! ### Offsets -/

theorem indexL_sep (b : Char) (x y : List Char) (hb : b ∉ x) :
    indexL [b] (x ++ b :: y) = some x.length := by
  induction x with
  | nil => simp [indexL, List.isPrefixOf]
  | cons c x ih =>
    have hc : c ≠ b := fun e => hb (e ▸ List.mem_cons_self _ _)
    have hx : b ∉ x := fun e => hb (List.mem_cons_of_mem _ e)
    rw [List.cons_append, indexL, isPrefixOf_cons_ne b [] c _ hc, ih hx]
    simp

/-- The first occurrence of a marker whose first character does not come
back in it is where the text before it ends, when that text has no
occurrence. -/
theorem indexL_marker (a : Char) (t : List Char) (ha : a ∉ t) (rest : List Char) :
    ∀ x : List Char, containsL (a :: t) x = false →
      indexL (a :: t) (x ++ (a :: t) ++ rest) = some x.length := by
  intro x
  induction x with
  | nil =>
    intro _
    have := isPrefixOf_self_append (a :: t) rest
    simp only [List.nil_append, List.cons_append] at this ⊢
    rw [indexL, this]
    simp
  | cons c x ih =>
    intro h
    rw [containsL_cons, Bool.or_eq_false_iff] at h
    have hpre : (a :: t).isPrefixOf (c :: (x ++ (a :: t) ++ rest)) = false := by
      by_cases hc : c = a
      · subst hc
        have h1 : t.isPrefixOf x = false := by
          have := h.1
          simpa [List.isPrefixOf] using this
        have h2 := isPrefixOf_append_sep c (t ++ rest) t x ha h1
        simpa [List.isPrefixOf] using h2
      · exact isPrefixOf_cons_ne a t c _ hc
    simp only [List.cons_append, List.append_assoc] at hpre ⊢
    rw [indexL, hpre]
    have := ih h.2
    simp only [List.cons_append, List.append_assoc] at this
    rw [this]
    simp

/-! ### Slices -/

theorem slice_mid (x y z : List Char) (lo hi : Int) (hlo : lo = x.length)
    (hhi : hi = x.length + y.length) :
    slice (String.mk (x ++ y ++ z)) lo hi = .ok (String.mk y) := by
  subst hlo hhi
  have h1 : (0 : Int) ≤ (x.length : Int) := Int.natCast_nonneg _
  have h2 : (x.length : Int) ≤ (x.length : Int) + y.length := by omega
  have h3 : (x.length : Int) + y.length ≤ ((String.mk (x ++ y ++ z)).length : Int) := by
    simp [String.length]
  have e1 : ((x.length : Int) + (y.length : Int)).toNat = x.length + y.length := by omega
  simp only [slice, h1, h2, h3, and_self, if_true, String.toList, e1, Int.toNat_ofNat]
  congr 1
  rw [List.append_assoc, List.take_append_eq_append_take]
  simp

/-! ### Replacement -/

theorem replaceAux_skip (old new : List Char) :
    ∀ (s : List Char) (k : Nat), replaceAux old new s k = replaceAux old new (s.drop k) 0 := by
  intro s
  induction s with
  | nil => intro k; cases k <;> simp [replaceAux]
  | cons c s ih =>
    intro k
    cases k with
    | zero => rfl
    | succ k => rw [replaceAux, ih k]; rfl

theorem replaceAux_match (old new : List Char) (hold : old ≠ []) (c : Char) (cs : List Char)
    (h : old.isPrefixOf (c :: cs) = true) :
    replaceAux old new (c :: cs) 0 = new ++ replaceAux old new ((c :: cs).drop old.length) 0 := by
  rw [replaceAux, if_pos h, replaceAux_skip]
  have hl : old.length = (old.length - 1) + 1 := by
    have : 0 < old.length := List.length_pos.2 hold
    omega
  rw [hl, List.drop_succ_cons]
  simp

theorem replaceAux_pass (old new : List Char) (c : Char) (cs : List Char)
    (h : old.isPrefixOf (c :: cs) = false) :
    replaceAux old new (c :: cs) 0 = c :: replaceAux old new cs 0 := by
  rw [replaceAux, if_neg (by simp [h])]

theorem length_le_of_isPrefixOf :
    ∀ (t v : List Char), t.isPrefixOf v = true → t.length ≤ v.length := by
  intro t
  induction t with
  | nil => intro v _; simp
  | cons y t ih =>
    intro v h
    cases v with
    | nil => simp [List.isPrefixOf] at h
    | cons w v =>
      simp only [List.isPrefixOf, Bool.and_eq_true] at h
      simpa using ih v h.2

theorem drop_of_isPrefixOf :
    ∀ (t v : List Char), t.isPrefixOf v = true → v = t ++ v.drop t.length := by
  intro t
  induction t with
  | nil => intro v _; simp
  | cons y t ih =>
    intro v h
    cases v with
    | nil => simp [List.isPrefixOf] at h
    | cons w v =>
      simp only [List.isPrefixOf, Bool.and_eq_true, beq_iff_eq] at h
      simp only [List.length_cons, List.drop_succ_cons, List.cons_append, List.cons.injEq]
      exact ⟨h.1.symm, ih v h.2⟩

theorem replaceAux_prefix (old new rest : List Char) (hold : old ≠ []) :
    replaceAux old new (old ++ rest) 0 = new ++ replaceAux old new rest 0 := by
  obtain ⟨a, t, rfl⟩ : ∃ a t, old = a :: t := by
    cases old with
    | nil => exact absurd rfl hold
    | cons a t => exact ⟨a, t, rfl⟩
  have h := isPrefixOf_self_append (a :: t) rest
  rw [List.cons_append] at h ⊢
  rw [replaceAux_match (a :: t) new hold a (t ++ rest) h]
  simp

theorem replaceAux_none (old new : List Char) :
    ∀ x : List Char, containsL old x = false → replaceAux old new x 0 = x := by
  intro x
  induction x with
  | nil => intro _; rfl
  | cons c x ih =>
    intro h
    rw [containsL_cons, Bool.or_eq_false_iff] at h
    rw [replaceAux_pass old new c x h.1, ih h.2]

/-- Replacement works on the two sides of a character that the replaced text
does not have. -/
theorem replaceAux_sep (old new : List Char) (hold : old ≠ []) (b : Char) (hb : b ∉ old)
    (y : List Char) :
    ∀ (n : Nat) (x : List Char), x.length ≤ n →
      replaceAux old new (x ++ b :: y) 0 = replaceAux old new x 0 ++ b :: replaceAux old new y 0 := by
  obtain ⟨a, t, rfl⟩ : ∃ a t, old = a :: t := by
    cases old with
    | nil => exact absurd rfl hold
    | cons a t => exact ⟨a, t, rfl⟩
  have hne : b ≠ a := fun e => hb (e ▸ List.mem_cons_self _ _)
  intro n
  induction n with
  | zero =>
    intro x hx
    have : x = [] := List.length_eq_zero.1 (Nat.le_zero.1 hx)
    subst this
    rw [List.nil_append, replaceAux_pass _ _ b y (isPrefixOf_cons_ne a t b y hne)]
    rfl
  | succ n ih =>
    intro x hx
    cases x with
    | nil =>
      rw [List.nil_append, replaceAux_pass _ _ b y (isPrefixOf_cons_ne a t b y hne)]
      rfl
    | cons c x =>
      cases h : (a :: t).isPrefixOf (c :: x) with
      | true =>
        have h2 := isPrefixOf_append_right (b :: y) _ _ h
        have hlen := length_le_of_isPrefixOf _ _ h
        rw [List.cons_append] at h2 ⊢
        rw [replaceAux_match _ new hold c (x ++ b :: y) h2, replaceAux_match _ new hold c x h]
        have hd : List.drop (a :: t).length (c :: (x ++ b :: y)) =
            List.drop (a :: t).length (c :: x) ++ b :: y := by
          rw [← List.cons_append, List.drop_append_of_le_length hlen]
        rw [hd, ih _ (by
          simp only [List.length_drop, List.length_cons] at hx ⊢
          omega)]
        simp
      | false =>
        have h2 := isPrefixOf_append_sep b y _ _ hb h
        rw [List.cons_append] at h2 ⊢
        rw [replaceAux_pass _ new c (x ++ b :: y) h2, replaceAux_pass _ new c x h,
          ih x (by simpa using hx)]
        simp

theorem replaceAux_free (a : Char) (t new : List Char) (rest : List Char) :
    ∀ pre : List Char, (∀ x ∈ pre, x ≠ a) →
      replaceAux (a :: t) new (pre ++ rest) 0 = pre ++ replaceAux (a :: t) new rest 0 := by
  intro pre
  induction pre with
  | nil => intro _; rfl
  | cons c pre ih =>
    intro h
    rw [List.cons_append, replaceAux_pass _ _ c _
      (isPrefixOf_cons_ne a t c _ (h c (List.mem_cons_self _ _))),
      ih (fun x hx => h x (List.mem_cons_of_mem _ hx))]
    rfl

/-- A text without the characters of the replacement that begins the result
of a replacement begins the replaced text. -/
theorem isPrefixOf_of_replaceAux (old new : List Char) (hnew : new ≠ []) :
    ∀ (p x : List Char), (∀ c ∈ new, c ∉ p) →
      p.isPrefixOf (replaceAux old new x 0) = true → p.isPrefixOf x = true := by
  intro p
  induction p with
  | nil => intro x _ _; simp
  | cons q p ih =>
    intro x hp h
    cases x with
    | nil => simp [replaceAux, List.isPrefixOf] at h
    | cons c x =>
      cases hm : old.isPrefixOf (c :: x) with
      | true =>
        rw [replaceAux, if_pos hm] at h
        obtain ⟨n, new2, rfl⟩ : ∃ n new2, new = n :: new2 := by
          cases new with
          | nil => exact absurd rfl hnew
          | cons n new2 => exact ⟨n, new2, rfl⟩
        simp only [List.cons_append, List.isPrefixOf, Bool.and_eq_true, beq_iff_eq] at h
        exact absurd (h.1 ▸ List.mem_cons_self q p) (hp n (List.mem_cons_self _ _))
      | false =>
        rw [replaceAux_pass old new c x hm] at h
        simp only [List.isPrefixOf, Bool.and_eq_true] at h ⊢
        exact ⟨h.1, ih x (fun c hc hcp => hp c hc (List.mem_cons_of_mem _ hcp)) h.2⟩

theorem containsL_free_prefix (pat : List Char) (hpat : pat ≠ []) (rest : List Char) :
    ∀ pre : List Char, (∀ x ∈ pre, x ∉ pat) → containsL pat (pre ++ rest) = containsL pat rest := by
  obtain ⟨a, t, rfl⟩ : ∃ a t, pat = a :: t := by
    cases pat with
    | nil => exact absurd rfl hpat
    | cons a t => exact ⟨a, t, rfl⟩
  intro pre
  induction pre with
  | nil => intro _; rfl
  | cons c pre ih =>
    intro h
    have hc : c ≠ a := fun e => h c (List.mem_cons_self _ _) (e ▸ List.mem_cons_self _ _)
    rw [List.cons_append, containsL_cons, isPrefixOf_cons_ne a t c _ hc,
      ih (fun x hx => h x (List.mem_cons_of_mem _ hx))]
    rfl

theorem containsL_of_drop (pat x : List Char) (n : Nat) (h : containsL pat (x.drop n) = true) :
    containsL pat x = true := by
  have := containsL_append_right pat (x.take n) (x.drop n) h
  rwa [List.take_append_drop] at this

/-- A replacement whose new text shares no character with a pattern brings
no occurrence of the pattern. -/
theorem containsL_of_replaceAux (pat old new : List Char) (hpat : pat ≠ []) (hold : old ≠ [])
    (hnew : new ≠ []) (hdisj : ∀ c ∈ new, c ∉ pat) :
    ∀ (n : Nat) (x : List Char), x.length ≤ n →
      containsL pat (replaceAux old new x 0) = true → containsL pat x = true := by
  intro n
  induction n with
  | zero =>
    intro x hx h
    have : x = [] := List.length_eq_zero.1 (Nat.le_zero.1 hx)
    subst this
    exact h
  | succ n ih =>
    intro x hx h
    cases x with
    | nil => exact h
    | cons c x =>
      cases hm : old.isPrefixOf (c :: x) with
      | true =>
        rw [replaceAux_match old new hold c x hm, containsL_free_prefix pat hpat _ new hdisj] at h
        have hlen : 0 < old.length := List.length_pos.2 hold
        exact containsL_of_drop pat _ old.length (ih _ (by
          simp only [List.length_drop, List.length_cons] at hx ⊢
          omega) h)
      | false =>
        rw [replaceAux_pass old new c x hm, containsL_cons, Bool.or_eq_true] at h
        rw [containsL_cons, Bool.or_eq_true]
        rcases h with h | h
        · left
          have h2 : pat.isPrefixOf (replaceAux old new (c :: x) 0) = true := by
            rw [replaceAux_pass old new c x hm]; exact h
          exact isPrefixOf_of_replaceAux old new hnew pat (c :: x) hdisj h2
        · right
          exact ih x (by simpa using hx) h

/-- After a replacement whose new text shares no character with the replaced
text, the replaced text does not occur. -/
theorem containsL_replaceAux_self (old new : List Char) (hold : old ≠ [])
    (hnew : new ≠ []) (hdisj : ∀ c ∈ new, c ∉ old) :
    ∀ (n : Nat) (x : List Char), x.length ≤ n →
      containsL old (replaceAux old new x 0) = false := by
  intro n
  induction n with
  | zero =>
    intro x hx
    have : x = [] := List.length_eq_zero.1 (Nat.le_zero.1 hx)
    subst this
    exact containsL_nil old hold
  | succ n ih =>
    intro x hx
    cases x with
    | nil => exact containsL_nil old hold
    | cons c x =>
      cases hm : old.isPrefixOf (c :: x) with
      | true =>
        rw [replaceAux_match old new hold c x hm, containsL_free_prefix old hold _ new hdisj]
        have hlen : 0 < old.length := List.length_pos.2 hold
        exact ih _ (by
          simp only [List.length_drop, List.length_cons] at hx ⊢
          omega)
      | false =>
        rw [replaceAux_pass old new c x hm, containsL_cons, Bool.or_eq_false_iff]
        refine ⟨?_, ih x (by simpa using hx)⟩
        cases h2 : old.isPrefixOf (c :: replaceAux old new x 0) with
        | false => rfl
        | true =>
          have h3 : old.isPrefixOf (replaceAux old new (c :: x) 0) = true := by
            rw [replaceAux_pass old new c x hm]; exact h2
          rw [isPrefixOf_of_replaceAux old new hnew old (c :: x) hdisj h3] at hm
          cases hm

theorem replaceBothAux_skip (old1 new1 old2 new2 : List Char) :
    ∀ (s : List Char) (k : Nat), replaceBothAux old1 new1 old2 new2 s k =
      replaceBothAux old1 new1 old2 new2 (s.drop k) 0 := by
  intro s
  induction s with
  | nil => intro k; cases k <;> simp [replaceBothAux]
  | cons c s ih =>
    intro k
    cases k with
    | zero => rfl
    | succ k => rw [replaceBothAux, ih k]; rfl

/-- Replacing one placeholder after the other is replacing both in one pass,
when the placeholders begin with the same character, which the rest of the
second does not have, and the text put for the first shares no character
with the second. -/
theorem replaceAux_twice (a : Char) (t1 t2 new1 new2 : List Char)
    (ht2 : ∀ x ∈ t2, x ≠ a) (hnew : new1 ≠ []) (hdisj : ∀ c ∈ new1, c ∉ a :: t2) :
    ∀ (n : Nat) (q : List Char), q.length ≤ n →
      replaceAux (a :: t2) new2 (replaceAux (a :: t1) new1 q 0) 0 =
        replaceBothAux (a :: t1) new1 (a :: t2) new2 q 0 := by
  have h1 : (a :: t1) ≠ [] := by simp
  have h2 : (a :: t2) ≠ [] := by simp
  intro n
  induction n with
  | zero =>
    intro q hq
    have : q = [] := List.length_eq_zero.1 (Nat.le_zero.1 hq)
    subst this
    rfl
  | succ n ih =>
    intro q hq
    cases q with
    | nil => rfl
    | cons c q =>
      cases hm1 : (a :: t1).isPrefixOf (c :: q) with
      | true =>
        rw [replaceAux_match _ new1 h1 c q hm1,
          replaceAux_free a t2 new2 _ new1 (fun x hx e =>
            hdisj x hx (e ▸ List.mem_cons_self _ _)),
          ih _ (by
            simp only [List.length_drop, List.length_cons] at hq ⊢
            omega),
          replaceBothAux, if_pos hm1]
        simp only [List.length_cons, Nat.add_sub_cancel, List.drop_succ_cons]
        rw [replaceBothAux_skip _ _ _ _ q t1.length]
      | false =>
        cases hm2 : (a :: t2).isPrefixOf (c :: q) with
        | true =>
          have hq2 := drop_of_isPrefixOf _ _ hm2
          have hca : c = a := by
            simp only [List.isPrefixOf, Bool.and_eq_true, beq_iff_eq] at hm2
            exact hm2.1.symm
          have hin : replaceAux (a :: t1) new1 (c :: q) 0 =
              (a :: t2) ++ replaceAux (a :: t1) new1 ((c :: q).drop (a :: t2).length) 0 := by
            rw [replaceAux_pass _ new1 c q hm1]
            have hq3 : q = t2 ++ (c :: q).drop (a :: t2).length := by
              have := hq2
              rw [List.cons_append, List.cons.injEq] at this
              exact this.2
            conv_lhs => rw [hq3]
            rw [replaceAux_free a t1 new1 _ t2 ht2, hca]
            rfl
          rw [hin, replaceAux_prefix _ new2 _ h2,
            ih _ (by
              simp only [List.length_drop, List.length_cons] at hq ⊢
              omega),
            replaceBothAux, if_neg (by simp [hm1]), if_pos hm2]
          simp only [List.length_cons, Nat.add_sub_cancel, List.drop_succ_cons]
          rw [replaceBothAux_skip _ _ _ _ q t2.length]
        | false =>
          have hout : (a :: t2).isPrefixOf (replaceAux (a :: t1) new1 (c :: q) 0) = false := by
            cases h : (a :: t2).isPrefixOf (replaceAux (a :: t1) new1 (c :: q) 0) with
            | false => rfl
            | true =>
              rw [isPrefixOf_of_replaceAux _ new1 hnew _ (c :: q) hdisj h] at hm2
              cases hm2
          rw [replaceAux_pass _ new1 c q hm1] at hout ⊢
          rw [replaceAux_pass _ new2 c _ hout, ih q (by simpa using hq),
            replaceBothAux, if_neg (by simp [hm1]), if_neg (by simp [hm2])]

/-! ### Decimal texts -/

theorem toDigitsCore_digits (fuel : Nat) :
    ∀ (n : Nat) (ds : List Char), (∀ c ∈ ds, isDigit c = true) →
      ∀ c ∈ Nat.toDigitsCore 10 fuel n ds, isDigit c = true := by
  induction fuel with
  | zero => intro n ds h; simpa [Nat.toDigitsCore] using h
  | succ fuel ih =>
    intro n ds h
    have hd : isDigit (Nat.digitChar (n % 10)) = true := by
      have hlt : n % 10 < 10 := Nat.mod_lt _ (by decide)
      generalize n % 10 = m at hlt
      interval_cases m <;> decide
    have hcons : ∀ c ∈ Nat.digitChar (n % 10) :: ds, isDigit c = true := by
      intro c hc
      rcases List.mem_cons.1 hc with e | e
      · rw [e]; exact hd
      · exact h c e
    rw [Nat.toDigitsCore]
    split
    · exact hcons
    · exact ih _ _ hcons

theorem toDigitsCore_ne_nil (fuel : Nat) :
    ∀ (n : Nat) (ds : List Char), (0 < fuel ∨ ds ≠ []) → Nat.toDigitsCore 10 fuel n ds ≠ [] := by
  induction fuel with
  | zero =>
    intro n ds h
    rcases h with h | h
    · exact absurd h (by decide)
    · simpa [Nat.toDigitsCore] using h
  | succ fuel ih =>
    intro n ds _
    rw [Nat.toDigitsCore]
    split
    · simp
    · exact ih _ _ (Or.inr (by simp))

theorem FormatInt_chars (n : Int) :
    (FormatInt n).toList ≠ [] ∧
      ∀ c ∈ (FormatInt n).toList, isDigit c = true ∨ c = '-' := by
  have hnat : ∀ m : Nat, (toString m).toList ≠ [] ∧
      ∀ c ∈ (toString m).toList, isDigit c = true := by
    intro m
    have e : (toString m).toList = Nat.toDigitsCore 10 (m + 1) m [] := rfl
    rw [e]
    exact ⟨toDigitsCore_ne_nil _ _ _ (Or.inl (Nat.succ_pos _)),
      toDigitsCore_digits _ _ _ (by simp)⟩
  cases n with
  | ofNat m =>
    have e : FormatInt (Int.ofNat m) = toString m := rfl
    rw [e]
    exact ⟨(hnat m).1, fun c hc => Or.inl ((hnat m).2 c hc)⟩
  | negSucc m =>
    have e : (FormatInt (Int.negSucc m)).toList = '-' :: (toString (m + 1)).toList := rfl
    rw [e]
    refine ⟨by simp, fun c hc => ?_⟩
    rcases List.mem_cons.1 hc with h | h
    · exact Or.inr h
    · exact Or.inl ((hnat (m + 1)).2 c h)

/-! ## SQL macro translation -/

theorem FormatInt_not_mem (pat : List Char)
    (hpat : pat.all (fun c => !isDigit c && !(c == '-')) = true) (n : Int) :
    ∀ c ∈ (FormatInt n).toList, c ∉ pat := by
  intro c hc hmem
  have h := (List.all_eq_true.1 hpat) c hmem
  simp only [Bool.and_eq_true, Bool.not_eq_true', beq_eq_false_iff_ne, ne_eq] at h
  rcases (FormatInt_chars n).2 c hc with h1 | h1
  · rw [h.1] at h1; cases h1
  · exact h.2 h1

theorem timeGroupLoop_none (step : Int) (fuel : Nat) (q : String)
    (h : Contains q "$__timeGroup" = false) : timeGroupLoop step fuel q = .ok (some q) := by
  cases fuel <;> simp [timeGroupLoop, h] <;> rfl

theorem querySqlText_plain (fuel : Nat) (q stepSize : String) (fromT toT : Time)
    (h1 : Contains q "$__timeFilter" = false) (h2 : Contains q "$__unixEpochFilter" = false)
    (h3 : Contains q "$__timeGroup" = false) (h4 : Contains q "$__time" = false) :
    querySqlText fuel q stepSize fromT toT = .ok (some (substituteRange q fromT toT)) := by
  have e1 : expandTimeFilter q = .ok q := by simp [expandTimeFilter, h1]; rfl
  have e2 : expandUnixEpochFilter q = .ok q := by simp [expandUnixEpochFilter, h2]; rfl
  have e4 : expandTime q = .ok q := by simp [expandTime, h4]; rfl
  simp only [querySqlText, e1, e2, timeGroupLoop_none _ fuel q h3, e4, bind, Except.bind, pure,
    Except.pure]

theorem substituteRange_eq (q : String) (fromT toT : Time) :
    substituteRange q fromT toT =
      Replace (Replace q ":start_time" (FormatInt fromT.Unix)) ":end_time"
        (FormatInt toT.Unix) := by
  have hs : (":start_time" : String).toList ≠ [] := by decide
  have he : (":end_time" : String).toList ≠ [] := by decide
  have hF := FormatInt_chars fromT.Unix
  have hFe := FormatInt_not_mem (":end_time" : String).toList (by decide) fromT.Unix
  unfold substituteRange
  by_cases c1 : Contains q ":start_time" = true
  · by_cases c2 : Contains q ":end_time" = true
    · simp [c1, c2]
    · have c2f : containsL (":end_time" : String).toList q.toList = false := by
        simpa [Contains] using c2
      have hno : containsL (":end_time" : String).toList
          (replaceAux (":start_time" : String).toList (FormatInt fromT.Unix).toList q.toList 0) =
            false := by
        cases h : containsL (":end_time" : String).toList
          (replaceAux (":start_time" : String).toList (FormatInt fromT.Unix).toList q.toList 0) with
        | false => rfl
        | true =>
          rw [containsL_of_replaceAux _ _ _ he hs hF.1 hFe _ q.toList (le_refl _) h] at c2f
          cases c2f
      simp only [c1, c2, Bool.and_false, Bool.false_eq_true, if_false, if_true]
      simp only [Replace, String.toList] at hno ⊢
      rw [replaceAux_none _ _ _ hno]
  · have c1f : containsL (":start_time" : String).toList q.toList = false := by
      simpa [Contains] using c1
    have e1 : Replace q ":start_time" (FormatInt fromT.Unix) = q := by
      simp only [Replace]
      rw [replaceAux_none _ _ _ c1f]
      rfl
    by_cases c2 : Contains q ":end_time" = true
    · simp [c1, c2, e1]
    · have c2f : containsL (":end_time" : String).toList q.toList = false := by
        simpa [Contains] using c2
      have e2 : Replace q ":end_time" (FormatInt toT.Unix) = q := by
        simp only [Replace]
        rw [replaceAux_none _ _ _ c2f]
        rfl
      simp [c1, c2, e1, e2]

/-- C18 (placeholder substitution): for a text free of the macro markers the
translated text is the text with every `:start_time` replaced by the decimal
seconds of the start of the range and every `:end_time` by those of its end,
whichever of the two occur; it is what the two replacements of the source
give one after the other, and it contains neither placeholder. -/
theorem placeholders_substituted (fuel : Nat) (q stepSize : String) (fromT toT : Time)
    (h1 : Contains q "$__timeFilter" = false) (h2 : Contains q "$__unixEpochFilter" = false)
    (h3 : Contains q "$__timeGroup" = false) (h4 : Contains q "$__time" = false) :
    querySqlText fuel q stepSize fromT toT =
      .ok (some (substitutePlaceholders q fromT.Unix toT.Unix)) ∧
    substitutePlaceholders q fromT.Unix toT.Unix =
      Replace (Replace q ":start_time" (FormatInt fromT.Unix)) ":end_time"
        (FormatInt toT.Unix) ∧
    Contains (substitutePlaceholders q fromT.Unix toT.Unix) ":start_time" = false ∧
    Contains (substitutePlaceholders q fromT.Unix toT.Unix) ":end_time" = false := by
  have hs : (":start_time" : String).toList ≠ [] := by decide
  have he : (":end_time" : String).toList ≠ [] := by decide
  have hF := FormatInt_chars fromT.Unix
  have hT := FormatInt_chars toT.Unix
  have hFe := FormatInt_not_mem (":end_time" : String).toList (by decide) fromT.Unix
  have hFs := FormatInt_not_mem (":start_time" : String).toList (by decide) fromT.Unix
  have hTe := FormatInt_not_mem (":end_time" : String).toList (by decide) toT.Unix
  have hTs := FormatInt_not_mem (":start_time" : String).toList (by decide) toT.Unix
  have htwice : substitutePlaceholders q fromT.Unix toT.Unix =
      Replace (Replace q ":start_time" (FormatInt fromT.Unix)) ":end_time"
        (FormatInt toT.Unix) := by
    have := replaceAux_twice ':' "start_time".toList "end_time".toList
      (FormatInt fromT.Unix).toList (FormatInt toT.Unix).toList (by decide) hF.1 hFe
      _ q.toList (le_refl _)
    simp only [substitutePlaceholders, Replace]
    exact congrArg String.mk this.symm
  refine ⟨?_, htwice, ?_, ?_⟩
  · rw [querySqlText_plain fuel q stepSize fromT toT h1 h2 h3 h4, substituteRange_eq, htwice]
  · rw [htwice]
    have key : containsL (":start_time" : String).toList
        (replaceAux (":end_time" : String).toList (FormatInt toT.Unix).toList
          (replaceAux (":start_time" : String).toList (FormatInt fromT.Unix).toList
            q.toList 0) 0) = false := by
      cases h : containsL (":start_time" : String).toList
          (replaceAux (":end_time" : String).toList (FormatInt toT.Unix).toList
            (replaceAux (":start_time" : String).toList (FormatInt fromT.Unix).toList
              q.toList 0) 0) with
      | false => rfl
      | true =>
        have h5 := containsL_of_replaceAux _ _ _ hs he hT.1 hTs _ _ (le_refl _) h
        rw [containsL_replaceAux_self _ _ hs hF.1 hFs _ _ (le_refl _)] at h5
        cases h5
    exact key
  · rw [htwice]
    exact containsL_replaceAux_self _ _ he hT.1 hTe _ _ (le_refl _)

set_option maxRecDepth 100000 in
theorem placeholders_substituted_witness :
    querySqlText 0 "select v from t where ts > :start_time and ts <= :end_time or u = :start_time"
        "10" (Time.ofUnix 100 0) (Time.ofUnix 200 0) =
      .ok (some "select v from t where ts > 100 and ts <= 200 or u = 100") :=
  (placeholders_substituted 0
    "select v from t where ts > :start_time and ts <= :end_time or u = :start_time"
    "10" (Time.ofUnix 100 0) (Time.ofUnix 200 0)
    (by decide) (by decide) (by decide) (by decide)).1

theorem Contains_mk (l pat : List Char) :
    Contains (String.mk l) (String.mk pat) = containsL pat l := rfl

theorem Index_mk (l pat : List Char) (i : Nat) (h : indexL pat l = some i) :
    Index (String.mk l) (String.mk pat) = i := by
  simp [Index, h]

/-- The pieces that the rewriting of a macro call `marker(arg)` reads from
the text `P marker(arg) S`, when `P` has no marker and `arg` no closing
parenthesis: the offset of the marker, that of the parenthesis after it, and
the slices before, inside and after the call. -/
theorem macro_call (a : Char) (t : List Char) (ha : a ∉ t) (hparen : ')' ∉ a :: t)
    (P arg S : List Char) (hP : containsL (a :: t) P = false) (harg : ')' ∉ arg) (k : Int)
    (hk : k = (a :: t).length + 1) :
    Contains (String.mk (P ++ (a :: t) ++ '(' :: (arg ++ ')' :: S))) (String.mk (a :: t)) = true ∧
    Index (String.mk (P ++ (a :: t) ++ '(' :: (arg ++ ')' :: S))) (String.mk (a :: t)) =
      P.length ∧
    slice (String.mk (P ++ (a :: t) ++ '(' :: (arg ++ ')' :: S))) P.length
        (String.mk (P ++ (a :: t) ++ '(' :: (arg ++ ')' :: S))).length =
      .ok (String.mk ((a :: t) ++ '(' :: (arg ++ ')' :: S))) ∧
    Index (String.mk ((a :: t) ++ '(' :: (arg ++ ')' :: S))) ")" = k + arg.length ∧
    slice (String.mk (P ++ (a :: t) ++ '(' :: (arg ++ ')' :: S))) (P.length + k)
        (P.length + (k + arg.length)) = .ok (String.mk arg) ∧
    slice (String.mk (P ++ (a :: t) ++ '(' :: (arg ++ ')' :: S))) 0 P.length =
      .ok (String.mk P) ∧
    slice (String.mk (P ++ (a :: t) ++ '(' :: (arg ++ ')' :: S)))
        (P.length + (k + arg.length) + 1)
        (String.mk (P ++ (a :: t) ++ '(' :: (arg ++ ')' :: S))).length = .ok (String.mk S) := by
  subst hk
  have hidx := indexL_marker a t ha ('(' :: (arg ++ ')' :: S)) P hP
  refine ⟨?_, ?_, ?_, ?_, ?_, ?_, ?_⟩
  · rw [Contains_mk, List.append_assoc]
    apply containsL_append_right
    have := isPrefixOf_self_append (a :: t) ('(' :: (arg ++ ')' :: S))
    rw [List.cons_append] at this ⊢
    rw [containsL_cons, this]
    rfl
  · exact Index_mk _ _ _ hidx
  · have := slice_mid P ((a :: t) ++ '(' :: (arg ++ ')' :: S)) [] P.length
      (String.mk (P ++ (a :: t) ++ '(' :: (arg ++ ')' :: S))).length rfl
      (by simp [String.length])
    simpa using this
  · have hsep : ')' ∉ (a :: t) ++ '(' :: arg := by
      intro h
      rcases List.mem_append.1 h with h | h
      · exact hparen h
      · rcases List.mem_cons.1 h with h | h
        · revert h; decide
        · exact harg h
    have := indexL_sep ')' ((a :: t) ++ '(' :: arg) S hsep
    have e : (a :: t) ++ '(' :: (arg ++ ')' :: S) = ((a :: t) ++ '(' :: arg) ++ ')' :: S := by simp
    rw [e, show (")" : String) = String.mk [')'] from rfl, Index_mk _ _ _ this]
    simp
    omega
  · have := slice_mid (P ++ (a :: t) ++ ['(']) arg (')' :: S)
      (P.length + ((a :: t).length + 1)) (P.length + ((a :: t).length + 1 + arg.length))
      (by simp) (by simp; omega)
    simpa using this
  · have := slice_mid [] P ((a :: t) ++ '(' :: (arg ++ ')' :: S)) 0 P.length (by simp) (by simp)
    simpa using this
  · have := slice_mid (P ++ (a :: t) ++ '(' :: (arg ++ [')'])) S []
      (P.length + (((a :: t).length : Int) + 1 + arg.length) + 1)
      (String.mk (P ++ (a :: t) ++ '(' :: (arg ++ ')' :: S))).length
      (by simp; omega) (by simp [String.length]; omega)
    simpa using this

theorem expandTimeFilter_call (P c S : String) (hP : Contains P "$__timeFilter" = false)
    (hc : ')' ∉ c.toList) :
    expandTimeFilter (P ++ "$__timeFilter(" ++ c ++ ")" ++ S) =
      .ok (P ++ " " ++ c ++ ">= to_date('19700101', 'YYYYMMDD') +" ++
        " ( 1 / 24 / 60 / 60 ) * :start_time and " ++ c ++
        "<= to_date('19700101', 'YYYYMMDD') +" ++
        " ( 1 / 24 / 60 / 60 ) * :end_time " ++ S) := by
  have hq : P ++ "$__timeFilter(" ++ c ++ ")" ++ S =
      String.mk (P.toList ++ ('$' :: "__timeFilter".toList) ++
        '(' :: (c.toList ++ ')' :: S.toList)) := by
    apply String.ext
    simp only [String.data_append, String.toList, List.append_assoc, List.cons_append,
      List.nil_append]
  obtain ⟨m1, m2, m3, m4, m5, m6, m7⟩ := macro_call '$' "__timeFilter".toList (by decide)
    (by decide) P.toList c.toList S.toList hP hc 14 (by decide)
  rw [hq]
  unfold expandTimeFilter
  rw [show ("$__timeFilter" : String) = String.mk ('$' :: "__timeFilter".toList) from rfl]
  simp only [m1, if_true, m2, m3, m4, m5, m6, m7, bind, Except.bind, pure, Except.pure]
  rfl

theorem containsL_sep_false (pat : List Char) (hpat : pat ≠ []) (b : Char) (hb : b ∉ pat)
    (x y : List Char) (hx : containsL pat x = false) (hy : containsL pat y = false) :
    containsL pat (x ++ b :: y) = false := by
  rw [containsL_sep pat hpat b hb, hx, hy]
  rfl

theorem replaceAux_sep_none (old new : List Char) (hold : old ≠ []) (b : Char) (hb : b ∉ old)
    (x y : List Char) (hx : containsL old x = false) :
    replaceAux old new (x ++ b :: y) 0 = x ++ b :: replaceAux old new y 0 := by
  rw [replaceAux_sep old new hold b hb y _ x (le_refl _), replaceAux_none old new x hx]

theorem replaceAux_sep_self (old new : List Char) (hold : old ≠ []) (b : Char) (hb : b ∉ old)
    (y : List Char) :
    replaceAux old new (old ++ b :: y) 0 = new ++ b :: replaceAux old new y 0 := by
  rw [replaceAux_sep old new hold b hb y _ old (le_refl _)]
  have := replaceAux_prefix old new [] hold
  rw [List.append_nil] at this
  rw [this]
  simp [replaceAux]

/-- The text that the rewriting of `$__timeFilter(c)` leaves between `P` and
`S`, cut at its blanks and comparison signs. -/
theorem timeFilter_text (P c S : String) :
    (P ++ " " ++ c ++ ">= to_date('19700101', 'YYYYMMDD') +" ++
        " ( 1 / 24 / 60 / 60 ) * :start_time and " ++ c ++
        "<= to_date('19700101', 'YYYYMMDD') +" ++
        " ( 1 / 24 / 60 / 60 ) * :end_time " ++ S).toList =
      P.toList ++ ' ' :: (c.toList ++ '>' ::
        ("= to_date('19700101', 'YYYYMMDD') + ( 1 / 24 / 60 / 60 ) *".toList ++ ' ' ::
          (":start_time".toList ++ ' ' :: ("and".toList ++ ' ' :: (c.toList ++ '<' ::
            ("= to_date('19700101', 'YYYYMMDD') + ( 1 / 24 / 60 / 60 ) *".toList ++ ' ' ::
              (":end_time".toList ++ ' ' :: S.toList))))))) := by
  simp only [String.data_append, String.toList, List.append_assoc, List.cons_append,
    List.nil_append]

theorem timeFilter_text_free (pat : List Char) (hpat : pat ≠ []) (h1 : ' ' ∉ pat)
    (h2 : '>' ∉ pat) (h3 : '<' ∉ pat)
    (hA : containsL pat "= to_date('19700101', 'YYYYMMDD') + ( 1 / 24 / 60 / 60 ) *".toList = false)
    (hs : containsL pat ":start_time".toList = false)
    (hand : containsL pat "and".toList = false)
    (he : containsL pat ":end_time".toList = false)
    (P c S : String) (hP : containsL pat P.toList = false) (hc : containsL pat c.toList = false)
    (hS : containsL pat S.toList = false) :
    Contains (P ++ " " ++ c ++ ">= to_date('19700101', 'YYYYMMDD') +" ++
        " ( 1 / 24 / 60 / 60 ) * :start_time and " ++ c ++
        "<= to_date('19700101', 'YYYYMMDD') +" ++
        " ( 1 / 24 / 60 / 60 ) * :end_time " ++ S) (String.mk pat) = false := by
  unfold Contains
  rw [timeFilter_text]
  exact containsL_sep_false pat hpat _ h1 _ _ hP
    (containsL_sep_false pat hpat _ h2 _ _ hc
      (containsL_sep_false pat hpat _ h1 _ _ hA
        (containsL_sep_false pat hpat _ h1 _ _ hs
          (containsL_sep_false pat hpat _ h1 _ _ hand
            (containsL_sep_false pat hpat _ h3 _ _ hc
              (containsL_sep_false pat hpat _ h1 _ _ hA
                (containsL_sep_false pat hpat _ h1 _ _ he hS)))))))

set_option maxRecDepth 100000 in
/-- C16 (`$__timeFilter` expansion): for a text `P $__timeFilter(c) S` in
which `P`, `c` and `S` have no macro marker and no placeholder and `c` has no
closing parenthesis, the translated text is `P`, a blank, `c` bounded below by
the date of the start of the range and above by the date of its end, a
blank, `S`, character for character. -/
theorem timeFilter_expansion (fuel : Nat) (P c S stepSize : String) (fromT toT : Time)
    (hP : macroFree P = true ∧ placeholderFree P = true)
    (hc : macroFree c = true ∧ placeholderFree c = true)
    (hS : macroFree S = true ∧ placeholderFree S = true)
    (hparen : ')' ∉ c.toList) :
    querySqlText fuel (P ++ "$__timeFilter(" ++ c ++ ")" ++ S) stepSize fromT toT =
      .ok (some (P ++ " " ++ c ++
        ">= to_date('19700101', 'YYYYMMDD') + ( 1 / 24 / 60 / 60 ) * " ++
        FormatInt fromT.Unix ++ " and " ++ c ++
        "<= to_date('19700101', 'YYYYMMDD') + ( 1 / 24 / 60 / 60 ) * " ++
        FormatInt toT.Unix ++ " " ++ S)) := by
  simp only [macroFree, placeholderFree, Bool.and_eq_true, Bool.not_eq_true'] at hP hc hS
  obtain ⟨⟨⟨⟨hP1, hP2⟩, hP3⟩, hP4⟩, hP5, hP6⟩ := hP
  obtain ⟨⟨⟨⟨_, hc2⟩, hc3⟩, hc4⟩, hc5, hc6⟩ := hc
  obtain ⟨⟨⟨⟨_, hS2⟩, hS3⟩, hS4⟩, hS5, hS6⟩ := hS
  have e1 := expandTimeFilter_call P c S hP1 hparen
  have f2 := timeFilter_text_free "$__unixEpochFilter".toList (by decide) (by decide) (by decide)
    (by decide) (by decide) (by decide) (by decide) (by decide) P c S hP2 hc2 hS2
  have f3 := timeFilter_text_free "$__timeGroup".toList (by decide) (by decide) (by decide)
    (by decide) (by decide) (by decide) (by decide) (by decide) P c S hP3 hc3 hS3
  have f4 := timeFilter_text_free "$__time".toList (by decide) (by decide) (by decide)
    (by decide) (by decide) (by decide) (by decide) (by decide) P c S hP4 hc4 hS4
  have hXl := timeFilter_text P c S
  generalize P ++ " " ++ c ++ ">= to_date('19700101', 'YYYYMMDD') +" ++
        " ( 1 / 24 / 60 / 60 ) * :start_time and " ++ c ++
        "<= to_date('19700101', 'YYYYMMDD') +" ++
        " ( 1 / 24 / 60 / 60 ) * :end_time " ++ S = X at e1 f2 f3 f4 hXl
  have e2 : expandUnixEpochFilter X = .ok X := by
    unfold expandUnixEpochFilter
    rw [show ("$__unixEpochFilter" : String) = String.mk "$__unixEpochFilter".toList from rfl, f2]
    rfl
  have e4 : expandTime X = .ok X := by
    unfold expandTime
    rw [show ("$__time" : String) = String.mk "$__time".toList from rfl, f4]
    rfl
  have hF := FormatInt_chars fromT.Unix
  have hcolon : ∀ n : Int, ∀ x ∈ (FormatInt n).toList, x ≠ ':' := by
    intro n x hx e
    rcases (FormatInt_chars n).2 x hx with h | h
    · rw [e] at h; revert h; decide
    · rw [e] at h; revert h; decide
  have hs : (":start_time" : String).toList ≠ [] := by decide
  have he : (":end_time" : String).toList ≠ [] := by decide
  have r1 : replaceAux ":start_time".toList (FormatInt fromT.Unix).toList X.toList 0 =
      P.toList ++ ' ' :: (c.toList ++ '>' ::
        ("= to_date('19700101', 'YYYYMMDD') + ( 1 / 24 / 60 / 60 ) *".toList ++ ' ' ::
          ((FormatInt fromT.Unix).toList ++ ' ' :: ("and".toList ++ ' ' :: (c.toList ++ '<' ::
            ("= to_date('19700101', 'YYYYMMDD') + ( 1 / 24 / 60 / 60 ) *".toList ++ ' ' ::
              (":end_time".toList ++ ' ' :: S.toList))))))) := by
    rw [hXl,
      replaceAux_sep_none _ _ hs ' ' (by decide) _ _ hP5,
      replaceAux_sep_none _ _ hs '>' (by decide) _ _ hc5,
      replaceAux_sep_none _ _ hs ' ' (by decide) _ _ (by decide),
      replaceAux_sep_self _ _ hs ' ' (by decide),
      replaceAux_sep_none _ _ hs ' ' (by decide) _ _ (by decide),
      replaceAux_sep_none _ _ hs '<' (by decide) _ _ hc5,
      replaceAux_sep_none _ _ hs ' ' (by decide) _ _ (by decide),
      replaceAux_sep_none _ _ hs ' ' (by decide) _ _ (by decide),
      replaceAux_none _ _ _ hS5]
  have r2 : replaceAux ":end_time".toList (FormatInt toT.Unix).toList
      (P.toList ++ ' ' :: (c.toList ++ '>' ::
        ("= to_date('19700101', 'YYYYMMDD') + ( 1 / 24 / 60 / 60 ) *".toList ++ ' ' ::
          ((FormatInt fromT.Unix).toList ++ ' ' :: ("and".toList ++ ' ' :: (c.toList ++ '<' ::
            ("= to_date('19700101', 'YYYYMMDD') + ( 1 / 24 / 60 / 60 ) *".toList ++ ' ' ::
              (":end_time".toList ++ ' ' :: S.toList)))))))) 0 =
      P.toList ++ ' ' :: (c.toList ++ '>' ::
        ("= to_date('19700101', 'YYYYMMDD') + ( 1 / 24 / 60 / 60 ) *".toList ++ ' ' ::
          ((FormatInt fromT.Unix).toList ++ ' ' :: ("and".toList ++ ' ' :: (c.toList ++ '<' ::
            ("= to_date('19700101', 'YYYYMMDD') + ( 1 / 24 / 60 / 60 ) *".toList ++ ' ' ::
              ((FormatInt toT.Unix).toList ++ ' ' :: S.toList))))))) := by
    rw [replaceAux_sep_none _ _ he ' ' (by decide) _ _ hP6,
      replaceAux_sep_none _ _ he '>' (by decide) _ _ hc6,
      replaceAux_sep_none _ _ he ' ' (by decide) _ _ (by decide),
      replaceAux_sep_none _ _ he ' ' (by decide) _ _
        (containsL_free ':' "end_time".toList _ (hcolon fromT.Unix)),
      replaceAux_sep_none _ _ he ' ' (by decide) _ _ (by decide),
      replaceAux_sep_none _ _ he '<' (by decide) _ _ hc6,
      replaceAux_sep_none _ _ he ' ' (by decide) _ _ (by decide),
      replaceAux_sep_self _ _ he ' ' (by decide),
      replaceAux_none _ _ _ hS6]
  have hfinal : Replace (Replace X ":start_time" (FormatInt fromT.Unix)) ":end_time"
      (FormatInt toT.Unix) =
      P ++ " " ++ c ++
        ">= to_date('19700101', 'YYYYMMDD') + ( 1 / 24 / 60 / 60 ) * " ++
        FormatInt fromT.Unix ++ " and " ++ c ++
        "<= to_date('19700101', 'YYYYMMDD') + ( 1 / 24 / 60 / 60 ) * " ++
        FormatInt toT.Unix ++ " " ++ S := by
    apply String.ext
    show replaceAux ":end_time".toList (FormatInt toT.Unix).toList
      (replaceAux ":start_time".toList (FormatInt fromT.Unix).toList X.toList 0) 0 = _
    rw [r1, r2]
    simp only [String.data_append, String.toList, List.append_assoc, List.cons_append,
      List.nil_append]
  have f3b : Contains X "$__timeGroup" = false := f3
  simp only [querySqlText, e1, e2, e4, timeGroupLoop_none _ fuel _ f3b, bind, Except.bind, pure,
    Except.pure, substituteRange_eq, hfinal]

set_option maxRecDepth 100000 in
theorem timeFilter_expansion_witness :
    querySqlText 0 "select v from t where $__timeFilter(ts) order by 1" "10"
        (Time.ofUnix 100 0) (Time.ofUnix 200 0) =
      .ok (some "select v from t where  ts>= to_date('19700101', 'YYYYMMDD') + ( 1 / 24 / 60 / 60 ) * 100 and ts<= to_date('19700101', 'YYYYMMDD') + ( 1 / 24 / 60 / 60 ) * 200  order by 1") :=
  timeFilter_expansion 0 "select v from t where " "ts" " order by 1" "10"
    (Time.ofUnix 100 0) (Time.ofUnix 200 0) (by decide) (by decide) (by decide) (by decide)

/-! ### Decimal texts read back -/

theorem digitChar_value (m : Nat) (h : m < 10) : (Nat.digitChar m).toNat - 48 = m := by
  interval_cases m <;> decide

theorem toDigitsCore_value (fuel : Nat) :
    ∀ (n : Nat) (ds : List Char), n < fuel →
      (Nat.toDigitsCore 10 fuel n ds).foldl (fun acc c => 10 * acc + (c.toNat - 48)) 0 =
        ds.foldl (fun acc c => 10 * acc + (c.toNat - 48)) n := by
  induction fuel with
  | zero => intro n ds h; exact absurd h (Nat.not_lt_zero _)
  | succ fuel ih =>
    intro n ds h
    have hd := digitChar_value (n % 10) (Nat.mod_lt _ (by decide))
    rw [Nat.toDigitsCore]
    split
    · rename_i h0
      have hn : n = n % 10 := by omega
      simp only [List.foldl_cons, hd, Nat.mul_zero, Nat.zero_add]
      rw [← hn]
    · rename_i h0
      rw [ih (n / 10) _ (by omega)]
      simp only [List.foldl_cons, hd]
      congr 1
      omega

theorem toString_nat_digits (n : Nat) :
    (toString n).toList ≠ [] ∧ (toString n).toList.all isDigit = true ∧
      digitsValue (toString n).toList = n := by
  have e : (toString n).toList = Nat.toDigitsCore 10 (n + 1) n [] := rfl
  rw [e]
  refine ⟨toDigitsCore_ne_nil _ _ _ (Or.inl (Nat.succ_pos _)), ?_, ?_⟩
  · rw [List.all_eq_true]
    exact toDigitsCore_digits _ _ _ (by simp)
  · have := toDigitsCore_value (n + 1) n [] (Nat.lt_succ_self _)
    simpa [digitsValue] using this

theorem ParseInt_toString (n : Nat) (h : (n : Int) ≤ maxInt64) :
    ParseInt (toString n) = ((n : Int), none) := by
  obtain ⟨h1, h2, h3⟩ := toString_nat_digits n
  have := ParseInt_digits (toString n).toList h1 h2 (by rw [h3]; exact h)
  rw [h3] at this
  exact this

/-! ### The macro `$__timeGroup` -/

theorem splitAux_single (b : Char) (rest cur : List Char) :
    splitAux [b] (b :: rest) cur 0 = cur.reverse :: splitAux [b] rest [] 0 := by
  rw [splitAux]
  simp [List.isPrefixOf]

theorem Split_comma (x y : String) (hx : ',' ∉ x.toList) (hy : ',' ∉ y.toList) :
    Split (x ++ "," ++ y) "," = [x, y] := by
  have hd : (x ++ "," ++ y).toList = x.toList ++ ',' :: (y.toList ++ []) := by
    simp only [String.data_append, String.toList, List.append_assoc, List.cons_append,
      List.nil_append, List.append_nil]
  simp only [Split, splitL]
  rw [show (",": String).toList = [','] from rfl, hd,
    splitAux_free ',' [] x.toList _ [] (fun c hc e => hx (e ▸ hc)), splitAux_single,
    splitAux_free ',' [] y.toList [] [] (fun c hc e => hy (e ▸ hc))]
  simp [splitAux]

theorem isSpace_of_isDigit (c : Char) (h : isDigit c = true) : isSpace c = false := by
  simp only [isDigit, Bool.and_eq_true, decide_eq_true_eq] at h
  simp only [isSpace, Bool.or_eq_false_iff, decide_eq_false_iff_not, Bool.and_eq_false_iff]
  omega

theorem TrimSpace_blank (l : List Char) (x : Char) (xs : List Char) (y : Char)
    (ys : List Char) (h1 : l = x :: xs) (h2 : l.reverse = y :: ys)
    (hx : isSpace x = false) (hy : isSpace y = false) :
    TrimSpace (" " ++ String.mk l) = String.mk l := by
  have hd : (" " ++ String.mk l).toList = ' ' :: l := rfl
  have hsp : isSpace ' ' = true := by decide
  simp only [TrimSpace, hd]
  rw [List.dropWhile_cons_of_pos hsp, h1, List.dropWhile_cons_of_neg (by simp [hx]), ← h1, h2,
    List.dropWhile_cons_of_neg (by simp [hy]), ← h2, List.reverse_reverse]

/-- The text of a count followed by a unit letter, as the conversion of the
interval reads it. -/
theorem count_unit_text (n : Nat) (u : Char) (hu1 : isSpace u = false) (hu2 : u ≠ ',')
    (hu3 : u ≠ ')') :
    (toString n ++ String.mk [u]).toList = (toString n).toList ++ [u] ∧
    TrimSpace (" " ++ (toString n ++ String.mk [u])) = toString n ++ String.mk [u] ∧
    ',' ∉ (toString n ++ String.mk [u]).toList ∧
    ')' ∉ (toString n ++ String.mk [u]).toList ∧
    toString n ++ String.mk [u] ≠ "$__interval" ∧
    slice (toString n ++ String.mk [u]) 0 ((toString n ++ String.mk [u]).length - 1) =
      .ok (toString n) ∧
    ∀ v : Char, HasSuffix (toString n ++ String.mk [u]) (String.mk [v]) = decide (v = u) := by
  obtain ⟨h1, h2, _⟩ := toString_nat_digits n
  rw [List.all_eq_true] at h2
  have hd : (toString n ++ String.mk [u]).toList = (toString n).toList ++ [u] := by
    simp [String.toList, String.data_append]
  obtain ⟨d, ds, hds⟩ : ∃ d ds, (toString n).toList = d :: ds := by
    cases h : (toString n).toList with
    | nil => exact absurd h h1
    | cons d ds => exact ⟨d, ds, rfl⟩
  have hdd : isDigit d = true := h2 d (by rw [hds]; exact List.mem_cons_self _ _)
  have hmem : ∀ b : Char, isDigit b = false → b ≠ u → b ∉ (toString n).toList ++ [u] := by
    intro b hb hbu hm
    rcases List.mem_append.1 hm with h | h
    · rw [h2 b h] at hb; cases hb
    · exact hbu (List.mem_singleton.1 h)
  refine ⟨hd, ?_, ?_, ?_, ?_, ?_, ?_⟩
  · have := TrimSpace_blank ((toString n).toList ++ [u]) d (ds ++ [u]) u (toString n).toList.reverse
      (by rw [hds]; rfl) (by simp) (isSpace_of_isDigit d hdd) hu1
    rw [← hd] at this
    exact this
  · rw [hd]; exact hmem ',' (by decide) (fun e => hu2 e.symm)
  · rw [hd]; exact hmem ')' (by decide) (fun e => hu3 e.symm)
  · intro e
    have e2 := congrArg String.toList e
    rw [hd, hds] at e2
    have e3 : d = '$' := by
      have := congrArg List.head? e2
      simpa using this
    rw [e3] at hdd
    revert hdd
    decide
  · have hlen : ((toString n ++ String.mk [u]).length : Int) - 1 =
        ((toString n).toList.length : Int) := by
      have : (toString n ++ String.mk [u]).length = (toString n).toList.length + 1 := by
        show (toString n ++ String.mk [u]).toList.length = _
        rw [hd]
        simp
      omega
    have := slice_mid [] (toString n).toList [u] 0
      ((toString n ++ String.mk [u]).length - 1) (by simp) (by rw [hlen]; simp)
    simp only [List.nil_append] at this
    rw [← hd] at this
    exact this
  · intro v
    simp only [HasSuffix, hd, List.reverse_append, List.reverse_cons, List.reverse_nil,
      List.nil_append, List.singleton_append]
    show [v].isPrefixOf (u :: (toString n).toList.reverse) = decide (v = u)
    exact isPrefixOf_singleton v u _

theorem expandTimeGroup_call (step : Int) (P c I S sec : String)
    (hP : Contains P "$__timeGroup" = false) (hc1 : ',' ∉ c.toList) (hc2 : ')' ∉ c.toList)
    (hI1 : TrimSpace (" " ++ I) = I) (hI2 : ',' ∉ I.toList) (hI3 : ')' ∉ I.toList)
    (hsec : intervalSeconds step I = .ok sec) :
    expandTimeGroup step (P ++ "$__timeGroup(" ++ c ++ ", " ++ I ++ ")" ++ S) =
      .ok (P ++ " " ++ groupStr (TrimSpace c) sec ++ S) := by
  have hq : P ++ "$__timeGroup(" ++ c ++ ", " ++ I ++ ")" ++ S =
      String.mk (P.toList ++ ('$' :: "__timeGroup".toList) ++
        '(' :: ((c ++ "," ++ (" " ++ I)).toList ++ ')' :: S.toList)) := by
    apply String.ext
    simp only [String.data_append, String.toList, List.append_assoc, List.cons_append,
      List.nil_append]
  have harg : ')' ∉ (c ++ "," ++ (" " ++ I)).toList := by
    simp only [String.data_append, String.toList, List.mem_append, not_or]
    refine ⟨⟨hc2, by decide⟩, by decide, hI3⟩
  have hblank : ',' ∉ (" " ++ I).toList := by
    simp only [String.data_append, String.toList, List.mem_append, not_or]
    exact ⟨by decide, hI2⟩
  obtain ⟨_, m2, m3, m4, m5, m6, m7⟩ := macro_call '$' "__timeGroup".toList (by decide)
    (by decide) P.toList (c ++ "," ++ (" " ++ I)).toList S.toList hP harg 13 (by decide)
  have hsplit := Split_comma c (" " ++ I) hc1 hblank
  rw [hq]
  unfold expandTimeGroup
  rw [show ("$__timeGroup" : String) = String.mk ('$' :: "__timeGroup".toList) from rfl]
  simp only [m2, m3, m4, m5, m6, m7, bind, Except.bind, pure, Except.pure]
  rw [show String.mk (c ++ "," ++ (" " ++ I)).toList = c ++ "," ++ (" " ++ I) from rfl, hsplit]
  simp only [List.headD_cons, hI1, hsec]
  rfl

/-- C17 (`$__timeGroup` interval conversion): one pass of the loop over the
macro turns `P $__timeGroup(c, I) S` into `P`, a blank, the floor-to-bucket
expression over the trimmed `c` and `S`; the seconds written as divisor and
as multiplier of that expression are the step of the caller when `I` is
`$__interval`, `n` for `n` followed by `s`, `60 n` for `n` followed by `m`
and `3600 n` for `n` followed by `h`, as long as they fit in int64. -/
theorem timeGroup_interval (step : Int) (P c S : String) (i : Interval)
    (hP : Contains P "$__timeGroup" = false) (hc1 : ',' ∉ c.toList) (hc2 : ')' ∉ c.toList)
    (hfit : i.secs step ≤ maxInt64) :
    expandTimeGroup step (P ++ "$__timeGroup(" ++ c ++ ", " ++ i.text ++ ")" ++ S) =
      .ok (P ++ " " ++ groupStr (TrimSpace c) (FormatInt (i.secs step)) ++ S) ∧
    ∀ split1 split2 : String, ∃ head : String, groupStr split1 split2 =
      head ++ split1 ++ " - TO_TIMESTAMP('1970-01-01 00:00:00','yyyy-mm-dd hh24:mi:ss') + TO_DATE ('1970-01-01 00:00:00', 'YYYY-mm-dd HH24:MI:SS') - TO_DATE ('1970-01-01 00:00:00', 'YYYY-mm-dd HH24:MI:SS'))*24*60*60*1000/" ++
        split2 ++ "/1000)*" ++ split2 ++ "*1000" := by
  refine ⟨?_, fun split1 split2 =>
    ⟨"TO_DATE('19700101', 'YYYYMMDD') + ( 1 / 24 / 60 / 60 / 1000) * FLOOR((", ?_⟩⟩
  · cases i with
    | auto =>
      exact expandTimeGroup_call step P c "$__interval" S _ hP hc1 hc2 (by decide) (by decide)
        (by decide) (by simp [intervalSeconds, Interval.secs]; rfl)
    | seconds n =>
      obtain ⟨_, t2, t3, t4, t5, t6, t7⟩ := count_unit_text n 's' (by decide) (by decide)
        (by decide)
      refine expandTimeGroup_call step P c _ S _ hP hc1 hc2 t2 t3 t4 ?_
      have hs : HasSuffix (toString n ++ String.mk ['s']) "s" = true := by
        rw [show ("s" : String) = String.mk ['s'] from rfl, t7]; rfl
      show intervalSeconds step (toString n ++ String.mk ['s']) = _
      simp only [intervalSeconds, t5, if_false, hs, if_true, t6]
      rfl
    | minutes n =>
      obtain ⟨_, t2, t3, t4, t5, t6, t7⟩ := count_unit_text n 'm' (by decide) (by decide)
        (by decide)
      refine expandTimeGroup_call step P c _ S _ hP hc1 hc2 t2 t3 t4 ?_
      have hs : HasSuffix (toString n ++ String.mk ['m']) "s" = false := by
        rw [show ("s" : String) = String.mk ['s'] from rfl, t7]; rfl
      have hm : HasSuffix (toString n ++ String.mk ['m']) "m" = true := by
        rw [show ("m" : String) = String.mk ['m'] from rfl, t7]; rfl
      simp only [Interval.secs] at hfit ⊢
      have hn : (n : Int) ≤ maxInt64 := by
        have : (0 : Int) ≤ n := Int.natCast_nonneg _
        omega
      have hmul : mul64 (n : Int) 60 = 60 * (n : Int) := by
        unfold mul64
        rw [wrapInt64_of_fits _ (by unfold minInt64; omega) (by omega)]
        ring
      show intervalSeconds step (toString n ++ String.mk ['m']) = _
      simp only [intervalSeconds, t5, if_false, hs, hm, if_true, t6, bind, Except.bind, pure,
        Except.pure, ParseInt_toString n hn, hmul, Bool.false_eq_true]
    | hours n =>
      obtain ⟨_, t2, t3, t4, t5, t6, t7⟩ := count_unit_text n 'h' (by decide) (by decide)
        (by decide)
      refine expandTimeGroup_call step P c _ S _ hP hc1 hc2 t2 t3 t4 ?_
      have hs : HasSuffix (toString n ++ String.mk ['h']) "s" = false := by
        rw [show ("s" : String) = String.mk ['s'] from rfl, t7]; rfl
      have hm : HasSuffix (toString n ++ String.mk ['h']) "m" = false := by
        rw [show ("m" : String) = String.mk ['m'] from rfl, t7]; rfl
      have hh : HasSuffix (toString n ++ String.mk ['h']) "h" = true := by
        rw [show ("h" : String) = String.mk ['h'] from rfl, t7]; rfl
      simp only [Interval.secs] at hfit ⊢
      have hn : (n : Int) ≤ maxInt64 := by
        have : (0 : Int) ≤ n := Int.natCast_nonneg _
        omega
      have hmul : mul64 (mul64 (n : Int) 60) 60 = 3600 * (n : Int) := by
        have h0 : (0 : Int) ≤ n := Int.natCast_nonneg _
        unfold mul64
        rw [wrapInt64_of_fits ((n : Int) * 60) (by unfold minInt64; omega) (by omega),
          wrapInt64_of_fits _ (by unfold minInt64; omega) (by omega)]
        ring
      show intervalSeconds step (toString n ++ String.mk ['h']) = _
      simp only [intervalSeconds, t5, if_false, hs, hm, hh, if_true, t6, bind, Except.bind, pure,
        Except.pure, ParseInt_toString n hn, hmul, Bool.false_eq_true]
  · apply String.ext
    simp only [groupStr, String.data_append, List.append_assoc]
    rfl

set_option maxRecDepth 100000 in
theorem timeGroup_interval_witness :
    expandTimeGroup 10
        ("select " ++ "$__timeGroup(" ++ "ts" ++ ", " ++ (Interval.minutes 5).text ++ ")" ++
          " from t") =
      .ok ("select " ++ " " ++
        groupStr (TrimSpace "ts") (FormatInt ((Interval.minutes 5).secs 10)) ++ " from t") ∧
    "select " ++ "$__timeGroup(" ++ "ts" ++ ", " ++ (Interval.minutes 5).text ++ ")" ++
        " from t" = "select $__timeGroup(ts, 5m) from t" ∧
    querySqlText 1 "select $__timeGroup(ts, 5m) from t" "10" (Time.ofUnix 100 0)
        (Time.ofUnix 200 0) =
      .ok (some "select  TO_DATE('19700101', 'YYYYMMDD') + ( 1 / 24 / 60 / 60 / 1000) * FLOOR((ts - TO_TIMESTAMP('1970-01-01 00:00:00','yyyy-mm-dd hh24:mi:ss') + TO_DATE ('1970-01-01 00:00:00', 'YYYY-mm-dd HH24:MI:SS') - TO_DATE ('1970-01-01 00:00:00', 'YYYY-mm-dd HH24:MI:SS'))*24*60*60*1000/300/1000)*300*1000 from t") :=
  ⟨(timeGroup_interval 10 "select " "ts" " from t" (.minutes 5) (by decide) (by decide)
    (by decide) (by decide)).1, by decide, by decide⟩

/-! ## Column classifier and single-column extractor -/

/-- C23 (column classification): the three classifiers are exact,
case-sensitive membership tests: a type is a Number type exactly when it is
NUMBER, DOUBLE, FLOAT or LONG, a Char type exactly when it is VARCHAR2, CHAR,
NVARCHAR2 or NCHAR, and a column is a Time column exactly when its type is
DATE, TIMESTAMP, TIMESTAMP WITH TIME ZONE or TIMESTAMP WITH LOCAL TIME ZONE or
its name is METRIC_TIME, METRIC_TIME_EPOCH or TIME; no type is both Number and
Char, a NUMBER column named METRIC_TIME is a Time column, and the spelling in
lower case is in none of the tables. -/
theorem classifier_table (t c : String) :
    (isNumberColumn t = true ↔ t = "NUMBER" ∨ t = "DOUBLE" ∨ t = "FLOAT" ∨ t = "LONG") ∧
    (isCharColumn t = true ↔ t = "VARCHAR2" ∨ t = "CHAR" ∨ t = "NVARCHAR2" ∨ t = "NCHAR") ∧
    (isTimeColumn t c = true ↔
      (t = "DATE" ∨ t = "TIMESTAMP" ∨ t = "TIMESTAMP WITH TIME ZONE" ∨
        t = "TIMESTAMP WITH LOCAL TIME ZONE") ∨
      (c = "METRIC_TIME" ∨ c = "METRIC_TIME_EPOCH" ∨ c = "TIME")) ∧
    ¬ (isNumberColumn t = true ∧ isCharColumn t = true) ∧
    isTimeColumn "NUMBER" "METRIC_TIME" = true ∧
    isNumberColumn "number" = false ∧ isCharColumn "varchar2" = false ∧
    isTimeColumn "date" "time" = false := by
  refine ⟨?_, ?_, ?_, ?_, by decide, by decide, by decide, by decide⟩
  · simp only [isNumberColumn, Bool.or_eq_true, decide_eq_true_eq, or_assoc]
  · simp only [isCharColumn, Bool.or_eq_true, decide_eq_true_eq, or_assoc]
  · simp only [isTimeColumn, Bool.or_eq_true, decide_eq_true_eq, or_assoc]
    tauto
  · simp only [isNumberColumn, isCharColumn, Bool.or_eq_true, decide_eq_true_eq]
    rintro ⟨h1, h2⟩
    rcases h1 with ((h1 | h1) | h1) | h1 <;> subst h1 <;> revert h2 <;> decide

theorem loopSingle_texts {F : Type} (columns : List ColumnType) (rp : Int) (name : String) :
    ∀ (vals : List String) (acc : List (Val F)) (rowsTotal : Int),
      loopSingle columns rp (vals.map (fun v => Except.ok [NullString.text v]))
        ⟨"response", [⟨name, none, none, .string, acc⟩]⟩ rowsTotal =
      .ok ⟨[⟨"response", [⟨name, none, none, .string, acc ++ vals.map Val.string⟩]⟩], none,
        rowsTotal + vals.length⟩ := by
  intro vals
  induction vals with
  | nil => intro acc rowsTotal; simp [loopSingle]
  | cons v vals ih =>
    intro acc rowsTotal
    simp only [List.map_cons, loopSingle, scanStrings, Frame.AppendRowChecked, List.map_nil,
      List.length_cons, List.length_nil, Nat.le_refl, if_true, Frame.AppendRow, appendVals,
      Field.append]
    rw [ih]
    simp only [List.append_assoc, List.singleton_append, List.length_cons, Nat.cast_add,
      Nat.cast_one]
    congr 2
    omega

/-- C24 (single-column extraction): on a cursor with exactly one column and
R rows of non-null text, `getSingleColumnDF` returns no error and exactly one
frame with exactly one field, which is named after the column and holds the R
row values in the order of the cursor, and it leaves R in `rowsProcessed`. -/
theorem getSingleColumnDF_one_column {F : Type} (c : ColumnType) (typesErr : Option String)
    (vals : List String) (rowsProcessed : Int) :
    getSingleColumnDF (F := F)
        ⟨none, typesErr, [c], vals.map (fun v => Except.ok [NullString.text v])⟩ rowsProcessed =
      .ok ⟨[⟨"response", [⟨c.Name, none, none, .string, vals.map Val.string⟩]⟩], none,
        (vals.length : Int)⟩ := by
  simp only [getSingleColumnDF, NewField]
  rw [loopSingle_texts]
  simp

theorem loopSingle_null {F : Type} (c : ColumnType) (rp : Int) :
    ∀ (data : List NullString) (frame : Frame F) (rowsTotal : Int), frame.Fields.length = 1 →
      NullString.null ∈ data →
      loopSingle [c] rp (data.map (fun x => Except.ok [x])) frame rowsTotal =
        .ok ⟨[], some (.scan (scanNullText 0 c.Name)), rp⟩ := by
  intro data
  induction data with
  | nil => intro frame rowsTotal _ h; cases h
  | cons x data ih =>
    intro frame rowsTotal hf hmem
    cases x with
    | null => simp [loopSingle, scanStrings, columnName]
    | text v =>
      have hrest : NullString.null ∈ data := by
        rcases List.mem_cons.1 hmem with h | h
        · cases h
        · exact h
      simp only [List.map_cons, loopSingle, scanStrings, Frame.AppendRowChecked, List.map_nil,
        List.length_cons, List.length_nil, hf, Nat.le_refl, if_true]
      apply ih _ _ _ hrest
      cases frame with
      | mk n fs =>
        cases fs with
        | nil => simp at hf
        | cons f fs =>
          cases fs with
          | nil => simp [Frame.AppendRow, appendVals]
          | cons g gs => simp at hf

/-- C25 (amended).  Single-column null handling: for every single-column
cursor in which some row's value is NULL, `getSingleColumnDF` returns the
error of the scan of the first such row, `sql: Scan error on column index 0`
with the name of the column and the cause `converting NULL to string is
unsupported`, and no frame; no empty string is stored for the row, and
`rowsProcessed` keeps the value it had before the call. -/
theorem getSingleColumnDF_null_is_error {F : Type} (c : ColumnType) (typesErr : Option String)
    (data : List NullString) (rowsProcessed : Int) (hnull : NullString.null ∈ data) :
    getSingleColumnDF (F := F)
        ⟨none, typesErr, [c], data.map (fun x => Except.ok [x])⟩ rowsProcessed =
      .ok ⟨[], some (.scan (scanNullText 0 c.Name)), rowsProcessed⟩ := by
  simp only [getSingleColumnDF]
  exact loopSingle_null c rowsProcessed data _ _ rfl hnull

set_option maxRecDepth 100000 in
theorem getSingleColumnDF_null_is_error_witness :
    NullString.null ∈ [NullString.text "cpu", NullString.null, NullString.text "disk"] ∧
    getSingleColumnDF (F := Int)
        ⟨none, none, [⟨"metric_name", "VARCHAR2"⟩],
          [NullString.text "cpu", NullString.null, NullString.text "disk"].map
            (fun x => Except.ok [x])⟩ 7 =
      .ok ⟨[], some (.scan (scanNullText 0 "metric_name")), 7⟩ ∧
    scanNullText 0 "metric_name" = "sql: Scan error on column index 0, name \"metric_name\": " ++
      "converting NULL to string is unsupported" :=
  ⟨by decide,
    getSingleColumnDF_null_is_error ⟨"metric_name", "VARCHAR2"⟩ none
      [NullString.text "cpu", NullString.null, NullString.text "disk"] 7 (by decide),
    by decide⟩

set_option maxRecDepth 100000 in
/-- C25, counterexample.  On the cursor of the test of the scan error, one
column TAG and one row NULL, the call returns the error of the scan and no
frame: it does not return without error, and no field holds an empty string
for the row. -/
theorem getSingleColumnDF_null_counterexample :
    getSingleColumnDF (F := Int) ⟨none, none, [⟨"TAG", "VARCHAR2"⟩], [.ok [.null]]⟩ 0 =
      .ok ⟨[], some (.scan ("sql: Scan error on column index 0, name \"TAG\": " ++
        "converting NULL to string is unsupported")), 0⟩ := by
  decide

/-! ## The row count on the error paths -/

theorem loopA_err_keeps {F : Type} (L : GoLib F) (columns : List ColumnType) (rp : Int) :
    ∀ (rows : List (Except String (List NullString))) (frame : Frame F) (rowsTotal : Int)
      (n : Nat), (loopA L columns rp rows frame rowsTotal n).err ≠ none →
        (loopA L columns rp rows frame rowsTotal n).rowsProcessed = rp := by
  intro rows
  induction rows with
  | nil => intro frame rowsTotal n h; simp [loopA] at h
  | cons r rest ih =>
    intro frame rowsTotal n h
    cases r with
    | error e => rfl
    | ok row =>
      simp only [loopA] at h ⊢
      split
      · rfl
      · rename_i vals hv
        rw [hv] at h
        exact ih _ _ _ h

theorem loopB_err_keeps {F : Type} (L : GoLib F) (columns : List ColumnType) (rp : Int) :
    ∀ (rows : List (Except String (List NullString)))
      (m : List (MetricTagKey × List (TimeValuePair F))) (rowsTotal : Int) (n : Nat) (r : Ret F),
      loopB L columns rp rows m rowsTotal n = .error r → r.rowsProcessed = rp := by
  intro rows
  induction rows with
  | nil => intro m rowsTotal n r h; simp [loopB] at h
  | cons x rest ih =>
    intro m rowsTotal n r h
    cases x with
    | error e =>
      simp only [loopB, Except.error.injEq] at h
      rw [← h]
    | ok row =>
      simp only [loopB] at h
      split at h
      · simp only [Except.error.injEq] at h
        rw [← h]
      · exact ih _ _ _ _ h

theorem loopC1_err_keeps {F : Type} (L : GoLib F) (columns : List ColumnType) (rp : Int) :
    ∀ (rows : List (Except String (List NullString)))
      (m : List (String × List (TimeValuePair F))) (n : Nat) (r : Ret F),
      loopC1 L columns rp rows m n = .error r → r.rowsProcessed = rp := by
  intro rows
  induction rows with
  | nil => intro m n r h; simp [loopC1] at h
  | cons x rest ih =>
    intro m n r h
    cases x with
    | error e =>
      simp only [loopC1, Except.error.injEq] at h
      rw [← h]
    | ok row =>
      simp only [loopC1] at h
      split at h
      · simp only [Except.error.injEq] at h
        rw [← h]
      · exact ih _ _ _ h

theorem loopC2_err_keeps {F : Type} (L : GoLib F) (columns : List ColumnType) (rp : Int) :
    ∀ (rows : List (Except String (List NullString)))
      (m : List (String × List (TimeValuePair F))) (n : Nat) (r : Ret F),
      loopC2 L columns rp rows m n = .error r → r.rowsProcessed = rp := by
  intro rows
  induction rows with
  | nil => intro m n r h; simp [loopC2] at h
  | cons x rest ih =>
    intro m n r h
    cases x with
    | error e =>
      simp only [loopC2, Except.error.injEq] at h
      rw [← h]
    | ok row =>
      simp only [loopC2] at h
      split at h
      · simp only [Except.error.injEq] at h
        rw [← h]
      · exact ih _ _ _ h

theorem emitC_err_keeps {F : Type} (L : GoLib F) (legendTextVal : String) (rp : Int) (n : Nat) :
    ∀ (entries : List (String × List (TimeValuePair F))) (framesFinal : List (Frame F))
      (rowsTotal : Int), (emitC L legendTextVal rp n entries framesFinal rowsTotal).err ≠ none →
        (emitC L legendTextVal rp n entries framesFinal rowsTotal).rowsProcessed = rp := by
  intro entries
  induction entries with
  | nil => intro framesFinal rowsTotal h; simp [emitC] at h
  | cons e rest ih =>
    intro framesFinal rowsTotal h
    obtain ⟨key, pairs⟩ := e
    simp only [emitC] at h ⊢
    split
    · rfl
    · rename_i pts hp
      rw [hp] at h
      exact ih _ _ h

theorem itemsD_err_keeps {F : Type} (L : GoLib F) (legendTextVal : String) (rp : Int) (n : Nat) :
    ∀ (items : List (ResultItem F)) (frames : List (Frame F)) (rowsTotal : Int) (ret : Ret F),
      itemsD L legendTextVal rp n items frames rowsTotal = .ok ret → ret.err ≠ none →
        ret.rowsProcessed = rp := by
  intro items
  induction items with
  | nil =>
    intro frames rowsTotal ret h herr
    simp only [itemsD, Except.ok.injEq] at h
    rw [← h] at herr
    exact absurd rfl herr
  | cons item rest ih =>
    intro frames rowsTotal ret h herr
    simp only [itemsD] at h
    split at h
    · cases h
    · split at h
      · cases h
      · simp only [Except.ok.injEq] at h
        rw [← h]
      · exact ih _ _ _ h herr

/-- C21 (row count untouched on error): in every mode and for every cursor,
legend and value of `rowsProcessed` before the call, a call of
`getDataFrameFromRows` that returns a non-nil error leaves in `rowsProcessed`
the value it had before the call, whatever the number of rows read before the
failure. -/
theorem rowsProcessed_kept_on_error {F : Type} (L : GoLib F) (rows : Rows)
    (promqlflg convertSqlResults : Bool) (qryInputVal legendTextVal queryTextConverted : String)
    (rowsProcessed : Int) (ret : Ret F)
    (h : getDataFrameFromRows L rows promqlflg convertSqlResults qryInputVal legendTextVal
      queryTextConverted rowsProcessed = .ok ret)
    (herr : ret.err ≠ none) : ret.rowsProcessed = rowsProcessed := by
  unfold getDataFrameFromRows at h
  split at h
  · -- Mode A
    simp only [Except.ok.injEq] at h
    subst h
    unfold modeA at herr ⊢
    split
    · rfl
    · split
      · rfl
      · rename_i h1 _ h2
        simp only [h1, h2] at herr
        exact loopA_err_keeps L _ _ _ _ _ _ herr
  · split at h
    · split at h
      · simp only [Except.ok.injEq] at h
        rw [← h]
      · split at h
        · -- Mode B
          unfold modeB at h
          split at h
          · rename_i r hr
            simp only [Except.ok.injEq] at h
            subst h
            exact loopB_err_keeps L _ _ _ _ _ _ _ hr
          · split at h
            · cases h
            · simp only [Except.ok.injEq] at h
              rw [← h] at herr
              exact absurd rfl herr
        · -- Mode C
          simp only [Except.ok.injEq] at h
          subst h
          unfold modeC at herr ⊢
          split
          · rfl
          · rename_i hte
            simp only [hte] at herr
            split
            rename_i numberCols timeCols charCols otherCols hcount
            simp only [hcount] at herr
            split
            · rename_i hc
              simp only [hc, if_true] at herr
              split
              · rename_i r hr
                exact loopC1_err_keeps L _ _ _ _ _ _ hr
              · rename_i m n hm
                simp only [hm] at herr
                exact emitC_err_keeps L _ _ _ _ _ _ herr
            · rename_i hc
              simp only [hc, if_false] at herr
              split
              · rename_i hc2
                simp only [hc2, if_true] at herr
                split
                · rename_i r hr
                  exact loopC2_err_keeps L _ _ _ _ _ _ hr
                · rename_i m n hm
                  simp only [hm] at herr
                  exact emitC_err_keeps L _ _ _ _ _ _ herr
              · rfl
    · -- Mode D
      unfold modeD at h
      split at h
      · simp only [Except.ok.injEq] at h
        rw [← h]
      · split at h
        · simp only [Except.ok.injEq] at h
          rw [← h]
        · exact itemsD_err_keeps L _ _ _ _ _ _ _ h herr
/-! ## Mode B: the tag map -/

theorem loopB_withTags {F : Type} (L : GoLib F)
    (u : String → Option (Option (List (String × String)))) (columns : List ColumnType)
    (rp : Int) :
    ∀ (rows : List (Except String (List NullString)))
      (m : List (MetricTagKey × List (TimeValuePair F))) (rowsTotal : Int) (n : Nat),
      loopB (withTags L u) columns rp rows m rowsTotal n = loopB L columns rp rows m rowsTotal n := by
  intro rows
  induction rows with
  | nil => intro m rowsTotal n; rfl
  | cons x rest ih =>
    intro m rowsTotal n
    cases x with
    | error e => rfl
    | ok row =>
      simp only [loopB]
      have e : (withTags L u).ParseFloat = L.ParseFloat := rfl
      rw [e]
      split
      · rfl
      · exact ih _ _ _

theorem legendLoop_ok_of_ok (tags tags1 : Option (List (String × String))) :
    ∀ (l : List String) (prev : Option String) (acc acc1 : String),
      (∃ s, legendLoop tags prev l acc = .ok s) → ∃ s1, legendLoop tags1 prev l acc1 = .ok s1 := by
  intro l
  induction l with
  | nil => intro prev acc acc1 _; exact ⟨acc1, rfl⟩
  | cons ind rest ih =>
    intro prev acc acc1 h
    simp only [legendLoop] at h ⊢
    split
    · rename_i hc
      simp only [hc, if_true] at h
      cases prev with
      | none => obtain ⟨s, hs⟩ := h; cases hs
      | some p => exact ih _ _ _ h
    · rename_i hc
      simp only [hc] at h
      exact ih _ _ _ h

theorem expandLegend_ok_of_ok (legendTextVal : String)
    (tags tags1 : Option (List (String × String)))
    (h : ∃ s, expandLegend legendTextVal tags = .ok s) :
    ∃ s1, expandLegend legendTextVal tags1 = .ok s1 := by
  unfold expandLegend at h ⊢
  simp only at h ⊢
  split
  · rename_i hc
    simp only [hc, if_true] at h
    have key : ∃ s, legendLoop tags none (Split (TrimSpace legendTextVal) "\x7b\x7b") "" = .ok s := by
      cases hl : legendLoop tags none (Split (TrimSpace legendTextVal) "\x7b\x7b") "" with
      | error e => rw [hl] at h; obtain ⟨s, hs⟩ := h; cases hs
      | ok s => exact ⟨s, rfl⟩
    obtain ⟨s1, hs1⟩ := legendLoop_ok_of_ok tags tags1 _ none "" "" key
    rw [hs1]
    simp only
    split <;> exact ⟨_, rfl⟩
  · exact ⟨_, rfl⟩

/-- The value field of Mode B: nil labels in every branch; the decoded tags
reach the name through the expansion of the legend only. -/
theorem valueFieldB_form {F : Type} (L : GoLib F) (legendTextVal : String) (key : MetricTagKey) :
    valueFieldB L legendTextVal key =
      if legendTextVal = "" then .ok (untaggedField (key.MetricStr ++ key.TagsStr))
      else
        match expandLegend legendTextVal (decodeTags L key.TagsStr).1 with
        | .error e => .error e
        | .ok finalLegend => .ok (untaggedField finalLegend) := by
  have hnil : ∀ t b, decodeTags L key.TagsStr = (t, b) → b = true → t = none := by
    intro t b h hb
    unfold decodeTags at h
    split at h
    · split at h
      · cases h; rfl
      · cases h; cases hb
    · cases h; rfl
  unfold valueFieldB
  split
  rename_i tagsMap errjson hd
  simp only [hd]
  have ht : errjson = true → tagsMap = none := hnil _ _ hd
  by_cases hleg : legendTextVal = ""
  · simp only [hleg, if_true]
    cases errjson with
    | true => rw [ht rfl]; rfl
    | false => rfl
  · simp only [hleg, if_false]
    cases errjson with
    | true =>
      have := ht rfl
      subst this
      cases hx : expandLegend legendTextVal none with
      | error e => rfl
      | ok s => rfl
    | false =>
      cases hx : expandLegend legendTextVal tagsMap with
      | error e => rfl
      | ok s => rfl

theorem framesB_untagged {F : Type} (L : GoLib F) (legendTextVal queryTextConverted : String) :
    ∀ (entries : List (MetricTagKey × List (TimeValuePair F))) (frames : List (Frame F)),
      framesB L legendTextVal queryTextConverted entries = .ok frames →
        List.Forall₂ (fun e fr => ∃ name : String,
          fr = seriesOf queryTextConverted (untaggedField name)
            ((L.sortSlice (lessPairs L) e.2).filterMap (pointB L))) entries frames := by
  intro entries
  induction entries with
  | nil => intro frames h; cases h; exact List.Forall₂.nil
  | cons e rest ih =>
    intro frames h
    unfold framesB at h
    split at h
    · cases h
    · rename_i curFrame hcur
      split at h
      · cases h
      · rename_i frames1 hrest
        cases h
        refine List.Forall₂.cons ?_ (ih _ hrest)
        unfold frameB at hcur
        rw [valueFieldB_form] at hcur
        split at hcur
        · cases hcur
        · rename_i vf hvf
          cases hcur
          split at hvf
          · cases hvf
            exact ⟨_, by rw [appendPairsB_eq, appendPoints_seriesFrame _ _ _ rfl rfl]⟩
          · split at hvf
            · cases hvf
            · cases hvf
              exact ⟨_, by rw [appendPairsB_eq, appendPoints_seriesFrame _ _ _ rfl rfl]⟩

theorem framesB_withTags {F : Type} (L : GoLib F)
    (u : String → Option (Option (List (String × String))))
    (legendTextVal queryTextConverted : String) :
    ∀ (entries : List (MetricTagKey × List (TimeValuePair F))) (frames : List (Frame F)),
      framesB L legendTextVal queryTextConverted entries = .ok frames →
        ∃ frames1, framesB (withTags L u) legendTextVal queryTextConverted entries = .ok frames1 ∧
          (legendTextVal = "" → frames1 = frames) := by
  intro entries
  induction entries with
  | nil => intro frames h; cases h; exact ⟨[], rfl, fun _ => rfl⟩
  | cons e rest ih =>
    intro frames h
    unfold framesB at h
    split at h
    · cases h
    · rename_i curFrame hcur
      split at h
      · cases h
      · rename_i frames0 hrest
        cases h
        obtain ⟨frames1, hf1, heq1⟩ := ih _ hrest
        unfold frameB at hcur
        rw [valueFieldB_form] at hcur
        by_cases hleg : legendTextVal = ""
        · refine ⟨curFrame :: frames1, ?_, fun _ => by rw [heq1 hleg]⟩
          simp only [hleg, if_true] at hcur
          unfold framesB frameB
          rw [valueFieldB_form, hf1]
          simp only [hleg, if_true]
          cases hcur
          rfl
        · simp only [hleg, if_false] at hcur
          have hok : ∃ s, expandLegend legendTextVal (decodeTags L e.1.TagsStr).1 = .ok s := by
            cases hx : expandLegend legendTextVal (decodeTags L e.1.TagsStr).1 with
            | error err => rw [hx] at hcur; cases hcur
            | ok s => exact ⟨s, rfl⟩
          obtain ⟨s1, hs1⟩ := expandLegend_ok_of_ok legendTextVal _
            (decodeTags (withTags L u) e.1.TagsStr).1 hok
          have hfr : ∃ fr1, frameB (withTags L u) legendTextVal queryTextConverted e =
              .ok fr1 := by
            unfold frameB
            rw [valueFieldB_form]
            simp only [hleg, if_false, hs1]
            exact ⟨_, rfl⟩
          obtain ⟨fr1, hfr1⟩ := hfr
          refine ⟨fr1 :: frames1, ?_, fun h => absurd h hleg⟩
          simp only [framesB, hfr1, hf1]

/-- C30 (tag map of the Mode B value field): in every frame a Mode B call
returns, the value field has nil labels (the frame is the series of an
untagged field), whether METRIC_TAGS is empty, is no JSON or decodes to a
map; and whatever the decoding of the tags would have given instead, the call
returns as well, with the same error, the same row counts and frames that
differ at most in the names of their value fields, and with an empty legend
template the very same result: the decoded map reaches the legend only, and
tags that are no JSON do not make the call fail. -/
theorem modeB_value_field_untagged {F : Type} (L : GoLib F) (rows : Rows)
    (qryInputVal legendTextVal queryTextConverted : String) (rowsProcessed : Int) (ret : Ret F)
    (h4 : hasCanonicalColumns rows.columns = true)
    (h : getDataFrameFromRows L rows false true qryInputVal legendTextVal queryTextConverted
      rowsProcessed = .ok ret) :
    (∀ fr ∈ ret.frames, ∃ (name : String) (pts : List (Time × F)),
      fr = seriesOf queryTextConverted (untaggedField name) pts) ∧
    ∀ u : String → Option (Option (List (String × String))),
      ∃ ret1 : Ret F,
        getDataFrameFromRows (withTags L u) rows false true qryInputVal legendTextVal
          queryTextConverted rowsProcessed = .ok ret1 ∧
        ret1.err = ret.err ∧ ret1.rowsProcessed = ret.rowsProcessed ∧
        ret1.rowsRead = ret.rowsRead ∧
        List.Forall₂ (fun fr fr1 => ∃ (name name1 : String) (pts : List (Time × F)),
          fr = seriesOf queryTextConverted (untaggedField name) pts ∧
          fr1 = seriesOf queryTextConverted (untaggedField name1) pts) ret.frames ret1.frames ∧
        (legendTextVal = "" → ret1 = ret) := by
  have h4a := h4
  unfold hasCanonicalColumns at h4a
  have hrange : ∀ (u : String → Option (Option (List (String × String))))
      (m : List (MetricTagKey × List (TimeValuePair F))),
      (withTags L u).rangeOrder m = L.rangeOrder m := fun _ _ => rfl
  have hBsome : ∀ (L1 : GoLib F) (e : String), rows.columnsErr = some e →
      getDataFrameFromRows L1 rows false true qryInputVal legendTextVal queryTextConverted
        rowsProcessed = .ok ⟨[], "", some (.rows e), rowsProcessed, 0⟩ := by
    intro L1 e he
    simp only [getDataFrameFromRows, Bool.not_false, Bool.not_true, Bool.and_false,
      Bool.and_true, Bool.true_and, h4a, if_true, Bool.false_eq_true, if_false, he]
  have hBnone : ∀ L1 : GoLib F, rows.columnsErr = none →
      getDataFrameFromRows L1 rows false true qryInputVal legendTextVal queryTextConverted
        rowsProcessed = modeB L1 rows legendTextVal queryTextConverted rowsProcessed := by
    intro L1 he
    simp only [getDataFrameFromRows, Bool.not_false, Bool.not_true, Bool.and_false,
      Bool.and_true, Bool.true_and, h4a, if_true, Bool.false_eq_true, if_false, he]
  have hloopFrames : ∀ (rs : List (Except String (List NullString)))
      (m : List (MetricTagKey × List (TimeValuePair F))) (rt : Int) (n : Nat) (r : Ret F),
      loopB L rows.columns rowsProcessed rs m rt n = .error r → r.frames = [] := by
    intro rs
    induction rs with
    | nil => intro m rt n r h; simp [loopB] at h
    | cons x rest ih =>
      intro m rt n r h
      cases x with
      | error e =>
        simp only [loopB, Except.error.injEq] at h
        rw [← h]
      | ok row =>
        simp only [loopB] at h
        split at h
        · simp only [Except.error.injEq] at h
          rw [← h]
        · exact ih _ _ _ _ h
  cases hce : rows.columnsErr with
  | some e =>
    rw [hBsome L e hce] at h
    simp only [Except.ok.injEq] at h
    subst h
    refine ⟨fun fr hfr => (by cases hfr), fun u => ⟨_, ?_, rfl, rfl, rfl, List.Forall₂.nil,
      fun _ => rfl⟩⟩
    exact hBsome _ e hce
  | none =>
    rw [hBnone L hce] at h
    unfold modeB at h
    cases hl : loopB L rows.columns rowsProcessed rows.rows [] 0 0 with
    | error r =>
      simp only [hl, Except.ok.injEq] at h
      subst h
      have hr : r.frames = [] := hloopFrames _ _ _ _ _ hl
      refine ⟨fun fr hfr => (by rw [hr] at hfr; cases hfr), fun u => ⟨r, ?_, rfl, rfl, rfl, ?_,
        fun _ => rfl⟩⟩
      · rw [hBnone _ hce]
        simp only [modeB, loopB_withTags, hl]
      · rw [hr]
        exact List.Forall₂.nil
    | ok res =>
      obtain ⟨timeseriesMap, rowsTotal, n⟩ := res
      simp only [hl] at h
      cases hf : framesB L legendTextVal queryTextConverted (L.rangeOrder timeseriesMap) with
      | error e => rw [hf] at h; cases h
      | ok framesFinal =>
        rw [hf] at h
        simp only [Except.ok.injEq] at h
        subst h
        have hu := framesB_untagged L legendTextVal queryTextConverted _ _ hf
        refine ⟨?_, ?_⟩
        · intro fr hfr
          obtain ⟨e, _, name, hname⟩ := forall₂_exists_left hu fr hfr
          exact ⟨name, _, hname⟩
        · intro u
          obtain ⟨frames1, hf1, heq1⟩ := framesB_withTags L u legendTextVal queryTextConverted
            _ _ hf
          refine ⟨⟨frames1, "", none, rowsTotal, n⟩, ?_, rfl, rfl, rfl, ?_,
            fun hleg => by rw [heq1 hleg]⟩
          · rw [hBnone _ hce]
            simp only [modeB, loopB_withTags, hl, hrange, hf1]
          have hu1 := framesB_untagged (withTags L u) legendTextVal queryTextConverted _ _ hf1
          have hsame : ∀ e : MetricTagKey × List (TimeValuePair F),
              ((withTags L u).sortSlice (lessPairs (withTags L u)) e.2).filterMap
                (pointB (withTags L u)) =
              (L.sortSlice (lessPairs L) e.2).filterMap (pointB L) := fun _ => rfl
          clear hf hf1 heq1
          revert hu hu1
          generalize L.rangeOrder timeseriesMap = entries
          intro hu hu1
          induction hu generalizing frames1 with
          | nil => cases hu1; exact List.Forall₂.nil
          | cons hab _ ih =>
            cases hu1 with
            | cons hab1 hrest1 =>
              obtain ⟨name, hn⟩ := hab
              obtain ⟨name1, hn1⟩ := hab1
              rw [hsame] at hn1
              exact List.Forall₂.cons ⟨name, name1, _, hn, hn1⟩ (ih _ hrest1)
/-! ## Evaluations of the assembler, the macro translation and the variable query -/

set_option maxRecDepth 100000 in
theorem rowsProcessed_kept_on_error_witness :
    getDataFrameFromRows refLib sampleRowsBadValue false false "SELECT" "" "query" 7 =
      .ok ⟨[], "", some (.num "ParseFloat" "x" .invalidSyntax), 7, 3⟩ ∧
    (⟨[], "", some (.num "ParseFloat" "x" .invalidSyntax), 7, 3⟩ : Ret Int).rowsProcessed = 7 :=
  ⟨by decide,
    rowsProcessed_kept_on_error refLib sampleRowsBadValue false false "SELECT" "" "query" 7
      ⟨[], "", some (.num "ParseFloat" "x" .invalidSyntax), 7, 3⟩ (by decide) (by decide)⟩

set_option maxRecDepth 100000 in
theorem modeB_value_field_untagged_witness :
    refLib.unmarshalTags "node-a" = none ∧
    hasCanonicalColumns sampleRowsTags.columns = true ∧
    getDataFrameFromRows refLib sampleRowsTags false true "SELECT" "lv \x7b\x7bnode\x7d\x7d"
      "query" 0 = .ok sampleRetTags ∧
    (∀ fr ∈ sampleRetTags.frames, ∃ (name : String) (pts : List (Time × Int)),
      fr = seriesOf "query" (untaggedField name) pts) ∧
    ∀ u : String → Option (Option (List (String × String))),
      ∃ ret1 : Ret Int,
        getDataFrameFromRows (withTags refLib u) sampleRowsTags false true "SELECT"
          "lv \x7b\x7bnode\x7d\x7d" "query" 0 = .ok ret1 ∧
        ret1.err = sampleRetTags.err ∧ ret1.rowsProcessed = sampleRetTags.rowsProcessed ∧
        ret1.rowsRead = sampleRetTags.rowsRead ∧
        List.Forall₂ (fun fr fr1 => ∃ (name name1 : String) (pts : List (Time × Int)),
          fr = seriesOf "query" (untaggedField name) pts ∧
          fr1 = seriesOf "query" (untaggedField name1) pts) sampleRetTags.frames ret1.frames ∧
        ("lv \x7b\x7bnode\x7d\x7d" = "" → ret1 = sampleRetTags) :=
  ⟨by decide, by decide, by decide,
    modeB_value_field_untagged refLib sampleRowsTags "SELECT" "lv \x7b\x7bnode\x7d\x7d" "query" 0
      sampleRetTags (by decide) (by decide)⟩

set_option maxRecDepth 100000 in
/-- C22, failing input.  Two runs of the program that differ in nothing but
the order in which `range` visits the entries of the series map, which Go
leaves open: on a Mode B cursor of two series and on a Mode C cursor of two
series, the two runs return the same two frames in opposite orders. -/
theorem frame_order_follows_map_iteration :
    (∀ m : List (MetricTagKey × List (TimeValuePair Int)),
      refLib.rangeOrder m = m ∧ refLibReversed.rangeOrder m = m.reverse) ∧
    refLibReversed.ParseFloat = refLib.ParseFloat ∧
    refLibReversed.parseRFC3339 = refLib.parseRFC3339 ∧
    refLibReversed.ParseDuration = refLib.ParseDuration ∧
    refLibReversed.unmarshalTags = refLib.unmarshalTags ∧
    getDataFrameFromRows refLib ⟨none, none, sampleColumnsB, sampleDataB.map Except.ok⟩
        false true "SELECT" "" "query" 0 =
      .ok ⟨[seriesOf "query" (untaggedField "cpu_usage\x7b\"node\":\"node-a\"\x7d")
            [(Time.ofUnix 1700000010 0, 5), (Time.ofUnix 1704153600 0, 15)],
          seriesOf "query" (untaggedField "mem") [(Time.ofUnix 0 0, 0)]], "", none, 3, 3⟩ ∧
    getDataFrameFromRows refLibReversed ⟨none, none, sampleColumnsB, sampleDataB.map Except.ok⟩
        false true "SELECT" "" "query" 0 =
      .ok ⟨[seriesOf "query" (untaggedField "mem") [(Time.ofUnix 0 0, 0)],
          seriesOf "query" (untaggedField "cpu_usage\x7b\"node\":\"node-a\"\x7d")
            [(Time.ofUnix 1700000010 0, 5), (Time.ofUnix 1704153600 0, 15)]], "", none, 3, 3⟩ ∧
    getDataFrameFromRows refLib sampleRowsTwoSeries false true "SELECT" "" "query" 0 =
      .ok ⟨[seriesOf "response" (untaggedField "node-a") [(Time.ofUnix 1700000000 0, 1)],
          seriesOf "response" (untaggedField "node-b") [(Time.ofUnix 1700000000 0, 2)]],
        "", none, 2, 2⟩ ∧
    getDataFrameFromRows refLibReversed sampleRowsTwoSeries false true "SELECT" "" "query" 0 =
      .ok ⟨[seriesOf "response" (untaggedField "node-b") [(Time.ofUnix 1700000000 0, 2)],
          seriesOf "response" (untaggedField "node-a") [(Time.ofUnix 1700000000 0, 1)]],
        "", none, 2, 2⟩ := by
  refine ⟨fun m => ⟨rfl, rfl⟩, rfl, rfl, rfl, rfl, ?_, ?_, ?_, ?_⟩ <;> decide

set_option maxRecDepth 100000 in
/-- C26, failing input.  The translation of a SQL text in which a macro
marker has no closing parenthesis after it faults on the bounds of a slice,
for each of the four macros, and so does a bare `$__timeGroup`; the
translation of `$__timeGroup(ts)`, whose argument list has no comma, faults
on the index 1 of the list of its pieces.  No error value is returned. -/
theorem unmatched_macro_faults :
    querySqlText 3 "select $__timeFilter(ts from t" "10" (Time.ofUnix 100 0) (Time.ofUnix 200 0) =
      .error .sliceBounds ∧
    querySqlText 3 "select $__unixEpochFilter(ts from t" "10" (Time.ofUnix 100 0)
      (Time.ofUnix 200 0) = .error .sliceBounds ∧
    querySqlText 3 "select $__timeGroup(ts, 5m from t" "10" (Time.ofUnix 100 0)
      (Time.ofUnix 200 0) = .error .sliceBounds ∧
    querySqlText 3 "select $__time(ts from t" "10" (Time.ofUnix 100 0) (Time.ofUnix 200 0) =
      .error .sliceBounds ∧
    querySqlText 3 "select $__timeGroup from t" "10" (Time.ofUnix 100 0) (Time.ofUnix 200 0) =
      .error .sliceBounds ∧
    querySqlText 3 "select $__timeGroup(ts) from t" "10" (Time.ofUnix 100 0)
      (Time.ofUnix 200 0) = .error .indexOutOfRange := by
  refine ⟨?_, ?_, ?_, ?_, ?_, ?_⟩ <;> decide

set_option maxRecDepth 1000000 in
/-- C28, failing input.  Mode D on three documents that decode into the
response structure: an entry of `values` with one element faults on the
index 1, an entry with a string in the time position and an entry with a
number in the value position fault on the type assertion.  No error value is
returned. -/
theorem modeD_misshaped_values_fault :
    refLib.unmarshalResp (payloadWithEntry "[1700000000]") =
      some ⟨"success", "matrix", [⟨[("__name__", "up")], [[.number 1700000000]]⟩]⟩ ∧
    getDataFrameFromRows refLib (rowsOfPayload (payloadWithEntry "[1700000000]")) true false
      "up" "" "query" 0 = .error .indexOutOfRange ∧
    refLib.unmarshalResp (payloadWithEntry "[\"1700000000\",\"1\"]") =
      some ⟨"success", "matrix",
        [⟨[("__name__", "up")], [[.string "1700000000", .string "1"]]⟩]⟩ ∧
    getDataFrameFromRows refLib (rowsOfPayload (payloadWithEntry "[\"1700000000\",\"1\"]"))
      true false "up" "" "query" 0 = .error .typeAssertion ∧
    refLib.unmarshalResp (payloadWithEntry "[1700000000,1]") =
      some ⟨"success", "matrix", [⟨[("__name__", "up")], [[.number 1700000000, .number 1]]⟩]⟩ ∧
    getDataFrameFromRows refLib (rowsOfPayload (payloadWithEntry "[1700000000,1]")) true false
      "up" "" "query" 0 = .error .typeAssertion := by
  refine ⟨?_, ?_, ?_, ?_, ?_, ?_⟩ <;> decide

set_option maxRecDepth 100000 in
/-- C29, failing input.  The variable query built from
`restart_count&start=1700000000&end=1700003600` carries `count&star` where the
start belongs, and the one built from
`backend_requests&start=1700000000&end=1700003600` carries `requests&s` where
the end belongs: the offsets are those of the first "start" and the first
"end" of the text, which lie inside the selector.  For the selector
`cpu_usage` the template is filled with the three parts. -/
theorem metricFindQuery_reads_selector_letters :
    metricFindQueryText "restart_count&start=1700000000&end=1700003600" "ADB" =
      .ok ("select DBMS_CLOUD_TELEMETRY_QUERY.promql_series(" ++
        "'restart_count',count&star,1700003600) from dual") ∧
    metricFindQueryText "backend_requests&start=1700000000&end=1700003600" "" =
      .ok ("select DBMS_TELEMETRY_QUERY.promql_series(" ++
        "'backend_requests',1700000000,requests&s) from dual") ∧
    metricFindQueryText "cpu_usage&start=1768542262&end=1768542462" "" =
      .ok ("select DBMS_TELEMETRY_QUERY.promql_series(" ++
        "'cpu_usage',1768542262,1768542462) from dual") := by
  refine ⟨?_, ?_, ?_⟩ <;> decide

/-! ## The loop over `$__timeGroup` comes to an end -/

/-! ### Counting occurrences -/

theorem occL_eq_zero (pat : List Char) (hpat : pat ≠ []) :
    ∀ l : List Char, occL pat l = 0 ↔ containsL pat l = false := by
  intro l
  induction l with
  | nil => simp [occL, containsL_nil pat hpat]
  | cons c cs ih =>
    rw [occL, containsL_cons, Bool.or_eq_false_iff, ← ih]
    cases h : pat.isPrefixOf (c :: cs) <;> simp

theorem occL_sep (pat : List Char) (hpat : pat ≠ []) (b : Char) (hb : b ∉ pat)
    (x y : List Char) : occL pat (x ++ b :: y) = occL pat x + occL pat y := by
  obtain ⟨a, t, rfl⟩ : ∃ a t, pat = a :: t := by
    cases pat with
    | nil => exact absurd rfl hpat
    | cons a t => exact ⟨a, t, rfl⟩
  have hne : b ≠ a := fun e => hb (e ▸ List.mem_cons_self _ _)
  induction x with
  | nil =>
    simp only [List.nil_append, occL, isPrefixOf_cons_ne a t b y hne]
    simp
  | cons c x ih =>
    rw [List.cons_append, occL, occL, ih]
    have : (a :: t).isPrefixOf (c :: (x ++ b :: y)) = (a :: t).isPrefixOf (c :: x) := by
      cases h : (a :: t).isPrefixOf (c :: x) with
      | true => exact isPrefixOf_append_right _ _ _ h
      | false => exact isPrefixOf_append_sep b y (a :: t) (c :: x) hb h
    rw [this]
    omega

theorem occL_append_le (pat : List Char) (x y : List Char) :
    occL pat x + occL pat y ≤ occL pat (x ++ y) := by
  induction x with
  | nil => simp [occL]
  | cons c x ih =>
    rw [List.cons_append, occL, occL]
    have : (if pat.isPrefixOf (c :: x) then 1 else 0) ≤
        (if pat.isPrefixOf (c :: (x ++ y)) then 1 else 0) := by
      cases h : pat.isPrefixOf (c :: x) with
      | true =>
        have := isPrefixOf_append_right y pat (c :: x) h
        rw [List.cons_append] at this
        simp [this]
      | false => simp
    omega

theorem occL_free_prefix (a : Char) (t : List Char) (rest : List Char) :
    ∀ pre : List Char, a ∉ pre → occL (a :: t) (pre ++ rest) = occL (a :: t) rest := by
  intro pre
  induction pre with
  | nil => intro _; rfl
  | cons c pre ih =>
    intro h
    have hc : c ≠ a := fun e => h (e ▸ List.mem_cons_self _ _)
    rw [List.cons_append, occL, isPrefixOf_cons_ne a t c _ hc,
      ih (fun e => h (List.mem_cons_of_mem _ e))]
    simp

theorem occL_self_append (pat rest : List Char) (hpat : pat ≠ []) :
    1 + occL pat rest ≤ occL pat (pat ++ rest) := by
  obtain ⟨a, t, rfl⟩ : ∃ a t, pat = a :: t := by
    cases pat with
    | nil => exact absurd rfl hpat
    | cons a t => exact ⟨a, t, rfl⟩
  have h1 := isPrefixOf_self_append (a :: t) rest
  rw [List.cons_append] at h1 ⊢
  rw [occL, h1]
  have h2 := occL_append_le (a :: t) t rest
  simp only [if_true]
  omega

/-- The first occurrence of a pattern splits a text that has one. -/
theorem first_occurrence (pat : List Char) :
    ∀ l : List Char, containsL pat l = true →
      ∃ P R, l = P ++ pat ++ R ∧ (pat ≠ [] → containsL pat P = false) := by
  intro l
  induction l with
  | nil =>
    intro h
    cases pat with
    | nil => exact ⟨[], [], rfl, fun h => absurd rfl h⟩
    | cons a t => simp [containsL] at h
  | cons c cs ih =>
    intro h
    rw [containsL_cons, Bool.or_eq_true] at h
    by_cases hp : pat.isPrefixOf (c :: cs) = true
    · refine ⟨[], (c :: cs).drop pat.length, ?_, fun hne => containsL_nil pat hne⟩
      simpa using drop_of_isPrefixOf pat (c :: cs) hp
    · have hcs : containsL pat cs = true := by
        rcases h with h | h
        · exact absurd h hp
        · exact h
      obtain ⟨P, R, hl, hP⟩ := ih hcs
      refine ⟨c :: P, R, by rw [hl]; simp, fun hne => ?_⟩
      rw [containsL_cons, hP hne, Bool.or_false]
      cases h2 : pat.isPrefixOf (c :: P) with
      | false => rfl
      | true =>
        have := isPrefixOf_append_right (pat ++ R) pat (c :: P) h2
        rw [hl] at hp
        simp only [List.cons_append, List.append_assoc] at this hp
        exact absurd this hp

/-- The first occurrence of a character splits a text that has it. -/
theorem first_char (b : Char) :
    ∀ l : List Char, b ∈ l → ∃ u S, l = u ++ b :: S ∧ b ∉ u := by
  intro l
  induction l with
  | nil => intro h; cases h
  | cons c cs ih =>
    intro h
    by_cases hc : c = b
    · exact ⟨[], cs, by simp [hc], by simp⟩
    · have hcs : b ∈ cs := by
        rcases List.mem_cons.1 h with h | h
        · exact absurd h.symm hc
        · exact h
      obtain ⟨u, S, hl, hu⟩ := ih hcs
      refine ⟨c :: u, S, by rw [hl]; rfl, ?_⟩
      intro hm
      rcases List.mem_cons.1 hm with h1 | h1
      · exact hc h1.symm
      · exact hu h1

/-- Two splittings of a text at a character, the second at its first place. -/
theorem split_compare (b : Char) :
    ∀ (u2 u1 S1 S2 : List Char), b ∉ u2 → u1 ++ b :: S1 = u2 ++ b :: S2 →
      (u1 = u2 ∧ S1 = S2) ∨ ∃ A2, u1 = u2 ++ b :: A2 ∧ S2 = A2 ++ b :: S1 := by
  intro u2
  induction u2 with
  | nil =>
    intro u1 S1 S2 _ h
    cases u1 with
    | nil =>
      simp only [List.nil_append, List.cons.injEq, true_and] at h
      exact Or.inl ⟨rfl, h⟩
    | cons c u1 =>
      simp only [List.cons_append, List.nil_append, List.cons.injEq] at h
      obtain ⟨hc, hrest⟩ := h
      subst hc
      exact Or.inr ⟨u1, rfl, hrest.symm⟩
  | cons d u2 ih =>
    intro u1 S1 S2 hb h
    have hd : b ≠ d := fun e => hb (e ▸ List.mem_cons_self _ _)
    have hu2 : b ∉ u2 := fun e => hb (List.mem_cons_of_mem _ e)
    cases u1 with
    | nil =>
      simp only [List.nil_append, List.cons_append, List.cons.injEq] at h
      exact absurd h.1 hd
    | cons c u1 =>
      simp only [List.cons_append, List.cons.injEq] at h
      obtain ⟨hc, hrest⟩ := h
      subst hc
      rcases ih u1 S1 S2 hu2 hrest with ⟨h1, h2⟩ | ⟨A2, h1, h2⟩
      · exact Or.inl ⟨by rw [h1], h2⟩
      · exact Or.inr ⟨A2, by rw [h1]; rfl, h2⟩

theorem indexL_absent (b : Char) : ∀ l : List Char, b ∉ l → indexL [b] l = none := by
  intro l
  induction l with
  | nil => intro _; rfl
  | cons c cs ih =>
    intro h
    have hc : c ≠ b := fun e => h (e ▸ List.mem_cons_self _ _)
    rw [indexL, isPrefixOf_cons_ne b [] c cs hc, ih (fun e => h (List.mem_cons_of_mem _ e))]
    rfl
/-! ### The pieces a pass reads -/

theorem slice_bad (s : String) (lo hi : Int) (h : hi < lo) :
    slice s lo hi = .error .sliceBounds := by
  unfold slice
  rw [if_neg]
  rintro ⟨_, h2, _⟩
  omega

/-- The text between its leading and trailing blanks is a part of a text. -/
theorem TrimSpace_infix (s : String) :
    ∃ pre post : List Char, s.toList = pre ++ (TrimSpace s).toList ++ post := by
  have e : (TrimSpace s).toList =
      ((s.toList.dropWhile isSpace).reverse.dropWhile isSpace).reverse := rfl
  refine ⟨s.toList.takeWhile isSpace,
    ((s.toList.dropWhile isSpace).reverse.takeWhile isSpace).reverse, ?_⟩
  rw [e, List.append_assoc, ← List.reverse_append, List.takeWhile_append_dropWhile,
    List.reverse_reverse, List.takeWhile_append_dropWhile]

theorem TrimSpace_mem (s : String) (c : Char) (h : c ∈ (TrimSpace s).toList) : c ∈ s.toList := by
  obtain ⟨pre, post, e⟩ := TrimSpace_infix s
  rw [e]
  exact List.mem_append_left _ (List.mem_append_right _ h)

theorem TrimSpace_occL (pat : List Char) (s : String) :
    occL pat (TrimSpace s).toList ≤ occL pat s.toList := by
  obtain ⟨pre, post, e⟩ := TrimSpace_infix s
  rw [e]
  have h1 := occL_append_le pat (pre ++ (TrimSpace s).toList) post
  have h2 := occL_append_le pat pre (TrimSpace s).toList
  omega

/-- The text before the last character, for a text with a given last character. -/
theorem slice_init (z : String) (u : Char) (h : HasSuffix z (String.mk [u]) = true) :
    ∃ r, slice z 0 (z.length - 1) = .ok r ∧ ∀ c ∈ r.toList, c ∈ z.toList := by
  have hlen : 1 ≤ z.toList.length := by
    unfold HasSuffix at h
    have := length_le_of_isPrefixOf _ _ h
    simpa using this
  have hl : z.length = z.toList.length := rfl
  refine ⟨String.mk ((z.toList.take ((z.length : Int) - 1).toNat).drop (0 : Int).toNat), ?_, ?_⟩
  · unfold slice
    rw [if_pos]
    refine ⟨le_refl _, ?_, ?_⟩ <;> rw [hl] <;> omega
  · intro c hc
    exact List.mem_of_mem_take (List.mem_of_mem_drop hc)

/-- The conversion of the interval always gives a text, with no character
other than digits and the sign that its argument does not have. -/
theorem intervalSeconds_ok (step : Int) (z : String) :
    ∃ c2, intervalSeconds step z = .ok c2 ∧
      ∀ b : Char, isDigit b = false → b ≠ '-' → b ∉ z.toList → b ∉ c2.toList := by
  have hfmt : ∀ (n : Int) (b : Char), isDigit b = false → b ≠ '-' → b ∉ (FormatInt n).toList := by
    intro n b hb1 hb2 hm
    rcases (FormatInt_chars n).2 b hm with h | h
    · rw [h] at hb1; cases hb1
    · exact hb2 h
  unfold intervalSeconds
  split
  · exact ⟨_, rfl, fun b hb1 hb2 _ => hfmt _ b hb1 hb2⟩
  · split
    · rename_i hs
      obtain ⟨r, hr, hmem⟩ := slice_init z 's' hs
      exact ⟨r, hr, fun b _ _ hz hc => hz (hmem b hc)⟩
    · split
      · rename_i hs
        obtain ⟨r, hr, _⟩ := slice_init z 'm' hs
        rw [hr]
        exact ⟨_, rfl, fun b hb1 hb2 _ => hfmt _ b hb1 hb2⟩
      · split
        · rename_i hs
          obtain ⟨r, hr, _⟩ := slice_init z 'h' hs
          rw [hr]
          exact ⟨_, rfl, fun b hb1 hb2 _ => hfmt _ b hb1 hb2⟩
        · exact ⟨z, rfl, fun b _ _ hz => hz⟩

/-- The first piece of a text split at commas. -/
theorem split_head (v : List Char) :
    ∃ s1 rest, splitAux [','] v [] 0 = s1 :: rest ∧ (∀ c ∈ s1, c ∈ v) ∧ ',' ∉ s1 := by
  by_cases h : ',' ∈ v
  · obtain ⟨u, S, hv, hu⟩ := first_char ',' v h
    refine ⟨u, splitAux [','] S [] 0, ?_, ?_, hu⟩
    · rw [hv, splitAux_free ',' [] u (',' :: S) [] (fun c hc e => hu (e ▸ hc)), splitAux_single]
      simp
    · intro c hc
      rw [hv]
      exact List.mem_append_left _ hc
  · refine ⟨v, [], ?_, fun c hc => hc, h⟩
    have := splitAux_free ',' [] v [] [] (fun c hc e => h (e ▸ hc))
    rw [List.append_nil] at this
    rw [this]
    simp [splitAux]

set_option maxRecDepth 100000 in
theorem groupStr_toList (split1 split2 : String) (P S : List Char) :
    String.mk P ++ " " ++ groupStr split1 split2 ++ String.mk S =
      String.mk (P ++ ' ' :: groupL split1.toList split2.toList S) := by
  apply String.ext
  simp only [groupStr, groupL, groupA, groupB, groupC, String.data_append, String.toList,
    List.append_assoc, List.cons_append, List.nil_append]
/-! ### One pass of the loop -/

theorem pass_offsets (P R : List Char) (hP : containsL groupMarker P = false) :
    Index (String.mk (P ++ groupMarker ++ R)) "$__timeGroup" = P.length ∧
    slice (String.mk (P ++ groupMarker ++ R)) P.length
        (String.mk (P ++ groupMarker ++ R)).length = .ok (String.mk (groupMarker ++ R)) := by
  have hidx := indexL_marker '$' "__timeGroup".toList (by decide) R P hP
  refine ⟨Index_mk _ _ _ hidx, ?_⟩
  have := slice_mid P (groupMarker ++ R) [] P.length
    (String.mk (P ++ groupMarker ++ R)).length rfl (by simp [String.length])
  simpa using this

/-- One pass of the loop on a text whose first marker follows `P`: it faults
on a slice or an index, or the marker is followed by a character, by
arguments with a comma and no closing parenthesis, and by that parenthesis,
and the pass writes the text before the marker, a blank, the expression of
the bucket over the trimmed first argument and the converted second one, and
the text after the parenthesis. -/
theorem expandTimeGroup_cases (step : Int) (P R : List Char)
    (hP : containsL groupMarker P = false) :
    (∃ e, expandTimeGroup step (String.mk (P ++ groupMarker ++ R)) = .error e ∧
      (e = .sliceBounds ∨ e = .indexOutOfRange)) ∨
    ∃ (x : Char) (val S ts0 c2 : List Char),
      R = x :: (val ++ ')' :: S) ∧ ')' ∉ x :: val ∧ ',' ∈ val ∧
      occL groupMarker ts0 ≤ occL groupMarker val ∧ ',' ∉ c2 ∧ ')' ∉ c2 ∧
      expandTimeGroup step (String.mk (P ++ groupMarker ++ R)) =
        .ok (String.mk (P ++ ' ' :: groupL ts0 c2 S)) := by
  obtain ⟨hidx, hrest⟩ := pass_offsets P R hP
  have hM : (")" : String).toList = [')'] := rfl
  have hMlen : groupMarker.length = 12 := rfl
  have hMparen : ')' ∉ groupMarker := by decide
  by_cases hparen : ')' ∈ R
  · obtain ⟨u, S, hR, hu⟩ := first_char ')' R hparen
    subst hR
    have hsep : ')' ∉ groupMarker ++ u := by
      intro h
      rcases List.mem_append.1 h with h | h
      · exact hMparen h
      · exact hu h
    have hi2 : Index (String.mk (groupMarker ++ (u ++ ')' :: S))) ")" = 12 + u.length := by
      have := indexL_sep ')' (groupMarker ++ u) S hsep
      have e : groupMarker ++ (u ++ ')' :: S) = (groupMarker ++ u) ++ ')' :: S := by simp
      rw [e, show (")" : String) = String.mk [')'] from rfl, Index_mk _ _ _ this]
      simp [hMlen]
    cases u with
    | nil =>
      left
      refine ⟨.sliceBounds, ?_, Or.inl rfl⟩
      unfold expandTimeGroup
      simp only [hidx, hrest, hi2, bind, Except.bind]
      rw [slice_bad _ _ _ (by simp)]
    | cons x val =>
      have hq : P ++ groupMarker ++ (x :: val ++ ')' :: S) =
          P ++ groupMarker ++ x :: (val ++ ')' :: S) := by simp
      have hval : slice (String.mk (P ++ groupMarker ++ (x :: val ++ ')' :: S))) (P.length + 13)
          (P.length + (12 + (x :: val).length)) = .ok (String.mk val) := by
        have := slice_mid (P ++ groupMarker ++ [x]) val (')' :: S)
          (P.length + 13) (P.length + (12 + (x :: val).length))
          (by simp [hMlen]; try omega) (by simp [hMlen]; try omega)
        rw [hq]
        simpa using this
      have hp1 : slice (String.mk (P ++ groupMarker ++ (x :: val ++ ')' :: S))) 0 P.length =
          .ok (String.mk P) := by
        have := slice_mid [] P (groupMarker ++ (x :: val ++ ')' :: S)) 0 P.length (by simp)
          (by simp)
        simpa using this
      have hp2 : slice (String.mk (P ++ groupMarker ++ (x :: val ++ ')' :: S)))
          (P.length + (12 + (x :: val).length) + 1)
          (String.mk (P ++ groupMarker ++ (x :: val ++ ')' :: S))).length = .ok (String.mk S) := by
        have := slice_mid (P ++ groupMarker ++ x :: (val ++ [')'])) S []
          (P.length + (12 + ((x :: val).length : Int)) + 1)
          (String.mk (P ++ groupMarker ++ (x :: val ++ ')' :: S))).length
          (by simp [hMlen]; try omega) (by simp [String.length, hMlen]; try omega)
        rw [hq]
        simpa using this
      by_cases hcomma : ',' ∈ val
      · right
        obtain ⟨s0, v1, hv, hs0⟩ := first_char ',' val hcomma
        obtain ⟨s1, rest, hsplit, hs1mem, hs1⟩ := split_head v1
        have hSplit : Split (String.mk val) "," =
            String.mk s0 :: String.mk s1 :: rest.map String.mk := by
          simp only [Split, splitL]
          rw [show (",": String).toList = [','] from rfl, show (String.mk val).toList = val from rfl,
            hv, splitAux_free ',' [] s0 (',' :: v1) [] (fun c hc e => hs0 (e ▸ hc)),
            splitAux_single, hsplit]
          simp
        obtain ⟨c2, hc2, hc2mem⟩ := intervalSeconds_ok step (TrimSpace (String.mk s1))
        have hvalparen : ')' ∉ val := fun h => hu (List.mem_cons_of_mem _ h)
        have hs1paren : ')' ∉ s1 := by
          intro h
          apply hvalparen
          rw [hv]
          exact List.mem_append_right _ (List.mem_cons_of_mem _ (hs1mem _ h))
        refine ⟨x, val, S, (TrimSpace (String.mk s0)).toList, c2.toList, rfl, hu, hcomma, ?_, ?_,
          ?_, ?_⟩
        · have h1 := TrimSpace_occL groupMarker (String.mk s0)
          have h2 : occL groupMarker s0 ≤ occL groupMarker val := by
            rw [hv]
            have := occL_append_le groupMarker s0 (',' :: v1)
            omega
          exact le_trans h1 h2
        · exact hc2mem ',' (by decide) (by decide)
            (fun h => hs1 (TrimSpace_mem (String.mk s1) _ h))
        · exact hc2mem ')' (by decide) (by decide)
            (fun h => hs1paren (TrimSpace_mem (String.mk s1) _ h))
        · unfold expandTimeGroup
          simp only [hidx, hrest, hi2, bind, Except.bind, hval, hp1, hp2, hSplit,
            List.headD_cons, hc2, pure, Except.pure]
          rw [groupStr_toList]
      · left
        refine ⟨.indexOutOfRange, ?_, Or.inr rfl⟩
        have hSplit : Split (String.mk val) "," = [String.mk val] := by
          simp only [Split, splitL]
          have := splitAux_free ',' [] val [] [] (fun c hc e => hcomma (e ▸ hc))
          rw [List.append_nil] at this
          rw [show (",": String).toList = [','] from rfl, show (String.mk val).toList = val from rfl,
            this]
          simp [splitAux]
        unfold expandTimeGroup
        simp only [hidx, hrest, hi2, bind, Except.bind, hval, hp1, hp2, hSplit]
  · left
    refine ⟨.sliceBounds, ?_, Or.inl rfl⟩
    have hi2 : Index (String.mk (groupMarker ++ R)) ")" = -1 := by
      have : indexL [')'] (groupMarker ++ R) = none := by
        apply indexL_absent
        intro h
        rcases List.mem_append.1 h with h | h
        · exact hMparen h
        · exact hparen h
      simp only [Index, hM]
      rw [show (String.mk (groupMarker ++ R)).toList = groupMarker ++ R from rfl, this]
    unfold expandTimeGroup
    simp only [hidx, hrest, hi2, bind, Except.bind]
    rw [slice_bad _ _ _ (by omega)]
/-! ### Occurrences of the marker in the text a pass writes -/

theorem occM_sep (b : Char) (hb : b ∉ groupMarker) (x y : List Char) :
    occL groupMarker (x ++ b :: y) = occL groupMarker x + occL groupMarker y :=
  occL_sep groupMarker (by decide) b hb x y

theorem occM_free (pre : List Char) (h : '$' ∉ pre) (rest : List Char) :
    occL groupMarker (pre ++ rest) = occL groupMarker rest :=
  occL_free_prefix '$' "__timeGroup".toList rest pre h

theorem occM_cons (b : Char) (hb : b ≠ '$') (y : List Char) :
    occL groupMarker (b :: y) = occL groupMarker y := by
  have := occM_free [b] (by simpa using hb.symm) y
  simpa using this

theorem occM_groupL (ts0 c2 rest : List Char) :
    occL groupMarker (groupL ts0 c2 rest) =
      occL groupMarker ts0 + occL groupMarker c2 + occL groupMarker c2 + occL groupMarker rest := by
  unfold groupL
  rw [occM_free groupA (by decide), occM_sep ' ' (by decide), occM_free groupB (by decide),
    occM_cons ')' (by decide), occM_free groupC (by decide), occM_sep '/' (by decide),
    occM_free "1000".toList (by decide), occM_cons ')' (by decide), occM_cons '*' (by decide),
    occM_sep '*' (by decide), occM_free "1000".toList (by decide)]
  omega

theorem groupL_append (ts0 c2 rest more : List Char) :
    groupL ts0 c2 (rest ++ more) = groupL ts0 c2 rest ++ more := by
  simp only [groupL, List.append_assoc, List.cons_append, List.nil_append]

theorem containsL_marker (pat P R : List Char) : containsL pat (P ++ pat ++ R) = true := by
  rw [List.append_assoc]
  apply containsL_append_right
  cases h : pat ++ R with
  | nil =>
    have : pat = [] := (List.append_eq_nil.1 h).1
    subst this
    rfl
  | cons c cs =>
    rw [containsL_cons, ← h, isPrefixOf_self_append]
    rfl

/-! ### Passes and the end of the loop -/

theorem LoopHalts.of_free (step : Int) (q : String) (h : Contains q "$__timeGroup" = false) :
    LoopHalts step q :=
  ⟨0, Or.inl ⟨q, timeGroupLoop_none step 0 q h, h⟩⟩

theorem LoopHalts.of_fault (step : Int) (q : String) (e : Fault)
    (h : Contains q "$__timeGroup" = true) (he : expandTimeGroup step q = .error e)
    (hk : e = .sliceBounds ∨ e = .indexOutOfRange) : LoopHalts step q := by
  refine ⟨1, Or.inr ⟨e, ?_, hk⟩⟩
  simp only [timeGroupLoop, h, if_true, he, bind, Except.bind]

theorem LoopHalts.of_pass (step : Int) (q next : String)
    (h : Contains q "$__timeGroup" = true) (he : expandTimeGroup step q = .ok next)
    (hn : LoopHalts step next) : LoopHalts step q := by
  obtain ⟨fuel, hf⟩ := hn
  refine ⟨fuel + 1, ?_⟩
  have e : timeGroupLoop step (fuel + 1) q = timeGroupLoop step fuel next := by
    simp only [timeGroupLoop, h, if_true, he, bind, Except.bind]
  rw [e]
  exact hf

/-- When the converted second argument holds the marker, the text a pass
writes has a marker, after a closing parenthesis, whose arguments up to the
next closing parenthesis have no comma. -/
theorem doomed_of_copy (P ts0 c2 S : List Char) (hc : containsL groupMarker c2 = true)
    (h1 : ',' ∉ c2) (h2 : ')' ∉ c2) :
    ∃ A g w Z, P ++ ' ' :: groupL ts0 c2 S = A ++ ')' :: (g ++ groupMarker ++ w ++ ')' :: Z) ∧
      occL groupMarker A = occL groupMarker P + occL groupMarker ts0 ∧
      occL groupMarker g = 0 ∧ ',' ∉ w ∧ ')' ∉ w := by
  obtain ⟨a, b, hab, ha⟩ := first_occurrence groupMarker c2 hc
  subst hab
  refine ⟨P ++ ' ' :: (groupA ++ (ts0 ++ ' ' :: groupB)), groupC ++ a, b ++ '/' :: "1000".toList,
    '*' :: ((a ++ groupMarker ++ b) ++ '*' :: ("1000".toList ++ S)), ?_, ?_, ?_, ?_, ?_⟩
  · simp only [groupL, List.append_assoc, List.cons_append, List.nil_append]
  · rw [occM_sep ' ' (by decide), occM_free groupA (by decide), occM_sep ' ' (by decide)]
    have : occL groupMarker groupB = 0 := by
      have := occM_free groupB (by decide) []
      rw [List.append_nil] at this
      rw [this]
      rfl
    omega
  · rw [occM_free groupC (by decide)]
    exact (occL_eq_zero groupMarker (by decide) a).2 (ha (by decide))
  · intro h
    rcases List.mem_append.1 h with h | h
    · exact h1 (List.mem_append_right _ h)
    · revert h; decide
  · intro h
    rcases List.mem_append.1 h with h | h
    · exact h2 (List.mem_append_right _ h)
    · revert h; decide
/-! ### The two inductions -/

theorem occM_cons_le (x : Char) (l : List Char) :
    occL groupMarker l ≤ occL groupMarker (x :: l) := by
  have := occL_append_le groupMarker [x] l
  simp only [List.singleton_append] at this
  omega

theorem occM_first (P R : List Char) :
    occL groupMarker P + 1 + occL groupMarker R ≤ occL groupMarker (P ++ groupMarker ++ R) := by
  rw [List.append_assoc]
  have h1 := occL_append_le groupMarker P (groupMarker ++ R)
  have h2 := occL_self_append groupMarker R (by decide)
  omega

/-- A text with a marker, after a closing parenthesis, whose arguments up to
the next closing parenthesis have no comma: the loop ends, at the latest with
the fault of the pass that reaches that marker. -/
theorem halts_of_doomed (step : Int) :
    ∀ (n : Nat) (A g w Z : List Char), occL groupMarker A ≤ n → occL groupMarker g = 0 →
      ',' ∉ w → ')' ∉ w →
      LoopHalts step (String.mk (A ++ ')' :: (g ++ groupMarker ++ w ++ ')' :: Z))) := by
  have hfault : ∀ (A g w Z : List Char), containsL groupMarker A = false →
      occL groupMarker g = 0 → ',' ∉ w → ')' ∉ w →
      LoopHalts step (String.mk (A ++ ')' :: (g ++ groupMarker ++ w ++ ')' :: Z))) := by
    intro A g w Z hA hg hw1 hw2
    have hP : containsL groupMarker (A ++ ')' :: g) = false := by
      rw [containsL_sep groupMarker (by decide) ')' (by decide), hA,
        (occL_eq_zero groupMarker (by decide) g).1 hg]
      rfl
    have hq : A ++ ')' :: (g ++ groupMarker ++ w ++ ')' :: Z) =
        (A ++ ')' :: g) ++ groupMarker ++ (w ++ ')' :: Z) := by
      simp only [List.append_assoc, List.cons_append]
    rw [hq]
    have hcont : Contains (String.mk ((A ++ ')' :: g) ++ groupMarker ++ (w ++ ')' :: Z)))
        "$__timeGroup" = true := containsL_marker groupMarker _ _
    rcases expandTimeGroup_cases step (A ++ ')' :: g) (w ++ ')' :: Z) hP with
      ⟨e, he, hk⟩ | ⟨x, val, S, ts0, c2, hR, hxv, hcomma, _, _, _, _⟩
    · exact LoopHalts.of_fault step _ e hcont he hk
    · exfalso
      have hR2 : w ++ ')' :: Z = (x :: val) ++ ')' :: S := by rw [hR]; rfl
      rcases split_compare ')' (x :: val) w Z S hxv hR2 with ⟨h1, _⟩ | ⟨A2, h1, _⟩
      · apply hw1
        rw [h1]
        exact List.mem_cons_of_mem _ hcomma
      · apply hw2
        rw [h1]
        exact List.mem_append_right _ (List.mem_cons_self _ _)
  intro n
  induction n with
  | zero =>
    intro A g w Z hA hg hw1 hw2
    exact hfault A g w Z ((occL_eq_zero groupMarker (by decide) A).1 (Nat.le_zero.1 hA)) hg hw1 hw2
  | succ n ih =>
    intro A g w Z hA hg hw1 hw2
    by_cases hcA : containsL groupMarker A = true
    · obtain ⟨P, A1, hAeq, hP⟩ := first_occurrence groupMarker A hcA
      have hP := hP (by decide)
      have hq : A ++ ')' :: (g ++ groupMarker ++ w ++ ')' :: Z) =
          P ++ groupMarker ++ (A1 ++ ')' :: (g ++ groupMarker ++ w ++ ')' :: Z)) := by
        rw [hAeq]
        simp only [List.append_assoc, List.cons_append]
      rw [hq]
      have hcont : Contains (String.mk (P ++ groupMarker ++
          (A1 ++ ')' :: (g ++ groupMarker ++ w ++ ')' :: Z)))) "$__timeGroup" = true :=
        containsL_marker groupMarker _ _
      have hP0 : occL groupMarker P = 0 := (occL_eq_zero groupMarker (by decide) P).2 hP
      have hAocc : 1 + occL groupMarker A1 ≤ occL groupMarker A := by
        rw [hAeq]
        have := occM_first P A1
        omega
      rcases expandTimeGroup_cases step P (A1 ++ ')' :: (g ++ groupMarker ++ w ++ ')' :: Z)) hP
        with ⟨e, he, hk⟩ | ⟨x, val, S, ts0, c2, hR, hxv, hcomma, hts0, hc2a, hc2b, hres⟩
      · exact LoopHalts.of_fault step _ e hcont he hk
      · apply LoopHalts.of_pass step _ _ hcont hres
        have hR2 : A1 ++ ')' :: (g ++ groupMarker ++ w ++ ')' :: Z) = (x :: val) ++ ')' :: S := by
          rw [hR]; rfl
        have hcmp := split_compare ')' (x :: val) A1 _ S hxv hR2
        have hA1 : occL groupMarker val ≤ occL groupMarker A1 := by
          rcases hcmp with ⟨h1, _⟩ | ⟨A2, h1, _⟩
          · rw [h1]
            exact occM_cons_le x val
          · rw [h1]
            have h3 := occL_append_le groupMarker (x :: val) (')' :: A2)
            have h4 := occM_cons_le x val
            omega
        by_cases hc2 : containsL groupMarker c2 = true
        · obtain ⟨A', g', w', Z', heq, hA', hg', hw1', hw2'⟩ :=
            doomed_of_copy P ts0 c2 S hc2 hc2a hc2b
          rw [heq]
          exact ih A' g' w' Z' (by omega) hg' hw1' hw2'
        · have hc0 : occL groupMarker c2 = 0 :=
            (occL_eq_zero groupMarker (by decide) c2).2 (by simpa using hc2)
          rcases hcmp with ⟨h1, h2⟩ | ⟨A2, h1, h2⟩
          · have heq : P ++ ' ' :: groupL ts0 c2 S =
                (P ++ ' ' :: (groupA ++ (ts0 ++ ' ' :: (groupB ++ ')' :: (groupC ++
                  (c2 ++ '/' :: "1000".toList)))))) ++
                ')' :: (('*' :: (c2 ++ '*' :: ("1000".toList ++ g))) ++ groupMarker ++ w ++
                  ')' :: Z) := by
              rw [← h2]
              simp only [groupL, List.append_assoc, List.cons_append, List.nil_append]
            rw [heq]
            apply ih _ _ w Z _ _ hw1 hw2
            · rw [occM_sep ' ' (by decide), occM_free groupA (by decide),
                occM_sep ' ' (by decide), occM_free groupB (by decide),
                occM_cons ')' (by decide), occM_free groupC (by decide),
                occM_sep '/' (by decide)]
              have : occL groupMarker "1000".toList = 0 := rfl
              omega
            · rw [occM_cons '*' (by decide), occM_sep '*' (by decide),
                occM_free "1000".toList (by decide)]
              omega
          · have heq : P ++ ' ' :: groupL ts0 c2 S =
                (P ++ ' ' :: groupL ts0 c2 A2) ++
                ')' :: (g ++ groupMarker ++ w ++ ')' :: Z) := by
              rw [h2, groupL_append]
              simp only [List.append_assoc, List.cons_append]
            rw [heq]
            apply ih _ g w Z _ hg hw1 hw2
            rw [occM_sep ' ' (by decide), occM_groupL]
            have h5 : occL groupMarker A1 =
                occL groupMarker (x :: val) + occL groupMarker A2 := by
              rw [h1]
              exact occM_sep ')' (by decide) _ _
            have h6 := occM_cons_le x val
            omega
    · exact hfault A g w Z (by simpa using hcA) hg hw1 hw2

/-- The loop ends on every text. -/
theorem halts_all (step : Int) :
    ∀ (n : Nat) (l : List Char), occL groupMarker l ≤ n → LoopHalts step (String.mk l) := by
  intro n
  induction n with
  | zero =>
    intro l hl
    exact LoopHalts.of_free step _
      ((occL_eq_zero groupMarker (by decide) l).1 (Nat.le_zero.1 hl))
  | succ n ih =>
    intro l hl
    by_cases hc : containsL groupMarker l = true
    · obtain ⟨P, R, hleq, hP⟩ := first_occurrence groupMarker l hc
      have hP := hP (by decide)
      subst hleq
      have hcont : Contains (String.mk (P ++ groupMarker ++ R)) "$__timeGroup" = true := hc
      have hP0 : occL groupMarker P = 0 := (occL_eq_zero groupMarker (by decide) P).2 hP
      rcases expandTimeGroup_cases step P R hP with
        ⟨e, he, hk⟩ | ⟨x, val, S, ts0, c2, hR, hxv, hcomma, hts0, hc2a, hc2b, hres⟩
      · exact LoopHalts.of_fault step _ e hcont he hk
      · apply LoopHalts.of_pass step _ _ hcont hres
        by_cases hc2 : containsL groupMarker c2 = true
        · obtain ⟨A', g', w', Z', heq, _, hg', hw1', hw2'⟩ :=
            doomed_of_copy P ts0 c2 S hc2 hc2a hc2b
          rw [heq]
          exact halts_of_doomed step _ A' g' w' Z' le_rfl hg' hw1' hw2'
        · have hc0 : occL groupMarker c2 = 0 :=
            (occL_eq_zero groupMarker (by decide) c2).2 (by simpa using hc2)
          apply ih
          rw [occM_sep ' ' (by decide), occM_groupL]
          have h1 := occM_first P R
          have h2 : occL groupMarker val + occL groupMarker S ≤ occL groupMarker R := by
            rw [hR]
            have h3 := occM_cons_le x (val ++ ')' :: S)
            have h4 := occM_sep ')' (by decide) val S
            omega
          omega
    · exact LoopHalts.of_free step _ (by simpa using hc)

set_option maxRecDepth 100000 in
/-- C27 (the `$__timeGroup` loop terminates): for every text and every step,
some number of passes of the loop that rewrites the first `$__timeGroup`
ends it, with a text that holds no `$__timeGroup` or with a fault on the
bounds of a slice or on an index.  This covers the arguments that hold the
marker themselves: with the marker as first argument two passes give a text
without marker (one pass does not), with the marker as interval, which the
rewrite copies twice, the second pass faults on the index. -/
theorem timeGroup_loop_halts (step : Int) (queryText : String) :
    (∃ fuel : Nat,
      (∃ r, timeGroupLoop step fuel queryText = .ok (some r) ∧
        Contains r "$__timeGroup" = false) ∨
      (∃ e, timeGroupLoop step fuel queryText = .error e ∧
        (e = .sliceBounds ∨ e = .indexOutOfRange))) ∧
    timeGroupLoop 10 1 "select $__timeGroup($__timeGroup, 5m) from t" = .ok none ∧
    (timeGroupLoop 10 2 "select $__timeGroup($__timeGroup, 5m) from t").map
        (Option.map (fun r => Contains r "$__timeGroup")) = .ok (some false) ∧
    timeGroupLoop 10 1 "select $__timeGroup(c, $__timeGroup) from t" = .ok none ∧
    timeGroupLoop 10 2 "select $__timeGroup(c, $__timeGroup) from t" =
      .error .indexOutOfRange := by
  refine ⟨halts_all step _ queryText.toList le_rfl, ?_, ?_, ?_, ?_⟩ <;> decide

end OracleTelemetry
